import Mathlib

/-!
NVMe controller model (`hw/block/nvme.c`).

A shallow embedding of the command-processing core of the emulated NVMe
controller: the PRP mapper, the queue machinery, the doorbell decoder, the
enable sequence and the life cycle of the request slots.  C machine integers
are natural numbers with explicit reductions modulo `2^w` wherever the C type
can wrap; every C pointer to a queue is the queue's index in the controller's
flat queue arrays.
-/

namespace Nvme

/-! ## Constants of the header `nvme.h` -/

/-- Modelled from the spec: the header `nvme.h` is not among the sources.
`NVME_SUCCESS` is the status the spec's scenarios read back as 0. -/
def NVME_SUCCESS : Nat := 0x0000

/-- Modelled from the spec: the header `nvme.h` is not among the sources.
`NVME_INVALID_FIELD`, status code 02h of the NVMe generic command status. -/
def NVME_INVALID_FIELD : Nat := 0x0002

/-- Modelled from the spec: the header `nvme.h` is not among the sources.
`NVME_DNR`, the do-not-retry modifier (bit 14 of the status code). -/
def NVME_DNR : Nat := 0x4000

/-- Modelled from the spec: the header `nvme.h` is not among the sources.
`NVME_INVALID_OPCODE`, status code 01h. -/
def NVME_INVALID_OPCODE : Nat := 0x0001

/-- Modelled from the spec: the header `nvme.h` is not among the sources.
`NVME_INTERNAL_DEV_ERROR`, status code 06h. -/
def NVME_INTERNAL_DEV_ERROR : Nat := 0x0006

/-- Modelled from the spec: the header `nvme.h` is not among the sources.
`NVME_INVALID_CQID`, command-specific status 00h. -/
def NVME_INVALID_CQID : Nat := 0x0100

/-- Modelled from the spec: the header `nvme.h` is not among the sources.
`NVME_INVALID_QID`, command-specific status 01h. -/
def NVME_INVALID_QID : Nat := 0x0101

/-- Modelled from the spec: the header `nvme.h` is not among the sources.
`NVME_MAX_QSIZE_EXCEEDED`, command-specific status 02h. -/
def NVME_MAX_QSIZE_EXCEEDED : Nat := 0x0102

/-- Modelled from the spec: the header `nvme.h` is not among the sources.
`NVME_INVALID_IRQ_VECTOR`, command-specific status 08h. -/
def NVME_INVALID_IRQ_VECTOR : Nat := 0x0108

/-- Modelled from the spec: the header `nvme.h` is not among the sources.
`NVME_INVALID_QUEUE_DEL`, command-specific status 0Ch. -/
def NVME_INVALID_QUEUE_DEL : Nat := 0x010c

/-- Modelled from the spec: the header `nvme.h` is not among the sources.
`NVME_NO_COMPLETE`, the value a handler returns when the completion is left to
the back-end callback. -/
def NVME_NO_COMPLETE : Nat := 0xffff

/-! ## PRP mapper -/

/-- A `QEMUSGList`: the entries `(base, len)` of `qsg->sg[0 .. nsg)`. -/
abbrev QEMUSGList := List (Nat × Nat)

/-- A `QEMUIOVector` over the CMB: entries `(index into cmbuf, len)`; the host
pointer of an entry is `&n->cmbuf[index]`. -/
abbrev QEMUIOVector := List (Nat × Nat)

/-- The fields of `NvmeCtrl` that `nvme_map_prp` reads. -/
structure PrpCtrl where
  page_bits : Nat := 0
  page_size : Nat := 0
  max_prp_ents : Nat := 0
  cmbsz : Nat := 0
  ctrl_mem_addr : Nat := 0
  ctrl_mem_size : Nat := 0
deriving DecidableEq, Repr

/-- The test `n->cmbsz && prp1 >= n->ctrl_mem.addr &&
prp1 < n->ctrl_mem.addr + int128_get64(n->ctrl_mem.size)` (64-bit sum). -/
def in_cmb (n : PrpCtrl) (addr : Nat) : Bool :=
  decide (n.cmbsz ≠ 0) && decide (n.ctrl_mem_addr ≤ addr) &&
    decide (addr < (n.ctrl_mem_addr + n.ctrl_mem_size) % 2 ^ 64)

/-- The index `prp - n->ctrl_mem.addr` into `cmbuf` (64-bit subtraction). -/
def cmb_index (n : PrpCtrl) (prp : Nat) : Nat :=
  (prp + 2 ^ 64 - n.ctrl_mem_addr % 2 ^ 64) % 2 ^ 64

/-- The test `!prp_ent || prp_ent & (n->page_size - 1)` on a PRP entry. -/
def prp_ent_invalid (n : PrpCtrl) (prp_ent : Nat) : Bool :=
  decide (prp_ent = 0) || decide (prp_ent &&& (n.page_size - 1) ≠ 0)

/-- The local variables of the PRP-list loop of `nvme_map_prp`, with the two
output lists.  `prp_list` is the variable-length array on the stack. -/
structure PrpLoop where
  len : Nat
  i : Nat
  prp_list : Nat → Nat
  nents : Nat
  prp_trans : Nat
  qsg : QEMUSGList
  iov : QEMUIOVector

/-- `nvme_addr_read(n, addr, prp_list, prp_trans)`: the first `prp_trans / 8`
entries of the array are overwritten with the 64-bit words
`rd addr 0, rd addr 1, …` found at `addr`; the other entries keep their
content. -/
def nvme_addr_read_list (rd : Nat → Nat → Nat) (addr prp_trans : Nat)
    (prp_list : Nat → Nat) : Nat → Nat :=
  fun j => if j < prp_trans / 8 then rd addr j else prp_list j

/-- `le64_to_cpu`: the value of a little-endian 64-bit word, a `uint64_t`. -/
def le64_to_cpu (x : Nat) : Nat := x % 2 ^ 64

/-- `nents = (len + n->page_size - 1) >> n->page_bits` in `uint32_t`. -/
def prp_nents (n : PrpCtrl) (len : Nat) : Nat :=
  ((len + n.page_size - 1) % 2 ^ 32) >>> n.page_bits

/-- `prp_trans = MIN(n->max_prp_ents, nents) * sizeof(uint64_t)`. -/
def prp_trans_of (n : PrpCtrl) (nents : Nat) : Nat :=
  min n.max_prp_ents nents * 8

/-- The second half of one loop iteration (lines 310–322): validate the data
entry and append its segment.  `none` is `goto unmap`. -/
def prp_iter_data (n : PrpCtrl) (s : PrpLoop) (prp_ent : Nat) : Option PrpLoop :=
  if prp_ent_invalid n prp_ent then none
  else
    let trans_len := min s.len n.page_size
    if s.qsg.length ≠ 0 then
      some { s with qsg := s.qsg ++ [(prp_ent, trans_len)],
                    len := s.len - trans_len, i := s.i + 1 }
    else
      some { s with iov := s.iov ++ [(cmb_index n prp_ent, trans_len)],
                    len := s.len - trans_len, i := s.i + 1 }

/-- One iteration of `while (len != 0)` (lines 294–322).  `none` is
`goto unmap`. -/
def prp_iter (n : PrpCtrl) (rd : Nat → Nat → Nat) (s : PrpLoop) : Option PrpLoop :=
  let prp_ent := le64_to_cpu (s.prp_list s.i)
  if s.i + 1 = n.max_prp_ents ∧ s.len > n.page_size then
    if prp_ent_invalid n prp_ent then none
    else
      let nents := prp_nents n s.len
      let prp_trans := prp_trans_of n nents
      let prp_list := nvme_addr_read_list rd prp_ent prp_trans s.prp_list
      prp_iter_data n { s with i := 0, nents := nents, prp_trans := prp_trans,
                               prp_list := prp_list } (le64_to_cpu (prp_list 0))
  else prp_iter_data n s prp_ent

/-- How the PRP-list loop is left. -/
inductive PrpExit where
  | done (s : PrpLoop)
  | unmap
  | timeout

/-- The loop `while (len != 0) { … }`, at most `fuel` iterations. -/
def prp_while (n : PrpCtrl) (rd : Nat → Nat → Nat) : Nat → PrpLoop → PrpExit
  | 0, s => if s.len = 0 then .done s else .timeout
  | fuel + 1, s =>
    if s.len = 0 then .done s
    else
      match prp_iter n rd s with
      | none => .unmap
      | some s1 => prp_while n rd fuel s1

/-- The loop states at which an iteration starts, in order. -/
def prp_iters (n : PrpCtrl) (rd : Nat → Nat → Nat) : Nat → PrpLoop → List PrpLoop
  | 0, _ => []
  | fuel + 1, s =>
    if s.len = 0 then []
    else
      match prp_iter n rd s with
      | none => [s]
      | some s1 => s :: prp_iters n rd fuel s1

/-- The PRP-list entries that the iteration started at `s` examines: the entry
at index `i`, and after a chained list page the first entry of the new page. -/
def prp_iter_entries (n : PrpCtrl) (rd : Nat → Nat → Nat) (s : PrpLoop) : List Nat :=
  let prp_ent := le64_to_cpu (s.prp_list s.i)
  if s.i + 1 = n.max_prp_ents ∧ s.len > n.page_size then
    if prp_ent_invalid n prp_ent then [prp_ent]
    else
      [prp_ent, le64_to_cpu (nvme_addr_read_list rd prp_ent
        (prp_trans_of n (prp_nents n s.len)) s.prp_list 0)]
  else [prp_ent]

/-- The result of `nvme_map_prp`: the returned status with `*qsg` and `*iov`. -/
structure PrpResult where
  status : Nat
  qsg : QEMUSGList
  iov : QEMUIOVector
deriving DecidableEq, Repr

/-- The label `unmap`: `qemu_sglist_destroy(qsg)` and the error status. -/
def prp_unmap (iov : QEMUIOVector) : PrpResult :=
  { status := NVME_INVALID_FIELD ||| NVME_DNR, qsg := [], iov := iov }

/-- The state in which the PRP-list loop is entered (lines 286–292), `len`
being what remains after the first segment. -/
def prp_loop_init (n : PrpCtrl) (rd : Nat → Nat → Nat) (stack : Nat → Nat)
    (prp2 len : Nat) (qsg : QEMUSGList) (iov : QEMUIOVector) : PrpLoop :=
  let nents := prp_nents n len
  let prp_trans := prp_trans_of n nents
  { len := len, i := 0, nents := nents, prp_trans := prp_trans,
    prp_list := nvme_addr_read_list rd prp2 prp_trans stack,
    qsg := qsg, iov := iov }

/-- `nvme_map_prp(qsg, iov, prp1, prp2, len, n)`.  `rd addr j` is the `j`-th
64-bit word that `nvme_addr_read` delivers from `addr`, `stack` the content of
the uninitialised array `prp_list`.  The result is `none` only if the loop is
still running after `len` iterations.  (`page_size = 0` divides by zero on
line 263; the theorems assume `page_size = 2 ^ page_bits`.) -/
def nvme_map_prp (rd : Nat → Nat → Nat) (stack : Nat → Nat)
    (qsg : QEMUSGList) (iov : QEMUIOVector) (prp1 prp2 len : Nat) (n : PrpCtrl) :
    Option PrpResult :=
  let trans_len := min len (n.page_size - prp1 % n.page_size)
  if prp1 = 0 then
    some { status := NVME_INVALID_FIELD ||| NVME_DNR, qsg := qsg, iov := iov }
  else
    let qsg1 : QEMUSGList := if in_cmb n prp1 then [] else [(prp1, trans_len)]
    let iov1 : QEMUIOVector :=
      if in_cmb n prp1 then [(cmb_index n prp1, trans_len)] else iov
    let len1 := len - trans_len
    if len1 ≠ 0 then
      if prp2 = 0 then some (prp_unmap iov1)
      else if len1 > n.page_size then
        match prp_while n rd len1 (prp_loop_init n rd stack prp2 len1 qsg1 iov1) with
        | .done s => some { status := NVME_SUCCESS, qsg := s.qsg, iov := s.iov }
        | .unmap => some (prp_unmap iov1)
        | .timeout => none
      else
        if prp2 &&& (n.page_size - 1) ≠ 0 then some (prp_unmap iov1)
        else if qsg1.length ≠ 0 then
          some { status := NVME_SUCCESS, qsg := qsg1 ++ [(prp2, len1)], iov := iov1 }
        else
          some { status := NVME_SUCCESS, qsg := qsg1,
                 iov := iov1 ++ [(cmb_index n prp2, trans_len)] }
    else some { status := NVME_SUCCESS, qsg := qsg1, iov := iov1 }

/-- The sum of the segment lengths of a list. -/
def seg_total (l : List (Nat × Nat)) : Nat := (l.map Prod.snd).sum

/-! ## Queues -/

/-- Modelled from the spec: the header `nvme.h` is not among the sources.
`NvmeCqe`, the completion entry: result, SQ head, SQ id, command id, status. -/
structure NvmeCqe where
  result : Nat := 0
  sq_head : Nat := 0
  sq_id : Nat := 0
  cid : Nat := 0
  status : Nat := 0
deriving DecidableEq, Repr

/-- Modelled from the spec: the header `nvme.h` is not among the sources.
`NvmeRequest`: `sq` is the id of the owning submission queue (the pointer
`req->sq`), `slot` the index of the request in `sq->io_req`. -/
structure NvmeRequest where
  sq : Nat
  slot : Nat
  status : Nat := 0
  cqe : NvmeCqe := {}
deriving DecidableEq, Repr

/-- Modelled from the spec: the header `nvme.h` is not among the sources.
`NvmeSQueue`: `req_list` is the free list, `out_req_list` the in-flight list,
`timer` the expiry time of the deferred task when it is armed. -/
structure NvmeSQueue where
  sqid : Nat
  cqid : Nat
  head : Nat := 0
  tail : Nat := 0
  size : Nat
  dma_addr : Nat
  timer : Option Nat := none
  req_list : List NvmeRequest := []
  out_req_list : List NvmeRequest := []
deriving DecidableEq, Repr

/-- Modelled from the spec: the header `nvme.h` is not among the sources.
`NvmeCQueue`: `sq_list` holds the ids of the bound submission queues,
`req_list` the pending completions. -/
structure NvmeCQueue where
  phase : Nat := 1
  cqid : Nat
  irq_enabled : Nat
  head : Nat := 0
  tail : Nat := 0
  vector : Nat
  size : Nat
  dma_addr : Nat
  timer : Option Nat := none
  sq_list : List Nat := []
  req_list : List NvmeRequest := []
deriving DecidableEq, Repr

/-- Modelled from the spec: the header `nvme.h` is not among the sources.
`NvmeBar`, the register image of §6 of the spec. -/
structure NvmeBar where
  cap : Nat := 0
  vs : Nat := 0
  intms : Nat := 0
  intmc : Nat := 0
  cc : Nat := 0
  csts : Nat := 0
  nssrc : Nat := 0
  aqa : Nat := 0
  asq : Nat := 0
  acq : Nat := 0
  cmbloc : Nat := 0
  cmbsz : Nat := 0
deriving DecidableEq, Repr

/-- Modelled from the spec: the header `nvme.h` is not among the sources.
`NvmeCtrl`, the controller state of §3 of the spec.  `sq` and `cq` are the
arrays of `num_queues` queue pointers (`none` is `NULL`); `msix_enabled` and
`irq_pin` are the state of the PCI device that `msix_enabled()`,
`pci_irq_assert()` and `pci_irq_deassert()` read and write, `msix_notified`
the vectors passed to `msix_notify()`; `power_cycles` is
`smart.power_cycles[0..1]`. -/
structure NvmeCtrl extends PrpCtrl where
  bar : NvmeBar := {}
  cqe_size : Nat := 0
  sqe_size : Nat := 0
  num_queues : Nat := 0
  num_namespaces : Nat := 0
  sq : List (Option NvmeSQueue) := []
  cq : List (Option NvmeCQueue) := []
  irq_status : Nat := 0
  msix_enabled : Bool := false
  irq_pin : Bool := false
  msix_notified : List Nat := []
  host_timestamp : Nat := 0
  timestamp_set_qemu_clock_ms : Nat := 0
  power_cycles : Nat × Nat := (0, 0)
  id_ctrl_sqes : Nat := 0
  id_ctrl_cqes : Nat := 0
deriving DecidableEq, Repr

/-- The pointer `n->sq[i]`, `none` when it is `NULL` or `i` is out of range. -/
def NvmeCtrl.sqAt (n : NvmeCtrl) (i : Nat) : Option NvmeSQueue := n.sq.getD i none

/-- The pointer `n->cq[i]`, `none` when it is `NULL` or `i` is out of range. -/
def NvmeCtrl.cqAt (n : NvmeCtrl) (i : Nat) : Option NvmeCQueue := n.cq.getD i none

/-- `nvme_check_sqid(n, sqid)`: 0 if `sqid < n->num_queues && n->sq[sqid] != NULL`,
else -1. -/
def nvme_check_sqid (n : NvmeCtrl) (sqid : Nat) : Int :=
  if sqid < n.num_queues ∧ (n.sqAt sqid).isSome then 0 else -1

/-- `nvme_check_cqid(n, cqid)`. -/
def nvme_check_cqid (n : NvmeCtrl) (cqid : Nat) : Int :=
  if cqid < n.num_queues ∧ (n.cqAt cqid).isSome then 0 else -1

/-- The C operator `!` on an integer. -/
def lnot (x : Nat) : Nat := if x = 0 then 1 else 0

/-- `nvme_inc_cq_tail(cq)`; `tail` is a `uint32_t`. -/
def nvme_inc_cq_tail (cq : NvmeCQueue) : NvmeCQueue :=
  let tail := (cq.tail + 1) % 2 ^ 32
  if tail ≥ cq.size then { cq with tail := 0, phase := lnot cq.phase }
  else { cq with tail := tail }

/-- `nvme_inc_sq_head(sq)`. -/
def nvme_inc_sq_head (sq : NvmeSQueue) : NvmeSQueue :=
  { sq with head := ((sq.head + 1) % 2 ^ 32) % sq.size }

/-- `nvme_cq_full(cq)`. -/
def nvme_cq_full (cq : NvmeCQueue) : Bool :=
  decide (((cq.tail + 1) % 2 ^ 32) % cq.size = cq.head)

/-- `nvme_sq_empty(sq)`. -/
def nvme_sq_empty (sq : NvmeSQueue) : Bool := decide (sq.head = sq.tail)

/-! ## Interrupts -/

/-- `nvme_irq_check(n)`: `~n->bar.intms` is a 32-bit value, zero-extended for
the conjunction with the 64-bit `irq_status`. -/
def nvme_irq_check (n : NvmeCtrl) : NvmeCtrl :=
  if n.msix_enabled then n
  else if (0xFFFFFFFF - n.bar.intms % 2 ^ 32) &&& n.irq_status ≠ 0 then
    { n with irq_pin := true }
  else { n with irq_pin := false }

/-- The `int` expression `1 << cqid` converted to `uint64_t`: bit 31 is the
sign bit and is extended; a shift by 32 or more is undefined (`none`). -/
def int_one_shl (cqid : Nat) : Option Nat :=
  if cqid < 31 then some (2 ^ cqid)
  else if cqid = 31 then some 0xFFFFFFFF80000000
  else none

/-- The `int` expression `~(1 << cqid)` converted to `uint64_t`. -/
def int_not_one_shl (cqid : Nat) : Option Nat :=
  if cqid < 31 then some (0xFFFFFFFFFFFFFFFF - 2 ^ cqid)
  else if cqid = 31 then some 0x7FFFFFFF
  else none

/-- `nvme_irq_assert(n, cq)`; `none` when `assert(cq->cqid < 64)` fails or the
shift is undefined. -/
def nvme_irq_assert (n : NvmeCtrl) (cq : NvmeCQueue) : Option NvmeCtrl :=
  if cq.irq_enabled ≠ 0 then
    if n.msix_enabled then
      some { n with msix_notified := n.msix_notified ++ [cq.vector] }
    else if cq.cqid < 64 then
      (int_one_shl cq.cqid).map fun m =>
        nvme_irq_check { n with irq_status := n.irq_status ||| m }
    else none
  else some n

/-- `nvme_irq_deassert(n, cq)`. -/
def nvme_irq_deassert (n : NvmeCtrl) (cq : NvmeCQueue) : Option NvmeCtrl :=
  if cq.irq_enabled ≠ 0 then
    if n.msix_enabled then some n
    else if cq.cqid < 64 then
      (int_not_one_shl cq.cqid).map fun m =>
        nvme_irq_check { n with irq_status := n.irq_status &&& m }
    else none
  else some n

/-! ## Completion engine -/

/-- The completion entry that `nvme_post_cqes` formats for `req` (lines
411–413): `cpu_to_le16` cuts the status expression and the 32-bit `sq->head`
to 16 bits; `sq->sqid` is a `uint16_t`. -/
def nvme_format_cqe (cq : NvmeCQueue) (sq : NvmeSQueue) (req : NvmeRequest) : NvmeCqe :=
  { req.cqe with status := ((req.status <<< 1) ||| cq.phase) % 2 ^ 16,
                 sq_id := sq.sqid,
                 sq_head := sq.head % 2 ^ 16 }

/-- The address `cq->dma_addr + cq->tail * n->cqe_size` (line 414): a 32-bit
product added to a 64-bit address. -/
def nvme_cqe_addr (n : NvmeCtrl) (cq : NvmeCQueue) : Nat :=
  (cq.dma_addr + (cq.tail * n.cqe_size) % 2 ^ 32) % 2 ^ 64

/-- The loop of `nvme_post_cqes` over the pending requests `reqs` still to be
visited; `w` collects the DMA writes `(addr, cqe)` in order.  `none` when a
queue pointer it follows is `NULL`. -/
def nvme_post_cqes_loop (cqid : Nat) :
    List NvmeRequest → NvmeCtrl → List (Nat × NvmeCqe) →
      Option (NvmeCtrl × List (Nat × NvmeCqe))
  | [], n, w => some (n, w)
  | req :: rest, n, w =>
    match n.cqAt cqid with
    | none => none
    | some cq =>
      if nvme_cq_full cq then some (n, w)
      else
        match n.sqAt req.sq with
        | none => none
        | some sq =>
          let cqe := nvme_format_cqe cq sq req
          let addr := nvme_cqe_addr n cq
          let cq1 := { (nvme_inc_cq_tail cq) with req_list := rest }
          let req1 := { req with cqe := cqe }
          let sq1 := { sq with req_list := sq.req_list ++ [req1] }
          nvme_post_cqes_loop cqid rest
            { n with cq := n.cq.set cqid (some cq1), sq := n.sq.set req.sq (some sq1) }
            (w ++ [(addr, cqe)])

/-- `nvme_post_cqes(cq)` for `cq = n->cq[cqid]`: the controller afterwards and
the completion entries written to guest memory. -/
def nvme_post_cqes (n : NvmeCtrl) (cqid : Nat) :
    Option (NvmeCtrl × List (Nat × NvmeCqe)) :=
  match n.cqAt cqid with
  | none => none
  | some cq0 =>
    match nvme_post_cqes_loop cqid cq0.req_list n [] with
    | none => none
    | some (n1, w) =>
      match n1.cqAt cqid with
      | none => none
      | some cq =>
        if cq.tail ≠ cq.head then (nvme_irq_assert n1 cq).map fun n2 => (n2, w)
        else some (n1, w)

/-- `nvme_enqueue_req_completion(cq, req)` for `cq = n->cq[cqid]` at virtual
time `now`; `none` when a pointer is `NULL` or the assertion fails. -/
def nvme_enqueue_req_completion (now : Nat) (n : NvmeCtrl) (cqid : Nat)
    (req : NvmeRequest) : Option NvmeCtrl :=
  match n.cqAt cqid, n.sqAt req.sq with
  | some cq, some sq =>
    if cq.cqid = sq.cqid then
      let out := sq.out_req_list.filter (fun r => decide (r.slot ≠ req.slot))
      let sq1 := { sq with out_req_list := out }
      let cq1 := { cq with req_list := cq.req_list ++ [req], timer := some (now + 500) }
      some { n with sq := n.sq.set req.sq (some sq1), cq := n.cq.set cqid (some cq1) }
    else none
  | _, _ => none

/-! ## Register fields -/

/-- Modelled from the spec: the header `nvme.h` is not among the sources.
`NVME_CC_EN(cc)`, bit 0 of the Controller Configuration register. -/
def NVME_CC_EN (cc : Nat) : Nat := (cc >>> 0) &&& 0x1

/-- Modelled from the spec: the header `nvme.h` is not among the sources.
`NVME_CC_MPS(cc)`, bits 10:7. -/
def NVME_CC_MPS (cc : Nat) : Nat := (cc >>> 7) &&& 0xf

/-- Modelled from the spec: the header `nvme.h` is not among the sources.
`NVME_CC_SHN(cc)`, bits 15:14. -/
def NVME_CC_SHN (cc : Nat) : Nat := (cc >>> 14) &&& 0x3

/-- Modelled from the spec: the header `nvme.h` is not among the sources.
`NVME_CC_IOSQES(cc)`, bits 19:16. -/
def NVME_CC_IOSQES (cc : Nat) : Nat := (cc >>> 16) &&& 0xf

/-- Modelled from the spec: the header `nvme.h` is not among the sources.
`NVME_CC_IOCQES(cc)`, bits 23:20. -/
def NVME_CC_IOCQES (cc : Nat) : Nat := (cc >>> 20) &&& 0xf

/-- Modelled from the spec: the header `nvme.h` is not among the sources.
`NVME_CAP_MQES(cap)`, bits 15:0 of the Capabilities register. -/
def NVME_CAP_MQES (cap : Nat) : Nat := (cap >>> 0) &&& 0xffff

/-- Modelled from the spec: the header `nvme.h` is not among the sources.
`NVME_CAP_MPSMIN(cap)`, bits 51:48. -/
def NVME_CAP_MPSMIN (cap : Nat) : Nat := (cap >>> 48) &&& 0xf

/-- Modelled from the spec: the header `nvme.h` is not among the sources.
`NVME_CAP_MPSMAX(cap)`, bits 55:52. -/
def NVME_CAP_MPSMAX (cap : Nat) : Nat := (cap >>> 52) &&& 0xf

/-- Modelled from the spec: the header `nvme.h` is not among the sources.
`NVME_AQA_ASQS(aqa)`, bits 11:0 of the Admin Queue Attributes. -/
def NVME_AQA_ASQS (aqa : Nat) : Nat := (aqa >>> 0) &&& 0xfff

/-- Modelled from the spec: the header `nvme.h` is not among the sources.
`NVME_AQA_ACQS(aqa)`, bits 27:16. -/
def NVME_AQA_ACQS (aqa : Nat) : Nat := (aqa >>> 16) &&& 0xfff

/-- Modelled from the spec: the header `nvme.h` is not among the sources.
`NVME_CTRL_SQES_MIN(sqes)`, the low nibble. -/
def NVME_CTRL_SQES_MIN (sqes : Nat) : Nat := sqes &&& 0xf

/-- Modelled from the spec: the header `nvme.h` is not among the sources.
`NVME_CTRL_SQES_MAX(sqes)`, the high nibble. -/
def NVME_CTRL_SQES_MAX (sqes : Nat) : Nat := (sqes >>> 4) &&& 0xf

/-- Modelled from the spec: the header `nvme.h` is not among the sources.
`NVME_CTRL_CQES_MIN(cqes)`, the low nibble. -/
def NVME_CTRL_CQES_MIN (cqes : Nat) : Nat := cqes &&& 0xf

/-- Modelled from the spec: the header `nvme.h` is not among the sources.
`NVME_CTRL_CQES_MAX(cqes)`, the high nibble. -/
def NVME_CTRL_CQES_MAX (cqes : Nat) : Nat := (cqes >>> 4) &&& 0xf

/-- Modelled from the spec: the header `nvme.h` is not among the sources.
`NVME_CSTS_READY`, bit 0 of the Controller Status register. -/
def NVME_CSTS_READY : Nat := 1

/-- Modelled from the spec: the header `nvme.h` is not among the sources.
`NVME_CSTS_FAILED`, bit 1 (CFS). -/
def NVME_CSTS_FAILED : Nat := 2

/-- Modelled from the spec: the header `nvme.h` is not among the sources.
`NVME_CSTS_SHST_COMPLETE`, the value 2 of the field SHST (bits 3:2). -/
def NVME_CSTS_SHST_COMPLETE : Nat := 8

/-- Modelled from the spec: the header `nvme.h` is not among the sources.
`sizeof(NvmeBar)`, the sum of the register sizes of §6 of the spec. -/
def sizeof_NvmeBar : Nat := 0x40

/-! ## Queue creation and deletion -/

/-- `nvme_init_cq(cq, n, dma_addr, cqid, vector, size, irq_enabled)`; `none`
when the store `n->cq[cqid] = cq` is out of bounds. -/
def nvme_init_cq (n : NvmeCtrl) (dma_addr cqid vector size irq_enabled : Nat) :
    Option NvmeCtrl :=
  let cq : NvmeCQueue :=
    { cqid := cqid, size := size, dma_addr := dma_addr, phase := 1,
      irq_enabled := irq_enabled, vector := vector, head := 0, tail := 0,
      req_list := [], sq_list := [], timer := none }
  if cqid < n.cq.length then some { n with cq := n.cq.set cqid (some cq) } else none

/-- The requests `sq->io_req[0 .. size)` as `nvme_init_sq` links them. -/
def io_req_init (sqid size : Nat) : List NvmeRequest :=
  (List.range size).map fun k => { sq := sqid, slot := k }

/-- `nvme_init_sq(sq, n, dma_addr, sqid, cqid, size)`; `none` when
`assert(n->cq[cqid])` fails or the store `n->sq[sqid] = sq` is out of bounds. -/
def nvme_init_sq (n : NvmeCtrl) (dma_addr sqid cqid size : Nat) : Option NvmeCtrl :=
  let sq : NvmeSQueue :=
    { sqid := sqid, cqid := cqid, size := size, dma_addr := dma_addr, head := 0, tail := 0,
      req_list := io_req_init sqid size, out_req_list := [], timer := none }
  match n.cqAt cqid with
  | none => none
  | some cq =>
    if sqid < n.sq.length then
      some { n with cq := n.cq.set cqid (some { cq with sq_list := cq.sq_list ++ [sqid] }),
                    sq := n.sq.set sqid (some sq) }
    else none

/-- `nvme_free_sq(sq, n)`. -/
def nvme_free_sq (sq : NvmeSQueue) (n : NvmeCtrl) : NvmeCtrl :=
  { n with sq := n.sq.set sq.sqid none }

/-- `nvme_free_cq(cq, n)`. -/
def nvme_free_cq (cq : NvmeCQueue) (n : NvmeCtrl) : NvmeCtrl :=
  { n with cq := n.cq.set cq.cqid none }

/-- `nvme_set_timestamp(n, ts)` at virtual time `now` (ns). -/
def nvme_set_timestamp (now : Nat) (n : NvmeCtrl) (ts : Nat) : NvmeCtrl :=
  { n with host_timestamp := le64_to_cpu ts,
           timestamp_set_qemu_clock_ms := now / 1000000 }

/-- The first loop of `nvme_clear_ctrl`, over the queue ids `l`:
`if (n->sq[i] != NULL) nvme_free_sq(n->sq[i], n)`. -/
def free_sq_loop (n : NvmeCtrl) (l : List Nat) : NvmeCtrl :=
  l.foldl
    (fun m i => match m.sqAt i with
      | some sq => nvme_free_sq sq m
      | none => m) n

/-- The second loop of `nvme_clear_ctrl`, over the queue ids `l`:
`if (n->cq[i] != NULL) nvme_free_cq(n->cq[i], n)`. -/
def free_cq_loop (n : NvmeCtrl) (l : List Nat) : NvmeCtrl :=
  l.foldl
    (fun m i => match m.cqAt i with
      | some cq => nvme_free_cq cq m
      | none => m) n

/-- `nvme_clear_ctrl(n)`.  (`blk_drain` completes the in-flight requests; the
queues they belong to are freed by the two loops.) -/
def nvme_clear_ctrl (n : NvmeCtrl) : NvmeCtrl :=
  let n1 := free_sq_loop n (List.range n.num_queues)
  let n2 := free_cq_loop n1 (List.range n.num_queues)
  { n2 with bar := { n2.bar with cc := 0 } }

/-- The second half of `nvme_start_ctrl` (lines 1343–1355), entered when no
check has failed: the derived sizes, the admin queues, the timestamp. -/
def nvme_start_ctrl_init (now : Nat) (n : NvmeCtrl) (page_bits page_size : Nat) :
    Option (Int × NvmeCtrl) :=
  let n1 : NvmeCtrl :=
    { n with page_bits := page_bits % 2 ^ 16,
             page_size := page_size,
             max_prp_ents := (page_size / 8) % 2 ^ 16,
             cqe_size := (1 <<< NVME_CC_IOCQES n.bar.cc) % 2 ^ 16,
             sqe_size := (1 <<< NVME_CC_IOSQES n.bar.cc) % 2 ^ 16 }
  match nvme_init_cq n1 n1.bar.acq 0 0 (NVME_AQA_ACQS n1.bar.aqa + 1) 1 with
  | none => none
  | some n2 =>
    match nvme_init_sq n2 n2.bar.asq 0 0 (NVME_AQA_ASQS n2.bar.aqa + 1) with
    | none => none
    | some n3 => some (0, nvme_set_timestamp now n3 0)

/-- `nvme_start_ctrl(n)` at virtual time `now`: the return value (0 or -1) and
the controller afterwards. -/
def nvme_start_ctrl (now : Nat) (n : NvmeCtrl) : Option (Int × NvmeCtrl) :=
  let page_bits := NVME_CC_MPS n.bar.cc + 12
  let page_size := (1 <<< page_bits) % 2 ^ 32
  if (n.cqAt 0).isSome then some (-1, n)
  else if (n.sqAt 0).isSome then some (-1, n)
  else if n.bar.asq = 0 then some (-1, n)
  else if n.bar.acq = 0 then some (-1, n)
  else if n.bar.asq &&& (page_size - 1) ≠ 0 then some (-1, n)
  else if n.bar.acq &&& (page_size - 1) ≠ 0 then some (-1, n)
  else if NVME_CC_MPS n.bar.cc < NVME_CAP_MPSMIN n.bar.cap then some (-1, n)
  else if NVME_CC_MPS n.bar.cc > NVME_CAP_MPSMAX n.bar.cap then some (-1, n)
  else if NVME_CC_IOCQES n.bar.cc < NVME_CTRL_CQES_MIN n.id_ctrl_cqes then some (-1, n)
  else if NVME_CC_IOCQES n.bar.cc > NVME_CTRL_CQES_MAX n.id_ctrl_cqes then some (-1, n)
  else if NVME_CC_IOSQES n.bar.cc < NVME_CTRL_SQES_MIN n.id_ctrl_sqes then some (-1, n)
  else if NVME_CC_IOSQES n.bar.cc > NVME_CTRL_SQES_MAX n.id_ctrl_sqes then some (-1, n)
  else if NVME_AQA_ASQS n.bar.aqa = 0 then some (-1, n)
  else if NVME_AQA_ACQS n.bar.aqa = 0 then some (-1, n)
  else nvme_start_ctrl_init now n page_bits page_size

/-- `nvme_smart_inc_num_power_cycle`: a 128-bit counter held in two
`uint64_t`. -/
def nvme_smart_inc_num_power_cycle (n : NvmeCtrl) : NvmeCtrl :=
  let lo := (n.power_cycles.1 + 1) % 2 ^ 64
  if lo = 0 then { n with power_cycles := (lo, (n.power_cycles.2 + 1) % 2 ^ 64) }
  else { n with power_cycles := (lo, n.power_cycles.2) }

/-! ## Register writes and doorbells -/

/-- The first statement of the case `0x14` (CC) of `nvme_write_bar`: with EN
and SHN clear in both the written value and the register, the value is
stored. -/
def nvme_write_cc_data (n : NvmeCtrl) (data : Nat) : NvmeCtrl :=
  if NVME_CC_EN data = 0 ∧ NVME_CC_EN n.bar.cc = 0 ∧
      NVME_CC_SHN data = 0 ∧ NVME_CC_SHN n.bar.cc = 0 then
    { n with bar := { n.bar with cc := data % 2 ^ 32 } }
  else n

/-- The second statement of the case `0x14`: the enable and the reset. -/
def nvme_write_cc_en (now : Nat) (n1 : NvmeCtrl) (data : Nat) : Option NvmeCtrl :=
  if NVME_CC_EN data ≠ 0 ∧ NVME_CC_EN n1.bar.cc = 0 then
    match nvme_start_ctrl now { n1 with bar := { n1.bar with cc := data % 2 ^ 32 } } with
    | none => none
    | some (r, m) =>
      if r ≠ 0 then some { m with bar := { m.bar with csts := NVME_CSTS_FAILED } }
      else some { m with bar := { m.bar with csts := NVME_CSTS_READY } }
  else if NVME_CC_EN data = 0 ∧ NVME_CC_EN n1.bar.cc ≠ 0 then
    let m := nvme_clear_ctrl n1
    some { m with bar := { m.bar with csts := m.bar.csts &&& 0xFFFFFFFE } }
  else some n1

/-- The third statement of the case `0x14`: the shutdown notification. -/
def nvme_write_cc_shn (n2 : NvmeCtrl) (data : Nat) : NvmeCtrl :=
  if NVME_CC_SHN data ≠ 0 ∧ NVME_CC_SHN n2.bar.cc = 0 then
    let m := nvme_clear_ctrl n2
    nvme_smart_inc_num_power_cycle
      { m with bar := { m.bar with cc := data % 2 ^ 32,
                                   csts := m.bar.csts ||| NVME_CSTS_SHST_COMPLETE } }
  else if NVME_CC_SHN data = 0 ∧ NVME_CC_SHN n2.bar.cc ≠ 0 then
    { n2 with bar := { n2.bar with csts := n2.bar.csts &&& 0xFFFFFFF7,
                                   cc := data % 2 ^ 32 } }
  else n2

/-- The case `0x14` (CC) of `nvme_write_bar` (lines 1403–1439). -/
def nvme_write_cc (now : Nat) (n : NvmeCtrl) (data : Nat) : Option NvmeCtrl :=
  (nvme_write_cc_en now (nvme_write_cc_data n data) data).map fun n2 =>
    nvme_write_cc_shn n2 data

/-- `nvme_write_bar(n, offset, data, size)` at virtual time `now`.  The two
guest-error messages for a misaligned offset and for `size < 4` are followed
by the `switch`, as in the source; `size` is used in the messages only. -/
def nvme_write_bar (now : Nat) (n : NvmeCtrl) (offset data _size : Nat) :
    Option NvmeCtrl :=
  if offset = 0xc then
    let intms := (n.bar.intms ||| (data &&& 0xffffffff)) % 2 ^ 32
    some (nvme_irq_check { n with bar := { n.bar with intms := intms, intmc := intms } })
  else if offset = 0x10 then
    let intms := n.bar.intms &&& (0xFFFFFFFF - (data &&& 0xffffffff))
    some (nvme_irq_check { n with bar := { n.bar with intms := intms, intmc := intms } })
  else if offset = 0x14 then nvme_write_cc now n data
  else if offset = 0x1C then some n
  else if offset = 0x20 then some n
  else if offset = 0x24 then some { n with bar := { n.bar with aqa := data &&& 0xffffffff } }
  else if offset = 0x28 then some { n with bar := { n.bar with asq := data % 2 ^ 64 } }
  else if offset = 0x2c then
    some { n with bar := { n.bar with asq := n.bar.asq ||| (data <<< 32) % 2 ^ 64 } }
  else if offset = 0x30 then some { n with bar := { n.bar with acq := data % 2 ^ 64 } }
  else if offset = 0x34 then
    some { n with bar := { n.bar with acq := n.bar.acq ||| (data <<< 32) % 2 ^ 64 } }
  else if offset = 0x38 then some n
  else if offset = 0x3C then some n
  else some n

/-- `timer_mod(sq->timer, now + 500)` for every `sq` of the list `cq->sq_list`. -/
def arm_sq_timers (now : Nat) (n : NvmeCtrl) (sq_list : List Nat) : NvmeCtrl :=
  sq_list.foldl
    (fun m i => match m.sqAt i with
      | some sq => { m with sq := m.sq.set i (some { sq with timer := some (now + 500) }) }
      | none => m) n

/-- `nvme_process_db(n, addr, val)` at virtual time `now`; `none` when the
queue pointer read with the untruncated `qid` is `NULL` or out of bounds. -/
def nvme_process_db (now : Nat) (n : NvmeCtrl) (addr val : Nat) : Option NvmeCtrl :=
  if addr &&& ((1 <<< 2) - 1) ≠ 0 then some n
  else if (((addr + 2 ^ 64 - 0x1000) % 2 ^ 64) >>> 2) &&& 1 ≠ 0 then
    let new_head := val &&& 0xffff
    let qid := (((addr + 2 ^ 64 - (0x1000 + (1 <<< 2))) % 2 ^ 64) >>> 3) % 2 ^ 32
    if nvme_check_cqid n (qid % 2 ^ 16) ≠ 0 then some n
    else
      match n.cqAt qid with
      | none => none
      | some cq =>
        if new_head ≥ cq.size then some n
        else
          let start_sqs := nvme_cq_full cq
          let cq1 := { cq with head := new_head }
          let n1 := { n with cq := n.cq.set qid (some cq1) }
          let n2 :=
            if start_sqs then
              let m := arm_sq_timers now n1 cq1.sq_list
              { m with cq := m.cq.set qid (some { cq1 with timer := some (now + 500) }) }
            else n1
          if cq1.tail = cq1.head then nvme_irq_deassert n2 cq1 else some n2
  else
    let new_tail := val &&& 0xffff
    let qid := (((addr + 2 ^ 64 - 0x1000) % 2 ^ 64) >>> 3) % 2 ^ 32
    if nvme_check_sqid n (qid % 2 ^ 16) ≠ 0 then some n
    else
      match n.sqAt qid with
      | none => none
      | some sq =>
        if new_tail ≥ sq.size then some n
        else
          let sq1 := { sq with tail := new_tail, timer := some (now + 500) }
          some { n with sq := n.sq.set qid (some sq1) }

/-- `nvme_mmio_write(n, addr, data, size)` at virtual time `now`; the doorbell
value is `data` converted to `int`. -/
def nvme_mmio_write (now : Nat) (n : NvmeCtrl) (addr data size : Nat) : Option NvmeCtrl :=
  if addr < sizeof_NvmeBar then nvme_write_bar now n addr data size
  else if addr ≥ 0x1000 then nvme_process_db now n addr (data % 2 ^ 32)
  else some n

/-! ## Commands -/

/-- Modelled from the spec: the header `nvme.h` is not among the sources.
`NvmeCmd`, the 64-byte submission entry: opcode, command id, namespace id,
the two PRP entries and command dwords 10 to 15. -/
structure NvmeCmd where
  opcode : Nat := 0
  cid : Nat := 0
  nsid : Nat := 0
  prp1 : Nat := 0
  prp2 : Nat := 0
  cdw10 : Nat := 0
  cdw11 : Nat := 0
  cdw12 : Nat := 0
  cdw13 : Nat := 0
  cdw14 : Nat := 0
  cdw15 : Nat := 0
deriving DecidableEq, Repr

/-- Modelled from the spec: the header `nvme.h` is not among the sources.
The low 16-bit field of a command dword (`sqid`, `cqid` or `qid` of the queue
commands in dword 10, the queue flags in dword 11). -/
def dw_lo (dw : Nat) : Nat := dw &&& 0xffff

/-- Modelled from the spec: the header `nvme.h` is not among the sources.
The high 16-bit field of a command dword (`qsize` in dword 10, `cqid` of
Create I/O SQ and `irq_vector` of Create I/O CQ in dword 11). -/
def dw_hi (dw : Nat) : Nat := (dw >>> 16) &&& 0xffff

/-- Modelled from the spec: the header `nvme.h` is not among the sources.
`NVME_SQ_FLAGS_PC(sq_flags)`, the physically-contiguous flag (bit 0). -/
def NVME_SQ_FLAGS_PC (sq_flags : Nat) : Nat := sq_flags &&& 0x1

/-- Modelled from the spec: the header `nvme.h` is not among the sources.
`NVME_CQ_FLAGS_PC(cq_flags)`, the physically-contiguous flag (bit 0). -/
def NVME_CQ_FLAGS_PC (cq_flags : Nat) : Nat := cq_flags &&& 0x1

/-- Modelled from the spec: the header `nvme.h` is not among the sources.
`NVME_CQ_FLAGS_IEN(cq_flags)`, the interrupt-enable flag (bit 1). -/
def NVME_CQ_FLAGS_IEN (cq_flags : Nat) : Nat := (cq_flags >>> 1) &&& 0x1

/-- What a handler that touches no queue leaves behind: the returned status,
`req->cqe.result`, and the value it passes to `nvme_set_timestamp`, if any. -/
structure CmdOut where
  status : Nat
  result : Nat := 0
  timestamp : Option Nat := none

/-- The collaborators of one run of the command engine.  `now` is the virtual
clock (ns) and `fetch addr` the submission entry `nvme_addr_read` finds at
`addr`.  The handlers `nvme_get_log_page`, `nvme_identify`, `nvme_set_feature`,
`nvme_get_feature` and `nvme_io_cmd` depend on structure sizes and constants of
the header `nvme.h` and on the DMA and block back-end; in the controller
state they write `req->cqe.result` and, for Set Features, the timestamp anchor
only, so they are parameters here.  `aio_ret req` is the result with which the
back-end calls `nvme_rw_cb` when `req` is cancelled. -/
structure Env where
  now : Nat := 0
  fetch : Nat → NvmeCmd := fun _ => {}
  nvme_get_log_page : NvmeCtrl → NvmeCmd → NvmeRequest → Nat := fun _ _ _ => 0
  nvme_identify : NvmeCtrl → NvmeCmd → Nat := fun _ _ => 0
  nvme_set_feature : NvmeCtrl → NvmeCmd → NvmeRequest → CmdOut :=
    fun _ _ _ => { status := 0 }
  nvme_get_feature : NvmeCtrl → NvmeCmd → NvmeRequest → CmdOut :=
    fun _ _ _ => { status := 0 }
  nvme_io_cmd : NvmeCtrl → NvmeCmd → NvmeRequest → Nat := fun _ _ _ => 0xffff
  aio_ret : NvmeRequest → Int := fun _ => 0

/-- `nvme_rw_cb(req, ret)`: the completion callback of the back-end. -/
def nvme_rw_cb (now : Nat) (n : NvmeCtrl) (req : NvmeRequest) (ret : Int) :
    Option NvmeCtrl :=
  match n.sqAt req.sq with
  | none => none
  | some sq =>
    let status := if ret = 0 then NVME_SUCCESS else NVME_INTERNAL_DEV_ERROR
    nvme_enqueue_req_completion now n sq.cqid { req with status := status }

/-- The loop `while (!QTAILQ_EMPTY(&sq->out_req_list))` of `nvme_del_sq`:
`blk_aio_cancel` runs `nvme_rw_cb` on the first in-flight request. -/
def nvme_del_sq_cancel (env : Env) (qid : Nat) : Nat → NvmeCtrl → Option NvmeCtrl
  | 0, n =>
    match n.sqAt qid with
    | none => none
    | some sq => if sq.out_req_list = [] then some n else none
  | fuel + 1, n =>
    match n.sqAt qid with
    | none => none
    | some sq =>
      match sq.out_req_list with
      | [] => some n
      | req :: _ =>
        match nvme_rw_cb env.now n req (env.aio_ret req) with
        | none => none
        | some n1 => nvme_del_sq_cancel env qid fuel n1

/-- The loop of `nvme_del_sq` that returns the pending requests of `sq` from
`cq->req_list` to `sq->req_list` (lines 666–671). -/
def nvme_del_sq_reclaim (n : NvmeCtrl) (qid cqid : Nat) : Option NvmeCtrl :=
  match n.cqAt cqid, n.sqAt qid with
  | some cq, some sq =>
    let mine := cq.req_list.filter (fun r => decide (r.sq = qid))
    let rest := cq.req_list.filter (fun r => decide (r.sq ≠ qid))
    some { n with cq := n.cq.set cqid (some { cq with req_list := rest }),
                  sq := n.sq.set qid (some { sq with req_list := sq.req_list ++ mine }) }
  | _, _ => none

/-- `nvme_del_sq(n, cmd)`: status, controller and the completion entries that
the nested `nvme_post_cqes` writes. -/
def nvme_del_sq (env : Env) (n : NvmeCtrl) (cmd : NvmeCmd) :
    Option (Nat × NvmeCtrl × List (Nat × NvmeCqe)) :=
  let qid := dw_lo cmd.cdw10
  if qid = 0 ∨ nvme_check_sqid n qid ≠ 0 then some (NVME_INVALID_QID ||| NVME_DNR, n, [])
  else
    match n.sqAt qid with
    | none => none
    | some sq0 =>
      match nvme_del_sq_cancel env qid sq0.out_req_list.length n with
      | none => none
      | some n1 =>
        match n1.sqAt qid with
        | none => none
        | some sq =>
          if nvme_check_cqid n1 sq.cqid = 0 then
            match n1.cqAt sq.cqid with
            | none => none
            | some cq =>
              let sq_list := cq.sq_list.filter (fun i => decide (i ≠ qid))
              let n2 := { n1 with cq := n1.cq.set sq.cqid (some { cq with sq_list := sq_list }) }
              match nvme_post_cqes n2 sq.cqid with
              | none => none
              | some (n3, w) =>
                match nvme_del_sq_reclaim n3 qid sq.cqid with
                | none => none
                | some n4 =>
                  match n4.sqAt qid with
                  | none => none
                  | some sq4 => some (NVME_SUCCESS, nvme_free_sq sq4 n4, w)
          else some (NVME_SUCCESS, nvme_free_sq sq n1, [])

/-- `nvme_create_sq(n, cmd)`. -/
def nvme_create_sq (n : NvmeCtrl) (cmd : NvmeCmd) : Option (Nat × NvmeCtrl) :=
  let cqid := dw_hi cmd.cdw11
  let sqid := dw_lo cmd.cdw10
  let qsize := dw_hi cmd.cdw10
  let qflags := dw_lo cmd.cdw11
  let prp1 := cmd.prp1
  if cqid = 0 ∨ nvme_check_cqid n cqid ≠ 0 then some (NVME_INVALID_CQID ||| NVME_DNR, n)
  else if sqid = 0 ∨ nvme_check_sqid n sqid = 0 then
    some (NVME_INVALID_QID ||| NVME_DNR, n)
  else if qsize = 0 ∨ qsize > NVME_CAP_MQES n.bar.cap then
    some (NVME_MAX_QSIZE_EXCEEDED ||| NVME_DNR, n)
  else if prp1 = 0 ∨ prp1 &&& (n.page_size - 1) ≠ 0 then
    some (NVME_INVALID_FIELD ||| NVME_DNR, n)
  else if NVME_SQ_FLAGS_PC qflags = 0 then some (NVME_INVALID_FIELD ||| NVME_DNR, n)
  else (nvme_init_sq n prp1 sqid cqid ((qsize + 1) % 2 ^ 16)).map fun m => (NVME_SUCCESS, m)

/-- `nvme_del_cq(n, cmd)`. -/
def nvme_del_cq (n : NvmeCtrl) (cmd : NvmeCmd) : Option (Nat × NvmeCtrl) :=
  let qid := dw_lo cmd.cdw10
  if qid = 0 ∨ nvme_check_cqid n qid ≠ 0 then some (NVME_INVALID_CQID ||| NVME_DNR, n)
  else
    match n.cqAt qid with
    | none => none
    | some cq =>
      if cq.sq_list ≠ [] then some (NVME_INVALID_QUEUE_DEL, n)
      else (nvme_irq_deassert n cq).map fun m => (NVME_SUCCESS, nvme_free_cq cq m)

/-- `nvme_create_cq(n, cmd)`. -/
def nvme_create_cq (n : NvmeCtrl) (cmd : NvmeCmd) : Option (Nat × NvmeCtrl) :=
  let cqid := dw_lo cmd.cdw10
  let vector := dw_hi cmd.cdw11
  let qsize := dw_hi cmd.cdw10
  let qflags := dw_lo cmd.cdw11
  let prp1 := cmd.prp1
  if cqid = 0 ∨ nvme_check_cqid n cqid = 0 then some (NVME_INVALID_CQID ||| NVME_DNR, n)
  else if qsize = 0 ∨ qsize > NVME_CAP_MQES n.bar.cap then
    some (NVME_MAX_QSIZE_EXCEEDED ||| NVME_DNR, n)
  else if prp1 = 0 then some (NVME_INVALID_FIELD ||| NVME_DNR, n)
  else if vector > n.num_queues then some (NVME_INVALID_IRQ_VECTOR ||| NVME_DNR, n)
  else if NVME_CQ_FLAGS_PC qflags = 0 then some (NVME_INVALID_FIELD ||| NVME_DNR, n)
  else
    (nvme_init_cq n prp1 cqid vector ((qsize + 1) % 2 ^ 16) (NVME_CQ_FLAGS_IEN qflags)).map
      fun m => (NVME_SUCCESS, m)

/-- What `nvme_admin_cmd` leaves behind. -/
structure AdminOut where
  status : Nat
  n : NvmeCtrl
  result : Nat := 0
  writes : List (Nat × NvmeCqe) := []

/-- `nvme_admin_cmd(n, cmd, req)`. -/
def nvme_admin_cmd (env : Env) (n : NvmeCtrl) (cmd : NvmeCmd) (req : NvmeRequest) :
    Option AdminOut :=
  if cmd.opcode = 0x00 then
    (nvme_del_sq env n cmd).map fun r =>
      { status := r.1, n := r.2.1, result := req.cqe.result, writes := r.2.2 }
  else if cmd.opcode = 0x01 then
    (nvme_create_sq n cmd).map fun r => { status := r.1, n := r.2, result := req.cqe.result }
  else if cmd.opcode = 0x02 then
    some { status := env.nvme_get_log_page n cmd req, n := n, result := req.cqe.result }
  else if cmd.opcode = 0x04 then
    (nvme_del_cq n cmd).map fun r => { status := r.1, n := r.2, result := req.cqe.result }
  else if cmd.opcode = 0x05 then
    (nvme_create_cq n cmd).map fun r => { status := r.1, n := r.2, result := req.cqe.result }
  else if cmd.opcode = 0x06 then
    some { status := env.nvme_identify n cmd, n := n, result := req.cqe.result }
  else if cmd.opcode = 0x09 then
    let o := env.nvme_set_feature n cmd req
    let n1 := match o.timestamp with
      | some ts => nvme_set_timestamp env.now n ts
      | none => n
    some { status := o.status, n := n1, result := o.result }
  else if cmd.opcode = 0x0a then
    let o := env.nvme_get_feature n cmd req
    some { status := o.status, n := n, result := o.result }
  else some { status := NVME_INVALID_OPCODE ||| NVME_DNR, n := n, result := req.cqe.result }

/-- The loop condition of `nvme_process_sq`:
`!(nvme_sq_empty(sq) || QTAILQ_EMPTY(&sq->req_list))`. -/
def nvme_process_sq_cond (sq : NvmeSQueue) : Bool :=
  !(nvme_sq_empty sq || sq.req_list.isEmpty)

/-- The first half of an iteration of the loop of `nvme_process_sq` for
`sq = n->sq[sqid]` (lines 1223–1231): the command is read at
`sq->dma_addr + sq->head * n->sqe_size`, the head advances, the first free
request moves to the in-flight list and takes the command id into its zeroed
completion entry.  The result is the controller, the command and the request;
`none` when the queue pointer is `NULL` or the loop condition is false. -/
def nvme_process_sq_fetch (env : Env) (n : NvmeCtrl) (sqid : Nat) :
    Option (NvmeCtrl × NvmeCmd × NvmeRequest) :=
  match n.sqAt sqid with
  | none => none
  | some sq =>
    if nvme_process_sq_cond sq then
      match sq.req_list with
      | [] => none
      | req :: free =>
        let addr := (sq.dma_addr + (sq.head * n.sqe_size) % 2 ^ 32) % 2 ^ 64
        let cmd := env.fetch addr
        let req1 : NvmeRequest := { req with cqe := { cid := cmd.cid } }
        let sq1 := { (nvme_inc_sq_head sq) with
                      req_list := free, out_req_list := sq.out_req_list ++ [req1] }
        some ({ n with sq := n.sq.set sqid (some sq1) }, cmd, req1)
    else none

/-- The second half of an iteration (lines 1233–1238): the command is
dispatched and, unless the handler leaves the completion to the back-end, the
request is completed with the returned status.  `sq` is the queue as it was
when the iteration began. -/
def nvme_process_sq_dispatch (env : Env) (n1 : NvmeCtrl) (sq : NvmeSQueue) (cmd : NvmeCmd)
    (req1 : NvmeRequest) : Option (NvmeCtrl × List (Nat × NvmeCqe)) :=
  if sq.sqid ≠ 0 then
    let status := env.nvme_io_cmd n1 cmd req1
    if status ≠ NVME_NO_COMPLETE then
      (nvme_enqueue_req_completion env.now n1 sq.cqid
        { req1 with status := status }).map fun m => (m, [])
    else some (n1, [])
  else
    match nvme_admin_cmd env n1 cmd req1 with
    | none => none
    | some o =>
      if o.status ≠ NVME_NO_COMPLETE then
        (nvme_enqueue_req_completion env.now o.n sq.cqid
          { req1 with status := o.status,
                      cqe := { req1.cqe with result := o.result } }).map
          fun m => (m, o.writes)
      else some (o.n, o.writes)

/-- One iteration of the loop of `nvme_process_sq` for `sq = n->sq[sqid]`
(lines 1223–1238). -/
def nvme_process_sq_iter (env : Env) (n : NvmeCtrl) (sqid : Nat) :
    Option (NvmeCtrl × List (Nat × NvmeCqe)) :=
  match n.sqAt sqid, nvme_process_sq_fetch env n sqid with
  | some sq, some (n1, cmd, req1) => nvme_process_sq_dispatch env n1 sq cmd req1
  | _, _ => none

/-- `nvme_process_sq(sq)` for `sq = n->sq[sqid]`: the loop, with the
collaborators `envs k` of its `k`-th iteration; `none` when the loop is still
running after `fuel` iterations. -/
def nvme_process_sq_loop (envs : Nat → Env) (sqid : Nat) :
    Nat → Nat → NvmeCtrl → List (Nat × NvmeCqe) → Option (NvmeCtrl × List (Nat × NvmeCqe))
  | 0, _, n, w =>
    match n.sqAt sqid with
    | none => none
    | some sq => if nvme_process_sq_cond sq then none else some (n, w)
  | fuel + 1, k, n, w =>
    match n.sqAt sqid with
    | none => none
    | some sq =>
      if nvme_process_sq_cond sq then
        match nvme_process_sq_iter (envs k) n sqid with
        | none => none
        | some (n1, w1) => nvme_process_sq_loop envs sqid fuel (k + 1) n1 (w ++ w1)
      else some (n, w)

/-- `nvme_process_sq(sq)`: every iteration takes a request from the free list,
so the loop is given as many iterations as the list is long. -/
def nvme_process_sq (envs : Nat → Env) (n : NvmeCtrl) (sqid : Nat) :
    Option (NvmeCtrl × List (Nat × NvmeCqe)) :=
  match n.sqAt sqid with
  | none => none
  | some sq => nvme_process_sq_loop envs sqid sq.req_list.length 0 n []

/-! ## Device construction -/

/-- Modelled from the spec: the header `nvme.h` is not among the sources.
`NVME_CMBSZ_GETSIZE(cmbsz)`: the size of the CMB in bytes, the size field
(bits 31:12) times the size unit `1 << (12 + 4 * SZU)` (SZU in bits 11:8). -/
def NVME_CMBSZ_GETSIZE (cmbsz : Nat) : Nat :=
  ((cmbsz >>> 12) &&& 0xfffff) * (1 <<< (12 + 4 * ((cmbsz >>> 8) &&& 0xf)))

/-- The controller that `nvme_realize` leaves behind for a device with
`num_queues` queues and a CMB of `cmb_size_mb` MiB; `power_cycles` is the
counter that `nvme_smart_load` reads from the SMART log file.  The memory
region `ctrl_mem` gets the size of the CMB; its address is assigned when the
guest programs BAR 2 and is 0 until then. -/
def nvme_realize (num_queues cmb_size_mb : Nat) (power_cycles : Nat × Nat) : NvmeCtrl :=
  let cap := (0x7ff <<< 0) ||| (1 <<< 16) ||| (0xf <<< 24) ||| (1 <<< 37) ||| (4 <<< 52)
  let cmbloc := if cmb_size_mb ≠ 0 then 2 else 0
  let cmbsz := if cmb_size_mb ≠ 0 then
      (1 <<< 0) ||| (1 <<< 3) ||| (1 <<< 4) ||| (2 <<< 8) ||| ((cmb_size_mb &&& 0xfffff) <<< 12)
    else 0
  { num_queues := num_queues, num_namespaces := 1,
    sq := List.replicate num_queues none, cq := List.replicate num_queues none,
    bar := { cap := cap, vs := 0x00010200, intms := 0, intmc := 0,
             cmbloc := cmbloc, cmbsz := cmbsz },
    cmbsz := cmbsz,
    ctrl_mem_size := if cmb_size_mb ≠ 0 then NVME_CMBSZ_GETSIZE cmbsz else 0,
    id_ctrl_sqes := (0x6 <<< 4) ||| 0x6, id_ctrl_cqes := (0x4 <<< 4) ||| 0x4,
    power_cycles := power_cycles }

/-! ## Notions used in the statements -/

/-- What remains of `len` after the first segment of `nvme_map_prp`. -/
def prp_rem (n : PrpCtrl) (prp1 len : Nat) : Nat :=
  len - min len (n.page_size - prp1 % n.page_size)

/-- The iterations of the PRP-list loop in the call
`nvme_map_prp(qsg, iov, prp1, prp2, len, n)`, should the call reach the loop. -/
def prp_list_iters (rd : Nat → Nat → Nat) (stack : Nat → Nat) (iov : QEMUIOVector)
    (prp1 prp2 len : Nat) (n : PrpCtrl) : List PrpLoop :=
  prp_iters n rd (prp_rem n prp1 len)
    (prp_loop_init n rd stack prp2 (prp_rem n prp1 len)
      (if in_cmb n prp1 then [] else [(prp1, len - prp_rem n prp1 len)])
      (if in_cmb n prp1 then [(cmb_index n prp1, len - prp_rem n prp1 len)] else iov))

/-- The invariant of the PRP-list loop behind the alignment of the later
segments. -/
def prp_aligned_inv (n : PrpCtrl) (s : PrpLoop) : Prop :=
  (s.qsg ≠ [] ∨ s.iov ≠ []) ∧
  (∀ p ∈ s.qsg.tail, p.1 % n.page_size = 0 ∧ p.2 ≤ n.page_size) ∧
  (s.qsg = [] → ∀ p ∈ s.iov.tail,
    (p.1 + n.ctrl_mem_addr) % 2 ^ 64 % n.page_size = 0 ∧ p.2 ≤ n.page_size)

/-- The invariant of the PRP-list loop behind the total of the segment lengths:
the segments of the live list and what remains add up to `total`. -/
def prp_total_inv (total : Nat) (s : PrpLoop) : Prop :=
  (s.qsg ≠ [] ∧ seg_total s.qsg + s.len = total) ∨
  (s.qsg = [] ∧ seg_total s.iov + s.len = total)

/-- The free slots of a completion queue, `(head - tail - 1) mod size`. -/
def cq_free_slots (cq : NvmeCQueue) : Nat := (cq.head + cq.size - cq.tail - 1) % cq.size

/-- The state after one iteration of the loop of `nvme_post_cqes` that posts `req`. -/
def post_one (n : NvmeCtrl) (cqid : Nat) (cq : NvmeCQueue) (sq : NvmeSQueue)
    (req : NvmeRequest) (rest : List NvmeRequest) : NvmeCtrl :=
  { n with
    cq := n.cq.set cqid (some { (nvme_inc_cq_tail cq) with req_list := rest }),
    sq := n.sq.set req.sq (some { sq with
      req_list := sq.req_list ++ [{ req with cqe := nvme_format_cqe cq sq req }] }) }

/-- The completion entries that posting the requests `reqs` in order writes,
starting from the ring position of `cq`. -/
def cqes_posted (n : NvmeCtrl) : NvmeCQueue → List NvmeRequest → List (Nat × NvmeCqe)
  | _, [] => []
  | cq, r :: rs =>
    match n.sqAt r.sq with
    | none => []
    | some sq =>
      (nvme_cqe_addr n cq, nvme_format_cqe cq sq r) :: cqes_posted n (nvme_inc_cq_tail cq) rs

/-- Two completion queues at the same ring position. -/
def cq_ring_eq (a b : NvmeCQueue) : Prop :=
  a.phase = b.phase ∧ a.tail = b.tail ∧ a.size = b.size ∧ a.dma_addr = b.dma_addr

/-- Two controllers whose submission queues agree on `sqid` and `head`. -/
def sq_heads_eq (n m : NvmeCtrl) : Prop :=
  n.cqe_size = m.cqe_size ∧
  ∀ i, (n.sqAt i).map (fun s => (s.sqid, s.head)) = (m.sqAt i).map (fun s => (s.sqid, s.head))

/-- The key of a request: its queue and its slot. -/
def req_key (r : NvmeRequest) : Nat × Nat := (r.sq, r.slot)

/-- How the controller `m` after posting the first `k` of the pending requests
`reqs` of `cq = n->cq[cqid]` differs from the controller `n` before. -/
def PostSpec (cqid : Nat) (reqs : List NvmeRequest) (n : NvmeCtrl) (cq : NvmeCQueue)
    (k : Nat) (m : NvmeCtrl) : Prop :=
  m = { n with sq := m.sq, cq := m.cq } ∧
  m.sq.length = n.sq.length ∧ m.cq.length = n.cq.length ∧
  m.cqAt cqid = some { (nvme_inc_cq_tail^[k] cq) with req_list := reqs.drop k } ∧
  (∀ j, j ≠ cqid → m.cqAt j = n.cqAt j) ∧
  (∀ i, n.sqAt i = none → m.sqAt i = none) ∧
  (∀ i s, n.sqAt i = some s → ∃ l, m.sqAt i = some { s with req_list := s.req_list ++ l } ∧
      l.map req_key = ((reqs.take k).filter (fun r => decide (r.sq = i))).map req_key)

/-- The interrupt of `cq` can be signalled without leaving defined behaviour:
interrupts are off for the queue, or MSI-X is in use, or the `int` shift by
`cqid` is defined. -/
def irq_defined (n : NvmeCtrl) (cq : NvmeCQueue) : Prop :=
  cq.irq_enabled = 0 ∨ n.msix_enabled = true ∨ cq.cqid < 32

/-- Two controllers that differ in the interrupt state only. -/
def irq_frame (a b : NvmeCtrl) : Prop :=
  b = { a with irq_status := b.irq_status, irq_pin := b.irq_pin,
               msix_notified := b.msix_notified }

/-- The device of the spec's scenarios as `nvme_realize` leaves it: 64 queues,
no CMB. -/
def scenario_cold : NvmeCtrl := nvme_realize 64 0 (0, 0)

/-- The cold device with the admin queue registers of scenario 1 written and
CC holding EN = 1, IOSQES = 6, IOCQES = 4. -/
def scenario_configured : NvmeCtrl :=
  { scenario_cold with
    bar := { scenario_cold.bar with
             aqa := 0x00040004, asq := 0x200000, acq := 0x200000, cc := 0x00460001 } }

/-- Scenario 1, enable from cold: AQA = (4, 4), ASQ = ACQ = 0x200000, then CC
with EN = 1, IOSQES = 6, IOCQES = 4. -/
def scenario_enabled : Option NvmeCtrl := do
  let n ← nvme_mmio_write 0 scenario_cold 0x24 0x00040004 4
  let n ← nvme_mmio_write 0 n 0x28 0x200000 4
  let n ← nvme_mmio_write 0 n 0x30 0x200000 4
  nvme_mmio_write 0 n 0x14 0x00460001 4

/-- The collaborators of scenario 2: the admin queue holds an Identify
(CNS = 1) command with command id 7 and its data buffer at `0x300000`, which
the handler answers with success. -/
def scenario_env : Env :=
  { fetch := fun _ => { opcode := 0x06, cid := 7, prp1 := 0x300000, cdw10 := 1 },
    nvme_identify := fun _ _ => NVME_SUCCESS }

/-- Scenario 2: after the enable, the guest rings the doorbell of SQ 0 with
tail = 1, the SQ task and then the CQ task run.  The result is the controller
and the completion entries written by the CQ task. -/
def scenario_identify : Option (NvmeCtrl × List (Nat × NvmeCqe)) := do
  let n ← scenario_enabled
  let n ← nvme_mmio_write 0 n 0x1000 1 4
  let r ← nvme_process_sq (fun _ => scenario_env) n 0
  nvme_post_cqes r.1 0

/-- A completion queue of four entries with one free slot and three pending
completions, for the examples. -/
def cq_pending : NvmeCQueue :=
  { cqid := 0, irq_enabled := 1, vector := 0, size := 4, dma_addr := 0x200000,
    head := 0, tail := 2,
    sq_list := [0],
    req_list := [{ sq := 0, slot := 0, cqe := { cid := 10 } },
                 { sq := 0, slot := 1, status := 2, cqe := { cid := 11 } },
                 { sq := 0, slot := 2, cqe := { cid := 12 } }] }

/-- The submission queue bound to `cq_pending`. -/
def sq_pending : NvmeSQueue :=
  { sqid := 0, cqid := 0, head := 3, tail := 3, size := 4, dma_addr := 0x100000,
    req_list := [{ sq := 0, slot := 3 }] }

/-- A controller holding `sq_pending` and `cq_pending`, for the examples. -/
def ctrl_pending : NvmeCtrl :=
  { page_bits := 12, page_size := 4096, max_prp_ents := 512, cqe_size := 16, sqe_size := 64,
    num_queues := 2, sq := [some sq_pending, none], cq := [some cq_pending, none] }

/-- A submission queue without its timer. -/
def sq_untimed (s : NvmeSQueue) : NvmeSQueue := { s with timer := none }

/-- A controller with 4 KiB pages and no CMB, for the examples. -/
def ctrl_4k : PrpCtrl := { page_bits := 12, page_size := 4096, max_prp_ents := 512 }

/-- A controller with 4 KiB pages and a 1 MiB CMB mapped at `0x100000`. -/
def ctrl_4k_cmb : PrpCtrl :=
  { page_bits := 12, page_size := 4096, max_prp_ents := 512,
    cmbsz := 1, ctrl_mem_addr := 0x100000, ctrl_mem_size := 0x100000 }

/-- A completion queue of five entries with its tail at 3, for the examples. -/
def cq_example : NvmeCQueue :=
  { cqid := 0, irq_enabled := 1, vector := 0, size := 5, dma_addr := 0x200000, tail := 3 }

/-- The memory of the examples: a PRP list at `0x5000` naming the pages
`0x2000, 0x3000, …`. -/
def rd_example (addr j : Nat) : Nat := if addr = 0x5000 then 0x2000 + j * 0x1000 else 0

/-! ## Request slots and reachable states -/

/-- The slot indices of the requests of a list. -/
def req_slots (l : List NvmeRequest) : List Nat := l.map fun r => r.slot

/-- The requests of submission queue `i` on the pending list of `c`. -/
def pending_of (c : NvmeCQueue) (i : Nat) : List NvmeRequest :=
  c.req_list.filter fun r => decide (r.sq = i)

/-- The submission queue `s = n->sq[i]` is well formed: it carries its own id,
the requests on its free and in-flight lists are its own, its completion queue
exists, and the slots on its free list, on its in-flight list and among the
pending requests of its completion queue are the slots `0 .. size - 1`, each
once. -/
def sq_ok (n : NvmeCtrl) (i : Nat) (s : NvmeSQueue) : Prop :=
  s.sqid = i ∧ (∀ r ∈ s.req_list, r.sq = i) ∧ (∀ r ∈ s.out_req_list, r.sq = i) ∧
  ∃ c, n.cqAt s.cqid = some c ∧
    List.Perm (req_slots s.req_list ++ req_slots s.out_req_list ++ req_slots (pending_of c i))
      (List.range s.size)

/-- The completion queue `c = n->cq[j]` is well formed: it carries its own id
and every pending request belongs to an existing submission queue bound to it. -/
def cq_ok (n : NvmeCtrl) (j : Nat) (c : NvmeCQueue) : Prop :=
  c.cqid = j ∧ ∀ r ∈ c.req_list, ∃ s, n.sqAt r.sq = some s ∧ s.cqid = j

/-- The submission queue `i`, if it exists, is on the list of its completion
queue. -/
def sq_listed (n : NvmeCtrl) (i : Nat) : Prop :=
  ∀ s c, n.sqAt i = some s → n.cqAt s.cqid = some c → i ∈ c.sq_list

/-- The part of the queue invariant that does not mention `sq_list`. -/
def queues_core (n : NvmeCtrl) : Prop :=
  n.sq.length = n.num_queues ∧ n.cq.length = n.num_queues ∧
  (∀ i s, n.sqAt i = some s → sq_ok n i s) ∧ (∀ j c, n.cqAt j = some c → cq_ok n j c)

/-- The queue invariant of the reachable states. -/
def queues_inv (n : NvmeCtrl) : Prop := queues_core n ∧ ∀ i, sq_listed n i

/-- The events that change the controller: a guest write to BAR0, a run of
the deferred task of a submission queue (with the collaborators of each
iteration), a run of the deferred task of a completion queue, the back-end
completing an in-flight request, the guest reprogramming the PCI configuration
space (MSI-X enable, address of the CMB BAR), and `nvme_exit`.  An event whose
code leaves defined behaviour (`none`) is no step. -/
inductive Step : NvmeCtrl → NvmeCtrl → Prop
  | mmio_write (now addr data size : Nat) {n m : NvmeCtrl} :
      nvme_mmio_write now n addr data size = some m → Step n m
  | sq_timer (envs : Nat → Env) (sqid : Nat) {n m : NvmeCtrl} {w : List (Nat × NvmeCqe)} :
      nvme_process_sq envs n sqid = some (m, w) → Step n m
  | cq_timer (cqid : Nat) {n m : NvmeCtrl} {w : List (Nat × NvmeCqe)} :
      nvme_post_cqes n cqid = some (m, w) → Step n m
  | aio_complete (now : Nat) (req : NvmeRequest) (ret : Int) {n m : NvmeCtrl}
      {s : NvmeSQueue} :
      n.sqAt req.sq = some s → req ∈ s.out_req_list →
      nvme_rw_cb now n req ret = some m → Step n m
  | pci_config (b : Bool) (addr : Nat) (n : NvmeCtrl) :
      Step n { n with msix_enabled := b, ctrl_mem_addr := addr }
  | exit (n : NvmeCtrl) : Step n (nvme_clear_ctrl n)

/-- The states reachable from `nvme_realize`. -/
inductive Reachable : NvmeCtrl → Prop
  | realize (num_queues cmb_size_mb : Nat) (power_cycles : Nat × Nat) :
      Reachable (nvme_realize num_queues cmb_size_mb power_cycles)
  | step {n m : NvmeCtrl} : Reachable n → Step n m → Reachable m

/-- The fields of a submission queue that the queue invariant reads. -/
def sq_view (s : NvmeSQueue) : Nat × Nat × Nat × List NvmeRequest × List NvmeRequest :=
  (s.sqid, s.cqid, s.size, s.req_list, s.out_req_list)

/-- The fields of a completion queue that the queue invariant reads. -/
def cq_view (c : NvmeCQueue) : Nat × List Nat × List NvmeRequest :=
  (c.cqid, c.sq_list, c.req_list)

/-- Two controllers with the same queues up to ring indices, phase, ring
address, interrupt settings and timers. -/
def same_queues (n m : NvmeCtrl) : Prop :=
  m.num_queues = n.num_queues ∧ m.sq.length = n.sq.length ∧ m.cq.length = n.cq.length ∧
  (∀ i, (m.sqAt i).map sq_view = (n.sqAt i).map sq_view) ∧
  (∀ j, (m.cqAt j).map cq_view = (n.cqAt j).map cq_view)

/-- Submission queue `i` of `n` is still there in `m`, bound to the same
completion queue and with the same in-flight list. -/
def sq_kept (n m : NvmeCtrl) (i : Nat) : Prop :=
  ∀ s, n.sqAt i = some s →
    ∃ s1, m.sqAt i = some s1 ∧ s1.out_req_list = s.out_req_list ∧ s1.cqid = s.cqid

/-- The three lists of submission queue `i` as lists of slot indices: the free
list, the in-flight list, and its requests on the pending list of the
completion queue it is bound to; `none` when the queue or its completion queue
does not exist. -/
def sq_lists (n : NvmeCtrl) (i : Nat) : Option (List Nat × List Nat × List Nat) :=
  match n.sqAt i with
  | none => none
  | some s =>
    match n.cqAt s.cqid with
    | none => none
    | some c =>
      some (req_slots s.req_list, req_slots s.out_req_list, req_slots (pending_of c i))

/-- From `n` to `m` no slot of a surviving submission queue has moved: every
queue of `m` has the lists it had in `n`, or did not exist in `n` and has all
its slots on the free list. -/
def lists_kept (n m : NvmeCtrl) : Prop :=
  ∀ i, sq_lists m i = sq_lists n i ∨ sq_lists m i = none ∨
    (n.sqAt i = none ∧ ∃ size, sq_lists m i = some (List.range size, [], []))

/-- From `n` to `m` slots have moved from pending to free only: for every
submission queue a prefix `X` of its pending slots has been appended to its
free list. -/
def lists_posted (n m : NvmeCtrl) (i : Nat) : Prop :=
  ∀ F I P, sq_lists n i = some (F, I, P) →
    ∃ X P1, sq_lists m i = some (F ++ X, I, P1) ∧ P = X ++ P1

/-- Scenario 1 step by step: the controller after the write of AQA. -/
def scenario_w1 : NvmeCtrl :=
  (nvme_mmio_write 0 scenario_cold 0x24 0x00040004 4).getD scenario_cold

/-- Scenario 1: the controller after the write of ASQ. -/
def scenario_w2 : NvmeCtrl := (nvme_mmio_write 0 scenario_w1 0x28 0x200000 4).getD scenario_cold

/-- Scenario 1: the controller after the write of ACQ. -/
def scenario_w3 : NvmeCtrl := (nvme_mmio_write 0 scenario_w2 0x30 0x200000 4).getD scenario_cold

/-- Scenario 1: the enabled controller, after the write of CC. -/
def scenario_w4 : NvmeCtrl :=
  (nvme_mmio_write 0 scenario_w3 0x14 0x00460001 4).getD scenario_cold

/-- Scenario 2: the controller after the doorbell of SQ 0 is rung with tail 1. -/
def scenario_w5 : NvmeCtrl := (nvme_mmio_write 0 scenario_w4 0x1000 1 4).getD scenario_cold

/-- Scenario 2: the controller after the task of SQ 0 has run; the Identify
command is completed and its request waits on the pending list of CQ 0. -/
def scenario_w6 : NvmeCtrl :=
  ((nvme_process_sq (fun _ => scenario_env) scenario_w5 0).map fun r => r.1).getD scenario_cold

/-! ## Notions for the register claims -/

/-- Modelled from the spec: the header `nvme.h` is not among the sources.
`NVME_CSTS_RDY(csts)`, bit 0 of CSTS. -/
def NVME_CSTS_RDY (csts : Nat) : Nat := (csts >>> 0) &&& 0x1

/-- Modelled from the spec: the header `nvme.h` is not among the sources.
`NVME_CSTS_SHST(csts)`, bits 3:2 of CSTS; the value 2 is "shutdown complete". -/
def NVME_CSTS_SHST (csts : Nat) : Nat := (csts >>> 2) &&& 0x3

/-- The controller with `data` stored in the 32-bit register CC
(`n->bar.cc = data`). -/
def with_cc (n : NvmeCtrl) (data : Nat) : NvmeCtrl :=
  { n with bar := { n.bar with cc := data % 2 ^ 32 } }

/-- The enable preconditions of §4.1.1 of the spec: `cq[0]` and `sq[0]` are
absent, ASQ and ACQ are non-zero multiples of `1 << (12 + CC.MPS)`, CC.MPS lies
in `[CAP.MPSMIN, CAP.MPSMAX]`, CC.IOCQES and CC.IOSQES lie between the low and
the high nibble of `id_ctrl.cqes` and `id_ctrl.sqes`, AQA.ASQS and AQA.ACQS are
non-zero. -/
@[reducible] def enable_preconditions (n : NvmeCtrl) : Prop :=
  n.cqAt 0 = none ∧ n.sqAt 0 = none ∧
  n.bar.asq ≠ 0 ∧ n.bar.acq ≠ 0 ∧
  n.bar.asq % (1 <<< (12 + NVME_CC_MPS n.bar.cc)) = 0 ∧
  n.bar.acq % (1 <<< (12 + NVME_CC_MPS n.bar.cc)) = 0 ∧
  NVME_CAP_MPSMIN n.bar.cap ≤ NVME_CC_MPS n.bar.cc ∧
  NVME_CC_MPS n.bar.cc ≤ NVME_CAP_MPSMAX n.bar.cap ∧
  NVME_CTRL_CQES_MIN n.id_ctrl_cqes ≤ NVME_CC_IOCQES n.bar.cc ∧
  NVME_CC_IOCQES n.bar.cc ≤ NVME_CTRL_CQES_MAX n.id_ctrl_cqes ∧
  NVME_CTRL_SQES_MIN n.id_ctrl_sqes ≤ NVME_CC_IOSQES n.bar.cc ∧
  NVME_CC_IOSQES n.bar.cc ≤ NVME_CTRL_SQES_MAX n.id_ctrl_sqes ∧
  NVME_AQA_ASQS n.bar.aqa ≠ 0 ∧ NVME_AQA_ACQS n.bar.aqa ≠ 0

/-- The SMART power-cycle counter read as the 128-bit little-endian integer
`power_cycles[1]:power_cycles[0]`. -/
def power_cycles_value (n : NvmeCtrl) : Nat := n.power_cycles.1 + 2 ^ 64 * n.power_cycles.2

/-- The error status of Create I/O Submission Queue in the words of the spec,
in the order of precedence: INVALID_CQID when `cqid` is 0 or names no existing
CQ, INVALID_QID when `sqid` is 0 or `sq[sqid]` exists, MAX_QSIZE_EXCEEDED when
`qsize` is 0 or exceeds CAP.MQES, INVALID_FIELD when `prp1` is 0 or not a
multiple of the page size or when the physically-contiguous flag is clear;
all with DNR.  `none` when no check fails. -/
def create_sq_error (n : NvmeCtrl) (cqid sqid qsize qflags prp1 : Nat) : Option Nat :=
  if cqid = 0 ∨ ¬ (cqid < n.num_queues ∧ (n.cqAt cqid).isSome) then
    some (NVME_INVALID_CQID ||| NVME_DNR)
  else if sqid = 0 ∨ (sqid < n.num_queues ∧ (n.sqAt sqid).isSome) then
    some (NVME_INVALID_QID ||| NVME_DNR)
  else if qsize = 0 ∨ NVME_CAP_MQES n.bar.cap < qsize then
    some (NVME_MAX_QSIZE_EXCEEDED ||| NVME_DNR)
  else if prp1 = 0 ∨ prp1 % n.page_size ≠ 0 then some (NVME_INVALID_FIELD ||| NVME_DNR)
  else if qflags % 2 = 0 then some (NVME_INVALID_FIELD ||| NVME_DNR)
  else none

/-- The controller `m` differs from `n` at most in the queues, the interrupt
state and the timestamp anchor. -/
def queue_frame (n m : NvmeCtrl) : Prop :=
  m = { n with sq := m.sq, cq := m.cq, irq_status := m.irq_status, irq_pin := m.irq_pin,
               msix_notified := m.msix_notified, host_timestamp := m.host_timestamp,
               timestamp_set_qemu_clock_ms := m.timestamp_set_qemu_clock_ms }

/-- The admin queues are present in `m` exactly when they are in `n`. -/
def admin_same (n m : NvmeCtrl) : Prop :=
  (m.sqAt 0).isSome = (n.sqAt 0).isSome ∧ (m.cqAt 0).isSome = (n.cqAt 0).isSome

/-- From `n` to `m` the registers, the derived sizes and the SMART counters
are unchanged and no admin queue has appeared or disappeared. -/
def quiet (n m : NvmeCtrl) : Prop := queue_frame n m ∧ admin_same n m

/-- The register invariant of the reachable states: CC is a 32-bit value, CSTS
holds only the bits RDY, CFS and "shutdown complete" (RDY and CFS never
together), CAP is as `nvme_realize` set it, the two admin queues exist
together, and when they exist CSTS.RDY and CC.EN are set. -/
def regs_inv (n : NvmeCtrl) : Prop :=
  n.bar.cc < 2 ^ 32 ∧ n.bar.csts ∈ [0, 1, 2, 8, 9, 10] ∧ n.bar.cap = scenario_cold.bar.cap ∧
  (n.sqAt 0).isSome = (n.cqAt 0).isSome ∧
  ((n.sqAt 0).isSome = true → NVME_CSTS_RDY n.bar.csts = 1 ∧ NVME_CC_EN n.bar.cc = 1)

/-- Scenario 1 with the shutdown notification in the enabling write: the
configured controller after CC = 0x00464001 (EN = 1, SHN = 1) is written. -/
def scenario_enable_shn : NvmeCtrl :=
  (nvme_mmio_write 0 scenario_w3 0x14 0x00464001 4).getD scenario_cold

/-- The enabled controller of scenario 1 after the shutdown notification: CC is
written with SHN = 1 and EN still 1. -/
def scenario_shutdown : NvmeCtrl :=
  (nvme_mmio_write 0 scenario_w4 0x14 0x00464001 4).getD scenario_cold

/-- The controller after the shutdown and a write of 0 to CC. -/
def scenario_reset : NvmeCtrl :=
  (nvme_mmio_write 0 scenario_shutdown 0x14 0 4).getD scenario_cold

/-! ## Notions for the queue commands -/

/-- A Create I/O Completion Queue command for the examples: `cqid = 1`,
`qsize = 3` (4 entries), `irq_vector = 1`, interrupts enabled, physically
contiguous, ring at `0x300000`. -/
def cmd_create_cq1 : NvmeCmd :=
  { opcode := 0x05, prp1 := 0x300000, cdw10 := 0x00030001, cdw11 := 0x00010003 }

/-- A Create I/O Submission Queue command for the examples: `sqid = 1`,
`qsize = 3`, `cqid = 1`, physically contiguous, ring at `0x400000`. -/
def cmd_create_sq1 : NvmeCmd :=
  { opcode := 0x01, prp1 := 0x400000, cdw10 := 0x00030001, cdw11 := 0x00010001 }

/-- The enabled controller of scenario 1 after `cmd_create_cq1`. -/
def scenario_cq1 : NvmeCtrl :=
  ((nvme_create_cq scenario_w4 cmd_create_cq1).map Prod.snd).getD scenario_cold

/-- The controller `scenario_cq1` after `cmd_create_sq1`: I/O queue pair 1
exists, SQ 1 bound to CQ 1. -/
def scenario_sq1 : NvmeCtrl :=
  ((nvme_create_sq scenario_cq1 cmd_create_sq1).map Prod.snd).getD scenario_cold

/-! ## I/O commands -/

/-- Modelled from the spec: the header `nvme.h` is not among the sources.
`NVME_INVALID_NSID`, the generic status Invalid Namespace or Format. -/
def NVME_INVALID_NSID : Nat := 0x000b

/-- Modelled from the spec: the header `nvme.h` is not among the sources.
`NVME_LBA_RANGE`, the generic status LBA Out of Range. -/
def NVME_LBA_RANGE : Nat := 0x0080

/-- Modelled from the spec: the header `nvme.h` is not among the sources.
`NVME_CMD_FLUSH`, I/O opcode 00h. -/
def NVME_CMD_FLUSH : Nat := 0x00

/-- Modelled from the spec: the header `nvme.h` is not among the sources.
`NVME_CMD_WRITE`, I/O opcode 01h. -/
def NVME_CMD_WRITE : Nat := 0x01

/-- Modelled from the spec: the header `nvme.h` is not among the sources.
`NVME_CMD_READ`, I/O opcode 02h. -/
def NVME_CMD_READ : Nat := 0x02

/-- Modelled from the spec: the header `nvme.h` is not among the sources.
`NVME_CMD_WRITE_ZEROS`, I/O opcode 08h. -/
def NVME_CMD_WRITE_ZEROS : Nat := 0x08

/-- Modelled from the spec: the header `nvme.h` is not among the sources.
`NVME_CMD_DSM`, I/O opcode 09h. -/
def NVME_CMD_DSM : Nat := 0x09

/-- Modelled from the spec: the header `nvme.h` is not among the sources.
`NVME_DSMGMT_AD`, the deallocate attribute of Dataset Management (bit 2 of
dword 11). -/
def NVME_DSMGMT_AD : Nat := 1 <<< 2

/-- Modelled from the spec: the header `nvme.h` is not among the sources.
`sizeof(NvmeDsmRange)`: context attributes (4 bytes), length in blocks
(4 bytes), starting LBA (8 bytes). -/
def sizeof_NvmeDsmRange : Nat := 16

/-- Modelled from the spec: the header `nvme.h` is not among the sources.
What the I/O handlers read of a `NvmeNamespace`: `nsze` is `id_ns.nsze` and
`ds` is `id_ns.lbaf[NVME_ID_NS_FLBAS_INDEX(id_ns.flbas)].ds`, the `data_shift`
of the handlers. -/
structure NvmeNamespace where
  nsze : Nat := 0
  ds : Nat := 0
deriving DecidableEq, Repr

/-- Modelled from the spec: the header `nvme.h` is not among the sources.
`NvmeDsmRange`, a range descriptor of Dataset Management. -/
structure NvmeDsmRange where
  cattr : Nat := 0
  nlb : Nat := 0
  slba : Nat := 0
deriving DecidableEq, Repr

/-- Modelled from the spec: the header `nvme.h` is not among the sources.
The field `slba` of `NvmeRwCmd`, command dwords 10 (low) and 11 (high). -/
def rw_slba (cmd : NvmeCmd) : Nat := cmd.cdw10 % 2 ^ 32 + 2 ^ 32 * (cmd.cdw11 % 2 ^ 32)

/-- Modelled from the spec: the header `nvme.h` is not among the sources.
The 16-bit field `nlb` of `NvmeRwCmd`, the low half of command dword 12: the
zero-based block count. -/
def rw_nlb (cmd : NvmeCmd) : Nat := dw_lo cmd.cdw12

/-- A request handed to the block back-end: `blk_aio_flush`,
`blk_aio_pwrite_zeroes(offset, count, BDRV_REQ_MAY_UNMAP)`, the synchronous
`blk_pwrite_zeroes(offset, count, BDRV_REQ_MAY_UNMAP)`, `dma_blk_write` and
`dma_blk_read` on a scatter-gather list, `blk_aio_pwritev` and
`blk_aio_preadv` on an iovec. -/
inductive BlkOp
  | aio_flush
  | aio_pwrite_zeroes (offset count : Nat)
  | pwrite_zeroes (offset count : Nat)
  | dma_blk_write (qsg : QEMUSGList) (offset : Nat)
  | dma_blk_read (qsg : QEMUSGList) (offset : Nat)
  | aio_pwritev (offset : Nat) (iov : QEMUIOVector)
  | aio_preadv (offset : Nat) (iov : QEMUIOVector)
deriving DecidableEq, Repr

/-- What an I/O handler leaves behind: the returned status and the requests it
has handed to the block back-end, in order. -/
structure IoOut where
  status : Nat
  ops : List BlkOp := []
deriving DecidableEq, Repr

/-- The collaborators of the I/O and feature handlers.  `namespaces i` is
`n->namespaces[i]`; `rd` and `stack` are the guest memory and the stack as
`nvme_map_prp` sees them; `dma_buf_write qsg len` is the return value of
`dma_buf_write` and `iovec_to_buf iov len` that of `qemu_iovec_to_buf`;
`dma_buf_read` and `iovec_from_buf` are those of the opposite direction;
`ranges i` is the descriptor `ranges[i]` and `timestamp` the 64-bit variable
`timestamp` as the DMA from guest memory leaves them; `pwrite_zeroes i offset
count` is the return value of `blk_pwrite_zeroes` for range `i`; `write_cache`
is `blk_enable_write_cache(n->conf.blk)`. -/
structure Backend where
  namespaces : Nat → NvmeNamespace := fun _ => {}
  rd : Nat → Nat → Nat := fun _ _ => 0
  stack : Nat → Nat := fun _ => 0
  dma_buf_write : QEMUSGList → Nat → Int := fun _ _ => 0
  iovec_to_buf : QEMUIOVector → Nat → Nat := fun _ len => len
  dma_buf_read : QEMUSGList → Nat → Int := fun _ _ => 0
  iovec_from_buf : QEMUIOVector → Nat → Nat := fun _ len => len
  ranges : Nat → NvmeDsmRange := fun _ => {}
  timestamp : Nat := 0
  pwrite_zeroes : Nat → Nat → Nat → Int := fun _ _ _ => 0
  write_cache : Nat := 0

/-- `nvme_dma_write_prp(n, ptr, len, prp1, prp2)`: the status; the bytes
arrive in the buffer `ptr` (see `Backend`).  The local lists `qsg` and `iov`
start empty; `none` only if `nvme_map_prp` does not return. -/
def nvme_dma_write_prp (be : Backend) (n : NvmeCtrl) (len prp1 prp2 : Nat) : Option Nat :=
  match nvme_map_prp be.rd be.stack [] [] prp1 prp2 (len % 2 ^ 32) n.toPrpCtrl with
  | none => none
  | some r =>
    if r.status ≠ 0 then some (NVME_INVALID_FIELD ||| NVME_DNR)
    else if r.qsg.length > 0 then
      if be.dma_buf_write r.qsg (len % 2 ^ 32) ≠ 0 then some (NVME_INVALID_FIELD ||| NVME_DNR)
      else some NVME_SUCCESS
    else
      if be.iovec_to_buf r.iov (len % 2 ^ 32) ≠ len % 2 ^ 32 then
        some (NVME_INVALID_FIELD ||| NVME_DNR)
      else some NVME_SUCCESS

/-- `nvme_dma_read_prp(n, ptr, len, prp1, prp2)`: the status. -/
def nvme_dma_read_prp (be : Backend) (n : NvmeCtrl) (len prp1 prp2 : Nat) : Option Nat :=
  match nvme_map_prp be.rd be.stack [] [] prp1 prp2 (len % 2 ^ 32) n.toPrpCtrl with
  | none => none
  | some r =>
    if r.status ≠ 0 then some (NVME_INVALID_FIELD ||| NVME_DNR)
    else if r.qsg.length > 0 then
      if be.dma_buf_read r.qsg (len % 2 ^ 32) ≠ 0 then some (NVME_INVALID_FIELD ||| NVME_DNR)
      else some NVME_SUCCESS
    else
      if be.iovec_from_buf r.iov (len % 2 ^ 32) ≠ len % 2 ^ 32 then
        some (NVME_INVALID_FIELD ||| NVME_DNR)
      else some NVME_SUCCESS

/-- `nvme_flush(n, ns, cmd, req)`. -/
def nvme_flush : IoOut := { status := NVME_NO_COMPLETE, ops := [BlkOp.aio_flush] }

/-- `nvme_write_zeros(n, ns, cmd, req)`: `nlb` and `count` are `uint32_t`,
`slba`, `offset` and the sum `slba + nlb` are `uint64_t`. -/
def nvme_write_zeros (ns : NvmeNamespace) (cmd : NvmeCmd) : IoOut :=
  let slba := rw_slba cmd
  let nlb := (rw_nlb cmd + 1) % 2 ^ 32
  let offset := (slba <<< ns.ds) % 2 ^ 64
  let count := (nlb <<< ns.ds) % 2 ^ 32
  if (slba + nlb) % 2 ^ 64 > ns.nsze then { status := NVME_LBA_RANGE ||| NVME_DNR }
  else { status := NVME_NO_COMPLETE, ops := [BlkOp.aio_pwrite_zeroes offset count] }

/-- The loop `for (i = 0; i <= nr; i++)` of `nvme_dsm` over the range indices
`l`, with the current value of `ret` and the back-end requests issued so far.
`ret` is a `uint16_t`: the `int` result of `blk_pwrite_zeroes` is compared
with 0 after the conversion. -/
def nvme_dsm_loop (be : Backend) (ns : NvmeNamespace) (attr : Nat) :
    List Nat → Nat → List BlkOp → IoOut
  | [], ret, ops => { status := ret, ops := ops }
  | i :: rest, ret, ops =>
    let nlb := (be.ranges i).nlb % 2 ^ 32
    let slba := (be.ranges i).slba % 2 ^ 64
    let offset := (slba <<< ns.ds) % 2 ^ 64
    let count := (nlb <<< ns.ds) % 2 ^ 32
    if (slba + nlb) % 2 ^ 64 > ns.nsze then
      { status := NVME_LBA_RANGE ||| NVME_DNR, ops := ops }
    else if attr &&& NVME_DSMGMT_AD ≠ 0 then
      if be.pwrite_zeroes i offset count % 65536 = 0 then
        nvme_dsm_loop be ns attr rest 0 (ops ++ [BlkOp.pwrite_zeroes offset count])
      else
        { status := NVME_INTERNAL_DEV_ERROR, ops := ops ++ [BlkOp.pwrite_zeroes offset count] }
    else nvme_dsm_loop be ns attr rest ret ops

/-- `nvme_dsm(n, ns, cmd, req)`: `nr` is bits 7:0 of dword 10, `attr` bits 2:0
of dword 11.  (`g_malloc0` does not return `NULL`.) -/
def nvme_dsm (be : Backend) (n : NvmeCtrl) (ns : NvmeNamespace) (cmd : NvmeCmd) :
    Option IoOut :=
  let nr := (cmd.cdw10 % 2 ^ 32) &&& 0xFF
  let attr := (cmd.cdw11 % 2 ^ 32) &&& 0x7
  match nvme_dma_write_prp be n (sizeof_NvmeDsmRange * (nr + 1)) cmd.prp1 cmd.prp2 with
  | none => none
  | some ret =>
    if ret ≠ NVME_SUCCESS then some { status := ret }
    else some (nvme_dsm_loop be ns attr (List.range (nr + 1)) ret [])

/-- `nvme_rw(n, ns, cmd, req)`: `nlb` is a `uint32_t`, `slba`, `data_size`,
`data_offset` and the sum `slba + nlb` are `uint64_t`; `nvme_map_prp` takes the
length as a `uint32_t`.  The lists of the request start empty; `none` only if
`nvme_map_prp` does not return. -/
def nvme_rw (be : Backend) (n : NvmeCtrl) (ns : NvmeNamespace) (cmd : NvmeCmd) :
    Option IoOut :=
  let nlb := (rw_nlb cmd + 1) % 2 ^ 32
  let slba := rw_slba cmd
  let data_size := (nlb <<< ns.ds) % 2 ^ 64
  let data_offset := (slba <<< ns.ds) % 2 ^ 64
  let is_write := decide (cmd.opcode = NVME_CMD_WRITE)
  if (slba + nlb) % 2 ^ 64 > ns.nsze then some { status := NVME_LBA_RANGE ||| NVME_DNR }
  else
    match nvme_map_prp be.rd be.stack [] [] cmd.prp1 cmd.prp2 (data_size % 2 ^ 32)
        n.toPrpCtrl with
    | none => none
    | some r =>
      if r.status ≠ 0 then some { status := NVME_INVALID_FIELD ||| NVME_DNR }
      else if r.qsg.length > 0 then
        some { status := NVME_NO_COMPLETE,
               ops := [if is_write then BlkOp.dma_blk_write r.qsg data_offset
                       else BlkOp.dma_blk_read r.qsg data_offset] }
      else
        some { status := NVME_NO_COMPLETE,
               ops := [if is_write then BlkOp.aio_pwritev data_offset r.iov
                       else BlkOp.aio_preadv data_offset r.iov] }

/-- `nvme_io_cmd(n, cmd, req)`: the namespace id is checked first, then the
opcode selects the handler. -/
def nvme_io_cmd (be : Backend) (n : NvmeCtrl) (cmd : NvmeCmd) : Option IoOut :=
  let nsid := cmd.nsid % 2 ^ 32
  if nsid = 0 ∨ nsid > n.num_namespaces then some { status := NVME_INVALID_NSID ||| NVME_DNR }
  else
    let ns := be.namespaces (nsid - 1)
    if cmd.opcode = NVME_CMD_FLUSH then some nvme_flush
    else if cmd.opcode = NVME_CMD_WRITE_ZEROS then some (nvme_write_zeros ns cmd)
    else if cmd.opcode = NVME_CMD_WRITE ∨ cmd.opcode = NVME_CMD_READ then nvme_rw be n ns cmd
    else if cmd.opcode = NVME_CMD_DSM then nvme_dsm be n ns cmd
    else some { status := NVME_INVALID_OPCODE ||| NVME_DNR }

/-- The namespace of the spec's I/O scenarios: 1 MiB of 512-byte blocks. -/
def ns_1mib : NvmeNamespace := { nsze := 2048, ds := 9 }

/-- A back-end for the examples: the namespace `ns_1mib`, every DMA and every
write succeeds; the Dataset Management buffer holds the ranges
`(slba 0, 8 blocks)` and `(slba 2048, 1 block)`. -/
def be_ok : Backend :=
  { namespaces := fun _ => ns_1mib,
    ranges := fun i => if i = 0 then { nlb := 8, slba := 0 } else { nlb := 1, slba := 2048 } }

/-- The back-end `be_ok` with a block device that fails every write. -/
def be_fail : Backend := { be_ok with pwrite_zeroes := fun _ _ _ => -5 }

/-- Range `i` of a Dataset Management command fails the test of `nvme_dsm`:
`slba + nlb > nsze` with the sum taken in `uint64_t`. -/
@[reducible] def dsm_out_of_range (be : Backend) (ns : NvmeNamespace) (i : Nat) : Prop :=
  ((be.ranges i).slba % 2 ^ 64 + (be.ranges i).nlb % 2 ^ 32) % 2 ^ 64 > ns.nsze

/-- The zeroing write that `nvme_dsm` issues for range `i`:
`blk_pwrite_zeroes(blk, slba << data_shift, nlb << data_shift, MAY_UNMAP)`. -/
def dsm_zero_op (be : Backend) (ns : NvmeNamespace) (i : Nat) : BlkOp :=
  BlkOp.pwrite_zeroes ((((be.ranges i).slba % 2 ^ 64) <<< ns.ds) % 2 ^ 64)
    ((((be.ranges i).nlb % 2 ^ 32) <<< ns.ds) % 2 ^ 32)

/-! ## Features and identify -/

/-- Modelled from the spec: the header `nvme.h` is not among the sources.
`NVME_VOLATILE_WRITE_CACHE`, feature 06h. -/
def NVME_VOLATILE_WRITE_CACHE : Nat := 0x6

/-- Modelled from the spec: the header `nvme.h` is not among the sources.
`NVME_NUMBER_OF_QUEUES`, feature 07h. -/
def NVME_NUMBER_OF_QUEUES : Nat := 0x7

/-- Modelled from the spec: the header `nvme.h` is not among the sources.
`NVME_TIMESTAMP`, feature 0Eh. -/
def NVME_TIMESTAMP : Nat := 0xe

/-- The expression `(n->num_queues - 2) | ((n->num_queues - 2) << 16)` in
`uint32_t`, the type of `num_queues`. -/
def num_queues_result (n : NvmeCtrl) : Nat :=
  let d := (n.num_queues % 2 ^ 32 + 2 ^ 32 - 2) % 2 ^ 32
  d ||| ((d <<< 16) % 2 ^ 32)

/-- `nvme_get_timestamp(n)` at virtual time `now` (ns): the 64-bit union with
the bit-fields `timestamp` (bits 47:0), `sync` (bit 48), `origin` (bits 51:49)
and 12 reserved bits.  `qemu_clock_get_ms` is the clock in ns divided by
1000000. -/
def nvme_get_timestamp (now : Nat) (n : NvmeCtrl) : Nat :=
  let current_time := (now / 1000000) % 2 ^ 64
  let elapsed_time := (current_time + 2 ^ 64 - n.timestamp_set_qemu_clock_ms % 2 ^ 64) % 2 ^ 64
  let timestamp := ((n.host_timestamp + elapsed_time) % 2 ^ 64) &&& 0xffffffffffff
  let origin := if n.host_timestamp ≠ 0 then 0x01 else 0x00
  timestamp ||| (origin <<< 49)

/-- What a feature handler leaves behind: the returned status, the controller,
`req->cqe.result`, the 64-bit value it hands to `nvme_dma_read_prp` (Get
Features Timestamp) and the argument of `blk_set_enable_write_cache` (Set
Features Volatile Write Cache). -/
structure FeatureOut where
  status : Nat
  n : NvmeCtrl
  result : Nat
  dma : Option Nat := none
  write_cache : Option Nat := none
deriving DecidableEq, Repr

/-- `nvme_get_feature(n, cmd, req)` at virtual time `now`, with
`nvme_get_feature_timestamp` in its place; `none` only if `nvme_map_prp` does
not return. -/
def nvme_get_feature (be : Backend) (now : Nat) (n : NvmeCtrl) (cmd : NvmeCmd)
    (req : NvmeRequest) : Option FeatureOut :=
  let dw10 := cmd.cdw10 % 2 ^ 32
  if dw10 = NVME_VOLATILE_WRITE_CACHE then
    some { status := NVME_SUCCESS, n := n, result := be.write_cache % 2 ^ 32 }
  else if dw10 = NVME_NUMBER_OF_QUEUES then
    some { status := NVME_SUCCESS, n := n, result := num_queues_result n }
  else if dw10 = NVME_TIMESTAMP then
    (nvme_dma_read_prp be n 8 cmd.prp1 cmd.prp2).map fun st =>
      { status := st, n := n, result := req.cqe.result,
        dma := some (nvme_get_timestamp now n) }
  else some { status := NVME_INVALID_FIELD ||| NVME_DNR, n := n, result := req.cqe.result }

/-- `nvme_set_feature(n, cmd, req)` at virtual time `now`, with
`nvme_set_feature_timestamp` in its place; `none` only if `nvme_map_prp` does
not return. -/
def nvme_set_feature (be : Backend) (now : Nat) (n : NvmeCtrl) (cmd : NvmeCmd)
    (req : NvmeRequest) : Option FeatureOut :=
  let dw10 := cmd.cdw10 % 2 ^ 32
  let dw11 := cmd.cdw11 % 2 ^ 32
  if dw10 = NVME_VOLATILE_WRITE_CACHE then
    some { status := NVME_SUCCESS, n := n, result := req.cqe.result,
           write_cache := some (dw11 &&& 1) }
  else if dw10 = NVME_NUMBER_OF_QUEUES then
    some { status := NVME_SUCCESS, n := n, result := num_queues_result n }
  else if dw10 = NVME_TIMESTAMP then
    (nvme_dma_write_prp be n 8 cmd.prp1 cmd.prp2).map fun ret =>
      if ret ≠ NVME_SUCCESS then { status := ret, n := n, result := req.cqe.result }
      else { status := NVME_SUCCESS, n := nvme_set_timestamp now n be.timestamp,
             result := req.cqe.result }
  else some { status := NVME_INVALID_FIELD ||| NVME_DNR, n := n, result := req.cqe.result }

/-- The back-end `be_ok` with the timestamp 1000 in the buffer of Set Features
Timestamp. -/
def be_ts : Backend := { be_ok with timestamp := 1000 }

/-- The loop of `nvme_identify_nslist` from the state `i`, `j`, `list`, at
most `fuel` iterations.  `i` is an `int`: `none` when `i + 1` overflows, or
when the loop is still running after `fuel` iterations. -/
def nslist_loop (num_namespaces min_nsid : Nat) :
    Nat → Nat → Nat → List Nat → Option (List Nat)
  | 0, i, _, list => if i < num_namespaces then none else some list
  | fuel + 1, i, j, list =>
    if i < num_namespaces then
      if i + 1 < 2 ^ 31 then
        if i < min_nsid then nslist_loop num_namespaces min_nsid fuel (i + 1) j list
        else
          let list1 := list.set j (i + 1)
          if j + 1 = 1024 then some list1
          else nslist_loop num_namespaces min_nsid fuel (i + 1) (j + 1) list1
      else none
    else some list

/-- The buffer `list` that `nvme_identify_nslist` builds, as 1024 32-bit
entries: `g_malloc0(4096)`, then the loop; every iteration advances `i`, so
`num_namespaces` iterations are enough. -/
def nvme_identify_nslist_buf (n : NvmeCtrl) (cmd : NvmeCmd) : Option (List Nat) :=
  nslist_loop n.num_namespaces (cmd.nsid % 2 ^ 32) n.num_namespaces 0 0 (List.replicate 1024 0)

/-- `nvme_identify_nslist(n, c)`: the returned status and the buffer handed to
`nvme_dma_read_prp`. -/
def nvme_identify_nslist (be : Backend) (n : NvmeCtrl) (cmd : NvmeCmd) :
    Option (Nat × List Nat) :=
  match nvme_identify_nslist_buf n cmd with
  | none => none
  | some list => (nvme_dma_read_prp be n 4096 cmd.prp1 cmd.prp2).map fun st => (st, list)

/-- The namespace list in the words of the spec: the ids `k` with
`m < k ≤ num_namespaces` in ascending order, the first 1024 of them, followed
by zeros up to 1024 entries. -/
def nslist_expected (num_namespaces m : Nat) : List Nat :=
  (List.range' (m + 1) (num_namespaces - m)).take 1024 ++
    List.replicate (1024 - ((List.range' (m + 1) (num_namespaces - m)).take 1024).length) 0

/-! ## Command effects log -/

/-- Modelled from the spec: the header `nvme.h` is not among the sources.
`NVME_CED_SET_CSUPP`, the bit "command supported" (bit 0) of a dword of the
Command Effects log. -/
def NVME_CED_SET_CSUPP : Nat := 1 <<< 0

/-- Modelled from the spec: the header `nvme.h` is not among the sources.
`NVME_CED_SET_LBCC`, the bit "logical block content changes" (bit 1) of a
dword of the Command Effects log. -/
def NVME_CED_SET_LBCC : Nat := 1 <<< 1

/-- Modelled from the spec: the header `nvme.h` is not among the sources.
`NVME_CED_NUM_ADM_CMD`, the number of admin dwords of the Command Effects
log. -/
def NVME_CED_NUM_ADM_CMD : Nat := 256

/-- Modelled from the spec: the header `nvme.h` is not among the sources.
`NVME_CED_NUM_IO_CMD`, the number of I/O dwords of the Command Effects log. -/
def NVME_CED_NUM_IO_CMD : Nat := 256

/-- The table `nvme_ced_admin[]` (lines 53–88), row by row. -/
def nvme_ced_admin : List Nat := [
   NVME_CED_SET_CSUPP,                             -- 00h: Delete I/O Submission Queue
   NVME_CED_SET_CSUPP,                             -- 01h: Create I/O Submission Queue
   NVME_CED_SET_CSUPP,                             -- 02h: Get Log Page
   0,                                              -- 03h:
   NVME_CED_SET_CSUPP,                             -- 04h: Delete I/O Completion Queue
   NVME_CED_SET_CSUPP,                             -- 05h: Create I/O Completion Queue
   NVME_CED_SET_CSUPP,                             -- 06h: Identify
   0,                                              -- 07h:
   0,                                              -- 08h: Abort
   NVME_CED_SET_CSUPP,                             -- 09h: Set Features
   NVME_CED_SET_CSUPP,                             -- 0Ah: Get Features
   0,                                              -- 0Bh:
   0,                                              -- 0Ch: Asynchronous Event Request
   0,                                              -- 0Dh: Namespace Management
   0, 0,                                           -- 0Eh, 0Fh
   0,                                              -- 10h: Firmware Commit
   0,                                              -- 11h: Firmware Image Download
   0, 0, 0,                                        -- 12h, 13h, 14h
   0,                                              -- 15h: Namespace Attachment
   0, 0, 0, 0, 0, 0, 0, 0, 0, 0,                   -- 16h -- 1Fh
   0, 0, 0, 0, 0, 0, 0, 0, 0, 0, 0, 0, 0, 0, 0, 0, -- 20h -- 2Fh
   0, 0, 0, 0, 0, 0, 0, 0, 0, 0, 0, 0, 0, 0, 0, 0, -- 30h -- 3Fh
   0, 0, 0, 0, 0, 0, 0, 0, 0, 0, 0, 0, 0, 0, 0, 0, -- 40h -- 4Fh
   0, 0, 0, 0, 0, 0, 0, 0, 0, 0, 0, 0, 0, 0, 0, 0, -- 50h -- 5Fh
   0, 0, 0, 0, 0, 0, 0, 0, 0, 0, 0, 0, 0, 0, 0, 0, -- 60h -- 6Fh
   0, 0, 0, 0, 0, 0, 0, 0, 0, 0, 0, 0, 0, 0, 0, 0, -- 70h -- 7Fh
   0,                                              -- 80h: Format NVM
   0,                                              -- 81h: Security Send
   0,                                              -- 82h: Security Receive
   0, 0, 0, 0, 0, 0, 0, 0, 0, 0, 0, 0, 0,          -- 83h -- 8Fh
   0, 0, 0, 0, 0, 0, 0, 0, 0, 0, 0, 0, 0, 0, 0, 0, -- 90h -- 9Fh
   0, 0, 0, 0, 0, 0, 0, 0, 0, 0, 0, 0, 0, 0, 0, 0, -- A0h -- AFh
   0, 0, 0, 0, 0, 0, 0, 0, 0, 0, 0, 0, 0, 0, 0, 0, -- B0h -- BFh
   0, 0, 0, 0, 0, 0, 0, 0, 0, 0, 0, 0, 0, 0, 0, 0, -- C0h -- CFh
   0, 0, 0, 0, 0, 0, 0, 0, 0, 0, 0, 0, 0, 0, 0, 0, -- D0h -- DFh
   0, 0, 0, 0, 0, 0, 0, 0, 0, 0, 0, 0, 0, 0, 0, 0, -- E0h -- EFh
   0, 0, 0, 0, 0, 0, 0, 0, 0, 0, 0, 0, 0, 0, 0, 0  -- F0h -- FFh
  ]

/-- The table `nvme_ced_io[]` (lines 90–125), row by row. -/
def nvme_ced_io : List Nat := [
   NVME_CED_SET_CSUPP,                             -- 00h: Flush
   NVME_CED_SET_CSUPP ||| NVME_CED_SET_LBCC,       -- 01h: Write
   NVME_CED_SET_CSUPP,                             -- 02h: Read
   0,                                              -- 03h:
   0,                                              -- 04h: Write Uncorrectable
   0,                                              -- 05h: Compare
   0, 0,                                           -- 06h, 07h:
   NVME_CED_SET_CSUPP ||| NVME_CED_SET_LBCC,       -- 08h: Write Zeroes
   NVME_CED_SET_CSUPP ||| NVME_CED_SET_LBCC,       -- 09h: Dataset Management
   0, 0, 0,                                        -- 0Ah, 0Bh, 0Ch
   0,                                              -- 0Dh: Reservation Register
   0,                                              -- 0Eh: Reservation Report
   0, 0,                                           -- 0Fh, 10h
   0,                                              -- 11h: Reservation Acquire
   0, 0, 0,                                        -- 12h, 13h, 14h
   0,                                              -- 15h: Reservation Release
   0, 0, 0, 0, 0, 0, 0, 0, 0, 0,                   -- 16h -- 1Fh
   0, 0, 0, 0, 0, 0, 0, 0, 0, 0, 0, 0, 0, 0, 0, 0, -- 20h -- 2Fh
   0, 0, 0, 0, 0, 0, 0, 0, 0, 0, 0, 0, 0, 0, 0, 0, -- 30h -- 3Fh
   0, 0, 0, 0, 0, 0, 0, 0, 0, 0, 0, 0, 0, 0, 0, 0, -- 40h -- 4Fh
   0, 0, 0, 0, 0, 0, 0, 0, 0, 0, 0, 0, 0, 0, 0, 0, -- 50h -- 5Fh
   0, 0, 0, 0, 0, 0, 0, 0, 0, 0, 0, 0, 0, 0, 0, 0, -- 60h -- 6Fh
   0, 0, 0, 0, 0, 0, 0, 0, 0, 0, 0, 0, 0, 0, 0, 0, -- 70h -- 7Fh
   0, 0, 0, 0, 0, 0, 0, 0, 0, 0, 0, 0, 0, 0, 0, 0, -- 80h -- 8Fh
   0, 0, 0, 0, 0, 0, 0, 0, 0, 0, 0, 0, 0, 0, 0, 0, -- 90h -- 9Fh
   0, 0, 0, 0, 0, 0, 0, 0, 0, 0, 0, 0, 0, 0, 0, 0, -- A0h -- AFh
   0, 0, 0, 0, 0, 0, 0, 0, 0, 0, 0, 0, 0, 0, 0, 0, -- B0h -- BFh
   0, 0, 0, 0, 0, 0, 0, 0, 0, 0, 0, 0, 0, 0, 0, 0, -- C0h -- CFh
   0, 0, 0, 0, 0, 0, 0, 0, 0, 0, 0, 0, 0, 0, 0, 0, -- D0h -- DFh
   0, 0, 0, 0, 0, 0, 0, 0, 0, 0, 0, 0, 0, 0, 0, 0, -- E0h -- EFh
   0, 0, 0, 0, 0, 0, 0, 0, 0, 0, 0, 0, 0, 0, 0, 0  -- F0h -- FFh
  ]

/-- `memcpy(dst + off, src, len)` on arrays of 32-bit dwords, `off` and `len`
in bytes (multiples of 4); `none` when the copy leaves an array. -/
def memcpy_dwords (dst : List Nat) (off : Nat) (src : List Nat) (len : Nat) :
    Option (List Nat) :=
  if off + len ≤ 4 * dst.length ∧ len ≤ 4 * src.length then
    some (dst.take (off / 4) ++ src.take (len / 4) ++ dst.drop (off / 4 + len / 4))
  else none

/-- The buffer `tmp` that `nvme_get_cse_info` builds (lines 1082–1089), as
32-bit dwords: `g_malloc0`, `memset`, and the two `memcpy`.  `sz_byte` is
`NVME_CED_SZ_BYTE`, a constant of the header `nvme.h` whose value neither the
sources nor the spec give. -/
def nvme_get_cse_info_buf (sz_byte : Nat) : Option (List Nat) :=
  match memcpy_dwords (List.replicate (sz_byte / 4) 0) 0 nvme_ced_admin
      (NVME_CED_NUM_ADM_CMD <<< 2) with
  | none => none
  | some tmp => memcpy_dwords tmp (NVME_CED_NUM_ADM_CMD <<< 2) nvme_ced_io (NVME_CED_NUM_IO_CMD <<< 2)

/-- Modelled from the spec: the header `nvme.h` is not among the sources.
The field `numd` of `NvmeGetLogPageCmd`, bits 16 to 31 of command dword 10. -/
def log_page_numd (cmd : NvmeCmd) : Nat := dw_hi cmd.cdw10

/-- `nvme_get_cse_info(n, cmd, req)`: the returned status and the dwords of
`tmp` that are handed to `nvme_dma_read_prp`, the first `numd + 1`.  `sz_byte`
is `NVME_CED_SZ_BYTE`. -/
def nvme_get_cse_info (sz_byte : Nat) (be : Backend) (n : NvmeCtrl) (cmd : NvmeCmd) :
    Option (Nat × List Nat) :=
  let numd := log_page_numd cmd &&& 0x0FFF
  if sz_byte < (numd + 1) <<< 2 then some (NVME_INVALID_FIELD ||| NVME_DNR, [])
  else
    match nvme_get_cse_info_buf sz_byte with
    | none => none
    | some tmp =>
      (nvme_dma_read_prp be n ((numd + 1) <<< 2) cmd.prp1 cmd.prp2).map fun st =>
        (st, tmp.take (numd + 1))

/-! ## Notions for the first completion -/

/-- The collaborators of scenario 2 with a command that the model executes in
full: the admin queue holds the Create I/O Completion Queue command
`cmd_create_cq1` with command id 7. -/
def scenario_env_create : Env := { fetch := fun _ => { cmd_create_cq1 with cid := 7 } }

/-- Scenario 2 with `scenario_env_create`: after the enable, the guest rings
the doorbell of SQ 0 with tail = 1, the SQ task runs `nvme_create_cq` and the
CQ task posts the completion. -/
def scenario_create_cq : Option (NvmeCtrl × List (Nat × NvmeCqe)) := do
  let n ← scenario_enabled
  let n ← nvme_mmio_write 0 n 0x1000 1 4
  let r ← nvme_process_sq (fun _ => scenario_env_create) n 0
  nvme_post_cqes r.1 0

/-! ## Notions for the head doorbell -/

/-- The segments of a PRP list in the words of the spec: the walk is at index
`i` of the list page at `list` with `remaining` bytes to map.  Each data entry
gives one segment of length `min(remaining, page_size)`; the entry at index
`max_prp_ents - 1` is the pointer to the next list page whenever more than
`page_size` bytes remain.  `rd addr j` is the `j`-th 64-bit word of guest
memory at `addr`; every step consumes one unit of `fuel`. -/
def prp_list_segments (n : PrpCtrl) (rd : Nat → Nat → Nat) :
    Nat → Nat → Nat → Nat → List (Nat × Nat)
  | 0, _, _, _ => []
  | fuel + 1, list, i, remaining =>
    if remaining = 0 then []
    else if i + 1 = n.max_prp_ents ∧ remaining > n.page_size then
      prp_list_segments n rd fuel (le64_to_cpu (rd list i)) 0 remaining
    else
      (le64_to_cpu (rd list i), min remaining n.page_size) ::
        prp_list_segments n rd fuel list (i + 1) (remaining - min remaining n.page_size)

/-- The scatter-gather list of a successful `nvme_map_prp` in the words of the
spec: with `first = min(len, page_size - prp1 mod page_size)` and
`rem = len - first`, the segment `(prp1, first)` alone when `rem = 0`, followed
by `(prp2, rem)` when `0 < rem ≤ page_size`, and otherwise followed by the
segments of the PRP list at `prp2` (a walk of `rem` bytes takes fewer than
`2 * rem` steps). -/
def prp_segments_expected (rd : Nat → Nat → Nat) (prp1 prp2 len : Nat) (n : PrpCtrl) :
    List (Nat × Nat) :=
  let first := min len (n.page_size - prp1 % n.page_size)
  let rem := len - first
  if rem = 0 then [(prp1, first)]
  else if rem ≤ n.page_size then [(prp1, first), (prp2, rem)]
  else (prp1, first) :: prp_list_segments n rd (2 * rem) prp2 0 rem

/-- The invariant of the PRP-list loop behind the index bound: while bytes
remain, `prp_trans` is the size of the most recent list read, computed from the
`len + i * page_size` bytes that remained then, the 32-bit sum of that read
did not wrap, and `i` is below `max_prp_ents`. -/
def prp_index_inv (n : PrpCtrl) (s : PrpLoop) : Prop :=
  s.len ≠ 0 →
    s.prp_trans = prp_trans_of n (prp_nents n (s.len + s.i * n.page_size)) ∧
    s.len + s.i * n.page_size + n.page_size ≤ 2 ^ 32 ∧ s.i < n.max_prp_ents

/-- The fetched entries of the array `prp_list` are the words of the list page
at `list`. -/
def prp_fetched_inv (rd : Nat → Nat → Nat) (list : Nat) (s : PrpLoop) : Prop :=
  ∀ j, j < s.prp_trans / 8 → s.prp_list j = rd list j

/-- The PRP-list entries that the walk of the spec consumes, in order: the walk
is at index `i` of the list page at `list` with `remaining` bytes to map.  The
entry read is consumed; if it is zero or not page-aligned the walk stops there.
Otherwise the entry at index `max_prp_ents - 1` is the pointer to the next list
page whenever more than `page_size` bytes remain, and every other entry is a
data entry that maps `min(remaining, page_size)` bytes.  `rd addr j` is the
`j`-th 64-bit word of guest memory at `addr`; every step consumes one unit of
`fuel`. -/
def prp_list_consumed (n : PrpCtrl) (rd : Nat → Nat → Nat) :
    Nat → Nat → Nat → Nat → List Nat
  | 0, _, _, _ => []
  | fuel + 1, list, i, remaining =>
    if remaining = 0 then []
    else if le64_to_cpu (rd list i) = 0 ∨ le64_to_cpu (rd list i) % n.page_size ≠ 0 then
      [le64_to_cpu (rd list i)]
    else if i + 1 = n.max_prp_ents ∧ remaining > n.page_size then
      le64_to_cpu (rd list i) :: prp_list_consumed n rd fuel (le64_to_cpu (rd list i)) 0 remaining
    else
      le64_to_cpu (rd list i) ::
        prp_list_consumed n rd fuel list (i + 1) (remaining - min remaining n.page_size)

/-! ## Notions for the queue rings -/

/-- The fields of a submission queue other than the in-flight list and the
timer. -/
def sq_core (s : NvmeSQueue) : Nat × Nat × Nat × Nat × Nat × Nat × List NvmeRequest :=
  (s.sqid, s.cqid, s.size, s.head, s.tail, s.dma_addr, s.req_list)

/-- The ring of a completion queue: size, head and tail. -/
def cq_core (c : NvmeCQueue) : Nat × Nat × Nat := (c.size, c.head, c.tail)

/-- From `n` to `m` the queues are the same up to the in-flight lists and
timers of the submission queues and up to everything but the ring indices of
the completion queues. -/
def core_same (n m : NvmeCtrl) : Prop :=
  (∀ i, (m.sqAt i).map sq_core = (n.sqAt i).map sq_core) ∧
  (∀ j, (m.cqAt j).map cq_core = (n.cqAt j).map cq_core)

/-- The ring of the submission queue `s = n->sq[i]` is well formed: at least
two and at most `2 ^ 16` slots, head and tail inside the ring; and the queue is
bound to completion queue 0 exactly when it is the admin queue. -/
def sq_ring (i : Nat) (s : NvmeSQueue) : Prop :=
  2 ≤ s.size ∧ s.size ≤ 2 ^ 16 ∧ s.head < s.size ∧ s.tail < s.size ∧ (s.cqid = 0 ↔ i = 0)

/-- The ring of a completion queue is well formed. -/
def cq_ring (c : NvmeCQueue) : Prop :=
  2 ≤ c.size ∧ c.size ≤ 2 ^ 16 ∧ c.head < c.size ∧ c.tail < c.size

/-- The ring invariant of the reachable states. -/
def ring_inv (n : NvmeCtrl) : Prop :=
  (∀ i s, n.sqAt i = some s → sq_ring i s) ∧ (∀ j c, n.cqAt j = some c → cq_ring c)

/-! ## Notions for the run of a submission queue -/

/-- Submission queue `i` of `n` is still there in `m`, the same up to its
in-flight list and timer. -/
def sq_stay (n m : NvmeCtrl) (i : Nat) : Prop :=
  ∀ s, n.sqAt i = some s → ∃ t, m.sqAt i = some t ∧ sq_core t = sq_core s

/-- The number of commands between head and tail of a submission queue,
`(tail - head) mod size`. -/
def sq_pending_cmds (s : NvmeSQueue) : Nat := (s.tail + s.size - s.head) % s.size

/-- The number of commands that one run of `nvme_process_sq` consumes in the
words of the spec: `min((tail - head) mod size, f)` with `f` the number of
free request slots. -/
def sq_run_count (s : NvmeSQueue) : Nat := min (sq_pending_cmds s) s.req_list.length

/-- The first `c` iterations of the loop of `nvme_process_sq` for
`sq = n->sq[sqid]`, the first of them with the collaborators `envs k`: the
controller they leave, `none` when one of them leaves defined behaviour. -/
def nvme_process_sq_iters (envs : Nat → Env) (sqid : Nat) : Nat → Nat → NvmeCtrl → Option NvmeCtrl
  | 0, _, n => some n
  | c + 1, k, n =>
    match nvme_process_sq_iter (envs k) n sqid with
    | none => none
    | some (n1, _) => nvme_process_sq_iters envs sqid c (k + 1) n1

/-! # Theorems -/

/-! ## PRP mapper -/

theorem prp_ent_invalid_iff (n : PrpCtrl) (hps : n.page_size = 2 ^ n.page_bits) (e : Nat) :
    prp_ent_invalid n e = true ↔ (e = 0 ∨ e % n.page_size ≠ 0) := by
  simp [prp_ent_invalid, hps]

theorem le64_to_cpu_lt (x : Nat) : le64_to_cpu x < 2 ^ 64 :=
  Nat.mod_lt _ (by norm_num)

theorem cmb_index_add (n : PrpCtrl) (prp : Nat) (hp : prp < 2 ^ 64)
    (hb : n.ctrl_mem_addr < 2 ^ 64) :
    (cmb_index n prp + n.ctrl_mem_addr) % 2 ^ 64 = prp := by
  unfold cmb_index
  rw [Nat.mod_eq_of_lt hb]
  norm_num at hp hb ⊢
  omega

theorem seg_total_append (l : List (Nat × Nat)) (a b : Nat) :
    seg_total (l ++ [(a, b)]) = seg_total l + b := by
  simp [seg_total]

/-- What a data entry does to the loop state. -/
theorem prp_iter_data_eq_some {n : PrpCtrl} {s s1 : PrpLoop} {e : Nat}
    (h : prp_iter_data n s e = some s1) :
    prp_ent_invalid n e = false ∧ s1.len = s.len - min s.len n.page_size ∧
    ((s.qsg ≠ [] ∧ s1.qsg = s.qsg ++ [(e, min s.len n.page_size)] ∧ s1.iov = s.iov) ∨
     (s.qsg = [] ∧ s1.qsg = [] ∧
        s1.iov = s.iov ++ [(cmb_index n e, min s.len n.page_size)])) := by
  unfold prp_iter_data at h
  split at h
  · cases h
  · rename_i hinv
    simp only at h
    split at h
    · rename_i hq
      have := Option.some.inj h
      subst this
      refine ⟨by simpa using hinv, rfl, Or.inl ⟨?_, rfl, rfl⟩⟩
      intro h0; simp [h0] at hq
    · rename_i hq
      have := Option.some.inj h
      subst this
      have h0 : s.qsg = [] := by
        simpa using hq
      exact ⟨by simpa using hinv, rfl, Or.inr ⟨h0, h0, rfl⟩⟩

/-- What one successful loop iteration does to `len` and the output lists. -/
theorem prp_iter_eq_some {n : PrpCtrl} {rd : Nat → Nat → Nat} {s s1 : PrpLoop}
    (h : prp_iter n rd s = some s1) :
    ∃ e, e < 2 ^ 64 ∧ prp_ent_invalid n e = false ∧
      s1.len = s.len - min s.len n.page_size ∧
      ((s.qsg ≠ [] ∧ s1.qsg = s.qsg ++ [(e, min s.len n.page_size)] ∧ s1.iov = s.iov) ∨
       (s.qsg = [] ∧ s1.qsg = [] ∧
          s1.iov = s.iov ++ [(cmb_index n e, min s.len n.page_size)])) := by
  unfold prp_iter at h
  simp only at h
  split at h
  · split at h
    · exact absurd h (by simp)
    · have h1 := prp_iter_data_eq_some h
      exact ⟨_, le64_to_cpu_lt _, h1⟩
  · exact ⟨_, le64_to_cpu_lt _, prp_iter_data_eq_some h⟩

/-- Loop invariants carry over to the state in which the loop is left. -/
theorem prp_while_done_induct {n : PrpCtrl} {rd : Nat → Nat → Nat} (P : PrpLoop → Prop)
    (hstep : ∀ s s1, s.len ≠ 0 → P s → prp_iter n rd s = some s1 → P s1) :
    ∀ (fuel : Nat) (s t : PrpLoop), P s → prp_while n rd fuel s = .done t →
      P t ∧ t.len = 0 := by
  intro fuel
  induction fuel with
  | zero =>
    intro s t hP h
    unfold prp_while at h
    split at h
    · cases h; exact ⟨hP, by assumption⟩
    · cases h
  | succ k ih =>
    intro s t hP h
    unfold prp_while at h
    split at h
    · cases h; exact ⟨hP, by assumption⟩
    · rename_i hlen
      cases hit : prp_iter n rd s with
      | none => simp [hit] at h
      | some s1 =>
        simp only [hit] at h
        exact ih s1 t (hstep s s1 hlen hP hit) h

/-- With a non-zero page size the loop ends within `len` iterations. -/
theorem prp_while_ne_timeout {n : PrpCtrl} {rd : Nat → Nat → Nat} (hps : 0 < n.page_size) :
    ∀ (fuel : Nat) (s : PrpLoop), s.len ≤ fuel → prp_while n rd fuel s ≠ .timeout := by
  intro fuel
  induction fuel with
  | zero =>
    intro s hs
    have : s.len = 0 := by omega
    simp [prp_while, this]
  | succ k ih =>
    intro s hs
    unfold prp_while
    split
    · simp
    · rename_i hlen
      cases hit : prp_iter n rd s with
      | none => simp
      | some s1 =>
        simp only
        obtain ⟨e, -, -, hl, -⟩ := prp_iter_eq_some hit
        apply ih
        have : 0 < min s.len n.page_size := by
          simp only [lt_min_iff]; omega
        omega

theorem status_ne : NVME_INVALID_FIELD ||| NVME_DNR ≠ NVME_SUCCESS := by decide

theorem prp_iter_data_eq_none_iff (n : PrpCtrl) (s : PrpLoop) (e : Nat) :
    prp_iter_data n s e = none ↔ prp_ent_invalid n e = true := by
  unfold prp_iter_data
  split
  · simp [*]
  · simp only
    split <;> simp [*]

theorem prp_iter_eq_none_iff (n : PrpCtrl) (rd : Nat → Nat → Nat) (s : PrpLoop) :
    prp_iter n rd s = none ↔ ∃ e ∈ prp_iter_entries n rd s, prp_ent_invalid n e = true := by
  unfold prp_iter prp_iter_entries
  simp only
  split
  · split
    · simp [*]
    · rename_i hv
      rw [prp_iter_data_eq_none_iff]
      simp [hv]
  · rw [prp_iter_data_eq_none_iff]
    simp

theorem prp_aligned_inv_step (n : PrpCtrl) (rd : Nat → Nat → Nat)
    (hps : n.page_size = 2 ^ n.page_bits) (hbase : n.ctrl_mem_addr < 2 ^ 64)
    (s s1 : PrpLoop) (hP : prp_aligned_inv n s) (h : prp_iter n rd s = some s1) :
    prp_aligned_inv n s1 := by
  obtain ⟨e, he, hinv, -, hcase⟩ := prp_iter_eq_some h
  have hval : ¬ (e = 0 ∨ e % n.page_size ≠ 0) := by
    rw [← prp_ent_invalid_iff n hps e, hinv]; simp
  have hal : e % n.page_size = 0 := by
    by_contra hc; exact hval (Or.inr hc)
  obtain ⟨hne, htl, hiv⟩ := hP
  rcases hcase with ⟨hq, hq1, hi1⟩ | ⟨hq, hq1, hi1⟩
  · refine ⟨Or.inl (by simp [hq1]), ?_, ?_⟩
    · intro p hp
      rw [hq1, List.tail_append_of_ne_nil hq] at hp
      rcases List.mem_append.mp hp with hp | hp
      · exact htl p hp
      · simp only [List.mem_singleton] at hp
        subst hp
        exact ⟨hal, min_le_right _ _⟩
    · intro h0
      simp [hq1] at h0
  · have hiov : s.iov ≠ [] := by
      rcases hne with h0 | h0
      · exact absurd hq h0
      · exact h0
    refine ⟨Or.inr (by simp [hi1]), ?_, ?_⟩
    · intro p hp
      simp [hq1] at hp
    · intro _ p hp
      rw [hi1, List.tail_append_of_ne_nil hiov] at hp
      rcases List.mem_append.mp hp with hp | hp
      · exact hiv hq p hp
      · simp only [List.mem_singleton] at hp
        subst hp
        simp only
        rw [cmb_index_add n e he hbase]
        exact ⟨hal, min_le_right _ _⟩

theorem prp_total_inv_step (n : PrpCtrl) (rd : Nat → Nat → Nat) (total : Nat)
    (s s1 : PrpLoop) (hP : prp_total_inv total s) (h : prp_iter n rd s = some s1) :
    prp_total_inv total s1 := by
  obtain ⟨e, -, -, hl, hcase⟩ := prp_iter_eq_some h
  have hm := min_le_left s.len n.page_size
  rcases hcase with ⟨hq, hq1, -⟩ | ⟨hq, hq1, hi1⟩
  · rcases hP with ⟨-, ht⟩ | ⟨h0, -⟩
    · left
      refine ⟨by simp [hq1], ?_⟩
      rw [hq1, seg_total_append, hl]; omega
    · exact absurd h0 hq
  · rcases hP with ⟨h0, -⟩ | ⟨-, ht⟩
    · exact absurd hq h0
    · right
      refine ⟨hq1, ?_⟩
      rw [hi1, seg_total_append, hl]; omega

/-- With a non-zero page size `nvme_map_prp` returns. -/
theorem nvme_map_prp_total (rd : Nat → Nat → Nat) (stack : Nat → Nat)
    (qsg : QEMUSGList) (iov : QEMUIOVector) (prp1 prp2 len : Nat) (n : PrpCtrl)
    (hps : 0 < n.page_size) :
    ∃ r, nvme_map_prp rd stack qsg iov prp1 prp2 len n = some r := by
  unfold nvme_map_prp
  simp only
  split
  · exact ⟨_, rfl⟩
  · split
    · split
      · exact ⟨_, rfl⟩
      · split
        · split
          · exact ⟨_, rfl⟩
          · exact ⟨_, rfl⟩
          · rename_i h
            exact absurd h (prp_while_ne_timeout hps _ _ (Nat.le_refl _))
        · split
          · exact ⟨_, rfl⟩
          · split <;> exact ⟨_, rfl⟩
    · exact ⟨_, rfl⟩

/-- The total of the segment lengths of a successful `nvme_map_prp`: `len` in
scatter-gather mode; in CMB mode `len` too, except when a second segment is
taken directly from PRP2, where the total is twice the first segment. -/
theorem nvme_map_prp_seg_total (rd : Nat → Nat → Nat) (stack : Nat → Nat)
    (qsg : QEMUSGList) (iov : QEMUIOVector) (prp1 prp2 len : Nat) (n : PrpCtrl)
    (r : PrpResult)
    (h : nvme_map_prp rd stack qsg iov prp1 prp2 len n = some r)
    (hs : r.status = NVME_SUCCESS) :
    (in_cmb n prp1 = false → seg_total r.qsg = len) ∧
    (in_cmb n prp1 = true → r.qsg = [] ∧
      seg_total r.iov =
        if 0 < len - min len (n.page_size - prp1 % n.page_size) ∧
            len - min len (n.page_size - prp1 % n.page_size) ≤ n.page_size
        then 2 * min len (n.page_size - prp1 % n.page_size) else len) := by
  have hm := min_le_left len (n.page_size - prp1 % n.page_size)
  unfold nvme_map_prp at h
  simp only at h
  split at h
  · cases h; exact absurd hs status_ne
  · split at h
    · rename_i hrem
      split at h
      · cases h; exact absurd hs status_ne
      · split at h
        · rename_i hbig
          split at h
          · cases h
            rename_i hw
            have hinit : prp_total_inv len (prp_loop_init n rd stack prp2
                (len - min len (n.page_size - prp1 % n.page_size))
                (if in_cmb n prp1 = true then []
                  else [(prp1, min len (n.page_size - prp1 % n.page_size))])
                (if in_cmb n prp1 = true then
                  [(cmb_index n prp1, min len (n.page_size - prp1 % n.page_size))]
                  else iov)) := by
              unfold prp_total_inv prp_loop_init
              by_cases hc : in_cmb n prp1 = true <;> simp [hc, seg_total]
            have hfin := prp_while_done_induct (prp_total_inv len)
              (fun s s1 _ hP hit => prp_total_inv_step n rd len s s1 hP hit)
              _ _ _ hinit hw
            have hq := prp_while_done_induct (fun s => s.qsg = [] ↔ in_cmb n prp1 = true)
              (fun s s1 _ hP hit => by
                obtain ⟨e, -, -, -, hcase⟩ := prp_iter_eq_some hit
                rcases hcase with ⟨hq, hq1, -⟩ | ⟨hq, hq1, -⟩
                · rw [hq1]; simp only [List.append_eq_nil, and_false, List.cons_ne_self]
                  simp; simpa [hq] using hP
                · rw [hq1]; simpa [hq] using hP)
              _ _ _ (by unfold prp_loop_init; by_cases hc : in_cmb n prp1 = true <;> simp [hc]) hw
            obtain ⟨hinv, hl0⟩ := hfin
            have hqq := hq.1
            simp only at hqq
            have hnb : ¬ (len - min len (n.page_size - prp1 % n.page_size) ≤ n.page_size) := by
              omega
            simp only [hnb, and_false, if_false]
            constructor
            · intro hc
              rcases hinv with ⟨-, ht⟩ | ⟨h0, -⟩
              · omega
              · rw [hqq] at h0; simp [hc] at h0
            · intro hc
              rcases hinv with ⟨h0, -⟩ | ⟨h0, ht⟩
              · exact absurd (hqq.mpr hc) h0
              · exact ⟨h0, by omega⟩
          · cases h; exact absurd hs status_ne
          · cases h
        · rename_i hbig
          split at h
          · cases h; exact absurd hs status_ne
          · split at h
            · cases h
              rename_i hc
              have hpos : 0 < len - min len (n.page_size - prp1 % n.page_size) := by omega
              have hle : len - min len (n.page_size - prp1 % n.page_size) ≤ n.page_size := by
                omega
              rw [if_pos ⟨hpos, hle⟩]
              simp [hc, seg_total]
              ring
            · cases h
              rename_i hc
              simp [hc, seg_total]
    · cases h
      rename_i hrem
      have h0 : len - min len (n.page_size - prp1 % n.page_size) = 0 := by
        simpa using hrem
      by_cases hc : in_cmb n prp1 = true <;> simp [hc, seg_total, h0] <;> omega

/-- C1 (the code departs from it): in CMB mode, for `len = 4608` with PRP1 at
the start of a page and PRP2 the next page, `nvme_map_prp` returns success with
two segments of 4096 bytes each, 8192 bytes in all instead of 4608
(line 332 adds `trans_len` where line 330 adds `len`). -/
theorem nvme_map_prp_cmb_second_segment_length :
    nvme_map_prp (fun _ _ => 0) (fun _ => 0) [] [] 0x100000 0x101000 4608 ctrl_4k_cmb =
      some { status := NVME_SUCCESS, qsg := [], iov := [(0, 4096), (0x1000, 4096)] } ∧
    seg_total [(0, 4096), (0x1000, 4096)] = 8192 := by
  decide

/-- C2: when `nvme_map_prp` returns success, every segment after the first
starts at a multiple of `page_size` and is at most `page_size` bytes long.  In
scatter-gather mode the segments are those of `qsg`; in CMB mode (`qsg` empty)
they are those of `iov`, whose entry for the guest address `a` is the index
`a - ctrl_mem.addr` into the CMB. -/
theorem nvme_map_prp_later_segments_aligned (rd : Nat → Nat → Nat) (stack : Nat → Nat)
    (qsg : QEMUSGList) (iov : QEMUIOVector) (prp1 prp2 len : Nat) (n : PrpCtrl)
    (r : PrpResult)
    (hps : n.page_size = 2 ^ n.page_bits) (hprp2 : prp2 < 2 ^ 64)
    (hbase : n.ctrl_mem_addr < 2 ^ 64)
    (h : nvme_map_prp rd stack qsg iov prp1 prp2 len n = some r)
    (hs : r.status = NVME_SUCCESS) :
    (∀ p ∈ r.qsg.tail, p.1 % n.page_size = 0 ∧ p.2 ≤ n.page_size) ∧
    (r.qsg = [] → ∀ p ∈ r.iov.tail,
      (p.1 + n.ctrl_mem_addr) % 2 ^ 64 % n.page_size = 0 ∧ p.2 ≤ n.page_size) := by
  unfold nvme_map_prp at h
  simp only at h
  split at h
  · cases h; exact absurd hs status_ne
  · split at h
    · split at h
      · cases h; exact absurd hs status_ne
      · split at h
        · split at h
          · cases h
            rename_i hw
            have hinit : prp_aligned_inv n (prp_loop_init n rd stack prp2
                (len - min len (n.page_size - prp1 % n.page_size))
                (if in_cmb n prp1 = true then []
                  else [(prp1, min len (n.page_size - prp1 % n.page_size))])
                (if in_cmb n prp1 = true then
                  [(cmb_index n prp1, min len (n.page_size - prp1 % n.page_size))]
                  else iov)) := by
              unfold prp_aligned_inv prp_loop_init
              by_cases hc : in_cmb n prp1 = true <;> simp [hc]
            have := (prp_while_done_induct (prp_aligned_inv n)
              (fun s s1 _ hP hit => prp_aligned_inv_step n rd hps hbase s s1 hP hit)
              _ _ _ hinit hw).1
            exact this.2
          · cases h; exact absurd hs status_ne
          · cases h
        · split at h
          · cases h; exact absurd hs status_ne
          · rename_i hrem hal
            have hal2 : prp2 % n.page_size = 0 := by
              have := hal
              rw [hps, Nat.and_pow_two_sub_one_eq_mod] at this
              rw [hps]; simpa using this
            split at h
            · cases h
              have hci := cmb_index_add n prp2 hprp2 hbase
              norm_num at hci
              simp [hci, hal2]
            · cases h
              simp
              exact ⟨hal2, by omega⟩
    · cases h
      by_cases hc : in_cmb n prp1 = true <;> simp [hc]

theorem nvme_map_prp_later_segments_aligned_witness :
    (ctrl_4k.page_size = 2 ^ ctrl_4k.page_bits ∧ 0x5000 < 2 ^ 64 ∧
      ctrl_4k.ctrl_mem_addr < 2 ^ 64 ∧
      nvme_map_prp rd_example (fun _ => 0) [] [] 0x1000 0x5000 12288 ctrl_4k =
        some { status := NVME_SUCCESS,
               qsg := [(0x1000, 4096), (0x2000, 4096), (0x3000, 4096)], iov := [] }) ∧
    ((∀ p ∈ [(0x1000, 4096), (0x2000, 4096), (0x3000, 4096)].tail,
        p.1 % ctrl_4k.page_size = 0 ∧ p.2 ≤ ctrl_4k.page_size) ∧
      ([(0x1000, 4096), (0x2000, 4096), (0x3000, 4096)] = ([] : QEMUSGList) →
        ∀ p ∈ ([] : QEMUIOVector).tail,
          (p.1 + ctrl_4k.ctrl_mem_addr) % 2 ^ 64 % ctrl_4k.page_size = 0 ∧
            p.2 ≤ ctrl_4k.page_size)) :=
  ⟨⟨by decide, by decide, by decide, by decide⟩,
    nvme_map_prp_later_segments_aligned rd_example (fun _ => 0) [] [] 0x1000 0x5000 12288
      ctrl_4k { status := NVME_SUCCESS,
                qsg := [(0x1000, 4096), (0x2000, 4096), (0x3000, 4096)], iov := [] }
      (by decide) (by decide) (by decide) (by decide) rfl⟩

/-- C3 as stated fails: for `prp1 = 0x1000`, `prp2 = 0x1001` and `len = 512`
nothing remains after the first segment, so the remainder (0) is at most
`page_size` and `prp2` is not page-aligned, yet `nvme_map_prp` returns success:
`prp2` is looked at only when data remains. -/
theorem nvme_map_prp_unused_prp2_not_checked :
    (nvme_map_prp (fun _ _ => 0) (fun _ => 0) [] [] 0x1000 0x1001 512 ctrl_4k).map
        (fun r => r.status) = some NVME_SUCCESS ∧
      prp_rem ctrl_4k 0x1000 512 ≤ ctrl_4k.page_size ∧ 0x1001 % ctrl_4k.page_size ≠ 0 := by
  decide

/-! ## Completion queue tail -/

theorem lnot_ne (x : Nat) : lnot x ≠ x := by
  unfold lnot; split <;> omega

theorem nvme_inc_cq_tail_eq (cq : NvmeCQueue) (hs : cq.size < 2 ^ 32) (ht : cq.tail < cq.size) :
    nvme_inc_cq_tail cq =
      if cq.tail + 1 < cq.size then { cq with tail := cq.tail + 1 }
      else { cq with tail := 0, phase := lnot cq.phase } := by
  unfold nvme_inc_cq_tail
  have h : (cq.tail + 1) % 2 ^ 32 = cq.tail + 1 := Nat.mod_eq_of_lt (by omega)
  simp only [h]
  split <;> split <;> first | rfl | omega

theorem nvme_inc_cq_tail_iterate (cq : NvmeCQueue) (hs : cq.size < 2 ^ 32)
    (ht : cq.tail < cq.size) :
    ∀ k, k ≤ cq.size → nvme_inc_cq_tail^[k] cq =
      { cq with tail := if cq.tail + k < cq.size then cq.tail + k else cq.tail + k - cq.size,
                phase := if cq.tail + k < cq.size then cq.phase else lnot cq.phase } := by
  intro k
  induction k with
  | zero => intro _; simp [ht]
  | succ k ih =>
    intro hk
    rw [Function.iterate_succ_apply', ih (by omega)]
    refine (nvme_inc_cq_tail_eq _ ?_ ?_).trans ?_
    · exact hs
    · simp only; split <;> omega
    simp only
    by_cases h1 : cq.tail + k < cq.size
    · by_cases h2 : cq.tail + (k + 1) < cq.size
      · have h3 : cq.tail + k + 1 < cq.size := by omega
        simp [h1, h2, h3]; omega
      · have h3 : ¬ cq.tail + k + 1 < cq.size := by omega
        simp [h1, h2, h3]; omega
    · have h2 : ¬ cq.tail + (k + 1) < cq.size := by omega
      have h3 : cq.tail + k - cq.size + 1 < cq.size := by omega
      simp [h1, h2, h3]; omega

/-- C4: for a completion queue with `tail < size` (so `size ≥ 1`; `size` is a
`uint32_t`), `size` applications of `nvme_inc_cq_tail` bring `tail` back to its
starting value and leave `phase` inverted; exactly one of the `size` steps
inverts the phase; and a single step inverts the phase if and only if it wraps
`tail` to 0. -/
theorem nvme_inc_cq_tail_cycle (cq : NvmeCQueue) (hs : cq.size < 2 ^ 32)
    (ht : cq.tail < cq.size) :
    (nvme_inc_cq_tail^[cq.size] cq).tail = cq.tail ∧
    (nvme_inc_cq_tail^[cq.size] cq).phase = lnot cq.phase ∧
    (∃! k, k < cq.size ∧
      (nvme_inc_cq_tail^[k + 1] cq).phase = lnot (nvme_inc_cq_tail^[k] cq).phase) ∧
    ((nvme_inc_cq_tail cq).phase = lnot cq.phase ↔ (nvme_inc_cq_tail cq).tail = 0) := by
  have hit := nvme_inc_cq_tail_iterate cq hs ht
  refine ⟨?_, ?_, ?_, ?_⟩
  · rw [hit _ (Nat.le_refl _)]
    simp
  · rw [hit _ (Nat.le_refl _)]
    simp
  · have key : ∀ k, k < cq.size →
        ((nvme_inc_cq_tail^[k + 1] cq).phase = lnot (nvme_inc_cq_tail^[k] cq).phase ↔
          k = cq.size - 1 - cq.tail) := by
      intro k hk
      rw [hit (k + 1) (by omega), hit k (by omega)]
      simp only
      by_cases h2 : cq.tail + k < cq.size
      · by_cases h3 : cq.tail + (k + 1) < cq.size
        · simp only [h2, h3, if_true]
          constructor
          · intro h; exact absurd h.symm (lnot_ne _)
          · intro h; omega
        · simp only [h2, h3, if_true, if_false, true_iff]
          omega
      · have h3 : ¬ cq.tail + (k + 1) < cq.size := by omega
        simp only [h2, h3, if_false]
        constructor
        · intro h; exact absurd h.symm (lnot_ne _)
        · intro h; omega
    refine ⟨cq.size - 1 - cq.tail, ⟨by omega, (key _ (by omega)).mpr rfl⟩, ?_⟩
    rintro k ⟨hk, hph⟩
    exact (key k hk).mp hph
  · rw [nvme_inc_cq_tail_eq cq hs ht]
    split
    · simp only
      constructor
      · intro h; exact absurd h.symm (lnot_ne _)
      · intro h; omega
    · simp

theorem nvme_inc_cq_tail_cycle_witness :
    (cq_example.size < 2 ^ 32 ∧ cq_example.tail < cq_example.size) ∧
    ((nvme_inc_cq_tail^[cq_example.size] cq_example).tail = cq_example.tail ∧
    (nvme_inc_cq_tail^[cq_example.size] cq_example).phase = lnot cq_example.phase ∧
    (∃! k, k < cq_example.size ∧
      (nvme_inc_cq_tail^[k + 1] cq_example).phase =
        lnot (nvme_inc_cq_tail^[k] cq_example).phase) ∧
    ((nvme_inc_cq_tail cq_example).phase = lnot cq_example.phase ↔
      (nvme_inc_cq_tail cq_example).tail = 0)) :=
  ⟨⟨by decide, by decide⟩, nvme_inc_cq_tail_cycle cq_example (by decide) (by decide)⟩

/-! ## Completion engine -/

theorem getD_set_none {α : Type} (l : List (Option α)) (a i : Nat) (x : Option α)
    (h : a < l.length) :
    (l.set a x).getD i none = if i = a then x else l.getD i none := by
  by_cases hia : i = a
  · subst hia
    simp [List.getD_eq_getElem?_getD, List.getElem?_set, h]
  · simp [List.getD_eq_getElem?_getD, List.getElem?_set, hia, Ne.symm hia]

theorem getD_none_isSome_lt {α : Type} (l : List (Option α)) (i : Nat)
    (h : (l.getD i none).isSome) : i < l.length := by
  by_contra hc
  have : l[i]? = none := List.getElem?_eq_none (by omega)
  simp [List.getD_eq_getElem?_getD, this] at h

theorem sqAt_lt {n : NvmeCtrl} {i : Nat} {s : NvmeSQueue} (h : n.sqAt i = some s) :
    i < n.sq.length :=
  getD_none_isSome_lt n.sq i (by unfold NvmeCtrl.sqAt at h; rw [h]; rfl)

theorem cqAt_lt {n : NvmeCtrl} {i : Nat} {c : NvmeCQueue} (h : n.cqAt i = some c) :
    i < n.cq.length :=
  getD_none_isSome_lt n.cq i (by unfold NvmeCtrl.cqAt at h; rw [h]; rfl)

theorem cq_free_slots_eq (cq : NvmeCQueue) (hh : cq.head < cq.size) (ht : cq.tail < cq.size) :
    cq_free_slots cq =
      if cq.tail < cq.head then cq.head - cq.tail - 1 else cq.head + cq.size - cq.tail - 1 := by
  unfold cq_free_slots
  split
  · have : cq.head + cq.size - cq.tail - 1 = (cq.head - cq.tail - 1) + cq.size := by omega
    rw [this, Nat.add_mod_right, Nat.mod_eq_of_lt (by omega)]
  · exact Nat.mod_eq_of_lt (by omega)

theorem nvme_cq_full_iff (cq : NvmeCQueue) (hs : cq.size < 2 ^ 32) (hh : cq.head < cq.size)
    (ht : cq.tail < cq.size) : nvme_cq_full cq = true ↔ cq_free_slots cq = 0 := by
  rw [cq_free_slots_eq cq hh ht]
  unfold nvme_cq_full
  have h : (cq.tail + 1) % 2 ^ 32 = cq.tail + 1 := Nat.mod_eq_of_lt (by omega)
  rw [h, decide_eq_true_iff]
  by_cases h1 : cq.tail + 1 < cq.size
  · rw [Nat.mod_eq_of_lt h1]
    split <;> omega
  · have h2 : cq.tail + 1 = cq.size := by omega
    rw [h2, Nat.mod_self]
    split <;> omega

theorem post_loop_cons (cqid : Nat) (req : NvmeRequest) (rest : List NvmeRequest)
    (n : NvmeCtrl) (w : List (Nat × NvmeCqe)) (cq : NvmeCQueue) (sq : NvmeSQueue)
    (hcq : n.cqAt cqid = some cq) (hfull : nvme_cq_full cq = false)
    (hsq : n.sqAt req.sq = some sq) :
    nvme_post_cqes_loop cqid (req :: rest) n w =
      nvme_post_cqes_loop cqid rest (post_one n cqid cq sq req rest)
        (w ++ [(nvme_cqe_addr n cq, nvme_format_cqe cq sq req)]) := by
  simp [nvme_post_cqes_loop, hcq, hfull, hsq, post_one]

theorem post_loop_full (cqid : Nat) (req : NvmeRequest) (rest : List NvmeRequest)
    (n : NvmeCtrl) (w : List (Nat × NvmeCqe)) (cq : NvmeCQueue)
    (hcq : n.cqAt cqid = some cq) (hfull : nvme_cq_full cq = true) :
    nvme_post_cqes_loop cqid (req :: rest) n w = some (n, w) := by
  simp [nvme_post_cqes_loop, hcq, hfull]

theorem cq_ring_eq_inc {a b : NvmeCQueue} (h : cq_ring_eq a b) :
    cq_ring_eq (nvme_inc_cq_tail a) (nvme_inc_cq_tail b) := by
  obtain ⟨h1, h2, h3, h4⟩ := h
  unfold nvme_inc_cq_tail cq_ring_eq
  simp only [h1, h2, h3]
  split <;> simp [h4]

theorem cqes_posted_congr (n m : NvmeCtrl) (hnm : sq_heads_eq n m) :
    ∀ (reqs : List NvmeRequest) (a b : NvmeCQueue), cq_ring_eq a b →
      cqes_posted n a reqs = cqes_posted m b reqs := by
  intro reqs
  induction reqs with
  | nil => intro a b _; rfl
  | cons r rs ih =>
    intro a b hab
    unfold cqes_posted
    have hi := hnm.2 r.sq
    cases hn : n.sqAt r.sq with
    | none =>
      rw [hn] at hi
      cases hm : m.sqAt r.sq with
      | none => rfl
      | some s => rw [hm] at hi; simp at hi
    | some s =>
      rw [hn] at hi
      cases hm : m.sqAt r.sq with
      | none => rw [hm] at hi; simp at hi
      | some t =>
        rw [hm] at hi
        simp only [Option.map_some', Option.some.injEq, Prod.mk.injEq] at hi
        simp only
        rw [ih _ _ (cq_ring_eq_inc hab)]
        obtain ⟨h1, h2, h3, h4⟩ := hab
        simp [nvme_cqe_addr, nvme_format_cqe, h1, h2, h4, hnm.1, hi.1, hi.2]

theorem nvme_inc_cq_tail_req_list (c : NvmeCQueue) (l : List NvmeRequest) :
    nvme_inc_cq_tail { c with req_list := l } = { (nvme_inc_cq_tail c) with req_list := l } := by
  unfold nvme_inc_cq_tail
  simp only
  split <;> rfl

theorem nvme_inc_cq_tail_iterate_req_list (k : Nat) :
    ∀ (c : NvmeCQueue) (l : List NvmeRequest),
      nvme_inc_cq_tail^[k] { c with req_list := l } =
        { (nvme_inc_cq_tail^[k] c) with req_list := l } := by
  induction k with
  | zero => intro c l; rfl
  | succ k ih =>
    intro c l
    rw [Function.iterate_succ_apply, Function.iterate_succ_apply, nvme_inc_cq_tail_req_list, ih]

theorem nvme_inc_cq_tail_frame (c : NvmeCQueue) (hs : c.size < 2 ^ 32) (ht : c.tail < c.size) :
    (nvme_inc_cq_tail c).head = c.head ∧ (nvme_inc_cq_tail c).size = c.size ∧
    (nvme_inc_cq_tail c).tail < c.size ∧
    (nvme_inc_cq_tail c).tail = (if c.tail + 1 < c.size then c.tail + 1 else 0) := by
  rw [nvme_inc_cq_tail_eq c hs ht]
  split <;> simp <;> omega

theorem post_one_cqAt (n : NvmeCtrl) (cqid : Nat) (cq : NvmeCQueue) (sq : NvmeSQueue)
    (req : NvmeRequest) (rest : List NvmeRequest) (hcq : n.cqAt cqid = some cq) (j : Nat) :
    (post_one n cqid cq sq req rest).cqAt j =
      if j = cqid then some { (nvme_inc_cq_tail cq) with req_list := rest } else n.cqAt j := by
  unfold post_one NvmeCtrl.cqAt
  simp only
  exact getD_set_none _ _ _ _ (cqAt_lt hcq)

theorem post_one_sqAt (n : NvmeCtrl) (cqid : Nat) (cq : NvmeCQueue) (sq : NvmeSQueue)
    (req : NvmeRequest) (rest : List NvmeRequest) (hsq : n.sqAt req.sq = some sq) (i : Nat) :
    (post_one n cqid cq sq req rest).sqAt i =
      if i = req.sq then some { sq with
        req_list := sq.req_list ++ [{ req with cqe := nvme_format_cqe cq sq req }] }
      else n.sqAt i := by
  unfold post_one NvmeCtrl.sqAt
  simp only
  exact getD_set_none _ _ _ _ (sqAt_lt hsq)

theorem post_one_heads (n : NvmeCtrl) (cqid : Nat) (cq : NvmeCQueue) (sq : NvmeSQueue)
    (req : NvmeRequest) (rest : List NvmeRequest) (hsq : n.sqAt req.sq = some sq) :
    sq_heads_eq (post_one n cqid cq sq req rest) n := by
  refine ⟨rfl, ?_⟩
  intro i
  rw [post_one_sqAt n cqid cq sq req rest hsq]
  split
  · rename_i h; subst h; rw [hsq]; rfl
  · rfl

theorem cq_with_req_list_self (c : NvmeCQueue) (l : List NvmeRequest) (h : c.req_list = l) :
    { c with req_list := l } = c := by
  subst h; rfl

theorem post_loop_spec (cqid : Nat) :
    ∀ (reqs : List NvmeRequest) (n : NvmeCtrl) (w : List (Nat × NvmeCqe)) (cq : NvmeCQueue),
      n.cqAt cqid = some cq → cq.req_list = reqs → cq.head < cq.size → cq.tail < cq.size →
      cq.size < 2 ^ 32 → (∀ r ∈ reqs, (n.sqAt r.sq).isSome) →
      ∃ m, nvme_post_cqes_loop cqid reqs n w =
          some (m, w ++ cqes_posted n cq (reqs.take (min reqs.length (cq_free_slots cq)))) ∧
        PostSpec cqid reqs n cq (min reqs.length (cq_free_slots cq)) m := by
  intro reqs
  induction reqs with
  | nil =>
    intro n w cq hcq hreq hh ht hs hsqs
    refine ⟨n, by simp [nvme_post_cqes_loop, cqes_posted], ?_⟩
    refine ⟨rfl, rfl, rfl, ?_, fun _ _ => rfl, fun _ h => h, ?_⟩
    · simp only [List.length_nil, Nat.zero_min, Function.iterate_zero, id, List.drop_nil]
      rw [hcq, cq_with_req_list_self cq [] hreq]
    · intro i s hs; exact ⟨[], by simp [hs], by simp⟩
  | cons r rest ih =>
    intro n w cq hcq hreq hh ht hs hsqs
    by_cases hfull : nvme_cq_full cq = true
    · have h0 : cq_free_slots cq = 0 := (nvme_cq_full_iff cq hs hh ht).mp hfull
      rw [post_loop_full cqid r rest n w cq hcq hfull, h0]
      refine ⟨n, by simp [cqes_posted], ?_⟩
      refine ⟨rfl, rfl, rfl, ?_, fun _ _ => rfl, fun _ h => h, ?_⟩
      · simp only [Nat.min_zero, Function.iterate_zero, id, List.drop_zero]
        rw [hcq, cq_with_req_list_self cq _ hreq]
      · intro i s hs; exact ⟨[], by simp [hs], by simp⟩
    · have hfull' : nvme_cq_full cq = false := by simpa using hfull
      have hfree : cq_free_slots cq ≠ 0 := fun h => hfull ((nvme_cq_full_iff cq hs hh ht).mpr h)
      obtain ⟨sq, hsq⟩ := Option.isSome_iff_exists.mp (hsqs r (List.mem_cons_self _ _))
      rw [post_loop_cons cqid r rest n w cq sq hcq hfull' hsq]
      obtain ⟨hf1, hf2, hf3, hf4⟩ := nvme_inc_cq_tail_frame cq hs ht
      have hcq1 := post_one_cqAt n cqid cq sq r rest hcq cqid
      simp only [if_true] at hcq1
      have hfree1 : cq_free_slots { (nvme_inc_cq_tail cq) with req_list := rest } =
          cq_free_slots cq - 1 := by
        rw [cq_free_slots_eq _ (by simp only; omega) (by simp only; omega)]
        have := cq_free_slots_eq cq hh ht
        rw [this] at hfree ⊢
        simp only [hf1, hf2, hf4]
        split at hfree <;> split <;> split <;> omega
      have hsqs1 : ∀ q ∈ rest, ((post_one n cqid cq sq r rest).sqAt q.sq).isSome := by
        intro q hq
        rw [post_one_sqAt n cqid cq sq r rest hsq]
        split
        · rfl
        · exact hsqs q (List.mem_cons_of_mem _ hq)
      obtain ⟨m, hm, hspec⟩ := ih (post_one n cqid cq sq r rest)
        (w ++ [(nvme_cqe_addr n cq, nvme_format_cqe cq sq r)])
        { (nvme_inc_cq_tail cq) with req_list := rest } hcq1 rfl
        (by simp only; omega) (by simp only; omega) (by simp only; omega) hsqs1
      rw [hfree1] at hm hspec
      have hk : min (r :: rest).length (cq_free_slots cq) =
          min rest.length (cq_free_slots cq - 1) + 1 := by
        simp only [List.length_cons]; omega
      rw [hk]
      refine ⟨m, ?_, ?_⟩
      · rw [hm, List.take_succ_cons]
        have hc := cqes_posted_congr (post_one n cqid cq sq r rest) n
          (post_one_heads n cqid cq sq r rest hsq)
          (rest.take (min rest.length (cq_free_slots cq - 1)))
          { (nvme_inc_cq_tail cq) with req_list := rest } (nvme_inc_cq_tail cq)
          ⟨rfl, rfl, rfl, rfl⟩
        rw [hc]
        conv_rhs => unfold cqes_posted
        simp [hsq]
      · obtain ⟨p1, p2, p3, p4, p5, p6, p7⟩ := hspec
        refine ⟨?_, ?_, ?_, ?_, ?_, ?_, ?_⟩
        · rw [p1]; rfl
        · rw [p2]; simp [post_one]
        · rw [p3]; simp [post_one]
        · rw [p4, nvme_inc_cq_tail_iterate_req_list, Function.iterate_succ_apply,
            List.drop_succ_cons]
        · intro j hj
          rw [p5 j hj, post_one_cqAt n cqid cq sq r rest hcq, if_neg hj]
        · intro i hi
          apply p6
          rw [post_one_sqAt n cqid cq sq r rest hsq]
          split
          · rename_i h; subst h; rw [hsq] at hi; cases hi
          · exact hi
        · intro i s hi
          by_cases hir : i = r.sq
          · subst hir
            rw [hsq] at hi
            cases hi
            obtain ⟨l, hl1, hl2⟩ := p7 r.sq _ (by
              rw [post_one_sqAt n cqid cq sq r rest hsq, if_pos rfl])
            refine ⟨{ r with cqe := nvme_format_cqe cq sq r } :: l, ?_, ?_⟩
            · rw [hl1]; simp
            · rw [List.take_succ_cons, List.filter_cons_of_pos (by simp)]
              simp only [List.map_cons, hl2]
              rfl
          · obtain ⟨l, hl1, hl2⟩ := p7 i s (by
              rw [post_one_sqAt n cqid cq sq r rest hsq, if_neg hir]; exact hi)
            refine ⟨l, hl1, ?_⟩
            rw [List.take_succ_cons, List.filter_cons_of_neg (by simpa using Ne.symm hir)]
            exact hl2

theorem cqes_posted_length (n : NvmeCtrl) :
    ∀ (reqs : List NvmeRequest) (cq : NvmeCQueue), (∀ r ∈ reqs, (n.sqAt r.sq).isSome) →
      (cqes_posted n cq reqs).length = reqs.length := by
  intro reqs
  induction reqs with
  | nil => intro _ _; rfl
  | cons r rs ih =>
    intro cq h
    obtain ⟨sq, hsq⟩ := Option.isSome_iff_exists.mp (h r (List.mem_cons_self _ _))
    unfold cqes_posted
    simp only [hsq, List.length_cons]
    rw [ih _ (fun q hq => h q (List.mem_cons_of_mem _ hq))]

theorem cqes_posted_getElem? (n : NvmeCtrl) :
    ∀ (reqs : List NvmeRequest) (cq : NvmeCQueue) (j : Nat) (req : NvmeRequest)
      (sq : NvmeSQueue), (∀ r ∈ reqs, (n.sqAt r.sq).isSome) → reqs[j]? = some req →
      n.sqAt req.sq = some sq →
      (cqes_posted n cq reqs)[j]? =
        some (nvme_cqe_addr n (nvme_inc_cq_tail^[j] cq),
          nvme_format_cqe (nvme_inc_cq_tail^[j] cq) sq req) := by
  intro reqs
  induction reqs with
  | nil => intro cq j req sq _ hj _; simp at hj
  | cons r rs ih =>
    intro cq j req sq h hj hsq
    obtain ⟨sq0, hsq0⟩ := Option.isSome_iff_exists.mp (h r (List.mem_cons_self _ _))
    unfold cqes_posted
    simp only [hsq0]
    cases j with
    | zero =>
      simp only [List.getElem?_cons_zero, Option.some.injEq] at hj
      subst hj
      rw [hsq0] at hsq
      cases hsq
      simp
    | succ j =>
      simp only [List.getElem?_cons_succ] at hj ⊢
      rw [ih (nvme_inc_cq_tail cq) j req sq (fun q hq => h q (List.mem_cons_of_mem _ hq)) hj hsq]
      rw [Function.iterate_succ_apply]

theorem nvme_irq_check_frame (a : NvmeCtrl) : irq_frame a (nvme_irq_check a) := by
  unfold nvme_irq_check irq_frame
  split
  · rfl
  · split <;> rfl

theorem irq_frame_trans {a b c : NvmeCtrl} (h1 : irq_frame a b) (h2 : irq_frame b c) :
    irq_frame a c := by
  unfold irq_frame at *
  rw [h2, h1]

theorem nvme_irq_assert_frame (n : NvmeCtrl) (cq : NvmeCQueue) (h : irq_defined n cq) :
    ∃ m, nvme_irq_assert n cq = some m ∧ irq_frame n m := by
  unfold nvme_irq_assert
  split
  · rename_i hen
    split
    · exact ⟨_, rfl, rfl⟩
    · rename_i hmsix
      have hc : cq.cqid < 32 := by
        rcases h with h | h | h
        · exact absurd h hen
        · exact absurd h hmsix
        · exact h
      rw [if_pos (by omega)]
      unfold int_one_shl
      split
      · exact ⟨_, rfl, irq_frame_trans (b := { n with irq_status := n.irq_status ||| 2 ^ cq.cqid })
          rfl (nvme_irq_check_frame _)⟩
      · rw [if_pos (by omega)]
        exact ⟨_, rfl, irq_frame_trans
          (b := { n with irq_status := n.irq_status ||| 0xFFFFFFFF80000000 })
          rfl (nvme_irq_check_frame _)⟩
  · exact ⟨_, rfl, rfl⟩

theorem irq_frame_cqAt {a b : NvmeCtrl} (h : irq_frame a b) (i : Nat) : b.cqAt i = a.cqAt i := by
  unfold irq_frame at h; rw [h]; rfl

theorem irq_frame_sqAt {a b : NvmeCtrl} (h : irq_frame a b) (i : Nat) : b.sqAt i = a.sqAt i := by
  unfold irq_frame at h; rw [h]; rfl

theorem nvme_inc_cq_tail_fields (c : NvmeCQueue) :
    (nvme_inc_cq_tail c).cqid = c.cqid ∧ (nvme_inc_cq_tail c).irq_enabled = c.irq_enabled ∧
    (nvme_inc_cq_tail c).head = c.head ∧ (nvme_inc_cq_tail c).size = c.size ∧
    (nvme_inc_cq_tail c).vector = c.vector ∧ (nvme_inc_cq_tail c).dma_addr = c.dma_addr ∧
    (nvme_inc_cq_tail c).timer = c.timer ∧ (nvme_inc_cq_tail c).sq_list = c.sq_list ∧
    (nvme_inc_cq_tail c).req_list = c.req_list := by
  unfold nvme_inc_cq_tail
  simp only
  split <;> simp

theorem nvme_inc_cq_tail_iterate_fields (k : Nat) : ∀ (c : NvmeCQueue),
    (nvme_inc_cq_tail^[k] c).cqid = c.cqid ∧
    (nvme_inc_cq_tail^[k] c).irq_enabled = c.irq_enabled ∧
    (nvme_inc_cq_tail^[k] c).head = c.head ∧ (nvme_inc_cq_tail^[k] c).size = c.size ∧
    (nvme_inc_cq_tail^[k] c).vector = c.vector ∧
    (nvme_inc_cq_tail^[k] c).dma_addr = c.dma_addr ∧
    (nvme_inc_cq_tail^[k] c).timer = c.timer ∧ (nvme_inc_cq_tail^[k] c).sq_list = c.sq_list ∧
    (nvme_inc_cq_tail^[k] c).req_list = c.req_list := by
  induction k with
  | zero => intro c; simp
  | succ k ih =>
    intro c
    rw [Function.iterate_succ_apply]
    obtain ⟨a1, a2, a3, a4, a5, a6, a7, a8, a9⟩ := ih (nvme_inc_cq_tail c)
    obtain ⟨b1, b2, b3, b4, b5, b6, b7, b8, b9⟩ := nvme_inc_cq_tail_fields c
    exact ⟨a1.trans b1, a2.trans b2, a3.trans b3, a4.trans b4, a5.trans b5, a6.trans b6,
      a7.trans b7, a8.trans b8, a9.trans b9⟩

/-- `nvme_post_cqes` in full: it returns, writes the entries of the first
`min p f` pending requests, and leaves the queues as `PostSpec` says. -/
theorem nvme_post_cqes_spec (n : NvmeCtrl) (cqid : Nat) (cq : NvmeCQueue)
    (hcq : n.cqAt cqid = some cq) (hh : cq.head < cq.size) (ht : cq.tail < cq.size)
    (hs : cq.size < 2 ^ 32) (hsqs : ∀ r ∈ cq.req_list, (n.sqAt r.sq).isSome)
    (hirq : irq_defined n cq) :
    ∃ m1 m, nvme_post_cqes n cqid =
        some (m, cqes_posted n cq
          (cq.req_list.take (min cq.req_list.length (cq_free_slots cq)))) ∧
      PostSpec cqid cq.req_list n cq (min cq.req_list.length (cq_free_slots cq)) m1 ∧
      irq_frame m1 m := by
  obtain ⟨m1, hloop, hspec⟩ := post_loop_spec cqid cq.req_list n [] cq hcq rfl hh ht hs hsqs
  unfold nvme_post_cqes
  simp only [hcq, hloop, List.nil_append]
  have hspec1 := hspec
  obtain ⟨p1, -, -, p4, -⟩ := hspec1
  simp only [p4]
  split
  · have hd : irq_defined m1 { (nvme_inc_cq_tail^[min cq.req_list.length (cq_free_slots cq)] cq)
        with req_list := cq.req_list.drop (min cq.req_list.length (cq_free_slots cq)) } := by
      obtain ⟨a1, a2, -⟩ := nvme_inc_cq_tail_iterate_fields
        (min cq.req_list.length (cq_free_slots cq)) cq
      have hmx : m1.msix_enabled = n.msix_enabled := by rw [p1]
      unfold irq_defined at hirq ⊢
      simp only [a1, a2, hmx]
      exact hirq
    obtain ⟨m, hm, hf⟩ := nvme_irq_assert_frame m1 _ hd
    exact ⟨m1, m, by simp [hm], hspec, hf⟩
  · exact ⟨m1, m1, rfl, hspec, rfl⟩


theorem cqes_posted_map (n : NvmeCtrl) :
    ∀ (reqs : List NvmeRequest) (cq : NvmeCQueue), (∀ r ∈ reqs, (n.sqAt r.sq).isSome) →
      (cqes_posted n cq reqs).map (fun e => (e.2.cid, e.2.result)) =
        reqs.map (fun r => (r.cqe.cid, r.cqe.result)) := by
  intro reqs
  induction reqs with
  | nil => intro _ _; rfl
  | cons r rs ih =>
    intro cq h
    obtain ⟨sq, hsq⟩ := Option.isSome_iff_exists.mp (h r (List.mem_cons_self _ _))
    unfold cqes_posted
    simp only [hsq, List.map_cons]
    rw [ih _ (fun q hq => h q (List.mem_cons_of_mem _ hq))]
    rfl

theorem cq_free_slots_lt (cq : NvmeCQueue) (hh : cq.head < cq.size) :
    cq_free_slots cq < cq.size := Nat.mod_lt _ (by omega)

theorem nvme_irq_assert_irq_frame {n m : NvmeCtrl} {cq : NvmeCQueue}
    (h : nvme_irq_assert n cq = some m) : irq_frame n m := by
  unfold nvme_irq_assert at h
  split at h
  · split at h
    · cases h; rfl
    · split at h
      · cases hm : int_one_shl cq.cqid with
        | none => rw [hm] at h; simp at h
        | some x =>
          rw [hm] at h
          simp only [Option.map_some', Option.some.injEq] at h
          rw [← h]
          exact irq_frame_trans (b := { n with irq_status := n.irq_status ||| x }) rfl
            (nvme_irq_check_frame _)
      · cases h
  · cases h; rfl

/-- `nvme_post_cqes` is its loop, which always runs to its end, followed by
the interrupt: the loop writes the entries of the first `min p f` pending
requests and leaves the queues as `PostSpec` says; then `nvme_irq_assert` is
called if the queue is not empty. -/
theorem nvme_post_cqes_loop_irq (n : NvmeCtrl) (cqid : Nat) (cq : NvmeCQueue)
    (hcq : n.cqAt cqid = some cq) (hh : cq.head < cq.size) (ht : cq.tail < cq.size)
    (hs : cq.size < 2 ^ 32) (hsqs : ∀ r ∈ cq.req_list, (n.sqAt r.sq).isSome) :
    ∃ m1 cq1, nvme_post_cqes_loop cqid cq.req_list n [] =
        some (m1, cqes_posted n cq
          (cq.req_list.take (min cq.req_list.length (cq_free_slots cq)))) ∧
      PostSpec cqid cq.req_list n cq (min cq.req_list.length (cq_free_slots cq)) m1 ∧
      m1.cqAt cqid = some cq1 ∧
      cq1 = { (nvme_inc_cq_tail^[min cq.req_list.length (cq_free_slots cq)] cq) with
              req_list := cq.req_list.drop (min cq.req_list.length (cq_free_slots cq)) } ∧
      nvme_post_cqes n cqid =
        (if cq1.tail ≠ cq1.head then
          (nvme_irq_assert m1 cq1).map fun m => (m, cqes_posted n cq
            (cq.req_list.take (min cq.req_list.length (cq_free_slots cq))))
         else some (m1, cqes_posted n cq
            (cq.req_list.take (min cq.req_list.length (cq_free_slots cq))))) ∧
      (irq_defined n cq → ∃ m, nvme_irq_assert m1 cq1 = some m) := by
  obtain ⟨m1, hloop, hspec⟩ := post_loop_spec cqid cq.req_list n [] cq hcq rfl hh ht hs hsqs
  rw [List.nil_append] at hloop
  have hspec1 := hspec
  obtain ⟨p1, -, -, p4, -⟩ := hspec1
  refine ⟨m1, _, hloop, hspec, p4, rfl, ?_, ?_⟩
  · unfold nvme_post_cqes
    simp only [hcq, hloop, p4]
  · intro hirq
    have hd : irq_defined m1 { (nvme_inc_cq_tail^[min cq.req_list.length (cq_free_slots cq)] cq)
        with req_list := cq.req_list.drop (min cq.req_list.length (cq_free_slots cq)) } := by
      obtain ⟨a1, a2, -⟩ := nvme_inc_cq_tail_iterate_fields
        (min cq.req_list.length (cq_free_slots cq)) cq
      have hmx : m1.msix_enabled = n.msix_enabled := by rw [p1]
      unfold irq_defined at hirq ⊢
      simp only [a1, a2, hmx]
      exact hirq
    obtain ⟨m, hm, -⟩ := nvme_irq_assert_frame m1 _ hd
    exact ⟨m, hm⟩

/-- What a run of `nvme_post_cqes` returns, if it returns, given its loop. -/
theorem nvme_post_cqes_of_loop {n m1 m : NvmeCtrl} {cqid : Nat} {cq1 : NvmeCQueue}
    {w w1 : List (Nat × NvmeCqe)}
    (he : nvme_post_cqes n cqid =
      (if cq1.tail ≠ cq1.head then (nvme_irq_assert m1 cq1).map fun m => (m, w)
       else some (m1, w)))
    (hc : m1.cqAt cqid = some cq1)
    (h : nvme_post_cqes n cqid = some (m, w1)) : w1 = w ∧ m.cqAt cqid = some cq1 := by
  rw [he] at h
  split at h
  · cases ha : nvme_irq_assert m1 cq1 with
    | none => rw [ha] at h; simp at h
    | some m2 =>
      rw [ha] at h
      simp only [Option.map_some', Option.some.injEq, Prod.mk.injEq] at h
      rw [← h.1, ← h.2, irq_frame_cqAt (nvme_irq_assert_irq_frame ha)]
      exact ⟨rfl, hc⟩
  · simp only [Option.some.injEq, Prod.mk.injEq] at h
    rw [← h.1, ← h.2]
    exact ⟨rfl, hc⟩

theorem nvme_post_cqes_some_of_loop {n m1 : NvmeCtrl} {cqid : Nat} {cq1 : NvmeCQueue}
    {w : List (Nat × NvmeCqe)}
    (he : nvme_post_cqes n cqid =
      (if cq1.tail ≠ cq1.head then (nvme_irq_assert m1 cq1).map fun m => (m, w)
       else some (m1, w)))
    (hd : ∃ m, nvme_irq_assert m1 cq1 = some m) : ∃ m, nvme_post_cqes n cqid = some (m, w) := by
  rw [he]
  split
  · obtain ⟨m, hm⟩ := hd
    exact ⟨m, by rw [hm]; rfl⟩
  · exact ⟨m1, rfl⟩

set_option maxRecDepth 8192 in
/-- C5: the completion entries of a run of `nvme_post_cqes` are written by its
loop, which runs to its end for every completion queue; the interrupt is
raised after the loop (`nvme_irq_assert`, called when the queue is not empty),
so every run that returns has written exactly the entries of the loop, and the
run returns whenever the interrupt of the queue is one that
`nvme_irq_assert` can signal.  The `j`-th entry written belongs to the `j`-th
pending request; its status field is `((req.status << 1) | p) mod 2^16` with
`p` the phase before the tail is advanced for that entry, its `sq_id` and
`sq_head` are the id and the current head of the owning submission queue, and
it is written at `cq.dma_addr + t * cqe_size` with `t` the tail before the
advance.  (The hypotheses are the ranges of the C types and that the ring lies
in the 64-bit address space.)  In the scenario of the spec the first
completion on the freshly enabled admin queue after one successful command,
an Identify answered by the handler of the scenario or a Create I/O Completion
Queue executed by `nvme_create_cq`, has status 0, phase 1 and `sq_head` 1. -/
theorem nvme_post_cqes_entries (n : NvmeCtrl) (cqid : Nat) (cq : NvmeCQueue)
    (hcq : n.cqAt cqid = some cq) (hh : cq.head < cq.size) (ht : cq.tail < cq.size)
    (hs : cq.size ≤ 2 ^ 16) (hcqe : n.cqe_size < 2 ^ 16)
    (hdma64 : cq.dma_addr < 2 ^ 64) (hfit : cq.dma_addr + cq.size * n.cqe_size ≤ 2 ^ 64)
    (hsqs : ∀ r ∈ cq.req_list, ∃ sq ∈ n.sqAt r.sq, sq.head < 2 ^ 16) :
    (∃ m1 cq1 w, nvme_post_cqes_loop cqid cq.req_list n [] = some (m1, w) ∧
      m1.cqAt cqid = some cq1 ∧
      nvme_post_cqes n cqid =
        (if cq1.tail ≠ cq1.head then (nvme_irq_assert m1 cq1).map fun m => (m, w)
         else some (m1, w)) ∧
      (∀ m w1, nvme_post_cqes n cqid = some (m, w1) → w1 = w) ∧
      (irq_defined n cq → ∃ m, nvme_post_cqes n cqid = some (m, w)) ∧
      ∀ j, j < w.length → ∃ req sq, cq.req_list[j]? = some req ∧ n.sqAt req.sq = some sq ∧
        w[j]? = some (cq.dma_addr + (nvme_inc_cq_tail^[j] cq).tail * n.cqe_size,
          { req.cqe with
            status := ((req.status <<< 1) ||| (nvme_inc_cq_tail^[j] cq).phase) % 2 ^ 16,
            sq_id := sq.sqid, sq_head := sq.head })) ∧
    scenario_identify.map (fun r => r.2) =
      some [(0x200000, { cid := 7, sq_id := 0, sq_head := 1,
                         status := (NVME_SUCCESS <<< 1) ||| 1 })] ∧
    scenario_create_cq.map (fun r => r.2) =
      some [(0x200000, { cid := 7, sq_id := 0, sq_head := 1,
                         status := (NVME_SUCCESS <<< 1) ||| 1 })] := by
  refine ⟨?_, by decide, by decide⟩
  · have hs32 : cq.size < 2 ^ 32 := by
      have : (2 : Nat) ^ 16 < 2 ^ 32 := by norm_num
      omega
    have hsome : ∀ r ∈ cq.req_list, (n.sqAt r.sq).isSome := by
      intro r hr; obtain ⟨sq, h1, -⟩ := hsqs r hr; simp [Option.mem_def.mp h1]
    obtain ⟨m1, cq1, hloop, -, hc1, -, he, hdef⟩ :=
      nvme_post_cqes_loop_irq n cqid cq hcq hh ht hs32 hsome
    refine ⟨m1, cq1, _, hloop, hc1, he,
      fun m w1 h => (nvme_post_cqes_of_loop he hc1 h).1,
      fun hirq => nvme_post_cqes_some_of_loop he (hdef hirq), ?_⟩
    intro j hj
    have htake : ∀ r ∈ cq.req_list.take (min cq.req_list.length (cq_free_slots cq)),
        (n.sqAt r.sq).isSome := fun r hr => hsome r (List.mem_of_mem_take hr)
    rw [cqes_posted_length n _ cq htake] at hj
    have hjlen : j < cq.req_list.length := by
      rw [List.length_take] at hj; omega
    have hjfree : j < cq_free_slots cq := by
      rw [List.length_take] at hj; omega
    have hreq : cq.req_list[j]? = some cq.req_list[j] := List.getElem?_eq_getElem hjlen
    obtain ⟨sq, hsq0, hhead⟩ := hsqs cq.req_list[j] (List.getElem_mem _)
    have hsq : n.sqAt cq.req_list[j].sq = some sq := Option.mem_def.mp hsq0
    refine ⟨cq.req_list[j], sq, hreq, hsq, ?_⟩
    have hreq2 : (cq.req_list.take (min cq.req_list.length (cq_free_slots cq)))[j]? =
        some cq.req_list[j] := by
      rw [List.getElem?_take_of_lt (by omega)]
      exact hreq
    rw [cqes_posted_getElem? n _ cq j _ sq htake hreq2 hsq]
    have hjs : j ≤ cq.size := by
      have := cq_free_slots_lt cq hh; omega
    have hit := nvme_inc_cq_tail_iterate cq hs32 ht j hjs
    have htl : (nvme_inc_cq_tail^[j] cq).tail < cq.size := by
      rw [hit]; simp only; split <;> omega
    have hdma : (nvme_inc_cq_tail^[j] cq).dma_addr = cq.dma_addr :=
      (nvme_inc_cq_tail_iterate_fields j cq).2.2.2.2.2.1
    have hprod : (nvme_inc_cq_tail^[j] cq).tail * n.cqe_size < cq.size * n.cqe_size ∨
        n.cqe_size = 0 := by
      rcases Nat.eq_zero_or_pos n.cqe_size with h0 | h0
      · exact Or.inr h0
      · exact Or.inl (Nat.mul_lt_mul_of_pos_right htl h0)
    have hle : (nvme_inc_cq_tail^[j] cq).tail * n.cqe_size ≤ cq.size * n.cqe_size :=
      Nat.mul_le_mul_right _ (Nat.le_of_lt htl)
    have hb : cq.size * n.cqe_size ≤ 2 ^ 16 * 2 ^ 16 :=
      Nat.mul_le_mul hs (Nat.le_of_lt hcqe)
    have h32 : (nvme_inc_cq_tail^[j] cq).tail * n.cqe_size < 2 ^ 32 := by
      rcases hprod with h | h
      · calc _ < cq.size * n.cqe_size := h
          _ ≤ 2 ^ 16 * 2 ^ 16 := hb
          _ = 2 ^ 32 := by norm_num
      · rw [h]; simp
    have h64 : cq.dma_addr + (nvme_inc_cq_tail^[j] cq).tail * n.cqe_size < 2 ^ 64 := by
      rcases hprod with h | h
      · omega
      · rw [h]; simpa using hdma64
    unfold nvme_cqe_addr nvme_format_cqe
    rw [hdma, Nat.mod_eq_of_lt h32, Nat.mod_eq_of_lt h64, Nat.mod_eq_of_lt hhead]

theorem nvme_post_cqes_entries_witness :
    (ctrl_pending.cqAt 0 = some cq_pending ∧ cq_pending.head < cq_pending.size ∧
      cq_pending.tail < cq_pending.size ∧ cq_pending.size ≤ 2 ^ 16 ∧
      ctrl_pending.cqe_size < 2 ^ 16 ∧ cq_pending.dma_addr < 2 ^ 64 ∧
      cq_pending.dma_addr + cq_pending.size * ctrl_pending.cqe_size ≤ 2 ^ 64 ∧
      (∀ r ∈ cq_pending.req_list, ∃ sq ∈ ctrl_pending.sqAt r.sq, sq.head < 2 ^ 16)) ∧
    (nvme_post_cqes ctrl_pending 0).map (fun r => r.2) =
      some [(0x200020, { cid := 10, sq_id := 0, sq_head := 3, status := 1 })] ∧
    ∃ m1 cq1 w, nvme_post_cqes_loop 0 cq_pending.req_list ctrl_pending [] = some (m1, w) ∧
      m1.cqAt 0 = some cq1 ∧
      (∀ m w1, nvme_post_cqes ctrl_pending 0 = some (m, w1) → w1 = w) ∧
      ∀ j, j < w.length → ∃ req sq, cq_pending.req_list[j]? = some req ∧
        ctrl_pending.sqAt req.sq = some sq ∧
        w[j]? = some (cq_pending.dma_addr +
            (nvme_inc_cq_tail^[j] cq_pending).tail * ctrl_pending.cqe_size,
          { req.cqe with
            status := ((req.status <<< 1) ||| (nvme_inc_cq_tail^[j] cq_pending).phase) % 2 ^ 16,
            sq_id := sq.sqid, sq_head := sq.head }) :=
  ⟨⟨rfl, by decide, by decide, by decide, by decide, by decide, by decide, by decide⟩,
    by decide,
    match (nvme_post_cqes_entries ctrl_pending 0 cq_pending rfl (by decide) (by decide)
      (by decide) (by decide) (by decide) (by decide) (by decide)).1 with
    | ⟨m1, cq1, w, h1, h2, _, h4, _, h6⟩ => ⟨m1, cq1, w, h1, h2, h4, h6⟩⟩

/-- C6: for a completion queue with `head < size` and `tail < size`, one run
of `nvme_post_cqes` writes exactly `min p f` entries, `p` the length of the
pending list and `f = (head - tail - 1) mod size`; they are the entries of the
first `min p f` pending requests in order, and the others stay pending in
their order.  When the queue is full nothing is written and tail, phase and
pending list are unchanged.  The entries are written by the loop of the
function, which runs to its end for every such queue and leaves the queue
`cq1`; the interrupt is raised afterwards, so every run that returns has
written these entries and left `cq1`, and the run returns whenever the
interrupt of the queue is one that `nvme_irq_assert` can signal. -/
theorem nvme_post_cqes_count (n : NvmeCtrl) (cqid : Nat) (cq : NvmeCQueue)
    (hcq : n.cqAt cqid = some cq) (hh : cq.head < cq.size) (ht : cq.tail < cq.size)
    (hs : cq.size < 2 ^ 32) (hsqs : ∀ r ∈ cq.req_list, (n.sqAt r.sq).isSome) :
    ∃ m1 w cq1, nvme_post_cqes_loop cqid cq.req_list n [] = some (m1, w) ∧
      m1.cqAt cqid = some cq1 ∧
      w.length = min cq.req_list.length (cq_free_slots cq) ∧
      w.map (fun e => (e.2.cid, e.2.result)) =
        (cq.req_list.take w.length).map (fun r => (r.cqe.cid, r.cqe.result)) ∧
      cq1.req_list = cq.req_list.drop w.length ∧
      (nvme_cq_full cq = true →
        w = [] ∧ cq1.tail = cq.tail ∧ cq1.phase = cq.phase ∧ cq1.req_list = cq.req_list) ∧
      nvme_post_cqes n cqid =
        (if cq1.tail ≠ cq1.head then (nvme_irq_assert m1 cq1).map fun m => (m, w)
         else some (m1, w)) ∧
      (∀ m w1, nvme_post_cqes n cqid = some (m, w1) → w1 = w ∧ m.cqAt cqid = some cq1) ∧
      (irq_defined n cq → ∃ m, nvme_post_cqes n cqid = some (m, w)) := by
  obtain ⟨m1, cq1, hloop, -, hc1, hcq1, he, hdef⟩ :=
    nvme_post_cqes_loop_irq n cqid cq hcq hh ht hs hsqs
  have htake : ∀ r ∈ cq.req_list.take (min cq.req_list.length (cq_free_slots cq)),
      (n.sqAt r.sq).isSome := fun r hr => hsqs r (List.mem_of_mem_take hr)
  have hlen : (cqes_posted n cq
      (cq.req_list.take (min cq.req_list.length (cq_free_slots cq)))).length =
      min cq.req_list.length (cq_free_slots cq) := by
    rw [cqes_posted_length n _ cq htake, List.length_take]
    omega
  refine ⟨m1, _, cq1, hloop, hc1, hlen, ?_, ?_, ?_, he,
    fun m w1 h => nvme_post_cqes_of_loop he hc1 h,
    fun hirq => nvme_post_cqes_some_of_loop he (hdef hirq)⟩
  · rw [hlen, cqes_posted_map n _ cq htake]
  · rw [hlen, hcq1]
  · intro hfull
    have h0 : cq_free_slots cq = 0 := (nvme_cq_full_iff cq hs hh ht).mp hfull
    rw [hcq1]
    simp [h0, cqes_posted]

theorem nvme_post_cqes_count_witness :
    (ctrl_pending.cqAt 0 = some cq_pending ∧ cq_pending.head < cq_pending.size ∧
      cq_pending.tail < cq_pending.size ∧ cq_pending.size < 2 ^ 32 ∧
      (∀ r ∈ cq_pending.req_list, (ctrl_pending.sqAt r.sq).isSome)) ∧
    min cq_pending.req_list.length (cq_free_slots cq_pending) = 1 ∧
    ((nvme_post_cqes ctrl_pending 0).map (fun r => r.2.length) = some 1 ∧
      (nvme_post_cqes ctrl_pending 0).map
        (fun r => (r.1.cqAt 0).map (fun c => c.req_list.length)) = some (some 2)) ∧
    ∃ m1 w cq1, nvme_post_cqes_loop 0 cq_pending.req_list ctrl_pending [] = some (m1, w) ∧
      m1.cqAt 0 = some cq1 ∧
      w.length = min cq_pending.req_list.length (cq_free_slots cq_pending) ∧
      w.map (fun e => (e.2.cid, e.2.result)) =
        (cq_pending.req_list.take w.length).map (fun r => (r.cqe.cid, r.cqe.result)) ∧
      cq1.req_list = cq_pending.req_list.drop w.length ∧
      (∀ m w1, nvme_post_cqes ctrl_pending 0 = some (m, w1) →
        w1 = w ∧ m.cqAt 0 = some cq1) :=
  ⟨⟨rfl, by decide, by decide, by decide, by decide⟩,
    by decide, ⟨by decide, by decide⟩,
    match nvme_post_cqes_count ctrl_pending 0 cq_pending rfl (by decide) (by decide) (by decide)
      (by decide) with
    | ⟨m1, w, cq1, h1, h2, h3, h4, h5, _, _, h8, _⟩ => ⟨m1, w, cq1, h1, h2, h3, h4, h5, h8⟩⟩

/-! ## Doorbells -/

theorem and_ffff (v : Nat) : v &&& 0xffff = v % 2 ^ 16 :=
  Nat.and_pow_two_sub_one_eq_mod v 16

theorem db_aligned (addr : Nat) : (addr &&& ((1 <<< 2) - 1) ≠ 0) ↔ addr % 4 ≠ 0 := by
  have : addr &&& ((1 <<< 2) - 1) = addr % 4 := Nat.and_pow_two_sub_one_eq_mod addr 2
  rw [this]

theorem db_sq_decode (qid : Nat) (hq : qid < 2 ^ 16) :
    (((0x1000 + 8 * qid + 2 ^ 64 - 0x1000) % 2 ^ 64) >>> 2) &&& 1 = 0 ∧
    (((0x1000 + 8 * qid + 2 ^ 64 - 0x1000) % 2 ^ 64) >>> 3) % 2 ^ 32 = qid := by
  have h1 : (0x1000 + 8 * qid + 2 ^ 64 - 0x1000) % 2 ^ 64 = 8 * qid := by
    norm_num at hq ⊢; omega
  rw [h1, Nat.and_one_is_mod, Nat.shiftRight_eq_div_pow, Nat.shiftRight_eq_div_pow]
  norm_num at hq ⊢
  omega

theorem db_cq_decode (qid : Nat) (hq : qid < 2 ^ 16) :
    (((0x1000 + 8 * qid + 4 + 2 ^ 64 - 0x1000) % 2 ^ 64) >>> 2) &&& 1 = 1 ∧
    (((0x1000 + 8 * qid + 4 + 2 ^ 64 - (0x1000 + (1 <<< 2))) % 2 ^ 64) >>> 3) % 2 ^ 32 = qid := by
  have h1 : (0x1000 + 8 * qid + 4 + 2 ^ 64 - 0x1000) % 2 ^ 64 = 8 * qid + 4 := by
    norm_num at hq ⊢; omega
  have h2 : (0x1000 + 8 * qid + 4 + 2 ^ 64 - (0x1000 + (1 <<< 2))) % 2 ^ 64 = 8 * qid := by
    norm_num at hq ⊢; omega
  rw [h1, h2, Nat.and_one_is_mod, Nat.shiftRight_eq_div_pow, Nat.shiftRight_eq_div_pow]
  norm_num at hq ⊢
  omega

/-- What a doorbell write to the submission queue `qid` does. -/
theorem nvme_process_db_sq (now : Nat) (n : NvmeCtrl) (qid val : Nat) (sq : NvmeSQueue)
    (hq : qid < 2 ^ 16) (hnq : qid < n.num_queues) (hsq : n.sqAt qid = some sq) :
    nvme_process_db now n (0x1000 + 8 * qid) val =
      if val % 2 ^ 16 ≥ sq.size then some n
      else
        let sq1 := { sq with tail := val % 2 ^ 16, timer := some (now + 500) }
        some { n with sq := n.sq.set qid (some sq1) } := by
  obtain ⟨d1, d2⟩ := db_sq_decode qid hq
  unfold nvme_process_db
  have ha : ¬ ((0x1000 + 8 * qid) &&& ((1 <<< 2) - 1) ≠ 0) := by
    rw [db_aligned]; omega
  rw [if_neg ha]
  simp only [d1, d2, ne_eq, not_true_eq_false, if_false]
  have hc : nvme_check_sqid n (qid % 2 ^ 16) = 0 := by
    rw [Nat.mod_eq_of_lt hq]
    unfold nvme_check_sqid
    simp [hnq, hsq]
  simp only [hc, not_true_eq_false, if_false, hsq, and_ffff]

/-- What a doorbell write to the completion queue `qid` does. -/
theorem nvme_process_db_cq (now : Nat) (n : NvmeCtrl) (qid val : Nat) (cq : NvmeCQueue)
    (hq : qid < 2 ^ 16) (hnq : qid < n.num_queues) (hcq : n.cqAt qid = some cq) :
    nvme_process_db now n (0x1000 + 8 * qid + 4) val =
      if val % 2 ^ 16 ≥ cq.size then some n
      else
        let cq1 := { cq with head := val % 2 ^ 16 }
        let n1 := { n with cq := n.cq.set qid (some cq1) }
        let n2 :=
          if nvme_cq_full cq then
            let m := arm_sq_timers now n1 cq1.sq_list
            { m with cq := m.cq.set qid (some { cq1 with timer := some (now + 500) }) }
          else n1
        if cq1.tail = cq1.head then nvme_irq_deassert n2 cq1 else some n2 := by
  obtain ⟨d1, d2⟩ := db_cq_decode qid hq
  unfold nvme_process_db
  have ha : ¬ ((0x1000 + 8 * qid + 4) &&& ((1 <<< 2) - 1) ≠ 0) := by
    rw [db_aligned]; omega
  rw [if_neg ha]
  simp only [d1, d2, ne_eq, one_ne_zero, not_false_eq_true, if_true]
  have hc : nvme_check_cqid n (qid % 2 ^ 16) = 0 := by
    rw [Nat.mod_eq_of_lt hq]
    unfold nvme_check_cqid
    simp [hnq, hcq]
  simp only [hc, not_true_eq_false, if_false, hcq, and_ffff]

theorem nvme_mmio_write_db (now : Nat) (n : NvmeCtrl) (addr data size : Nat)
    (h : 0x1000 ≤ addr) :
    nvme_mmio_write now n addr data size = nvme_process_db now n addr (data % 2 ^ 32) := by
  unfold nvme_mmio_write sizeof_NvmeBar
  rw [if_neg (by omega), if_pos (by omega)]

theorem arm_sq_timers_frame (now : Nat) :
    ∀ (l : List Nat) (n : NvmeCtrl),
      arm_sq_timers now n l = { n with sq := (arm_sq_timers now n l).sq } ∧
      (arm_sq_timers now n l).sq.length = n.sq.length ∧
      ∀ i, ((arm_sq_timers now n l).sqAt i).map sq_untimed = (n.sqAt i).map sq_untimed := by
  intro l
  induction l with
  | nil => intro n; exact ⟨rfl, rfl, fun _ => rfl⟩
  | cons a l ih =>
    intro n
    unfold arm_sq_timers
    rw [List.foldl_cons]
    cases hsq : n.sqAt a with
    | none =>
      simp only
      exact ih n
    | some sq =>
      simp only
      obtain ⟨h1, h2, h3⟩ := ih { n with sq := n.sq.set a (some { sq with timer := some (now + 500) }) }
      unfold arm_sq_timers at h1 h2 h3
      refine ⟨?_, ?_, ?_⟩
      · rw [h1]
      · rw [h2]; simp
      · intro i
        rw [h3 i]
        unfold NvmeCtrl.sqAt
        simp only
        rw [getD_set_none _ _ _ _ (sqAt_lt hsq)]
        split
        · rename_i h; subst h
          unfold NvmeCtrl.sqAt at hsq
          rw [hsq]; rfl
        · rfl

theorem nvme_irq_deassert_frame (n : NvmeCtrl) (cq : NvmeCQueue) (h : irq_defined n cq) :
    ∃ m, nvme_irq_deassert n cq = some m ∧ irq_frame n m := by
  unfold nvme_irq_deassert
  split
  · rename_i hen
    split
    · exact ⟨_, rfl, rfl⟩
    · rename_i hmsix
      have hc : cq.cqid < 32 := by
        rcases h with h | h | h
        · exact absurd h hen
        · exact absurd h hmsix
        · exact h
      rw [if_pos (by omega)]
      unfold int_not_one_shl
      split
      · exact ⟨_, rfl, irq_frame_trans
          (b := { n with irq_status := n.irq_status &&& (0xFFFFFFFFFFFFFFFF - 2 ^ cq.cqid) })
          rfl (nvme_irq_check_frame _)⟩
      · rw [if_pos (by omega)]
        exact ⟨_, rfl, irq_frame_trans
          (b := { n with irq_status := n.irq_status &&& 0x7FFFFFFF })
          rfl (nvme_irq_check_frame _)⟩
  · exact ⟨_, rfl, rfl⟩

theorem nvme_irq_deassert_irq_frame {n m : NvmeCtrl} {cq : NvmeCQueue}
    (h : nvme_irq_deassert n cq = some m) : irq_frame n m := by
  unfold nvme_irq_deassert at h
  split at h
  · split at h
    · cases h; rfl
    · split at h
      · cases hm : int_not_one_shl cq.cqid with
        | none => rw [hm] at h; simp at h
        | some x =>
          rw [hm] at h
          simp only [Option.map_some', Option.some.injEq] at h
          rw [← h]
          exact irq_frame_trans (b := { n with irq_status := n.irq_status &&& x }) rfl
            (nvme_irq_check_frame _)
      · cases h
  · cases h; rfl

theorem mod_pow16_of_mod_pow32 (v : Nat) : v % 2 ^ 32 % 2 ^ 16 = v % 2 ^ 16 :=
  Nat.mod_mod_of_dvd v (by norm_num)

/-- A write to the head doorbell of the existing completion queue `qid` whose
low 16 bits `v mod 2^16` are below the size: the head is stored in a state `n2`
that otherwise differs from `n` in timers only, and `nvme_irq_deassert` is
called on `n2` exactly when the new head equals the tail. -/
theorem nvme_cq_doorbell_head (now : Nat) (n : NvmeCtrl) (qid v size : Nat) (cq : NvmeCQueue)
    (hq : qid < 2 ^ 16) (hnq : qid < n.num_queues) (hcq : n.cqAt qid = some cq)
    (hv : v % 2 ^ 16 < cq.size) :
    ∃ n2 : NvmeCtrl,
      nvme_mmio_write now n (0x1000 + 8 * qid + 4) v size =
        (if cq.tail = v % 2 ^ 16 then nvme_irq_deassert n2 { cq with head := v % 2 ^ 16 }
         else some n2) ∧
      n2.msix_enabled = n.msix_enabled ∧
      (n2.cqAt qid).map (fun c => c.head) = some (v % 2 ^ 16) ∧
      ∀ i, (n2.sqAt i).map sq_untimed = (n.sqAt i).map sq_untimed := by
  rw [nvme_mmio_write_db now n _ v size (by omega),
    nvme_process_db_cq now n qid _ cq hq hnq hcq, mod_pow16_of_mod_pow32, if_neg (by omega)]
  simp only
  by_cases hfull : nvme_cq_full cq = true
  · rw [if_pos hfull]
    obtain ⟨a1, a2, a3⟩ := arm_sq_timers_frame now cq.sq_list
      { n with cq := n.cq.set qid (some { cq with head := v % 2 ^ 16 }) }
    refine ⟨_, rfl, ?_, ?_, ?_⟩
    · rw [a1]
    · unfold NvmeCtrl.cqAt
      simp only
      rw [getD_set_none _ _ _ _ (by rw [a1]; simp; exact cqAt_lt hcq), if_pos rfl]
      rfl
    · intro i
      exact a3 i
  · rw [if_neg hfull]
    refine ⟨_, rfl, rfl, ?_, fun i => rfl⟩
    unfold NvmeCtrl.cqAt
    rw [getD_set_none _ _ _ _ (cqAt_lt hcq), if_pos rfl]
    rfl

theorem sq_untimed_heads (a b : Option NvmeSQueue) (hab : a.map sq_untimed = b.map sq_untimed) :
    a.map (fun s => (s.head, s.tail)) = b.map (fun s => (s.head, s.tail)) := by
  have := congrArg (Option.map (fun s : NvmeSQueue => (s.head, s.tail))) hab
  simpa [Option.map_map, Function.comp, sq_untimed] using this

/-- C8: for a queue id `qid` whose queue exists and a value `v` smaller than the
queue's size, a doorbell write of `v` to `0x1000 + 8*qid` sets `sq[qid].tail`
to `v` and changes no completion queue, and a write of `v` to
`0x1000 + 8*qid + 4` sets `cq[qid].head` to `v` and changes the head and tail of
no submission queue: the head is stored in a state `n2` with these properties,
after which `nvme_irq_deassert` is called if the new head equals the tail, and
every state the write returns has them too.  The write returns whenever the
new head differs from the tail or the interrupt of the queue is one whose
deassertion is defined.  (Queue ids and sizes are 16-bit.) -/
theorem nvme_doorbell_write (now : Nat) (n : NvmeCtrl) (qid v size : Nat)
    (hq : qid < 2 ^ 16) (hnq : qid < n.num_queues) :
    (∀ sq, n.sqAt qid = some sq → sq.size ≤ 2 ^ 16 → v < sq.size →
      ∃ m, nvme_mmio_write now n (0x1000 + 8 * qid) v size = some m ∧
        (m.sqAt qid).map (fun s => s.tail) = some v ∧ m.cq = n.cq) ∧
    (∀ cq, n.cqAt qid = some cq → cq.size ≤ 2 ^ 16 → v < cq.size →
      (∃ n2 : NvmeCtrl,
        nvme_mmio_write now n (0x1000 + 8 * qid + 4) v size =
          (if cq.tail = v then nvme_irq_deassert n2 { cq with head := v } else some n2) ∧
        (n2.cqAt qid).map (fun c => c.head) = some v ∧
        ∀ i, (n2.sqAt i).map (fun s => (s.head, s.tail)) =
          (n.sqAt i).map (fun s => (s.head, s.tail))) ∧
      (∀ m, nvme_mmio_write now n (0x1000 + 8 * qid + 4) v size = some m →
        (m.cqAt qid).map (fun c => c.head) = some v ∧
        ∀ i, (m.sqAt i).map (fun s => (s.head, s.tail)) =
          (n.sqAt i).map (fun s => (s.head, s.tail))) ∧
      (cq.tail ≠ v ∨ irq_defined n cq →
        ∃ m, nvme_mmio_write now n (0x1000 + 8 * qid + 4) v size = some m)) := by
  have h16 : (2 : Nat) ^ 16 < 2 ^ 32 := by norm_num
  constructor
  · intro sq hsq hsz hv
    have hv32 : v % 2 ^ 32 = v := Nat.mod_eq_of_lt (by omega)
    have hv16 : v % 2 ^ 16 = v := Nat.mod_eq_of_lt (by omega)
    rw [nvme_mmio_write_db now n _ v size (by omega), hv32,
      nvme_process_db_sq now n qid v sq hq hnq hsq, hv16, if_neg (by omega)]
    refine ⟨_, rfl, ?_, rfl⟩
    unfold NvmeCtrl.sqAt
    simp only
    rw [getD_set_none _ _ _ _ (sqAt_lt hsq), if_pos rfl]
    rfl
  · intro cq hcq hsz hv
    have hv16 : v % 2 ^ 16 = v := Nat.mod_eq_of_lt (by omega)
    obtain ⟨n2, e, hm, hc, hsq⟩ := nvme_cq_doorbell_head now n qid v size cq hq hnq hcq
      (by rw [hv16]; exact hv)
    rw [hv16] at e hc
    refine ⟨⟨n2, e, hc, fun i => sq_untimed_heads _ _ (hsq i)⟩, ?_, ?_⟩
    · intro m hm1
      rw [e] at hm1
      split at hm1
      · have hf := nvme_irq_deassert_irq_frame hm1
        refine ⟨by rw [irq_frame_cqAt hf]; exact hc, fun i => ?_⟩
        rw [irq_frame_sqAt hf]
        exact sq_untimed_heads _ _ (hsq i)
      · cases hm1
        exact ⟨hc, fun i => sq_untimed_heads _ _ (hsq i)⟩
    · intro hd
      rw [e]
      split
      · rename_i ht
        have hirq : irq_defined n cq := hd.elim (fun h => absurd ht h) id
        have hd2 : irq_defined n2 { cq with head := v } := by
          unfold irq_defined at hirq ⊢
          simp only [hm]
          exact hirq
        obtain ⟨m, h1, -⟩ := nvme_irq_deassert_frame n2 _ hd2
        exact ⟨m, h1⟩
      · exact ⟨n2, rfl⟩

theorem nvme_doorbell_write_witness :
    ((0 : Nat) < 2 ^ 16 ∧ 0 < ctrl_pending.num_queues ∧
      ctrl_pending.sqAt 0 = some sq_pending ∧ sq_pending.size ≤ 2 ^ 16 ∧ 1 < sq_pending.size ∧
      ctrl_pending.cqAt 0 = some cq_pending ∧ cq_pending.size ≤ 2 ^ 16 ∧
      1 < cq_pending.size ∧ cq_pending.tail ≠ 1) ∧
    (∃ m, nvme_mmio_write 0 ctrl_pending (0x1000 + 8 * 0) 1 4 = some m ∧
      (m.sqAt 0).map (fun s => s.tail) = some 1 ∧ m.cq = ctrl_pending.cq) ∧
    (∃ m, nvme_mmio_write 0 ctrl_pending (0x1000 + 8 * 0 + 4) 1 4 = some m ∧
      (m.cqAt 0).map (fun c => c.head) = some 1 ∧
      ∀ i, (m.sqAt i).map (fun s => (s.head, s.tail)) =
        (ctrl_pending.sqAt i).map (fun s => (s.head, s.tail))) :=
  ⟨⟨by decide, by decide, by decide, by decide, by decide, by decide, by decide, by decide,
      by decide⟩,
    (nvme_doorbell_write 0 ctrl_pending 0 1 4 (by decide) (by decide)).1 sq_pending
      (by decide) (by decide) (by decide),
    match (nvme_doorbell_write 0 ctrl_pending 0 1 4 (by decide) (by decide)).2 cq_pending
      (by decide) (by decide) (by decide) with
    | ⟨_, h2, h3⟩ =>
      match h3 (Or.inl (by decide)) with
      | ⟨m, hm⟩ => ⟨m, hm, h2 m hm⟩⟩

/-- C9 (amended): of a 32-bit value `v` written to the doorbell of an existing
queue only the low 16 bits count: the write of `v` does what the write of
`v mod 2^16` does.  When `v mod 2^16` is at least the size of the queue the
write is ignored and the controller is left as it was; when `v mod 2^16` is
below the size it is taken as the new tail (head), also when `v` itself is at
least the size. -/
theorem nvme_doorbell_write_ignored (now : Nat) (n : NvmeCtrl) (qid v size : Nat)
    (hq : qid < 2 ^ 16) (hnq : qid < n.num_queues) (hv : v < 2 ^ 32) :
    (∀ sq, n.sqAt qid = some sq →
      nvme_mmio_write now n (0x1000 + 8 * qid) v size =
        nvme_mmio_write now n (0x1000 + 8 * qid) (v % 2 ^ 16) size ∧
      (sq.size ≤ v % 2 ^ 16 →
        nvme_mmio_write now n (0x1000 + 8 * qid) v size = some n) ∧
      (v % 2 ^ 16 < sq.size →
        ∃ m, nvme_mmio_write now n (0x1000 + 8 * qid) v size = some m ∧
          (m.sqAt qid).map (fun s => s.tail) = some (v % 2 ^ 16))) ∧
    (∀ cq, n.cqAt qid = some cq →
      nvme_mmio_write now n (0x1000 + 8 * qid + 4) v size =
        nvme_mmio_write now n (0x1000 + 8 * qid + 4) (v % 2 ^ 16) size ∧
      (cq.size ≤ v % 2 ^ 16 →
        nvme_mmio_write now n (0x1000 + 8 * qid + 4) v size = some n) ∧
      (v % 2 ^ 16 < cq.size →
        ∃ n2 : NvmeCtrl,
          nvme_mmio_write now n (0x1000 + 8 * qid + 4) v size =
            (if cq.tail = v % 2 ^ 16 then
              nvme_irq_deassert n2 { cq with head := v % 2 ^ 16 } else some n2) ∧
          (n2.cqAt qid).map (fun c => c.head) = some (v % 2 ^ 16))) := by
  have hv32 : v % 2 ^ 32 = v := Nat.mod_eq_of_lt hv
  have hlow : v % 2 ^ 16 % 2 ^ 32 = v % 2 ^ 16 :=
    Nat.mod_eq_of_lt (lt_of_lt_of_le (Nat.mod_lt _ (by norm_num)) (by norm_num))
  constructor
  · intro sq hsq
    have e : nvme_mmio_write now n (0x1000 + 8 * qid) v size =
        if v % 2 ^ 16 ≥ sq.size then some n
        else
          let sq1 := { sq with tail := v % 2 ^ 16, timer := some (now + 500) }
          some { n with sq := n.sq.set qid (some sq1) } := by
      rw [nvme_mmio_write_db now n _ v size (by omega), hv32,
        nvme_process_db_sq now n qid v sq hq hnq hsq]
    refine ⟨?_, ?_, ?_⟩
    · rw [e, nvme_mmio_write_db now n _ _ size (by omega), hlow,
        nvme_process_db_sq now n qid _ sq hq hnq hsq, Nat.mod_mod]
    · intro hsz
      rw [e, if_pos hsz]
    · intro hsz
      rw [e, if_neg (by omega)]
      refine ⟨_, rfl, ?_⟩
      unfold NvmeCtrl.sqAt
      simp only
      rw [getD_set_none _ _ _ _ (sqAt_lt hsq), if_pos rfl]
      rfl
  · intro cq hcq
    refine ⟨?_, ?_, ?_⟩
    · rw [nvme_mmio_write_db now n _ v size (by omega), hv32,
        nvme_mmio_write_db now n _ _ size (by omega), hlow,
        nvme_process_db_cq now n qid v cq hq hnq hcq,
        nvme_process_db_cq now n qid _ cq hq hnq hcq, Nat.mod_mod]
    · intro hsz
      rw [nvme_mmio_write_db now n _ v size (by omega), hv32,
        nvme_process_db_cq now n qid v cq hq hnq hcq, if_pos hsz]
    · intro hsz
      obtain ⟨n2, e, -, hc, -⟩ := nvme_cq_doorbell_head now n qid v size cq hq hnq hcq hsz
      exact ⟨n2, e, hc⟩

theorem nvme_doorbell_write_ignored_witness :
    ((0 : Nat) < 2 ^ 16 ∧ 0 < ctrl_pending.num_queues ∧ (0x10005 : Nat) < 2 ^ 32 ∧
      (0x10001 : Nat) < 2 ^ 32 ∧
      ctrl_pending.sqAt 0 = some sq_pending ∧ ctrl_pending.cqAt 0 = some cq_pending ∧
      sq_pending.size ≤ 0x10005 % 2 ^ 16 ∧ cq_pending.size ≤ 0x10005 % 2 ^ 16 ∧
      0x10001 % 2 ^ 16 < sq_pending.size ∧ sq_pending.size ≤ 0x10001) ∧
    nvme_mmio_write 0 ctrl_pending (0x1000 + 8 * 0) 0x10005 4 = some ctrl_pending ∧
    nvme_mmio_write 0 ctrl_pending (0x1000 + 8 * 0 + 4) 0x10005 4 = some ctrl_pending ∧
    (∃ m, nvme_mmio_write 0 ctrl_pending (0x1000 + 8 * 0) 0x10001 4 = some m ∧
      (m.sqAt 0).map (fun s => s.tail) = some (0x10001 % 2 ^ 16)) :=
  ⟨⟨by decide, by decide, by decide, by decide, by decide, by decide, by decide, by decide,
      by decide, by decide⟩,
    ((nvme_doorbell_write_ignored 0 ctrl_pending 0 0x10005 4 (by decide) (by decide)
      (by decide)).1 sq_pending (by decide)).2.1 (by decide),
    ((nvme_doorbell_write_ignored 0 ctrl_pending 0 0x10005 4 (by decide) (by decide)
      (by decide)).2 cq_pending (by decide)).2.1 (by decide),
    ((nvme_doorbell_write_ignored 0 ctrl_pending 0 0x10001 4 (by decide) (by decide)
      (by decide)).1 sq_pending (by decide)).2.2 (by decide)⟩

/-- C9 as stated fails: the 32-bit value `0x10001` is at least the size (4) of
the existing submission queue 0, yet the doorbell write is not ignored: the
value is cut to its low 16 bits and the tail moves from 3 to 1. -/
theorem nvme_doorbell_value_masked :
    ctrl_pending.sqAt 0 = some sq_pending ∧ sq_pending.tail = 3 ∧
    sq_pending.size ≤ 0x10001 ∧ (0x10001 : Nat) < 2 ^ 32 ∧
    (nvme_mmio_write 0 ctrl_pending 0x1000 0x10001 4).map (fun m => m.sqAt 0) =
      some (some { sq_pending with tail := 1, timer := some 500 }) := by
  decide

/-! ## Enable sequence -/

theorem NVME_CC_MPS_le (cc : Nat) : NVME_CC_MPS cc ≤ 15 := by
  unfold NVME_CC_MPS
  exact Nat.and_le_right

theorem start_page_size (cc : Nat) :
    (1 <<< (NVME_CC_MPS cc + 12)) % 2 ^ 32 = 2 ^ (NVME_CC_MPS cc + 12) := by
  have h := NVME_CC_MPS_le cc
  rw [Nat.one_shiftLeft]
  apply Nat.mod_eq_of_lt
  exact Nat.pow_lt_pow_right (by norm_num) (by omega)

/-- The if-chain of `nvme_start_ctrl`, with the local variables replaced by
their values. -/
theorem nvme_start_ctrl_def (now : Nat) (n : NvmeCtrl) :
    nvme_start_ctrl now n =
      if (n.cqAt 0).isSome = true then some (-1, n)
      else if (n.sqAt 0).isSome = true then some (-1, n)
      else if n.bar.asq = 0 then some (-1, n)
      else if n.bar.acq = 0 then some (-1, n)
      else if n.bar.asq &&& (((1 <<< (NVME_CC_MPS n.bar.cc + 12)) % 2 ^ 32) - 1) ≠ 0 then some (-1, n)
      else if n.bar.acq &&& (((1 <<< (NVME_CC_MPS n.bar.cc + 12)) % 2 ^ 32) - 1) ≠ 0 then some (-1, n)
      else if NVME_CC_MPS n.bar.cc < NVME_CAP_MPSMIN n.bar.cap then some (-1, n)
      else if NVME_CC_MPS n.bar.cc > NVME_CAP_MPSMAX n.bar.cap then some (-1, n)
      else if NVME_CC_IOCQES n.bar.cc < NVME_CTRL_CQES_MIN n.id_ctrl_cqes then some (-1, n)
      else if NVME_CC_IOCQES n.bar.cc > NVME_CTRL_CQES_MAX n.id_ctrl_cqes then some (-1, n)
      else if NVME_CC_IOSQES n.bar.cc < NVME_CTRL_SQES_MIN n.id_ctrl_sqes then some (-1, n)
      else if NVME_CC_IOSQES n.bar.cc > NVME_CTRL_SQES_MAX n.id_ctrl_sqes then some (-1, n)
      else if NVME_AQA_ASQS n.bar.aqa = 0 then some (-1, n)
      else if NVME_AQA_ACQS n.bar.aqa = 0 then some (-1, n)
      else nvme_start_ctrl_init now n (NVME_CC_MPS n.bar.cc + 12) ((1 <<< (NVME_CC_MPS n.bar.cc + 12)) % 2 ^ 32) := rfl

theorem nvme_init_cq_some (n : NvmeCtrl) (dma_addr cqid vector size irq_enabled : Nat)
    (h : cqid < n.cq.length) :
    ∃ m c, nvme_init_cq n dma_addr cqid vector size irq_enabled = some m ∧
      m = { n with cq := n.cq.set cqid (some c) } ∧ m.cqAt cqid = some c ∧
      c = { cqid := cqid, size := size, dma_addr := dma_addr, phase := 1,
            irq_enabled := irq_enabled, vector := vector, head := 0, tail := 0,
            req_list := [], sq_list := [], timer := none } := by
  unfold nvme_init_cq
  simp only [h, if_true]
  refine ⟨_, _, rfl, rfl, ?_, rfl⟩
  unfold NvmeCtrl.cqAt
  rw [getD_set_none _ _ _ _ h, if_pos rfl]

theorem nvme_init_sq_some (n : NvmeCtrl) (dma_addr sqid cqid size : Nat) (cq : NvmeCQueue)
    (hc : n.cqAt cqid = some cq) (h : sqid < n.sq.length) :
    ∃ m, nvme_init_sq n dma_addr sqid cqid size = some m ∧
      m = { n with
            cq := n.cq.set cqid (some { cq with sq_list := cq.sq_list ++ [sqid] }),
            sq := n.sq.set sqid (some
              { sqid := sqid, cqid := cqid, size := size, dma_addr := dma_addr, head := 0,
                tail := 0, req_list := io_req_init sqid size, out_req_list := [],
                timer := none }) } := by
  unfold nvme_init_sq
  simp only [hc, h, if_true]
  exact ⟨_, rfl, rfl⟩

/-- With room for queue 0 in both arrays, the second half of `nvme_start_ctrl`
returns 0. -/
theorem nvme_start_ctrl_init_some (now : Nat) (n : NvmeCtrl) (page_bits page_size : Nat)
    (hcq : 0 < n.cq.length) (hsq : 0 < n.sq.length) :
    ∃ m, nvme_start_ctrl_init now n page_bits page_size = some (0, m) := by
  unfold nvme_start_ctrl_init
  simp only
  obtain ⟨m1, c, h1, h2, h3, -⟩ := nvme_init_cq_some
    { n with page_bits := page_bits % 2 ^ 16, page_size := page_size,
             max_prp_ents := (page_size / 8) % 2 ^ 16,
             cqe_size := (1 <<< NVME_CC_IOCQES n.bar.cc) % 2 ^ 16,
             sqe_size := (1 <<< NVME_CC_IOSQES n.bar.cc) % 2 ^ 16 }
    n.bar.acq 0 0 (NVME_AQA_ACQS n.bar.aqa + 1) 1 hcq
  rw [h1]
  simp only
  have hsq1 : 0 < m1.sq.length := by rw [h2]; exact hsq
  obtain ⟨m2, h4, -⟩ := nvme_init_sq_some m1 m1.bar.asq 0 0 (NVME_AQA_ASQS m1.bar.aqa + 1) c
    h3 hsq1
  rw [h4]
  exact ⟨_, rfl⟩

/-- C10: `nvme_start_ctrl` returns, with 0 or -1, and it returns 0 if and only
if `cq[0]` and `sq[0]` are absent, ASQ and ACQ are non-zero multiples of
`1 << (12 + CC.MPS)`, `CAP.MPSMIN ≤ CC.MPS ≤ CAP.MPSMAX`, `CC.IOCQES` and
`CC.IOSQES` lie between the low and the high nibble of `id_ctrl.cqes` and
`id_ctrl.sqes`, and `AQA.ASQS` and `AQA.ACQS` are both non-zero.  (The queue
arrays have room for queue 0, as `nvme_realize` ensures.) -/
theorem nvme_start_ctrl_success_iff (now : Nat) (n : NvmeCtrl)
    (hcq : 0 < n.cq.length) (hsq : 0 < n.sq.length) :
    ∃ r m, nvme_start_ctrl now n = some (r, m) ∧ (r = 0 ∨ r = -1) ∧
      (r = 0 ↔
        (n.cqAt 0 = none ∧ n.sqAt 0 = none ∧
         n.bar.asq ≠ 0 ∧ n.bar.acq ≠ 0 ∧
         n.bar.asq % (1 <<< (12 + NVME_CC_MPS n.bar.cc)) = 0 ∧
         n.bar.acq % (1 <<< (12 + NVME_CC_MPS n.bar.cc)) = 0 ∧
         NVME_CAP_MPSMIN n.bar.cap ≤ NVME_CC_MPS n.bar.cc ∧
         NVME_CC_MPS n.bar.cc ≤ NVME_CAP_MPSMAX n.bar.cap ∧
         NVME_CTRL_CQES_MIN n.id_ctrl_cqes ≤ NVME_CC_IOCQES n.bar.cc ∧
         NVME_CC_IOCQES n.bar.cc ≤ NVME_CTRL_CQES_MAX n.id_ctrl_cqes ∧
         NVME_CTRL_SQES_MIN n.id_ctrl_sqes ≤ NVME_CC_IOSQES n.bar.cc ∧
         NVME_CC_IOSQES n.bar.cc ≤ NVME_CTRL_SQES_MAX n.id_ctrl_sqes ∧
         NVME_AQA_ASQS n.bar.aqa ≠ 0 ∧ NVME_AQA_ACQS n.bar.aqa ≠ 0)) := by
  have hps := start_page_size n.bar.cc
  have hmask : ∀ x : Nat, x &&& ((1 <<< (NVME_CC_MPS n.bar.cc + 12)) % 2 ^ 32 - 1) =
      x % (1 <<< (12 + NVME_CC_MPS n.bar.cc)) := by
    intro x
    rw [hps, Nat.and_pow_two_sub_one_eq_mod, Nat.one_shiftLeft, Nat.add_comm]
  have hneg : ((-1 : Int) = 0) → False := by decide
  rw [nvme_start_ctrl_def]
  by_cases h1 : (n.cqAt 0).isSome = true
  · rw [if_pos h1]
    refine ⟨_, _, rfl, Or.inr rfl, fun h0 => (hneg h0).elim, ?_⟩
    rintro ⟨g1, g2, g3, g4, g5, g6, g7, g8, g9, g10, g11, g12, g13, g14⟩
    rw [g1] at h1; cases h1
  rw [if_neg h1]
  by_cases h2 : (n.sqAt 0).isSome = true
  · rw [if_pos h2]
    refine ⟨_, _, rfl, Or.inr rfl, fun h0 => (hneg h0).elim, ?_⟩
    rintro ⟨g1, g2, g3, g4, g5, g6, g7, g8, g9, g10, g11, g12, g13, g14⟩
    rw [g2] at h2; cases h2
  rw [if_neg h2]
  by_cases h3 : n.bar.asq = 0
  · rw [if_pos h3]
    refine ⟨_, _, rfl, Or.inr rfl, fun h0 => (hneg h0).elim, ?_⟩
    rintro ⟨g1, g2, g3, g4, g5, g6, g7, g8, g9, g10, g11, g12, g13, g14⟩
    exact (g3 h3).elim
  rw [if_neg h3]
  by_cases h4 : n.bar.acq = 0
  · rw [if_pos h4]
    refine ⟨_, _, rfl, Or.inr rfl, fun h0 => (hneg h0).elim, ?_⟩
    rintro ⟨g1, g2, g3, g4, g5, g6, g7, g8, g9, g10, g11, g12, g13, g14⟩
    exact (g4 h4).elim
  rw [if_neg h4]
  by_cases h5 : n.bar.asq &&& (((1 <<< (NVME_CC_MPS n.bar.cc + 12)) % 2 ^ 32) - 1) ≠ 0
  · rw [if_pos h5]
    refine ⟨_, _, rfl, Or.inr rfl, fun h0 => (hneg h0).elim, ?_⟩
    rintro ⟨g1, g2, g3, g4, g5, g6, g7, g8, g9, g10, g11, g12, g13, g14⟩
    rw [hmask] at h5; exact (h5 g5).elim
  rw [if_neg h5]
  by_cases h6 : n.bar.acq &&& (((1 <<< (NVME_CC_MPS n.bar.cc + 12)) % 2 ^ 32) - 1) ≠ 0
  · rw [if_pos h6]
    refine ⟨_, _, rfl, Or.inr rfl, fun h0 => (hneg h0).elim, ?_⟩
    rintro ⟨g1, g2, g3, g4, g5, g6, g7, g8, g9, g10, g11, g12, g13, g14⟩
    rw [hmask] at h6; exact (h6 g6).elim
  rw [if_neg h6]
  by_cases h7 : NVME_CC_MPS n.bar.cc < NVME_CAP_MPSMIN n.bar.cap
  · rw [if_pos h7]
    refine ⟨_, _, rfl, Or.inr rfl, fun h0 => (hneg h0).elim, ?_⟩
    rintro ⟨g1, g2, g3, g4, g5, g6, g7, g8, g9, g10, g11, g12, g13, g14⟩
    omega
  rw [if_neg h7]
  by_cases h8 : NVME_CC_MPS n.bar.cc > NVME_CAP_MPSMAX n.bar.cap
  · rw [if_pos h8]
    refine ⟨_, _, rfl, Or.inr rfl, fun h0 => (hneg h0).elim, ?_⟩
    rintro ⟨g1, g2, g3, g4, g5, g6, g7, g8, g9, g10, g11, g12, g13, g14⟩
    omega
  rw [if_neg h8]
  by_cases h9 : NVME_CC_IOCQES n.bar.cc < NVME_CTRL_CQES_MIN n.id_ctrl_cqes
  · rw [if_pos h9]
    refine ⟨_, _, rfl, Or.inr rfl, fun h0 => (hneg h0).elim, ?_⟩
    rintro ⟨g1, g2, g3, g4, g5, g6, g7, g8, g9, g10, g11, g12, g13, g14⟩
    omega
  rw [if_neg h9]
  by_cases h10 : NVME_CC_IOCQES n.bar.cc > NVME_CTRL_CQES_MAX n.id_ctrl_cqes
  · rw [if_pos h10]
    refine ⟨_, _, rfl, Or.inr rfl, fun h0 => (hneg h0).elim, ?_⟩
    rintro ⟨g1, g2, g3, g4, g5, g6, g7, g8, g9, g10, g11, g12, g13, g14⟩
    omega
  rw [if_neg h10]
  by_cases h11 : NVME_CC_IOSQES n.bar.cc < NVME_CTRL_SQES_MIN n.id_ctrl_sqes
  · rw [if_pos h11]
    refine ⟨_, _, rfl, Or.inr rfl, fun h0 => (hneg h0).elim, ?_⟩
    rintro ⟨g1, g2, g3, g4, g5, g6, g7, g8, g9, g10, g11, g12, g13, g14⟩
    omega
  rw [if_neg h11]
  by_cases h12 : NVME_CC_IOSQES n.bar.cc > NVME_CTRL_SQES_MAX n.id_ctrl_sqes
  · rw [if_pos h12]
    refine ⟨_, _, rfl, Or.inr rfl, fun h0 => (hneg h0).elim, ?_⟩
    rintro ⟨g1, g2, g3, g4, g5, g6, g7, g8, g9, g10, g11, g12, g13, g14⟩
    omega
  rw [if_neg h12]
  by_cases h13 : NVME_AQA_ASQS n.bar.aqa = 0
  · rw [if_pos h13]
    refine ⟨_, _, rfl, Or.inr rfl, fun h0 => (hneg h0).elim, ?_⟩
    rintro ⟨g1, g2, g3, g4, g5, g6, g7, g8, g9, g10, g11, g12, g13, g14⟩
    exact (g13 h13).elim
  rw [if_neg h13]
  by_cases h14 : NVME_AQA_ACQS n.bar.aqa = 0
  · rw [if_pos h14]
    refine ⟨_, _, rfl, Or.inr rfl, fun h0 => (hneg h0).elim, ?_⟩
    rintro ⟨g1, g2, g3, g4, g5, g6, g7, g8, g9, g10, g11, g12, g13, g14⟩
    exact (g14 h14).elim
  rw [if_neg h14]
  obtain ⟨m, hm⟩ := nvme_start_ctrl_init_some now n (NVME_CC_MPS n.bar.cc + 12)
    ((1 <<< (NVME_CC_MPS n.bar.cc + 12)) % 2 ^ 32) hcq hsq
  refine ⟨0, m, hm, Or.inl rfl, fun _ => ?_, fun _ => rfl⟩
  rw [hmask] at h5 h6
  refine ⟨?_, ?_, h3, h4, ?_, ?_, by omega, by omega, by omega, by omega, by omega, by omega,
    h13, h14⟩
  · cases h : n.cqAt 0 with
    | none => rfl
    | some c => rw [h] at h1; exact absurd rfl h1
  · cases h : n.sqAt 0 with
    | none => rfl
    | some c => rw [h] at h2; exact absurd rfl h2
  · exact not_not.mp h5
  · exact not_not.mp h6


theorem nvme_start_ctrl_success_iff_witness :
    (0 < scenario_configured.cq.length ∧ 0 < scenario_configured.sq.length) ∧
    (nvme_start_ctrl 0 scenario_configured).map (fun r => r.1) = some 0 ∧
    ∃ r m, nvme_start_ctrl 0 scenario_configured = some (r, m) ∧ (r = 0 ∨ r = -1) ∧
      (r = 0 ↔
        (scenario_configured.cqAt 0 = none ∧ scenario_configured.sqAt 0 = none ∧
         scenario_configured.bar.asq ≠ 0 ∧ scenario_configured.bar.acq ≠ 0 ∧
         scenario_configured.bar.asq % (1 <<< (12 + NVME_CC_MPS scenario_configured.bar.cc)) = 0 ∧
         scenario_configured.bar.acq % (1 <<< (12 + NVME_CC_MPS scenario_configured.bar.cc)) = 0 ∧
         NVME_CAP_MPSMIN scenario_configured.bar.cap ≤ NVME_CC_MPS scenario_configured.bar.cc ∧
         NVME_CC_MPS scenario_configured.bar.cc ≤ NVME_CAP_MPSMAX scenario_configured.bar.cap ∧
         NVME_CTRL_CQES_MIN scenario_configured.id_ctrl_cqes ≤ NVME_CC_IOCQES scenario_configured.bar.cc ∧
         NVME_CC_IOCQES scenario_configured.bar.cc ≤ NVME_CTRL_CQES_MAX scenario_configured.id_ctrl_cqes ∧
         NVME_CTRL_SQES_MIN scenario_configured.id_ctrl_sqes ≤ NVME_CC_IOSQES scenario_configured.bar.cc ∧
         NVME_CC_IOSQES scenario_configured.bar.cc ≤ NVME_CTRL_SQES_MAX scenario_configured.id_ctrl_sqes ∧
         NVME_AQA_ASQS scenario_configured.bar.aqa ≠ 0 ∧ NVME_AQA_ACQS scenario_configured.bar.aqa ≠ 0)) :=
  ⟨⟨by decide, by decide⟩, by decide,
    nvme_start_ctrl_success_iff 0 scenario_configured (by decide) (by decide)⟩

/-! ## Request slots -/

theorem sqAt_set {n m : NvmeCtrl} {a : Nat} {x : Option NvmeSQueue} (h : a < n.sq.length)
    (hm : m.sq = n.sq.set a x) (i : Nat) : m.sqAt i = if i = a then x else n.sqAt i := by
  unfold NvmeCtrl.sqAt
  rw [hm]
  exact getD_set_none _ _ _ _ h

theorem cqAt_set {n m : NvmeCtrl} {b : Nat} {x : Option NvmeCQueue} (h : b < n.cq.length)
    (hm : m.cq = n.cq.set b x) (j : Nat) : m.cqAt j = if j = b then x else n.cqAt j := by
  unfold NvmeCtrl.cqAt
  rw [hm]
  exact getD_set_none _ _ _ _ h

/-- Moving requests between the lists of one submission queue and the pending
list of its completion queue keeps the queues well formed. -/
theorem queues_core_update {n m : NvmeCtrl} {a b : Nat} {s t : NvmeSQueue}
    {c d : NvmeCQueue} (hn : queues_core n) (hs : n.sqAt a = some s)
    (hc : n.cqAt b = some c) (hb : s.cqid = b) (hnq : m.num_queues = n.num_queues)
    (hl1 : m.sq.length = n.sq.length) (hl2 : m.cq.length = n.cq.length)
    (hsq1 : ∀ i, m.sqAt i = if i = a then some t else n.sqAt i)
    (hcq1 : ∀ j, m.cqAt j = if j = b then some d else n.cqAt j)
    (h1 : t.sqid = s.sqid) (h2 : t.cqid = s.cqid) (h3 : t.size = s.size)
    (h4 : d.cqid = c.cqid)
    (hfree : ∀ r ∈ t.req_list, r.sq = a) (hout : ∀ r ∈ t.out_req_list, r.sq = a)
    (hperm : List.Perm
      (req_slots t.req_list ++ req_slots t.out_req_list ++ req_slots (pending_of d a))
      (req_slots s.req_list ++ req_slots s.out_req_list ++ req_slots (pending_of c a)))
    (hother : ∀ i, i ≠ a → pending_of d i = pending_of c i)
    (hmem : ∀ r ∈ d.req_list, r ∈ c.req_list ∨ r.sq = a) :
    queues_core m ∧ (d.sq_list = c.sq_list → ∀ i, sq_listed n i → sq_listed m i) := by
  obtain ⟨l1, l2, hS, hC⟩ := hn
  refine ⟨⟨?_, ?_, ?_, ?_⟩, ?_⟩
  · rw [hl1, hnq, l1]
  · rw [hl2, hnq, l2]
  · intro i si hi
    rw [hsq1] at hi
    by_cases hia : i = a
    · subst hia
      rw [if_pos rfl] at hi
      cases hi
      obtain ⟨q1, -, -, c0, hc0, hp0⟩ := hS i s hs
      rw [hb, hc] at hc0
      cases hc0
      refine ⟨h1.trans q1, hfree, hout, d, ?_, ?_⟩
      · rw [h2, hb, hcq1, if_pos rfl]
      · rw [h3]; exact hperm.trans hp0
    · rw [if_neg hia] at hi
      obtain ⟨q1, q2, q3, c0, hc0, hp0⟩ := hS i si hi
      by_cases hcb : si.cqid = b
      · rw [hcb, hc] at hc0
        cases hc0
        refine ⟨q1, q2, q3, d, ?_, ?_⟩
        · rw [hcb, hcq1, if_pos rfl]
        · rw [hother i hia]; exact hp0
      · exact ⟨q1, q2, q3, c0, by rw [hcq1, if_neg hcb]; exact hc0, hp0⟩
  · intro j cj hj
    rw [hcq1] at hj
    by_cases hjb : j = b
    · subst hjb
      rw [if_pos rfl] at hj
      cases hj
      obtain ⟨q1, q2⟩ := hC j c hc
      refine ⟨h4.trans q1, ?_⟩
      intro r hr
      by_cases hra : r.sq = a
      · exact ⟨t, by rw [hsq1, if_pos hra], h2.trans hb⟩
      · rcases hmem r hr with h | h
        · obtain ⟨s0, hs0, hs0c⟩ := q2 r h
          exact ⟨s0, by rw [hsq1, if_neg hra]; exact hs0, hs0c⟩
        · exact absurd h hra
    · rw [if_neg hjb] at hj
      obtain ⟨q1, q2⟩ := hC j cj hj
      refine ⟨q1, ?_⟩
      intro r hr
      obtain ⟨s0, hs0, hs0c⟩ := q2 r hr
      by_cases hra : r.sq = a
      · rw [hra, hs] at hs0
        cases hs0
        exact absurd (hs0c.symm.trans hb) hjb
      · exact ⟨s0, by rw [hsq1, if_neg hra]; exact hs0, hs0c⟩
  · intro hl i hli s0 c0 hs0 hc0
    rw [hsq1] at hs0
    by_cases hia : i = a
    · subst hia
      rw [if_pos rfl] at hs0
      cases hs0
      rw [h2, hb, hcq1, if_pos rfl] at hc0
      cases hc0
      rw [hl]
      exact hli s c hs (by rw [hb]; exact hc)
    · rw [if_neg hia] at hs0
      rw [hcq1] at hc0
      by_cases hcb : s0.cqid = b
      · rw [if_pos hcb] at hc0
        cases hc0
        rw [hl]
        exact hli s0 c hs0 (by rw [hcb]; exact hc)
      · rw [if_neg hcb] at hc0
        exact hli s0 c0 hs0 hc0

theorem filter_ne_perm (O : List Nat) (x : Nat) (hn : O.Nodup) (hx : x ∈ O) :
    List.Perm (x :: O.filter (fun y => decide (y ≠ x))) O := by
  have h1 : O.filter (fun y => decide (y ≠ x)) = O.erase x := by
    rw [List.Nodup.erase_eq_filter hn]
    congr 1
    funext y
    by_cases h : y = x <;> simp [h]
  rw [h1]
  exact (List.perm_cons_erase hx).symm

theorem req_slots_filter_ne (l : List NvmeRequest) (x : Nat) :
    req_slots (l.filter (fun r => decide (r.slot ≠ x))) =
      (req_slots l).filter (fun y => decide (y ≠ x)) := by
  unfold req_slots
  rw [List.filter_map]
  rfl

theorem sq_ok_out_nodup {n : NvmeCtrl} {i : Nat} {s : NvmeSQueue} (h : sq_ok n i s) :
    (req_slots s.out_req_list).Nodup := by
  obtain ⟨-, -, -, c, -, hp⟩ := h
  have := (hp.nodup_iff).2 (List.nodup_range _)
  exact (List.Nodup.of_append_left this).of_append_right

/-- `nvme_enqueue_req_completion` moves an in-flight request to the pending
list and keeps the queues well formed. -/
theorem enqueue_inv {now : Nat} {n m : NvmeCtrl} {cqid : Nat} {q : NvmeRequest}
    {s : NvmeSQueue} (hn : queues_inv n) (hs : n.sqAt q.sq = some s)
    (hin : q.slot ∈ req_slots s.out_req_list)
    (h : nvme_enqueue_req_completion now n cqid q = some m) :
    queues_inv m ∧
    ∀ i s0, i ≠ q.sq → n.sqAt i = some s0 → m.sqAt i = some s0 := by
  unfold nvme_enqueue_req_completion at h
  cases hc : n.cqAt cqid with
  | none => simp [hc] at h
  | some c =>
    simp only [hc, hs] at h
    split at h
    · rename_i hcid
      cases h
      have hb : s.cqid = cqid := by rw [← hcid]; exact (hn.1.2.2.2 cqid c hc).1
      have hsok := hn.1.2.2.1 q.sq s hs
      obtain ⟨u1, u2⟩ := queues_core_update (m := { n with
          sq := n.sq.set q.sq (some { s with
            out_req_list := s.out_req_list.filter (fun r => decide (r.slot ≠ q.slot)) }),
          cq := n.cq.set cqid (some { c with req_list := c.req_list ++ [q],
                                             timer := some (now + 500) }) })
        hn.1 hs hc hb rfl (by simp) (by simp) (sqAt_set (sqAt_lt hs) rfl)
        (cqAt_set (cqAt_lt hc) rfl) rfl rfl rfl rfl hsok.2.1
        (fun r hr => hsok.2.2.1 r (List.mem_of_mem_filter hr))
        (by
          simp only [pending_of, List.filter_append, List.filter_cons, List.filter_nil,
            decide_True, if_true]
          rw [req_slots_filter_ne]
          have hp := filter_ne_perm _ _ (sq_ok_out_nodup hsok) hin
          rw [List.perm_iff_count] at hp ⊢
          intro a
          have := hp a
          simp only [req_slots, List.map_append, List.map_cons, List.map_nil,
            List.count_append, List.count_cons, List.count_nil] at this ⊢
          omega)
        (by
          intro i hi
          simp only [pending_of, List.filter_append, List.filter_cons, List.filter_nil]
          rw [if_neg (by simpa using Ne.symm hi)]
          simp)
        (by
          intro r hr
          simp only [List.mem_append, List.mem_singleton] at hr
          rcases hr with h | h
          · exact Or.inl h
          · right; rw [h])
      refine ⟨⟨u1, fun i => u2 rfl i (hn.2 i)⟩, ?_⟩
      intro i s0 hi hs0
      rw [sqAt_set (sqAt_lt hs) rfl, if_neg hi]
      exact hs0
    · simp at h

theorem same_queues_refl (n : NvmeCtrl) : same_queues n n :=
  ⟨rfl, rfl, rfl, fun _ => rfl, fun _ => rfl⟩

theorem same_queues_trans {a b c : NvmeCtrl} (h1 : same_queues a b) (h2 : same_queues b c) :
    same_queues a c :=
  ⟨h2.1.trans h1.1, h2.2.1.trans h1.2.1, h2.2.2.1.trans h1.2.2.1,
    fun i => (h2.2.2.2.1 i).trans (h1.2.2.2.1 i), fun j => (h2.2.2.2.2 j).trans (h1.2.2.2.2 j)⟩

theorem same_queues_of_eq {n m : NvmeCtrl} (h1 : m.num_queues = n.num_queues)
    (h2 : m.sq = n.sq) (h3 : m.cq = n.cq) : same_queues n m := by
  refine ⟨h1, by rw [h2], by rw [h3], ?_, ?_⟩
  · intro i; unfold NvmeCtrl.sqAt; rw [h2]
  · intro j; unfold NvmeCtrl.cqAt; rw [h3]

theorem same_queues_set_sq {n : NvmeCtrl} {a : Nat} {s s1 : NvmeSQueue}
    (hs : n.sqAt a = some s) (hv : sq_view s1 = sq_view s) :
    same_queues n { n with sq := n.sq.set a (some s1) } := by
  refine ⟨rfl, by simp, rfl, ?_, fun _ => rfl⟩
  intro i
  rw [sqAt_set (sqAt_lt hs) rfl]
  split
  · rename_i h; subst h; rw [hs]; simp [hv]
  · rfl

theorem same_queues_set_cq {n : NvmeCtrl} {b : Nat} {c c1 : NvmeCQueue}
    (hc : n.cqAt b = some c) (hv : cq_view c1 = cq_view c) :
    same_queues n { n with cq := n.cq.set b (some c1) } := by
  refine ⟨rfl, rfl, by simp, fun _ => rfl, ?_⟩
  intro j
  rw [cqAt_set (cqAt_lt hc) rfl]
  split
  · rename_i h; subst h; rw [hc]; simp [hv]
  · rfl

theorem same_queues_sq {n m : NvmeCtrl} (h : same_queues n m) {i : Nat} {s1 : NvmeSQueue}
    (hs : m.sqAt i = some s1) : ∃ s, n.sqAt i = some s ∧ sq_view s1 = sq_view s := by
  have := h.2.2.2.1 i
  rw [hs] at this
  cases hn : n.sqAt i with
  | none => simp [hn] at this
  | some s => rw [hn] at this; exact ⟨s, rfl, by simpa using this⟩

theorem same_queues_cq {n m : NvmeCtrl} (h : same_queues n m) {j : Nat} {c1 : NvmeCQueue}
    (hc : m.cqAt j = some c1) : ∃ c, n.cqAt j = some c ∧ cq_view c1 = cq_view c := by
  have := h.2.2.2.2 j
  rw [hc] at this
  cases hn : n.cqAt j with
  | none => simp [hn] at this
  | some c => rw [hn] at this; exact ⟨c, rfl, by simpa using this⟩

theorem same_queues_symm {n m : NvmeCtrl} (h : same_queues n m) : same_queues m n :=
  ⟨h.1.symm, h.2.1.symm, h.2.2.1.symm, fun i => (h.2.2.2.1 i).symm,
    fun j => (h.2.2.2.2 j).symm⟩

theorem queues_core_congr {n m : NvmeCtrl} (h : same_queues n m) (hn : queues_core n) :
    queues_core m := by
  obtain ⟨l1, l2, hS, hC⟩ := hn
  have h' := same_queues_symm h
  refine ⟨by rw [h.2.1, h.1, l1], by rw [h.2.2.1, h.1, l2], ?_, ?_⟩
  · intro i s1 hs1
    obtain ⟨s, hs, hv⟩ := same_queues_sq h hs1
    obtain ⟨q1, q2, q3, c, hc, hp⟩ := hS i s hs
    simp only [sq_view, Prod.mk.injEq] at hv
    obtain ⟨v1, v2, v3, v4, v5⟩ := hv
    obtain ⟨c1, hc1, hcv⟩ := same_queues_cq h' hc
    simp only [cq_view, Prod.mk.injEq] at hcv
    refine ⟨v1.trans q1, by rw [v4]; exact q2, by rw [v5]; exact q3, c1, by rw [v2]; exact hc1, ?_⟩
    rw [v3, v4, v5]
    unfold pending_of
    rw [← hcv.2.2]
    exact hp
  · intro j c1 hc1
    obtain ⟨c, hc, hv⟩ := same_queues_cq h hc1
    simp only [cq_view, Prod.mk.injEq] at hv
    obtain ⟨q1, q2⟩ := hC j c hc
    refine ⟨hv.1.trans q1, ?_⟩
    intro r hr
    rw [hv.2.2] at hr
    obtain ⟨s, hs, hsc⟩ := q2 r hr
    obtain ⟨s1, hs1, hsv⟩ := same_queues_sq h' hs
    simp only [sq_view, Prod.mk.injEq] at hsv
    exact ⟨s1, hs1, hsv.2.1.symm.trans hsc⟩

theorem sq_listed_congr {n m : NvmeCtrl} (h : same_queues n m) {i : Nat}
    (hL : sq_listed n i) : sq_listed m i := by
  intro s1 c1 hs1 hc1
  obtain ⟨s, hs, hv⟩ := same_queues_sq h hs1
  simp only [sq_view, Prod.mk.injEq] at hv
  rw [hv.2.1] at hc1
  obtain ⟨c, hc, hcv⟩ := same_queues_cq h hc1
  simp only [cq_view, Prod.mk.injEq] at hcv
  rw [hcv.2.1]
  exact hL s c hs hc

/-- The queue invariant reads the queues through their views only. -/
theorem queues_inv_congr {n m : NvmeCtrl} (h : same_queues n m) (hn : queues_inv n) :
    queues_inv m :=
  ⟨queues_core_congr h hn.1, fun i => sq_listed_congr h (hn.2 i)⟩

theorem irq_frame_same {a b : NvmeCtrl} (h : irq_frame a b) : same_queues a b := by
  unfold irq_frame at h
  exact same_queues_of_eq (by rw [h]) (by rw [h]) (by rw [h])

theorem nvme_irq_assert_same {n m : NvmeCtrl} {c : NvmeCQueue}
    (h : nvme_irq_assert n c = some m) : same_queues n m := by
  unfold nvme_irq_assert at h
  split at h
  · split at h
    · cases h; exact same_queues_of_eq rfl rfl rfl
    · split at h
      · cases hm : int_one_shl c.cqid with
        | none => simp [hm] at h
        | some x =>
          simp only [hm, Option.map_some', Option.some.injEq] at h
          rw [← h]
          exact irq_frame_same (irq_frame_trans (b := { n with irq_status := n.irq_status ||| x })
            rfl (nvme_irq_check_frame _))
      · simp at h
  · cases h; exact same_queues_refl _

theorem nvme_irq_deassert_same {n m : NvmeCtrl} {c : NvmeCQueue}
    (h : nvme_irq_deassert n c = some m) : same_queues n m := by
  unfold nvme_irq_deassert at h
  split at h
  · split at h
    · cases h; exact same_queues_refl _
    · split at h
      · cases hm : int_not_one_shl c.cqid with
        | none => simp [hm] at h
        | some x =>
          simp only [hm, Option.map_some', Option.some.injEq] at h
          rw [← h]
          exact irq_frame_same (irq_frame_trans (b := { n with irq_status := n.irq_status &&& x })
            rfl (nvme_irq_check_frame _))
      · simp at h
  · cases h; exact same_queues_refl _

theorem arm_sq_timers_same (now : Nat) (n : NvmeCtrl) (l : List Nat) :
    same_queues n (arm_sq_timers now n l) := by
  obtain ⟨h1, h2, h3⟩ := arm_sq_timers_frame now l n
  refine ⟨by rw [h1], h2, by rw [h1], ?_, ?_⟩
  · intro i
    have := congrArg (Option.map sq_view) (h3 i)
    simpa [Option.map_map, Function.comp_def, sq_view, sq_untimed] using this
  · intro j
    unfold NvmeCtrl.cqAt
    rw [h1]

theorem sq_kept_refl (n : NvmeCtrl) (i : Nat) : sq_kept n n i :=
  fun s hs => ⟨s, hs, rfl, rfl⟩

theorem sq_kept_trans {a b c : NvmeCtrl} {i : Nat} (h1 : sq_kept a b i) (h2 : sq_kept b c i) :
    sq_kept a c i := by
  intro s hs
  obtain ⟨s1, hs1, e1, e2⟩ := h1 s hs
  obtain ⟨s2, hs2, f1, f2⟩ := h2 s1 hs1
  exact ⟨s2, hs2, f1.trans e1, f2.trans e2⟩

theorem same_queues_kept {n m : NvmeCtrl} (h : same_queues n m) (i : Nat) : sq_kept n m i := by
  intro s hs
  obtain ⟨s1, hs1, hv⟩ := same_queues_sq (same_queues_symm h) hs
  simp only [sq_view, Prod.mk.injEq] at hv
  exact ⟨s1, hs1, hv.2.2.2.2.symm, hv.2.1.symm⟩

/-- The first half of an iteration of `nvme_process_sq` moves the first free
request to the in-flight list and keeps the queues well formed. -/
theorem fetch_inv {env : Env} {n n1 : NvmeCtrl} {i : Nat} {cmd : NvmeCmd} {r1 : NvmeRequest}
    (hn : queues_inv n) (h : nvme_process_sq_fetch env n i = some (n1, cmd, r1)) :
    queues_inv n1 ∧ r1.sq = i ∧
    ∃ s s1, n.sqAt i = some s ∧ n1.sqAt i = some s1 ∧ s1.cqid = s.cqid ∧
      r1.slot ∈ req_slots s1.out_req_list := by
  unfold nvme_process_sq_fetch at h
  cases hs : n.sqAt i with
  | none => simp [hs] at h
  | some s =>
    simp only [hs] at h
    split at h
    · cases hfree : s.req_list with
      | nil => simp [hfree] at h
      | cons r free =>
        simp only [hfree, Option.some.injEq, Prod.mk.injEq] at h
        obtain ⟨e1, -, e3⟩ := h
        rw [e3] at e1
        have hr1 : r1.sq = r.sq ∧ r1.slot = r.slot := by rw [← e3]; exact ⟨rfl, rfl⟩
        clear e3
        subst e1
        have hsok := hn.1.2.2.1 i s hs
        obtain ⟨q1, q2, q3, c, hc, hp⟩ := hsok
        have hr : r.sq = i := q2 r (by rw [hfree]; simp)
        obtain ⟨u1, u2⟩ := queues_core_update (d := c)
          (m := { n with sq := n.sq.set i (some { (nvme_inc_sq_head s) with
                    req_list := free, out_req_list := s.out_req_list ++ [r1] }) })
          (t := { (nvme_inc_sq_head s) with
                    req_list := free, out_req_list := s.out_req_list ++ [r1] })
          hn.1 hs hc rfl rfl (List.length_set _ _ _) rfl
          (sqAt_set (sqAt_lt hs) rfl)
          (by
            intro j
            split
            · rename_i hj; rw [hj, ← hc]; rfl
            · rfl)
          rfl rfl rfl rfl
          (fun x hx => q2 x (by rw [hfree]; exact List.mem_cons_of_mem _ hx))
          (by
            intro x hx
            simp only [List.mem_append, List.mem_singleton] at hx
            rcases hx with hx | hx
            · exact q3 x hx
            · rw [hx, hr1.1]; exact hr)
          (by
            rw [hfree, List.perm_iff_count]
            intro a
            simp only [req_slots, List.map_append, List.map_cons, List.map_nil,
              List.count_append, List.count_cons, List.count_nil, hr1.2]
            omega)
          (fun _ _ => rfl) (fun _ hx => Or.inl hx)
        refine ⟨⟨u1, fun k => u2 rfl k (hn.2 k)⟩, hr1.1.trans hr, s,
          { (nvme_inc_sq_head s) with
            req_list := free, out_req_list := s.out_req_list ++ [r1] }, rfl, ?_, rfl, ?_⟩
        · exact (sqAt_set (sqAt_lt hs) rfl i).trans (if_pos rfl)
        · simp [req_slots]
    · simp at h

/-- One posting step of `nvme_post_cqes` moves the first pending request to the
free list of its queue and keeps the queues well formed. -/
theorem post_one_inv {n : NvmeCtrl} {cqid : Nat} {c : NvmeCQueue} {sq : NvmeSQueue}
    {r : NvmeRequest} {rest : List NvmeRequest} (hn : queues_core n)
    (hc : n.cqAt cqid = some c) (hreq : c.req_list = r :: rest)
    (hs : n.sqAt r.sq = some sq) :
    queues_core (post_one n cqid c sq r rest) ∧
    (∀ i, sq_listed n i → sq_listed (post_one n cqid c sq r rest) i) ∧
    (∀ i, sq_kept n (post_one n cqid c sq r rest) i) := by
  have hcok := hn.2.2.2 cqid c hc
  obtain ⟨s0, hs0, hb⟩ := hcok.2 r (by rw [hreq]; simp)
  rw [hs] at hs0
  cases hs0
  have hsok := hn.2.2.1 r.sq sq hs
  have hsqAt := post_one_sqAt n cqid c sq r rest hs
  obtain ⟨u1, u2⟩ := queues_core_update (m := post_one n cqid c sq r rest)
    (t := { sq with
      req_list := sq.req_list ++ [{ r with cqe := nvme_format_cqe c sq r }] })
    (d := { (nvme_inc_cq_tail c) with req_list := rest })
    hn hs hc hb rfl (by simp [post_one]) (by simp [post_one])
    hsqAt (post_one_cqAt n cqid c sq r rest hc)
    rfl rfl rfl (nvme_inc_cq_tail_fields c).1
    (by
      intro x hx
      simp only [List.mem_append, List.mem_singleton] at hx
      rcases hx with hx | hx
      · exact hsok.2.1 x hx
      · rw [hx])
    hsok.2.2.1
    (by
      simp only [pending_of, hreq, List.filter_cons, decide_True, if_true]
      rw [List.perm_iff_count]
      intro a
      simp only [req_slots, List.map_append, List.map_cons, List.map_nil,
        List.count_append, List.count_cons, List.count_nil]
      omega)
    (by
      intro i hi
      simp only [pending_of, hreq, List.filter_cons]
      rw [if_neg (by simpa using Ne.symm hi)])
    (by
      intro x hx
      left
      rw [hreq]
      exact List.mem_cons_of_mem _ hx)
  refine ⟨u1, fun i => u2 (nvme_inc_cq_tail_fields c).2.2.2.2.2.2.2.1 i, ?_⟩
  intro i s hsi
  rw [hsqAt]
  by_cases hi : i = r.sq
  · rw [if_pos hi]
    rw [hi, hs] at hsi
    cases hsi
    exact ⟨_, rfl, rfl, rfl⟩
  · rw [if_neg hi]
    exact ⟨s, hsi, rfl, rfl⟩

theorem post_loop_inv (cqid : Nat) :
    ∀ (reqs : List NvmeRequest) (n : NvmeCtrl) (w : List (Nat × NvmeCqe)) (c : NvmeCQueue)
      (m : NvmeCtrl) (w1 : List (Nat × NvmeCqe)),
      queues_core n → n.cqAt cqid = some c → c.req_list = reqs →
      nvme_post_cqes_loop cqid reqs n w = some (m, w1) →
      queues_core m ∧ (∀ i, sq_listed n i → sq_listed m i) ∧ (∀ i, sq_kept n m i) := by
  intro reqs
  induction reqs with
  | nil =>
    intro n w c m w1 hn hc hreq h
    simp only [nvme_post_cqes_loop, Option.some.injEq, Prod.mk.injEq] at h
    rw [← h.1]
    exact ⟨hn, fun _ h => h, fun i => sq_kept_refl n i⟩
  | cons r rest ih =>
    intro n w c m w1 hn hc hreq h
    by_cases hfull : nvme_cq_full c = true
    · rw [post_loop_full cqid r rest n w c hc hfull] at h
      simp only [Option.some.injEq, Prod.mk.injEq] at h
      rw [← h.1]
      exact ⟨hn, fun _ h => h, fun i => sq_kept_refl n i⟩
    · obtain ⟨sq, hs, -⟩ := (hn.2.2.2 cqid c hc).2 r (by rw [hreq]; simp)
      rw [post_loop_cons cqid r rest n w c sq hc (by simpa using hfull) hs] at h
      obtain ⟨u1, u2, u3⟩ := post_one_inv hn hc hreq hs
      have hc1 := post_one_cqAt n cqid c sq r rest hc cqid
      rw [if_pos rfl] at hc1
      obtain ⟨v1, v2, v3⟩ := ih _ _ _ m w1 u1 hc1 rfl h
      exact ⟨v1, fun i hi => v2 i (u2 i hi), fun i => sq_kept_trans (u3 i) (v3 i)⟩

/-- `nvme_post_cqes` keeps the queues well formed. -/
theorem nvme_post_cqes_inv {n m : NvmeCtrl} {cqid : Nat} {w : List (Nat × NvmeCqe)}
    (hn : queues_core n) (h : nvme_post_cqes n cqid = some (m, w)) :
    queues_core m ∧ (∀ i, sq_listed n i → sq_listed m i) ∧ (∀ i, sq_kept n m i) := by
  unfold nvme_post_cqes at h
  cases hc : n.cqAt cqid with
  | none => simp [hc] at h
  | some c =>
    simp only [hc] at h
    cases hl : nvme_post_cqes_loop cqid c.req_list n [] with
    | none => simp [hl] at h
    | some p =>
      obtain ⟨n1, w1⟩ := p
      simp only [hl] at h
      obtain ⟨u1, u2, u3⟩ := post_loop_inv cqid _ _ _ _ _ _ hn hc rfl hl
      cases hc1 : n1.cqAt cqid with
      | none => simp [hc1] at h
      | some c1 =>
        simp only [hc1] at h
        split at h
        · cases ha : nvme_irq_assert n1 c1 with
          | none => simp [ha] at h
          | some n2 =>
            simp only [ha, Option.map_some', Option.some.injEq, Prod.mk.injEq] at h
            rw [← h.1]
            have hsame := nvme_irq_assert_same ha
            exact ⟨queues_core_congr hsame u1, fun i hi => sq_listed_congr hsame (u2 i hi),
              fun i => sq_kept_trans (u3 i) (same_queues_kept hsame i)⟩
        · simp only [Option.some.injEq, Prod.mk.injEq] at h
          rw [← h.1]
          exact ⟨u1, u2, u3⟩

theorem mem_req_slots {r : NvmeRequest} {l : List NvmeRequest} (h : r ∈ l) :
    r.slot ∈ req_slots l :=
  List.mem_map_of_mem _ h

/-- `nvme_rw_cb` on an in-flight request keeps the queues well formed and
leaves the other submission queues alone. -/
theorem nvme_rw_cb_inv {now : Nat} {n m : NvmeCtrl} {req : NvmeRequest} {ret : Int}
    {s : NvmeSQueue} (hn : queues_inv n) (hs : n.sqAt req.sq = some s)
    (hin : req ∈ s.out_req_list) (h : nvme_rw_cb now n req ret = some m) :
    queues_inv m ∧ ∀ i s0, i ≠ req.sq → n.sqAt i = some s0 → m.sqAt i = some s0 := by
  unfold nvme_rw_cb at h
  simp only [hs] at h
  exact enqueue_inv (q := { req with
      status := if ret = 0 then NVME_SUCCESS else NVME_INTERNAL_DEV_ERROR })
    hn hs (mem_req_slots hin : req.slot ∈ req_slots s.out_req_list) h

theorem nvme_del_sq_cancel_inv (env : Env) (qid : Nat) :
    ∀ (fuel : Nat) (n m : NvmeCtrl), queues_inv n → nvme_del_sq_cancel env qid fuel n = some m →
      queues_inv m ∧ ∀ i s0, i ≠ qid → n.sqAt i = some s0 → m.sqAt i = some s0 := by
  intro fuel
  induction fuel with
  | zero =>
    intro n m hn h
    unfold nvme_del_sq_cancel at h
    cases hs : n.sqAt qid with
    | none => simp [hs] at h
    | some s =>
      simp only [hs] at h
      split at h
      · cases h; exact ⟨hn, fun _ _ _ h => h⟩
      · simp at h
  | succ fuel ih =>
    intro n m hn h
    unfold nvme_del_sq_cancel at h
    cases hs : n.sqAt qid with
    | none => simp [hs] at h
    | some s =>
      simp only [hs] at h
      cases ho : s.out_req_list with
      | nil => simp only [ho] at h; cases h; exact ⟨hn, fun _ _ _ h => h⟩
      | cons r rest =>
        simp only [ho] at h
        cases hcb : nvme_rw_cb env.now n r (env.aio_ret r) with
        | none => simp [hcb] at h
        | some n1 =>
          simp only [hcb] at h
          have hr : r.sq = qid := (hn.1.2.2.1 qid s hs).2.2.1 r (by rw [ho]; simp)
          obtain ⟨u1, u2⟩ := nvme_rw_cb_inv hn (by rw [hr]; exact hs) (by rw [ho]; simp) hcb
          obtain ⟨v1, v2⟩ := ih n1 m u1 h
          exact ⟨v1, fun i s0 hi hs0 => v2 i s0 hi (u2 i s0 (by rw [hr]; exact hi) hs0)⟩

/-- The reclaim loop of `nvme_del_sq` keeps the queues well formed and leaves
no request of the queue on the pending list. -/
theorem nvme_del_sq_reclaim_inv {n m : NvmeCtrl} {qid cqid : Nat} {s : NvmeSQueue}
    (hn : queues_core n) (hs : n.sqAt qid = some s) (hb : s.cqid = cqid)
    (h : nvme_del_sq_reclaim n qid cqid = some m) :
    queues_core m ∧ (∀ i, sq_listed n i → sq_listed m i) ∧
    (∀ i s0, i ≠ qid → n.sqAt i = some s0 → m.sqAt i = some s0) ∧
    ∃ s1 c1, m.sqAt qid = some s1 ∧ s1.cqid = cqid ∧ m.cqAt cqid = some c1 ∧
      pending_of c1 qid = [] := by
  unfold nvme_del_sq_reclaim at h
  cases hc : n.cqAt cqid with
  | none => simp [hc] at h
  | some c =>
    simp only [hc, hs, Option.some.injEq] at h
    subst h
    have hsok := hn.2.2.1 qid s hs
    have hsqAt := sqAt_set (m := { n with
        cq := n.cq.set cqid (some { c with
          req_list := c.req_list.filter (fun r => decide (r.sq ≠ qid)) }),
        sq := n.sq.set qid (some { s with
          req_list := s.req_list ++ c.req_list.filter (fun r => decide (r.sq = qid)) }) })
      (sqAt_lt hs) rfl
    have hcqAt := cqAt_set (m := { n with
        cq := n.cq.set cqid (some { c with
          req_list := c.req_list.filter (fun r => decide (r.sq ≠ qid)) }),
        sq := n.sq.set qid (some { s with
          req_list := s.req_list ++ c.req_list.filter (fun r => decide (r.sq = qid)) }) })
      (cqAt_lt hc) rfl
    have hnone : pending_of { c with
        req_list := c.req_list.filter (fun r => decide (r.sq ≠ qid)) } qid = [] := by
      simp only [pending_of, List.filter_filter]
      rw [List.filter_eq_nil_iff]
      intro a _
      simp
    obtain ⟨u1, u2⟩ := queues_core_update hn hs hc hb (by rfl) (by simp) (by simp) hsqAt hcqAt
      rfl rfl rfl rfl
      (by
        intro x hx
        simp only [List.mem_append, List.mem_filter, decide_eq_true_eq] at hx
        rcases hx with hx | hx
        · exact hsok.2.1 x hx
        · exact hx.2)
      hsok.2.2.1
      (by
        rw [hnone, List.perm_iff_count]
        intro a
        simp only [req_slots, pending_of, List.map_append, List.map_nil,
          List.count_append, List.count_nil]
        omega)
      (by
        intro i hi
        simp only [pending_of, List.filter_filter]
        apply List.filter_congr
        intro x _
        by_cases hx : x.sq = i
        · have : x.sq ≠ qid := by rw [hx]; exact hi
          simp [hx, hi]
        · simp [hx])
      (by
        intro x hx
        exact Or.inl (List.mem_of_mem_filter hx))
    refine ⟨u1, fun i => u2 rfl i, ?_, _, _, (hsqAt qid).trans (if_pos rfl), hb,
      (hcqAt cqid).trans (if_pos rfl), hnone⟩
    intro i s0 hi hs0
    rw [hsqAt, if_neg hi]
    exact hs0

/-- Freeing a submission queue that has no pending request keeps the queues
well formed. -/
theorem nvme_free_sq_inv {n : NvmeCtrl} {qid : Nat} {s : NvmeSQueue} {c : NvmeCQueue}
    (hn : queues_core n) (hs : n.sqAt qid = some s) (hc : n.cqAt s.cqid = some c)
    (hnone : pending_of c qid = []) :
    queues_core (nvme_free_sq s n) ∧
    (∀ i, i ≠ qid → sq_listed n i → sq_listed (nvme_free_sq s n) i) ∧
    (∀ i, (nvme_free_sq s n).sqAt i = if i = qid then none else n.sqAt i) := by
  obtain ⟨l1, l2, hS, hC⟩ := hn
  have hid : s.sqid = qid := (hS qid s hs).1
  have hsqAt : ∀ i, (nvme_free_sq s n).sqAt i = if i = qid then none else n.sqAt i := by
    intro i
    have := sqAt_set (m := nvme_free_sq s n) (sqAt_lt hs) (by unfold nvme_free_sq; rw [hid]) i
    exact this
  have hcqAt : ∀ j, (nvme_free_sq s n).cqAt j = n.cqAt j := fun _ => rfl
  refine ⟨⟨by simp [nvme_free_sq, l1], l2, ?_, ?_⟩, ?_, hsqAt⟩
  · intro i si hi
    rw [hsqAt] at hi
    split at hi
    · simp at hi
    · exact hS i si hi
  · intro j cj hj
    rw [hcqAt] at hj
    obtain ⟨q1, q2⟩ := hC j cj hj
    refine ⟨q1, ?_⟩
    intro r hr
    obtain ⟨s0, hs0, hs0c⟩ := q2 r hr
    by_cases hrq : r.sq = qid
    · rw [hrq, hs] at hs0
      cases hs0
      rw [hs0c, hj] at hc
      cases hc
      have : r ∈ pending_of c qid := by
        simp only [pending_of, List.mem_filter, decide_eq_true_eq]
        exact ⟨hr, hrq⟩
      rw [hnone] at this
      simp at this
    · exact ⟨s0, by rw [hsqAt, if_neg hrq]; exact hs0, hs0c⟩
  · intro i hi hL s0 c0 hs0 hc0
    rw [hsqAt, if_neg hi] at hs0
    exact hL s0 c0 hs0 hc0

theorem check_cqid_of_some {n : NvmeCtrl} {j : Nat} {c : NvmeCQueue} (hl : n.cq.length = n.num_queues)
    (hc : n.cqAt j = some c) : nvme_check_cqid n j = 0 := by
  unfold nvme_check_cqid
  rw [if_pos ⟨by rw [← hl]; exact cqAt_lt hc, by rw [hc]; rfl⟩]

/-- Delete I/O Submission Queue keeps the queues well formed and does not
touch the in-flight list of the admin queue. -/
theorem nvme_del_sq_inv {env : Env} {n m : NvmeCtrl} {cmd : NvmeCmd} {st : Nat}
    {w : List (Nat × NvmeCqe)} (hn : queues_inv n)
    (h : nvme_del_sq env n cmd = some (st, m, w)) : queues_inv m ∧ sq_kept n m 0 := by
  unfold nvme_del_sq at h
  simp only at h
  by_cases hq : dw_lo cmd.cdw10 = 0 ∨ nvme_check_sqid n (dw_lo cmd.cdw10) ≠ 0
  · rw [if_pos hq] at h
    simp only [Option.some.injEq, Prod.mk.injEq] at h
    rw [← h.2.1]
    exact ⟨hn, sq_kept_refl n 0⟩
  · rw [if_neg hq] at h
    have hq0 : dw_lo cmd.cdw10 ≠ 0 := fun h0 => hq (Or.inl h0)
    cases hs0 : n.sqAt (dw_lo cmd.cdw10) with
    | none => simp [hs0] at h
    | some sq0 =>
      simp only [hs0] at h
      cases hcan : nvme_del_sq_cancel env (dw_lo cmd.cdw10) sq0.out_req_list.length n with
      | none => simp [hcan] at h
      | some n1 =>
        simp only [hcan] at h
        obtain ⟨⟨a1, a2⟩, a3⟩ := nvme_del_sq_cancel_inv env _ _ _ _ hn hcan
        cases hs1 : n1.sqAt (dw_lo cmd.cdw10) with
        | none => simp [hs1] at h
        | some sq =>
          simp only [hs1] at h
          obtain ⟨-, -, -, cq, hcq, -⟩ := a1.2.2.1 _ sq hs1
          rw [if_pos (check_cqid_of_some a1.2.1 hcq)] at h
          simp only [hcq] at h
          have hsq2 : ∀ i, NvmeCtrl.sqAt { n1 with cq := n1.cq.set sq.cqid (some { cq with
              sq_list := cq.sq_list.filter (fun i => decide (i ≠ dw_lo cmd.cdw10)) }) } i =
              if i = dw_lo cmd.cdw10 then some sq else n1.sqAt i := by
            intro i
            split
            · rename_i hi; rw [hi, ← hs1]; rfl
            · rfl
          have hcq2 := cqAt_set (m := { n1 with cq := n1.cq.set sq.cqid (some { cq with
              sq_list := cq.sq_list.filter (fun i => decide (i ≠ dw_lo cmd.cdw10)) }) })
            (cqAt_lt hcq) rfl
          obtain ⟨b1, -⟩ := queues_core_update a1 hs1 hcq rfl (by rfl) (by rfl) (by simp)
            hsq2 hcq2 rfl rfl rfl rfl (a1.2.2.1 _ sq hs1).2.1 (a1.2.2.1 _ sq hs1).2.2.1
            (List.Perm.refl _) (fun _ _ => rfl) (fun _ hx => Or.inl hx)
          have b2 : ∀ i, i ≠ dw_lo cmd.cdw10 → sq_listed { n1 with
              cq := n1.cq.set sq.cqid (some { cq with
                sq_list := cq.sq_list.filter (fun i => decide (i ≠ dw_lo cmd.cdw10)) }) } i := by
            intro i hi s0 c0 hs0 hc0
            have hs0' : n1.sqAt i = some s0 := hs0
            rw [hcq2] at hc0
            split at hc0
            · rename_i hj
              cases hc0
              simp only [List.mem_filter, decide_eq_true_eq]
              exact ⟨a2 i s0 cq hs0' (by rw [hj]; exact hcq), hi⟩
            · exact a2 i s0 c0 hs0' hc0
          cases hp : nvme_post_cqes { n1 with cq := n1.cq.set sq.cqid (some { cq with
              sq_list := cq.sq_list.filter (fun i => decide (i ≠ dw_lo cmd.cdw10)) }) } sq.cqid with
          | none => rw [hp] at h; simp at h
          | some p =>
            obtain ⟨n3, w3⟩ := p
            simp only [hp] at h
            obtain ⟨c1, c2, c3⟩ := nvme_post_cqes_inv b1 hp
            obtain ⟨s3, hs3, -, hs3c⟩ := c3 (dw_lo cmd.cdw10) sq hs1
            cases hr : nvme_del_sq_reclaim n3 (dw_lo cmd.cdw10) sq.cqid with
            | none => simp [hr] at h
            | some n4 =>
              simp only [hr] at h
              obtain ⟨d1, d2, d3, s4, c4, hs4, hs4c, hc4, hnone⟩ :=
                nvme_del_sq_reclaim_inv c1 hs3 hs3c hr
              simp only [hs4, Option.some.injEq, Prod.mk.injEq] at h
              obtain ⟨e1, e2, -⟩ := nvme_free_sq_inv d1 hs4 (by rw [hs4c]; exact hc4) hnone
              obtain ⟨-, hm, -⟩ := h
              subst hm
              refine ⟨⟨e1, ?_⟩, ?_⟩
              · intro i
                by_cases hi : i = dw_lo cmd.cdw10
                · intro s0 c0 hs0 _
                  rw [(nvme_free_sq_inv d1 hs4 (by rw [hs4c]; exact hc4) hnone).2.2 i,
                    if_pos hi] at hs0
                  simp at hs0
                · exact e2 i hi (d2 i (c2 i (b2 i hi)))
              · intro s0 hs00
                have k1 : n1.sqAt 0 = some s0 := a3 0 s0 (Ne.symm hq0) hs00
                obtain ⟨t3, ht3, ht3o, ht3c⟩ := c3 0 s0 k1
                have k4 := d3 0 t3 (Ne.symm hq0) ht3
                refine ⟨t3, ?_, ht3o, ht3c⟩
                rw [(nvme_free_sq_inv d1 hs4 (by rw [hs4c]; exact hc4) hnone).2.2 0,
                  if_neg (Ne.symm hq0)]
                exact k4

theorem check_sqid_of_some {n : NvmeCtrl} {i : Nat} {s : NvmeSQueue} (hl : n.sq.length = n.num_queues)
    (hs : n.sqAt i = some s) : nvme_check_sqid n i = 0 := by
  unfold nvme_check_sqid
  rw [if_pos ⟨by rw [← hl]; exact sqAt_lt hs, by rw [hs]; rfl⟩]

theorem sqAt_none_of_check {n : NvmeCtrl} {i : Nat} (hl : n.sq.length = n.num_queues)
    (h : ¬ nvme_check_sqid n i = 0) : n.sqAt i = none := by
  cases hs : n.sqAt i with
  | none => rfl
  | some s => exact absurd (check_sqid_of_some hl hs) h

theorem cqAt_none_of_check {n : NvmeCtrl} {j : Nat} (hl : n.cq.length = n.num_queues)
    (h : ¬ nvme_check_cqid n j = 0) : n.cqAt j = none := by
  cases hc : n.cqAt j with
  | none => rfl
  | some c => exact absurd (check_cqid_of_some hl hc) h

theorem req_slots_io_req_init (sqid size : Nat) :
    req_slots (io_req_init sqid size) = List.range size := by
  unfold req_slots io_req_init
  rw [List.map_map]
  exact List.map_id _

/-- `nvme_init_cq` on a free index keeps the queues well formed. -/
theorem nvme_init_cq_inv {n m : NvmeCtrl} {dma cqid vector size irq : Nat}
    (hn : queues_inv n) (hnone : n.cqAt cqid = none)
    (h : nvme_init_cq n dma cqid vector size irq = some m) :
    queues_inv m ∧ (∀ i, m.sqAt i = n.sqAt i) ∧ (∀ j, j ≠ cqid → m.cqAt j = n.cqAt j) := by
  unfold nvme_init_cq at h
  simp only at h
  split at h
  · rename_i hlt
    cases h
    obtain ⟨⟨l1, l2, hS, hC⟩, hL⟩ := hn
    have hcq := cqAt_set (m := { n with cq := n.cq.set cqid (some
      { cqid := cqid, size := size, dma_addr := dma, phase := 1, irq_enabled := irq,
        vector := vector, head := 0, tail := 0, req_list := [], sq_list := [],
        timer := none }) }) hlt rfl
    have hne : ∀ j c, n.cqAt j = some c → j ≠ cqid := by
      intro j c hj hjc
      rw [hjc, hnone] at hj
      simp at hj
    refine ⟨⟨⟨l1, by simp [l2], ?_, ?_⟩, ?_⟩, fun _ => rfl, fun j hj => by rw [hcq, if_neg hj]⟩
    · intro i s hs
      obtain ⟨q1, q2, q3, c, hc, hp⟩ := hS i s hs
      exact ⟨q1, q2, q3, c, by rw [hcq, if_neg (hne _ _ hc)]; exact hc, hp⟩
    · intro j c hj
      rw [hcq] at hj
      split at hj
      · rename_i hjc
        cases hj
        exact ⟨hjc.symm, fun r hr => by simp at hr⟩
      · exact hC j c hj
    · intro i s c hs hc
      rw [hcq] at hc
      split at hc
      · rename_i hjc
        obtain ⟨-, -, -, c0, hc0, -⟩ := hS i s hs
        exact absurd hjc (hne _ _ hc0)
      · exact hL i s c hs hc
  · simp at h

/-- `nvme_init_sq` on a free index keeps the queues well formed; the new queue
has all its slots on the free list. -/
theorem nvme_init_sq_inv {n m : NvmeCtrl} {dma sqid cqid size : Nat}
    (hn : queues_inv n) (hnone : n.sqAt sqid = none)
    (h : nvme_init_sq n dma sqid cqid size = some m) :
    queues_inv m ∧ (∀ i, i ≠ sqid → m.sqAt i = n.sqAt i) ∧
    ∃ s c, m.sqAt sqid = some s ∧ req_slots s.req_list = List.range size ∧
      s.out_req_list = [] ∧ s.cqid = cqid ∧ s.size = size ∧
      m.cqAt cqid = some c ∧ pending_of c sqid = [] := by
  unfold nvme_init_sq at h
  simp only at h
  cases hc : n.cqAt cqid with
  | none => simp [hc] at h
  | some c =>
    simp only [hc] at h
    split at h
    · rename_i hlt
      cases h
      obtain ⟨⟨l1, l2, hS, hC⟩, hL⟩ := hn
      have hsq := sqAt_set (m := { n with
        cq := n.cq.set cqid (some { c with sq_list := c.sq_list ++ [sqid] }),
        sq := n.sq.set sqid (some
          { sqid := sqid, cqid := cqid, size := size, dma_addr := dma, head := 0, tail := 0,
            req_list := io_req_init sqid size, out_req_list := [], timer := none }) }) hlt rfl
      have hcq := cqAt_set (m := { n with
        cq := n.cq.set cqid (some { c with sq_list := c.sq_list ++ [sqid] }),
        sq := n.sq.set sqid (some
          { sqid := sqid, cqid := cqid, size := size, dma_addr := dma, head := 0, tail := 0,
            req_list := io_req_init sqid size, out_req_list := [], timer := none }) })
        (cqAt_lt hc) rfl
      have hpend : pending_of { c with sq_list := c.sq_list ++ [sqid] } sqid = [] := by
        simp only [pending_of]
        rw [List.filter_eq_nil_iff]
        intro r hr hrs
        obtain ⟨s0, hs0, -⟩ := (hC cqid c hc).2 r hr
        rw [of_decide_eq_true hrs, hnone] at hs0
        simp at hs0
      refine ⟨⟨⟨by simp [l1], by simp [l2], ?_, ?_⟩, ?_⟩,
        fun i hi => by rw [hsq, if_neg hi], _, _, (hsq sqid).trans (if_pos rfl),
        req_slots_io_req_init sqid size, rfl, rfl, rfl, (hcq cqid).trans (if_pos rfl), hpend⟩
      · intro i s hs
        rw [hsq] at hs
        split at hs
        · rename_i hi
          cases hs
          refine ⟨hi.symm, ?_, fun r hr => by simp at hr, _, (hcq cqid).trans (if_pos rfl), ?_⟩
          · intro r hr
            simp only [io_req_init, List.mem_map] at hr
            obtain ⟨k, -, hk⟩ := hr
            rw [← hk, hi]
          · rw [hi, hpend, req_slots_io_req_init]
            simp [req_slots]
        · obtain ⟨q1, q2, q3, c0, hc0, hp⟩ := hS i s hs
          by_cases hsc : s.cqid = cqid
          · rw [hsc, hc] at hc0
            cases hc0
            exact ⟨q1, q2, q3, { c with sq_list := c.sq_list ++ [sqid] },
              by rw [hsc]; exact (hcq cqid).trans (if_pos rfl), hp⟩
          · exact ⟨q1, q2, q3, c0, by rw [hcq, if_neg hsc]; exact hc0, hp⟩
      · intro j cj hj
        have key : ∀ (r : NvmeRequest) (s0 : NvmeSQueue), n.sqAt r.sq = some s0 → s0.cqid = j →
            ∃ s1, NvmeCtrl.sqAt { n with
              cq := n.cq.set cqid (some { c with sq_list := c.sq_list ++ [sqid] }),
              sq := n.sq.set sqid (some
                { sqid := sqid, cqid := cqid, size := size, dma_addr := dma, head := 0,
                  tail := 0, req_list := io_req_init sqid size, out_req_list := [],
                  timer := none }) } r.sq = some s1 ∧ s1.cqid = j := by
          intro r s0 hs0 hs0c
          have hne : r.sq ≠ sqid := by
            intro he
            rw [he, hnone] at hs0
            simp at hs0
          exact ⟨s0, by rw [hsq, if_neg hne]; exact hs0, hs0c⟩
        rw [hcq] at hj
        split at hj
        · rename_i hjc
          cases hj
          obtain ⟨q1, q2⟩ := hC cqid c hc
          refine ⟨q1.trans hjc.symm, ?_⟩
          intro r hr
          obtain ⟨s0, hs0, hs0c⟩ := q2 r hr
          exact key r s0 hs0 (hs0c.trans hjc.symm)
        · obtain ⟨q1, q2⟩ := hC j cj hj
          refine ⟨q1, ?_⟩
          intro r hr
          obtain ⟨s0, hs0, hs0c⟩ := q2 r hr
          exact key r s0 hs0 hs0c
      · intro i s c0 hs hc0
        rw [hsq] at hs
        rw [hcq] at hc0
        split at hs
        · rename_i hi
          cases hs
          rw [if_pos rfl] at hc0
          cases hc0
          simp [hi]
        · split at hc0
          · rename_i hsc
            cases hc0
            simp only [List.mem_append, List.mem_singleton]
            exact Or.inl (hL i s c hs (by rw [hsc]; exact hc))
          · exact hL i s c0 hs hc0
    · simp at h

theorem sq_kept_of_eq {n m : NvmeCtrl} {i : Nat} (h : m.sqAt i = n.sqAt i) : sq_kept n m i :=
  fun s hs => ⟨s, by rw [h]; exact hs, rfl, rfl⟩

/-- Create I/O Submission Queue keeps the queues well formed. -/
theorem nvme_create_sq_inv {n m : NvmeCtrl} {cmd : NvmeCmd} {st : Nat} (hn : queues_inv n)
    (h : nvme_create_sq n cmd = some (st, m)) : queues_inv m ∧ sq_kept n m 0 := by
  unfold nvme_create_sq at h
  simp only at h
  split at h
  · cases h; exact ⟨hn, sq_kept_refl n 0⟩
  · split at h
    · cases h; exact ⟨hn, sq_kept_refl n 0⟩
    · rename_i hq
      split at h
      · cases h; exact ⟨hn, sq_kept_refl n 0⟩
      · split at h
        · cases h; exact ⟨hn, sq_kept_refl n 0⟩
        · split at h
          · cases h; exact ⟨hn, sq_kept_refl n 0⟩
          · cases hi : nvme_init_sq n cmd.prp1 (dw_lo cmd.cdw10) (dw_hi cmd.cdw11)
                ((dw_hi cmd.cdw10 + 1) % 2 ^ 16) with
            | none => rw [hi] at h; simp at h
            | some m1 =>
              rw [hi] at h
              simp only [Option.map_some', Option.some.injEq, Prod.mk.injEq] at h
              rw [← h.2]
              have hq0 : dw_lo cmd.cdw10 ≠ 0 := fun h0 => hq (Or.inl h0)
              obtain ⟨u1, u2, -⟩ := nvme_init_sq_inv hn
                (sqAt_none_of_check hn.1.1 (fun h0 => hq (Or.inr h0))) hi
              exact ⟨u1, sq_kept_of_eq (u2 0 (Ne.symm hq0))⟩

/-- Create I/O Completion Queue keeps the queues well formed. -/
theorem nvme_create_cq_inv {n m : NvmeCtrl} {cmd : NvmeCmd} {st : Nat} (hn : queues_inv n)
    (h : nvme_create_cq n cmd = some (st, m)) : queues_inv m ∧ sq_kept n m 0 := by
  unfold nvme_create_cq at h
  simp only at h
  split at h
  · cases h; exact ⟨hn, sq_kept_refl n 0⟩
  · rename_i hq
    split at h
    · cases h; exact ⟨hn, sq_kept_refl n 0⟩
    · split at h
      · cases h; exact ⟨hn, sq_kept_refl n 0⟩
      · split at h
        · cases h; exact ⟨hn, sq_kept_refl n 0⟩
        · split at h
          · cases h; exact ⟨hn, sq_kept_refl n 0⟩
          · cases hi : nvme_init_cq n cmd.prp1 (dw_lo cmd.cdw10) (dw_hi cmd.cdw11)
                ((dw_hi cmd.cdw10 + 1) % 2 ^ 16) (NVME_CQ_FLAGS_IEN (dw_lo cmd.cdw11)) with
            | none => rw [hi] at h; simp at h
            | some m1 =>
              rw [hi] at h
              simp only [Option.map_some', Option.some.injEq, Prod.mk.injEq] at h
              rw [← h.2]
              obtain ⟨u1, u2, -⟩ := nvme_init_cq_inv hn
                (cqAt_none_of_check hn.1.2.1 (fun h0 => hq (Or.inr h0))) hi
              exact ⟨u1, sq_kept_of_eq (u2 0)⟩

/-- Freeing a completion queue to which no submission queue is bound keeps the
queues well formed. -/
theorem nvme_free_cq_inv {n : NvmeCtrl} {qid : Nat} {c : NvmeCQueue} (hn : queues_inv n)
    (hc : n.cqAt qid = some c) (hempty : c.sq_list = []) :
    queues_inv (nvme_free_cq c n) := by
  obtain ⟨⟨l1, l2, hS, hC⟩, hL⟩ := hn
  have hid : c.cqid = qid := (hC qid c hc).1
  have hcq : ∀ j, (nvme_free_cq c n).cqAt j = if j = qid then none else n.cqAt j :=
    cqAt_set (m := nvme_free_cq c n) (cqAt_lt hc) (by unfold nvme_free_cq; rw [hid])
  have hne : ∀ i s, n.sqAt i = some s → s.cqid ≠ qid := by
    intro i s hs hsc
    have := hL i s c hs (by rw [hsc]; exact hc)
    rw [hempty] at this
    simp at this
  refine ⟨⟨l1, by simp [nvme_free_cq, l2], ?_, ?_⟩, ?_⟩
  · intro i s hs
    obtain ⟨q1, q2, q3, c0, hc0, hp⟩ := hS i s hs
    exact ⟨q1, q2, q3, c0, by rw [hcq, if_neg (hne i s hs)]; exact hc0, hp⟩
  · intro j cj hj
    rw [hcq] at hj
    split at hj
    · simp at hj
    · exact hC j cj hj
  · intro i s c0 hs hc0
    rw [hcq, if_neg (hne i s hs)] at hc0
    exact hL i s c0 hs hc0

/-- Delete I/O Completion Queue keeps the queues well formed. -/
theorem nvme_del_cq_inv {n m : NvmeCtrl} {cmd : NvmeCmd} {st : Nat} (hn : queues_inv n)
    (h : nvme_del_cq n cmd = some (st, m)) : queues_inv m ∧ sq_kept n m 0 := by
  unfold nvme_del_cq at h
  simp only at h
  split at h
  · cases h; exact ⟨hn, sq_kept_refl n 0⟩
  · cases hc : n.cqAt (dw_lo cmd.cdw10) with
    | none => rw [hc] at h; simp at h
    | some c =>
      rw [hc] at h
      simp only at h
      split at h
      · cases h; exact ⟨hn, sq_kept_refl n 0⟩
      · rename_i hempty
        cases hd : nvme_irq_deassert n c with
        | none => rw [hd] at h; simp at h
        | some m1 =>
          rw [hd] at h
          simp only [Option.map_some', Option.some.injEq, Prod.mk.injEq] at h
          rw [← h.2]
          have hsame := nvme_irq_deassert_same hd
          obtain ⟨c1, hc1, hv⟩ := same_queues_cq (same_queues_symm hsame) hc
          have hcc : nvme_free_cq c m1 = nvme_free_cq c1 m1 := by
            simp only [cq_view, Prod.mk.injEq] at hv
            unfold nvme_free_cq
            rw [hv.1]
          rw [hcc]
          refine ⟨nvme_free_cq_inv (queues_inv_congr hsame hn) hc1 ?_, ?_⟩
          · simp only [cq_view, Prod.mk.injEq] at hv
            rw [← hv.2.1]
            exact not_not.mp hempty
          · exact sq_kept_trans (same_queues_kept hsame 0) (sq_kept_of_eq rfl)

/-- The admin dispatcher keeps the queues well formed and does not touch the
in-flight list of the admin queue. -/
theorem nvme_admin_cmd_inv {env : Env} {n : NvmeCtrl} {cmd : NvmeCmd} {req : NvmeRequest}
    {o : AdminOut} (hn : queues_inv n) (h : nvme_admin_cmd env n cmd req = some o) :
    queues_inv o.n ∧ sq_kept n o.n 0 := by
  unfold nvme_admin_cmd at h
  split at h
  · cases hd : nvme_del_sq env n cmd with
    | none => rw [hd] at h; simp at h
    | some r =>
      obtain ⟨st, m, w⟩ := r
      rw [hd] at h
      simp only [Option.map_some', Option.some.injEq] at h
      rw [← h]
      exact nvme_del_sq_inv hn hd
  · split at h
    · cases hd : nvme_create_sq n cmd with
      | none => rw [hd] at h; simp at h
      | some r =>
        obtain ⟨st, m⟩ := r
        rw [hd] at h
        simp only [Option.map_some', Option.some.injEq] at h
        rw [← h]
        exact nvme_create_sq_inv hn hd
    · split at h
      · cases h; exact ⟨hn, sq_kept_refl n 0⟩
      · split at h
        · cases hd : nvme_del_cq n cmd with
          | none => rw [hd] at h; simp at h
          | some r =>
            obtain ⟨st, m⟩ := r
            rw [hd] at h
            simp only [Option.map_some', Option.some.injEq] at h
            rw [← h]
            exact nvme_del_cq_inv hn hd
        · split at h
          · cases hd : nvme_create_cq n cmd with
            | none => rw [hd] at h; simp at h
            | some r =>
              obtain ⟨st, m⟩ := r
              rw [hd] at h
              simp only [Option.map_some', Option.some.injEq] at h
              rw [← h]
              exact nvme_create_cq_inv hn hd
          · split at h
            · cases h; exact ⟨hn, sq_kept_refl n 0⟩
            · split at h
              · simp only [Option.some.injEq] at h
                rw [← h]
                simp only
                split
                · have hs : same_queues n (nvme_set_timestamp env.now n ‹Nat›) :=
                    same_queues_of_eq rfl rfl rfl
                  exact ⟨queues_inv_congr hs hn, same_queues_kept hs 0⟩
                · exact ⟨hn, sq_kept_refl n 0⟩
              · split at h
                · cases h; exact ⟨hn, sq_kept_refl n 0⟩
                · cases h; exact ⟨hn, sq_kept_refl n 0⟩

theorem sqAt_none_of_le {n : NvmeCtrl} {i : Nat} (h : n.sq.length ≤ i) : n.sqAt i = none := by
  cases hs : n.sqAt i with
  | none => rfl
  | some s => exact absurd (sqAt_lt hs) (by omega)

theorem cqAt_none_of_le {n : NvmeCtrl} {j : Nat} (h : n.cq.length ≤ j) : n.cqAt j = none := by
  cases hc : n.cqAt j with
  | none => rfl
  | some c => exact absurd (cqAt_lt hc) (by omega)

theorem free_sq_loop_spec (l : List Nat) : ∀ (m : NvmeCtrl),
    (∀ i s, m.sqAt i = some s → s.sqid = i) →
    (free_sq_loop m l).num_queues = m.num_queues ∧
    (free_sq_loop m l).sq.length = m.sq.length ∧ (free_sq_loop m l).cq = m.cq ∧
    ∀ i, (free_sq_loop m l).sqAt i = if i ∈ l then none else m.sqAt i := by
  induction l with
  | nil =>
    intro m _
    exact ⟨rfl, rfl, rfl, fun i => by simp [free_sq_loop]⟩
  | cons a l ih =>
    intro m hid
    have hstep : free_sq_loop m (a :: l) = free_sq_loop (match m.sqAt a with
        | some sq => nvme_free_sq sq m
        | none => m) l := rfl
    rw [hstep]
    cases hs : m.sqAt a with
    | none =>
      simp only
      obtain ⟨u1, u2, u3, u4⟩ := ih m hid
      refine ⟨u1, u2, u3, ?_⟩
      intro i
      rw [u4 i]
      by_cases hia : i = a
      · subst hia; simp [hs]
      · simp [hia]
    | some sq =>
      simp only
      have hsq : ∀ i, (nvme_free_sq sq m).sqAt i = if i = a then none else m.sqAt i :=
        sqAt_set (m := nvme_free_sq sq m) (sqAt_lt hs)
          (by unfold nvme_free_sq; rw [hid a sq hs])
      obtain ⟨u1, u2, u3, u4⟩ := ih (nvme_free_sq sq m)
        (by
          intro i s hi
          rw [hsq] at hi
          split at hi
          · simp at hi
          · exact hid i s hi)
      refine ⟨u1, by rw [u2]; simp [nvme_free_sq], u3, ?_⟩
      intro i
      rw [u4 i, hsq]
      by_cases hia : i = a
      · subst hia; simp
      · simp [hia]

theorem free_cq_loop_spec (l : List Nat) : ∀ (m : NvmeCtrl),
    (∀ j c, m.cqAt j = some c → c.cqid = j) →
    (free_cq_loop m l).num_queues = m.num_queues ∧
    (free_cq_loop m l).cq.length = m.cq.length ∧ (free_cq_loop m l).sq = m.sq ∧
    ∀ j, (free_cq_loop m l).cqAt j = if j ∈ l then none else m.cqAt j := by
  induction l with
  | nil =>
    intro m _
    exact ⟨rfl, rfl, rfl, fun i => by simp [free_cq_loop]⟩
  | cons a l ih =>
    intro m hid
    have hstep : free_cq_loop m (a :: l) = free_cq_loop (match m.cqAt a with
        | some cq => nvme_free_cq cq m
        | none => m) l := rfl
    rw [hstep]
    cases hs : m.cqAt a with
    | none =>
      simp only
      obtain ⟨u1, u2, u3, u4⟩ := ih m hid
      refine ⟨u1, u2, u3, ?_⟩
      intro i
      rw [u4 i]
      by_cases hia : i = a
      · subst hia; simp [hs]
      · simp [hia]
    | some cq =>
      simp only
      have hcq : ∀ i, (nvme_free_cq cq m).cqAt i = if i = a then none else m.cqAt i :=
        cqAt_set (m := nvme_free_cq cq m) (cqAt_lt hs)
          (by unfold nvme_free_cq; rw [hid a cq hs])
      obtain ⟨u1, u2, u3, u4⟩ := ih (nvme_free_cq cq m)
        (by
          intro i s hi
          rw [hcq] at hi
          split at hi
          · simp at hi
          · exact hid i s hi)
      refine ⟨u1, by rw [u2]; simp [nvme_free_cq], u3, ?_⟩
      intro i
      rw [u4 i, hcq]
      by_cases hia : i = a
      · subst hia; simp
      · simp [hia]

/-- A controller without queues satisfies the queue invariant. -/
theorem queues_inv_of_none {n : NvmeCtrl} (l1 : n.sq.length = n.num_queues)
    (l2 : n.cq.length = n.num_queues) (hs : ∀ i, n.sqAt i = none) (hc : ∀ j, n.cqAt j = none) :
    queues_inv n := by
  refine ⟨⟨l1, l2, ?_, ?_⟩, ?_⟩
  · intro i s h; rw [hs] at h; simp at h
  · intro j c h; rw [hc] at h; simp at h
  · intro i s c h; rw [hs] at h; simp at h

/-- `nvme_clear_ctrl` leaves no queue. -/
theorem nvme_clear_ctrl_inv {n : NvmeCtrl} (hn : queues_inv n) :
    (nvme_clear_ctrl n).num_queues = n.num_queues ∧
    (nvme_clear_ctrl n).sq.length = n.num_queues ∧
    (nvme_clear_ctrl n).cq.length = n.num_queues ∧
    (∀ i, (nvme_clear_ctrl n).sqAt i = none) ∧ (∀ j, (nvme_clear_ctrl n).cqAt j = none) := by
  obtain ⟨⟨l1, l2, hS, hC⟩, -⟩ := hn
  obtain ⟨a1, a2, a3, a4⟩ := free_sq_loop_spec (List.range n.num_queues) n
    (fun i s hs => (hS i s hs).1)
  have hcq1 : ∀ j, (free_sq_loop n (List.range n.num_queues)).cqAt j = n.cqAt j := by
    intro j; unfold NvmeCtrl.cqAt; rw [a3]
  obtain ⟨b1, b2, b3, b4⟩ := free_cq_loop_spec (List.range n.num_queues)
    (free_sq_loop n (List.range n.num_queues))
    (fun j c hc => (hC j c (by rw [← hcq1]; exact hc)).1)
  have hsq2 : ∀ i, (free_cq_loop (free_sq_loop n (List.range n.num_queues))
      (List.range n.num_queues)).sqAt i = (free_sq_loop n (List.range n.num_queues)).sqAt i := by
    intro i; unfold NvmeCtrl.sqAt; rw [b3]
  refine ⟨b1.trans a1, ?_, ?_, ?_, ?_⟩
  · show (free_cq_loop (free_sq_loop n (List.range n.num_queues))
      (List.range n.num_queues)).sq.length = _
    rw [b3, a2, l1]
  · show (free_cq_loop (free_sq_loop n (List.range n.num_queues))
      (List.range n.num_queues)).cq.length = _
    rw [b2, a3, l2]
  · intro i
    show (free_cq_loop (free_sq_loop n (List.range n.num_queues))
      (List.range n.num_queues)).sqAt i = none
    rw [hsq2, a4 i]
    split
    · rfl
    · rename_i hi
      exact sqAt_none_of_le (by rw [l1]; simpa using hi)
  · intro j
    show (free_cq_loop (free_sq_loop n (List.range n.num_queues))
      (List.range n.num_queues)).cqAt j = none
    rw [b4 j]
    split
    · rfl
    · rename_i hj
      rw [hcq1]
      exact cqAt_none_of_le (by rw [l2]; simpa using hj)

theorem nvme_clear_ctrl_queues_inv {n : NvmeCtrl} (hn : queues_inv n) :
    queues_inv (nvme_clear_ctrl n) := by
  obtain ⟨a1, a2, a3, a4, a5⟩ := nvme_clear_ctrl_inv hn
  exact queues_inv_of_none (by rw [a2, a1]) (by rw [a3, a1]) a4 a5

theorem nvme_start_ctrl_cases {now : Nat} {n m : NvmeCtrl} {r : Int}
    (h : nvme_start_ctrl now n = some (r, m)) :
    m = n ∨ (n.cqAt 0 = none ∧ n.sqAt 0 = none ∧
      nvme_start_ctrl_init now n (NVME_CC_MPS n.bar.cc + 12)
        ((1 <<< (NVME_CC_MPS n.bar.cc + 12)) % 2 ^ 32) = some (r, m)) := by
  rw [nvme_start_ctrl_def] at h
  by_cases h1 : (n.cqAt 0).isSome = true
  · rw [if_pos h1] at h
    left; cases h; rfl
  rw [if_neg h1] at h
  by_cases h2 : (n.sqAt 0).isSome = true
  · rw [if_pos h2] at h
    left; cases h; rfl
  rw [if_neg h2] at h
  by_cases h3 : n.bar.asq = 0
  · rw [if_pos h3] at h
    left; cases h; rfl
  rw [if_neg h3] at h
  by_cases h4 : n.bar.acq = 0
  · rw [if_pos h4] at h
    left; cases h; rfl
  rw [if_neg h4] at h
  by_cases h5 : n.bar.asq &&& (((1 <<< (NVME_CC_MPS n.bar.cc + 12)) % 2 ^ 32) - 1) ≠ 0
  · rw [if_pos h5] at h
    left; cases h; rfl
  rw [if_neg h5] at h
  by_cases h6 : n.bar.acq &&& (((1 <<< (NVME_CC_MPS n.bar.cc + 12)) % 2 ^ 32) - 1) ≠ 0
  · rw [if_pos h6] at h
    left; cases h; rfl
  rw [if_neg h6] at h
  by_cases h7 : NVME_CC_MPS n.bar.cc < NVME_CAP_MPSMIN n.bar.cap
  · rw [if_pos h7] at h
    left; cases h; rfl
  rw [if_neg h7] at h
  by_cases h8 : NVME_CC_MPS n.bar.cc > NVME_CAP_MPSMAX n.bar.cap
  · rw [if_pos h8] at h
    left; cases h; rfl
  rw [if_neg h8] at h
  by_cases h9 : NVME_CC_IOCQES n.bar.cc < NVME_CTRL_CQES_MIN n.id_ctrl_cqes
  · rw [if_pos h9] at h
    left; cases h; rfl
  rw [if_neg h9] at h
  by_cases h10 : NVME_CC_IOCQES n.bar.cc > NVME_CTRL_CQES_MAX n.id_ctrl_cqes
  · rw [if_pos h10] at h
    left; cases h; rfl
  rw [if_neg h10] at h
  by_cases h11 : NVME_CC_IOSQES n.bar.cc < NVME_CTRL_SQES_MIN n.id_ctrl_sqes
  · rw [if_pos h11] at h
    left; cases h; rfl
  rw [if_neg h11] at h
  by_cases h12 : NVME_CC_IOSQES n.bar.cc > NVME_CTRL_SQES_MAX n.id_ctrl_sqes
  · rw [if_pos h12] at h
    left; cases h; rfl
  rw [if_neg h12] at h
  by_cases h13 : NVME_AQA_ASQS n.bar.aqa = 0
  · rw [if_pos h13] at h
    left; cases h; rfl
  rw [if_neg h13] at h
  by_cases h14 : NVME_AQA_ACQS n.bar.aqa = 0
  · rw [if_pos h14] at h
    left; cases h; rfl
  rw [if_neg h14] at h
  right
  refine ⟨?_, ?_, h⟩
  · cases hc : n.cqAt 0 with
    | none => rfl
    | some c => rw [hc] at h1; simp at h1
  · cases hs : n.sqAt 0 with
    | none => rfl
    | some s => rw [hs] at h2; simp at h2

/-- `nvme_start_ctrl` keeps the queues well formed. -/
theorem nvme_start_ctrl_inv {now : Nat} {n m : NvmeCtrl} {r : Int} (hn : queues_inv n)
    (h : nvme_start_ctrl now n = some (r, m)) : queues_inv m := by
  rcases nvme_start_ctrl_cases h with h | ⟨hc, hs, h⟩
  · rw [h]; exact hn
  · unfold nvme_start_ctrl_init at h
    simp only at h
    have hsame : same_queues n { n with
        page_bits := (NVME_CC_MPS n.bar.cc + 12) % 2 ^ 16,
        page_size := (1 <<< (NVME_CC_MPS n.bar.cc + 12)) % 2 ^ 32,
        max_prp_ents := ((1 <<< (NVME_CC_MPS n.bar.cc + 12)) % 2 ^ 32 / 8) % 2 ^ 16,
        cqe_size := (1 <<< NVME_CC_IOCQES n.bar.cc) % 2 ^ 16,
        sqe_size := (1 <<< NVME_CC_IOSQES n.bar.cc) % 2 ^ 16 } :=
      same_queues_of_eq rfl rfl rfl
    have hn1 := queues_inv_congr hsame hn
    split at h
    · simp at h
    · rename_i n2 hcq
      split at h
      · simp at h
      · rename_i n3 hsq
        simp only [Option.some.injEq, Prod.mk.injEq] at h
        rw [← h.2]
        obtain ⟨u1, u2, -⟩ := nvme_init_cq_inv hn1 hc hcq
        obtain ⟨v1, -⟩ := nvme_init_sq_inv u1 (by rw [u2]; exact hs) hsq
        exact queues_inv_congr (same_queues_of_eq rfl rfl rfl) v1

theorem sq_lists_same {n m : NvmeCtrl} (h : same_queues n m) (i : Nat) :
    sq_lists m i = sq_lists n i := by
  unfold sq_lists
  cases hs : n.sqAt i with
  | none =>
    have := h.2.2.2.1 i
    rw [hs] at this
    cases hm : m.sqAt i with
    | none => rfl
    | some s1 => rw [hm] at this; simp at this
  | some s =>
    obtain ⟨s1, hs1, hv⟩ := same_queues_sq (same_queues_symm h) hs
    simp only [sq_view, Prod.mk.injEq] at hv
    rw [hs1]
    simp only
    rw [← hv.2.1]
    cases hc : n.cqAt s.cqid with
    | none =>
      have := h.2.2.2.2 s.cqid
      rw [hc] at this
      cases hm : m.cqAt s.cqid with
      | none => rfl
      | some c1 => rw [hm] at this; simp at this
    | some c =>
      obtain ⟨c1, hc1, hcv⟩ := same_queues_cq (same_queues_symm h) hc
      simp only [cq_view, Prod.mk.injEq] at hcv
      rw [hc1]
      simp only [pending_of]
      rw [← hv.2.2.2.1, ← hv.2.2.2.2, ← hcv.2.2]

theorem lists_kept_same {n m : NvmeCtrl} (h : same_queues n m) : lists_kept n m :=
  fun i => Or.inl (sq_lists_same h i)

theorem lists_kept_none {n m : NvmeCtrl} (h : ∀ i, m.sqAt i = none) : lists_kept n m := by
  intro i
  right; left
  unfold sq_lists
  rw [h i]

theorem lists_kept_congr_right {n m m1 : NvmeCtrl} (h : lists_kept n m) (hs : same_queues m m1) :
    lists_kept n m1 := by
  intro i
  rw [sq_lists_same hs i]
  exact h i

theorem lists_kept_congr_left {n n1 m : NvmeCtrl} (hs : same_queues n n1) (h : lists_kept n1 m) :
    lists_kept n m := by
  intro i
  rw [← sq_lists_same hs i]
  rcases h i with h | h | ⟨h1, h2⟩
  · exact Or.inl h
  · exact Or.inr (Or.inl h)
  · refine Or.inr (Or.inr ⟨?_, h2⟩)
    have := hs.2.2.2.1 i
    rw [h1] at this
    cases hn : n.sqAt i with
    | none => rfl
    | some s => rw [hn] at this; simp at this

theorem nvme_init_sq_cqAt {n m : NvmeCtrl} {dma sqid cqid size : Nat}
    (h : nvme_init_sq n dma sqid cqid size = some m) :
    ∀ j, j ≠ cqid → m.cqAt j = n.cqAt j := by
  unfold nvme_init_sq at h
  simp only at h
  cases hc : n.cqAt cqid with
  | none => simp [hc] at h
  | some c =>
    simp only [hc] at h
    split at h
    · cases h
      intro j hj
      rw [cqAt_set (cqAt_lt hc) rfl, if_neg hj]
    · simp at h

/-- What `nvme_start_ctrl` does to the lists: nothing, or it creates the admin
queue with all slots free. -/
theorem nvme_start_ctrl_lists {now : Nat} {n m : NvmeCtrl} {r : Int} (hn : queues_inv n)
    (h : nvme_start_ctrl now n = some (r, m)) : lists_kept n m := by
  rcases nvme_start_ctrl_cases h with h | ⟨hc, hs, h⟩
  · rw [h]; exact lists_kept_same (same_queues_refl n)
  · unfold nvme_start_ctrl_init at h
    simp only at h
    have hsame : same_queues n { n with
        page_bits := (NVME_CC_MPS n.bar.cc + 12) % 2 ^ 16,
        page_size := (1 <<< (NVME_CC_MPS n.bar.cc + 12)) % 2 ^ 32,
        max_prp_ents := ((1 <<< (NVME_CC_MPS n.bar.cc + 12)) % 2 ^ 32 / 8) % 2 ^ 16,
        cqe_size := (1 <<< NVME_CC_IOCQES n.bar.cc) % 2 ^ 16,
        sqe_size := (1 <<< NVME_CC_IOSQES n.bar.cc) % 2 ^ 16 } :=
      same_queues_of_eq rfl rfl rfl
    have hn1 := queues_inv_congr hsame hn
    split at h
    · simp at h
    · rename_i n2 hcq
      split at h
      · simp at h
      · rename_i n3 hsq
        simp only [Option.some.injEq, Prod.mk.injEq] at h
        rw [← h.2]
        obtain ⟨u1, u2, u3⟩ := nvme_init_cq_inv hn1 hc hcq
        obtain ⟨v1, v2, s, c, w1, w2, w3, w4, w5, w6, w7⟩ :=
          nvme_init_sq_inv u1 (by rw [u2]; exact hs) hsq
        have v3 := nvme_init_sq_cqAt hsq
        have u2 : ∀ i, n2.sqAt i = n.sqAt i := u2
        have u3 : ∀ j, j ≠ 0 → n2.cqAt j = n.cqAt j := u3
        refine lists_kept_congr_right (m := n3) ?_ (same_queues_of_eq rfl rfl rfl)
        intro i
        by_cases hi : i = 0
        · subst hi
          refine Or.inr (Or.inr ⟨hs, ?_⟩)
          unfold sq_lists
          rw [w1]
          simp only
          rw [w4, w6]
          simp only
          rw [w2, w3, w7]
          exact ⟨_, rfl⟩
        · left
          unfold sq_lists
          rw [v2 i hi, u2 i]
          cases hsi : n.sqAt i with
          | none => rfl
          | some si =>
            simp only
            obtain ⟨-, -, -, ci, hci, -⟩ := hn.1.2.2.1 i si hsi
            have hne : si.cqid ≠ 0 := by
              intro h0
              rw [h0, hc] at hci
              simp at hci
            rw [v3 _ hne, u3 _ hne]

theorem nvme_write_cc_data_same (n : NvmeCtrl) (data : Nat) :
    same_queues n (nvme_write_cc_data n data) := by
  unfold nvme_write_cc_data
  split
  · exact same_queues_of_eq rfl rfl rfl
  · exact same_queues_refl n

theorem nvme_write_cc_en_inv {now : Nat} {n m : NvmeCtrl} {data : Nat} (hn : queues_inv n)
    (h : nvme_write_cc_en now n data = some m) : queues_inv m ∧ lists_kept n m := by
  unfold nvme_write_cc_en at h
  split at h
  · have hsame : same_queues n { n with bar := { n.bar with cc := data % 2 ^ 32 } } :=
      same_queues_of_eq rfl rfl rfl
    split at h
    · simp at h
    · rename_i r m1 hst
      have u1 := nvme_start_ctrl_inv (queues_inv_congr hsame hn) hst
      have u2 := lists_kept_congr_left hsame
        (nvme_start_ctrl_lists (queues_inv_congr hsame hn) hst)
      split at h
      · cases h
        exact ⟨queues_inv_congr (same_queues_of_eq rfl rfl rfl) u1,
          lists_kept_congr_right u2 (same_queues_of_eq rfl rfl rfl)⟩
      · cases h
        exact ⟨queues_inv_congr (same_queues_of_eq rfl rfl rfl) u1,
          lists_kept_congr_right u2 (same_queues_of_eq rfl rfl rfl)⟩
  · split at h
    · simp only [Option.some.injEq] at h
      rw [← h]
      obtain ⟨a1, a2, a3, a4, a5⟩ := nvme_clear_ctrl_inv hn
      exact ⟨queues_inv_congr (same_queues_of_eq rfl rfl rfl) (nvme_clear_ctrl_queues_inv hn),
        lists_kept_none a4⟩
    · cases h
      exact ⟨hn, lists_kept_same (same_queues_refl n)⟩

theorem nvme_smart_inc_same (n : NvmeCtrl) :
    same_queues n (nvme_smart_inc_num_power_cycle n) := by
  unfold nvme_smart_inc_num_power_cycle
  simp only
  split <;> exact same_queues_of_eq rfl rfl rfl

theorem nvme_write_cc_shn_inv {n : NvmeCtrl} {d : Nat} (hn : queues_inv n) :
    queues_inv (nvme_write_cc_shn n d) ∧
    (same_queues n (nvme_write_cc_shn n d) ∨ ∀ i, (nvme_write_cc_shn n d).sqAt i = none) := by
  unfold nvme_write_cc_shn
  split
  · simp only
    obtain ⟨a1, a2, a3, a4, a5⟩ := nvme_clear_ctrl_inv hn
    have hs := same_queues_trans
      (same_queues_of_eq (n := nvme_clear_ctrl n)
        (m := { (nvme_clear_ctrl n) with
          bar := { (nvme_clear_ctrl n).bar with
            cc := d % 2 ^ 32,
            csts := (nvme_clear_ctrl n).bar.csts ||| NVME_CSTS_SHST_COMPLETE } }) rfl rfl rfl)
      (nvme_smart_inc_same _)
    refine ⟨queues_inv_congr hs (nvme_clear_ctrl_queues_inv hn), Or.inr ?_⟩
    intro i
    have := hs.2.2.2.1 i
    rw [a4 i] at this
    cases hm : NvmeCtrl.sqAt (nvme_smart_inc_num_power_cycle { (nvme_clear_ctrl n) with
          bar := { (nvme_clear_ctrl n).bar with
            cc := d % 2 ^ 32,
            csts := (nvme_clear_ctrl n).bar.csts ||| NVME_CSTS_SHST_COMPLETE } }) i with
    | none => rfl
    | some s => rw [hm] at this; simp at this
  · split
    · exact ⟨queues_inv_congr (same_queues_of_eq rfl rfl rfl) hn,
        Or.inl (same_queues_of_eq rfl rfl rfl)⟩
    · exact ⟨hn, Or.inl (same_queues_refl n)⟩

theorem nvme_write_cc_inv {now : Nat} {n m : NvmeCtrl} {data : Nat} (hn : queues_inv n)
    (h : nvme_write_cc now n data = some m) : queues_inv m ∧ lists_kept n m := by
  unfold nvme_write_cc at h
  cases hen : nvme_write_cc_en now (nvme_write_cc_data n data) data with
  | none => rw [hen] at h; simp at h
  | some n2 =>
    rw [hen] at h
    simp only [Option.map_some', Option.some.injEq] at h
    rw [← h]
    have hd := nvme_write_cc_data_same n data
    obtain ⟨u1, u2⟩ := nvme_write_cc_en_inv (queues_inv_congr hd hn) hen
    obtain ⟨v1, v2⟩ := nvme_write_cc_shn_inv (d := data) u1
    refine ⟨v1, ?_⟩
    rcases v2 with v2 | v2
    · exact lists_kept_congr_right (lists_kept_congr_left hd u2) v2
    · exact lists_kept_none v2

theorem nvme_irq_check_same (n : NvmeCtrl) : same_queues n (nvme_irq_check n) :=
  irq_frame_same (nvme_irq_check_frame n)

theorem nvme_write_bar_inv {now : Nat} {n m : NvmeCtrl} {offset data size : Nat}
    (hn : queues_inv n) (h : nvme_write_bar now n offset data size = some m) :
    queues_inv m ∧ lists_kept n m := by
  have key : ∀ {m1 : NvmeCtrl}, same_queues n m1 → queues_inv m1 ∧ lists_kept n m1 :=
    fun hs => ⟨queues_inv_congr hs hn, lists_kept_same hs⟩
  unfold nvme_write_bar at h
  by_cases h1 : offset = 0xc
  · rw [if_pos h1] at h
    simp only [Option.some.injEq] at h
    rw [← h]
    exact key (same_queues_trans (same_queues_of_eq (m := { n with bar := { n.bar with intms := (n.bar.intms ||| (data &&& 0xffffffff)) % 2 ^ 32, intmc := (n.bar.intms ||| (data &&& 0xffffffff)) % 2 ^ 32 } }) rfl rfl rfl) (nvme_irq_check_same _))
  rw [if_neg h1] at h
  by_cases h2 : offset = 0x10
  · rw [if_pos h2] at h
    simp only [Option.some.injEq] at h
    rw [← h]
    exact key (same_queues_trans (same_queues_of_eq (m := { n with bar := { n.bar with intms := n.bar.intms &&& (0xFFFFFFFF - (data &&& 0xffffffff)), intmc := n.bar.intms &&& (0xFFFFFFFF - (data &&& 0xffffffff)) } }) rfl rfl rfl) (nvme_irq_check_same _))
  rw [if_neg h2] at h
  by_cases h3 : offset = 0x14
  · rw [if_pos h3] at h
    exact nvme_write_cc_inv hn h
  rw [if_neg h3] at h
  by_cases h4 : offset = 0x1C
  · rw [if_pos h4] at h
    simp only [Option.some.injEq] at h
    rw [← h]
    exact key (same_queues_of_eq rfl rfl rfl)
  rw [if_neg h4] at h
  by_cases h5 : offset = 0x20
  · rw [if_pos h5] at h
    simp only [Option.some.injEq] at h
    rw [← h]
    exact key (same_queues_of_eq rfl rfl rfl)
  rw [if_neg h5] at h
  by_cases h6 : offset = 0x24
  · rw [if_pos h6] at h
    simp only [Option.some.injEq] at h
    rw [← h]
    exact key (same_queues_of_eq rfl rfl rfl)
  rw [if_neg h6] at h
  by_cases h7 : offset = 0x28
  · rw [if_pos h7] at h
    simp only [Option.some.injEq] at h
    rw [← h]
    exact key (same_queues_of_eq rfl rfl rfl)
  rw [if_neg h7] at h
  by_cases h8 : offset = 0x2c
  · rw [if_pos h8] at h
    simp only [Option.some.injEq] at h
    rw [← h]
    exact key (same_queues_of_eq rfl rfl rfl)
  rw [if_neg h8] at h
  by_cases h9 : offset = 0x30
  · rw [if_pos h9] at h
    simp only [Option.some.injEq] at h
    rw [← h]
    exact key (same_queues_of_eq rfl rfl rfl)
  rw [if_neg h9] at h
  by_cases h10 : offset = 0x34
  · rw [if_pos h10] at h
    simp only [Option.some.injEq] at h
    rw [← h]
    exact key (same_queues_of_eq rfl rfl rfl)
  rw [if_neg h10] at h
  by_cases h11 : offset = 0x38
  · rw [if_pos h11] at h
    simp only [Option.some.injEq] at h
    rw [← h]
    exact key (same_queues_of_eq rfl rfl rfl)
  rw [if_neg h11] at h
  by_cases h12 : offset = 0x3C
  · rw [if_pos h12] at h
    simp only [Option.some.injEq] at h
    rw [← h]
    exact key (same_queues_of_eq rfl rfl rfl)
  rw [if_neg h12] at h
  simp only [Option.some.injEq] at h
  rw [← h]
  exact key (same_queues_refl n)

theorem db_cq_same {now : Nat} {n m : NvmeCtrl} {qid v : Nat} {cq : NvmeCQueue}
    (hcq : n.cqAt qid = some cq)
    (h : (let start_sqs := nvme_cq_full cq
          let cq1 := { cq with head := v }
          let n1 := { n with cq := n.cq.set qid (some cq1) }
          let n2 :=
            if start_sqs then
              let m := arm_sq_timers now n1 cq1.sq_list
              { m with cq := m.cq.set qid (some { cq1 with timer := some (now + 500) }) }
            else n1
          if cq1.tail = cq1.head then nvme_irq_deassert n2 cq1 else some n2) = some m) :
    same_queues n m := by
  have h1 : same_queues n { n with cq := n.cq.set qid (some { cq with head := v }) } :=
    same_queues_set_cq hcq rfl
  have hcq1 : NvmeCtrl.cqAt { n with cq := n.cq.set qid (some { cq with head := v }) } qid
      = some { cq with head := v } :=
    (cqAt_set (cqAt_lt hcq) rfl _).trans (if_pos rfl)
  have ha := arm_sq_timers_same now
    { n with cq := n.cq.set qid (some { cq with head := v }) } cq.sq_list
  obtain ⟨c2, hc2, hv2⟩ := same_queues_cq (same_queues_symm ha) hcq1
  have h3 : same_queues n
      { (arm_sq_timers now { n with cq := n.cq.set qid (some { cq with head := v }) }
          cq.sq_list) with
        cq := (arm_sq_timers now
          { n with cq := n.cq.set qid (some { cq with head := v }) } cq.sq_list).cq.set qid
            (some { cq with head := v, timer := some (now + 500) }) } := by
    refine same_queues_trans h1 (same_queues_trans ha ?_)
    exact same_queues_set_cq hc2 (by
      simp only [cq_view, Prod.mk.injEq] at hv2 ⊢
      exact ⟨hv2.1, hv2.2.1, hv2.2.2⟩)
  simp only at h
  by_cases hf : nvme_cq_full cq = true
  · simp only [hf, if_true] at h
    split at h
    · exact same_queues_trans h3 (nvme_irq_deassert_same h)
    · cases h; exact h3
  · simp only [hf] at h
    split at h
    · exact same_queues_trans h1 (nvme_irq_deassert_same h)
    · cases h; exact h1

theorem nvme_process_db_same {now : Nat} {n m : NvmeCtrl} {addr val : Nat}
    (h : nvme_process_db now n addr val = some m) : same_queues n m := by
  unfold nvme_process_db at h
  split at h
  · cases h; exact same_queues_refl n
  · split at h
    · simp only at h
      split at h
      · cases h; exact same_queues_refl n
      · split at h
        · simp at h
        · rename_i cq hcq
          split at h
          · cases h; exact same_queues_refl n
          · exact db_cq_same (v := val &&& 0xffff) hcq h
    · simp only at h
      split at h
      · cases h; exact same_queues_refl n
      · split at h
        · simp at h
        · rename_i sq hsq
          split at h
          · cases h; exact same_queues_refl n
          · cases h
            exact same_queues_set_sq hsq rfl

theorem nvme_mmio_write_inv {now : Nat} {n m : NvmeCtrl} {addr data size : Nat}
    (hn : queues_inv n) (h : nvme_mmio_write now n addr data size = some m) :
    queues_inv m ∧ lists_kept n m := by
  unfold nvme_mmio_write at h
  split at h
  · exact nvme_write_bar_inv hn h
  · split at h
    · have hs := nvme_process_db_same h
      exact ⟨queues_inv_congr hs hn, lists_kept_same hs⟩
    · cases h
      exact ⟨hn, lists_kept_same (same_queues_refl n)⟩

/-- The second half of an iteration of `nvme_process_sq` keeps the queues well
formed. -/
theorem nvme_process_sq_dispatch_inv {env : Env} {n1 m : NvmeCtrl} {sq s1 : NvmeSQueue}
    {cmd : NvmeCmd} {r1 : NvmeRequest} {w : List (Nat × NvmeCqe)} (hn : queues_inv n1)
    (hs1 : n1.sqAt r1.sq = some s1) (hin : r1.slot ∈ req_slots s1.out_req_list)
    (hsid : sq.sqid = r1.sq)
    (h : nvme_process_sq_dispatch env n1 sq cmd r1 = some (m, w)) : queues_inv m := by
  unfold nvme_process_sq_dispatch at h
  split at h
  · simp only at h
    split at h
    · cases he : nvme_enqueue_req_completion env.now n1 sq.cqid
          { r1 with status := env.nvme_io_cmd n1 cmd r1 } with
      | none => rw [he] at h; simp at h
      | some m1 =>
        rw [he] at h
        simp only [Option.map_some', Option.some.injEq, Prod.mk.injEq] at h
        rw [← h.1]
        exact (enqueue_inv (q := { r1 with status := env.nvme_io_cmd n1 cmd r1 })
          hn hs1 hin he).1
    · simp only [Option.some.injEq, Prod.mk.injEq] at h
      rw [← h.1]
      exact hn
  · rename_i h0
    have hr0 : r1.sq = 0 := by
      rw [← hsid]
      exact not_not.mp h0
    cases ha : nvme_admin_cmd env n1 cmd r1 with
    | none => rw [ha] at h; simp at h
    | some o =>
      rw [ha] at h
      simp only at h
      obtain ⟨u1, u2⟩ := nvme_admin_cmd_inv hn ha
      split at h
      · cases he : nvme_enqueue_req_completion env.now o.n sq.cqid
            { r1 with status := o.status, cqe := { r1.cqe with result := o.result } } with
        | none => rw [he] at h; simp at h
        | some m1 =>
          rw [he] at h
          simp only [Option.map_some', Option.some.injEq, Prod.mk.injEq] at h
          rw [← h.1]
          obtain ⟨s2, hs2, hs2o, -⟩ := u2 s1 (by rw [← hr0]; exact hs1)
          exact (enqueue_inv
            (q := { r1 with status := o.status, cqe := { r1.cqe with result := o.result } })
            u1 (by rw [hr0]; exact hs2) (by rw [hs2o]; exact hin) he).1
      · simp only [Option.some.injEq, Prod.mk.injEq] at h
        rw [← h.1]
        exact u1

/-- One iteration of `nvme_process_sq` keeps the queues well formed. -/
theorem nvme_process_sq_iter_inv {env : Env} {n m : NvmeCtrl} {sqid : Nat}
    {w : List (Nat × NvmeCqe)} (hn : queues_inv n)
    (h : nvme_process_sq_iter env n sqid = some (m, w)) : queues_inv m := by
  unfold nvme_process_sq_iter at h
  cases hs : n.sqAt sqid with
  | none => rw [hs] at h; simp at h
  | some sq =>
    cases hf : nvme_process_sq_fetch env n sqid with
    | none => rw [hs, hf] at h; simp at h
    | some p =>
      obtain ⟨n1, cmd, r1⟩ := p
      rw [hs, hf] at h
      simp only at h
      obtain ⟨u1, u2, s, s1, -, hs1, -, hin⟩ := fetch_inv hn hf
      exact nvme_process_sq_dispatch_inv u1 (by rw [u2]; exact hs1) hin
        ((hn.1.2.2.1 sqid sq hs).1.trans u2.symm) h

theorem nvme_process_sq_loop_inv (envs : Nat → Env) (sqid : Nat) :
    ∀ (fuel k : Nat) (n m : NvmeCtrl) (w w1 : List (Nat × NvmeCqe)), queues_inv n →
      nvme_process_sq_loop envs sqid fuel k n w = some (m, w1) → queues_inv m := by
  intro fuel
  induction fuel with
  | zero =>
    intro k n m w w1 hn h
    unfold nvme_process_sq_loop at h
    split at h
    · simp at h
    · split at h
      · simp at h
      · simp only [Option.some.injEq, Prod.mk.injEq] at h
        rw [← h.1]; exact hn
  | succ fuel ih =>
    intro k n m w w1 hn h
    unfold nvme_process_sq_loop at h
    split at h
    · simp at h
    · split at h
      · cases hi : nvme_process_sq_iter (envs k) n sqid with
        | none => rw [hi] at h; simp at h
        | some p =>
          obtain ⟨n1, w2⟩ := p
          rw [hi] at h
          simp only at h
          exact ih _ _ _ _ _ (nvme_process_sq_iter_inv hn hi) h
      · simp only [Option.some.injEq, Prod.mk.injEq] at h
        rw [← h.1]; exact hn

/-- A run of `nvme_process_sq` keeps the queues well formed. -/
theorem nvme_process_sq_inv {envs : Nat → Env} {n m : NvmeCtrl} {sqid : Nat}
    {w : List (Nat × NvmeCqe)} (hn : queues_inv n)
    (h : nvme_process_sq envs n sqid = some (m, w)) : queues_inv m := by
  unfold nvme_process_sq at h
  split at h
  · simp at h
  · exact nvme_process_sq_loop_inv envs sqid _ _ _ _ _ _ hn h

theorem getD_replicate_none {α : Type} (k i : Nat) :
    (List.replicate k (none : Option α)).getD i none = none := by
  rw [List.getD_eq_getElem?_getD]
  by_cases h : i < k
  · simp [List.getElem?_replicate, h]
  · simp [List.getElem?_replicate, h]

/-- The controller that `nvme_realize` leaves has no queue. -/
theorem nvme_realize_inv (num_queues cmb_size_mb : Nat) (power_cycles : Nat × Nat) :
    queues_inv (nvme_realize num_queues cmb_size_mb power_cycles) := by
  apply queues_inv_of_none
  · simp [nvme_realize]
  · simp [nvme_realize]
  · intro i; exact getD_replicate_none _ _
  · intro j; exact getD_replicate_none _ _

/-- Every step keeps the queues well formed. -/
theorem step_inv {n m : NvmeCtrl} (hn : queues_inv n) (h : Step n m) : queues_inv m := by
  cases h with
  | mmio_write now addr data size h => exact (nvme_mmio_write_inv hn h).1
  | sq_timer envs sqid h => exact nvme_process_sq_inv hn h
  | cq_timer cqid h =>
    obtain ⟨u1, u2, -⟩ := nvme_post_cqes_inv hn.1 h
    exact ⟨u1, fun i => u2 i (hn.2 i)⟩
  | aio_complete now req ret hs hin h => exact (nvme_rw_cb_inv hn hs hin h).1
  | pci_config b addr => exact queues_inv_congr (same_queues_of_eq rfl rfl rfl) hn
  | exit => exact nvme_clear_ctrl_queues_inv hn

/-- The queues of every reachable state are well formed. -/
theorem reachable_inv {n : NvmeCtrl} (h : Reachable n) : queues_inv n := by
  induction h with
  | realize nq cmb pc => exact nvme_realize_inv nq cmb pc
  | step _ hs ih => exact step_inv ih hs

theorem sq_lists_some {n : NvmeCtrl} {i : Nat} {s : NvmeSQueue} {c : NvmeCQueue}
    (hs : n.sqAt i = some s) (hc : n.cqAt s.cqid = some c) :
    sq_lists n i =
      some (req_slots s.req_list, req_slots s.out_req_list, req_slots (pending_of c i)) := by
  unfold sq_lists
  rw [hs]
  simp only
  rw [hc]

/-- In a well-formed state the three lists of a submission queue hold the slots
`0 .. size - 1`, each once. -/
theorem sq_lists_partition {n : NvmeCtrl} {i : Nat} {s : NvmeSQueue} (hn : queues_inv n)
    (hs : n.sqAt i = some s) :
    (∀ r ∈ s.req_list ++ s.out_req_list, r.sq = i) ∧
    ∃ F I P, sq_lists n i = some (F, I, P) ∧ List.Perm (F ++ I ++ P) (List.range s.size) := by
  obtain ⟨-, q2, q3, c, hc, hp⟩ := hn.1.2.2.1 i s hs
  refine ⟨?_, _, _, _, sq_lists_some hs hc, hp⟩
  intro r hr
  rcases List.mem_append.mp hr with h | h
  · exact q2 r h
  · exact q3 r h

/-- A queue created by `nvme_init_sq` has all its slots on the free list. -/
theorem nvme_init_sq_lists {n m : NvmeCtrl} {dma sqid cqid size : Nat} (hn : queues_inv n)
    (hnone : n.sqAt sqid = none) (h : nvme_init_sq n dma sqid cqid size = some m) :
    sq_lists m sqid = some (List.range size, [], []) := by
  obtain ⟨-, -, s, c, w1, w2, w3, w4, w5, w6, w7⟩ := nvme_init_sq_inv hn hnone h
  rw [sq_lists_some w1 (by rw [w4]; exact w6), w2, w3, w7]
  rfl

/-- The first half of an iteration of `nvme_process_sq` moves the first free
slot of the queue to the end of its in-flight list, and nothing else. -/
theorem fetch_lists {env : Env} {n n1 : NvmeCtrl} {i : Nat} {cmd : NvmeCmd} {r1 : NvmeRequest}
    (hn : queues_inv n) (h : nvme_process_sq_fetch env n i = some (n1, cmd, r1)) :
    ∃ F I P, sq_lists n i = some (r1.slot :: F, I, P) ∧
      sq_lists n1 i = some (F, I ++ [r1.slot], P) ∧
      ∀ k, k ≠ i → sq_lists n1 k = sq_lists n k := by
  unfold nvme_process_sq_fetch at h
  cases hs : n.sqAt i with
  | none => simp [hs] at h
  | some s =>
    simp only [hs] at h
    split at h
    · cases hfree : s.req_list with
      | nil => simp [hfree] at h
      | cons r free =>
        simp only [hfree, Option.some.injEq, Prod.mk.injEq] at h
        obtain ⟨e1, -, e3⟩ := h
        rw [e3] at e1
        have hr1 : r1.slot = r.slot := by rw [← e3]
        clear e3
        subst e1
        obtain ⟨-, -, -, c, hc, -⟩ := hn.1.2.2.1 i s hs
        have hsq := sqAt_set (m := { n with sq := n.sq.set i (some { (nvme_inc_sq_head s) with
          req_list := free, out_req_list := s.out_req_list ++ [r1] }) }) (sqAt_lt hs) rfl
        refine ⟨req_slots free, req_slots s.out_req_list, req_slots (pending_of c i), ?_, ?_, ?_⟩
        · rw [sq_lists_some hs hc, hfree, hr1]
          rfl
        · rw [sq_lists_some (s := { (nvme_inc_sq_head s) with
            req_list := free, out_req_list := s.out_req_list ++ [r1] }) (c := c)
            ((hsq i).trans (if_pos rfl)) hc]
          simp [req_slots]
        · intro k hk
          unfold sq_lists
          rw [hsq k, if_neg hk]
          rfl
    · simp at h

/-- `nvme_enqueue_req_completion` moves the slot of the request from the
in-flight list of its queue to the end of the pending list, and nothing else. -/
theorem enqueue_lists {now : Nat} {n m : NvmeCtrl} {cqid : Nat} {q : NvmeRequest}
    {s : NvmeSQueue} (hn : queues_inv n) (hs : n.sqAt q.sq = some s)
    (h : nvme_enqueue_req_completion now n cqid q = some m) :
    ∃ F I P, sq_lists n q.sq = some (F, I, P) ∧
      sq_lists m q.sq = some (F, I.erase q.slot, P ++ [q.slot]) ∧
      ∀ k, k ≠ q.sq → sq_lists m k = sq_lists n k := by
  unfold nvme_enqueue_req_completion at h
  cases hc : n.cqAt cqid with
  | none => simp [hc] at h
  | some c =>
    simp only [hc, hs] at h
    split at h
    · rename_i hcid
      simp only [Option.some.injEq] at h
      have hb : s.cqid = cqid := by rw [← hcid]; exact (hn.1.2.2.2 cqid c hc).1
      have hsok := hn.1.2.2.1 q.sq s hs
      have hsq := sqAt_set (m := m) (x := some { s with
        out_req_list := s.out_req_list.filter (fun r => decide (r.slot ≠ q.slot)) })
        (sqAt_lt hs) (by rw [← h])
      have hcq := cqAt_set (m := m) (x := some { c with
        req_list := c.req_list ++ [q], timer := some (now + 500) })
        (cqAt_lt hc) (by rw [← h])
      refine ⟨_, _, _, sq_lists_some hs (by rw [hb]; exact hc), ?_, ?_⟩
      · rw [sq_lists_some ((hsq q.sq).trans (if_pos rfl))
          (c := { c with req_list := c.req_list ++ [q], timer := some (now + 500) })
          (by rw [hb]; exact (hcq cqid).trans (if_pos rfl))]
        simp only [Option.some.injEq, Prod.mk.injEq, true_and]
        constructor
        · rw [req_slots_filter_ne, List.Nodup.erase_eq_filter (sq_ok_out_nodup hsok)]
          congr 1
          funext y
          by_cases hy : y = q.slot <;> simp [hy]
        · simp [pending_of, req_slots, List.filter_append]
      · intro k hk
        unfold sq_lists
        rw [hsq k, if_neg hk]
        cases hk1 : n.sqAt k with
        | none => rfl
        | some sk =>
          simp only
          rw [hcq]
          by_cases hkc : sk.cqid = cqid
          · rw [if_pos hkc, hkc, hc]
            simp only [pending_of, List.filter_append, List.filter_cons, List.filter_nil]
            rw [if_neg (by simpa using Ne.symm hk)]
            simp
          · rw [if_neg hkc]
    · simp at h

theorem lists_posted_of_eq {n m : NvmeCtrl} {i : Nat} (h : sq_lists m i = sq_lists n i) :
    lists_posted n m i := by
  intro F I P hl
  exact ⟨[], P, by rw [h, hl]; simp, rfl⟩

theorem lists_posted_trans {a b c : NvmeCtrl} {i : Nat} (h1 : lists_posted a b i)
    (h2 : lists_posted b c i) : lists_posted a c i := by
  intro F I P hl
  obtain ⟨X, P1, e1, e2⟩ := h1 F I P hl
  obtain ⟨Y, P2, f1, f2⟩ := h2 _ _ _ e1
  exact ⟨X ++ Y, P2, by rw [f1, List.append_assoc], by rw [e2, f2, List.append_assoc]⟩

theorem post_one_lists {n : NvmeCtrl} {cqid : Nat} {c : NvmeCQueue} {sq : NvmeSQueue}
    {r : NvmeRequest} {rest : List NvmeRequest} (hn : queues_core n)
    (hc : n.cqAt cqid = some c) (hreq : c.req_list = r :: rest)
    (hs : n.sqAt r.sq = some sq) (i : Nat) :
    lists_posted n (post_one n cqid c sq r rest) i := by
  obtain ⟨s0, hs0, hb⟩ := (hn.2.2.2 cqid c hc).2 r (by rw [hreq]; simp)
  rw [hs] at hs0
  cases hs0
  have hsqAt := post_one_sqAt n cqid c sq r rest hs
  have hcqAt := post_one_cqAt n cqid c sq r rest hc
  by_cases hi : i = r.sq
  · subst hi
    intro F I P hl
    rw [sq_lists_some hs (by rw [hb]; exact hc)] at hl
    simp only [Option.some.injEq, Prod.mk.injEq] at hl
    obtain ⟨e1, e2, e3⟩ := hl
    refine ⟨[r.slot], req_slots (pending_of { (nvme_inc_cq_tail c) with req_list := rest } r.sq),
      ?_, ?_⟩
    · rw [sq_lists_some ((hsqAt r.sq).trans (if_pos rfl))
        (c := { (nvme_inc_cq_tail c) with req_list := rest })
        (by rw [hb]; exact (hcqAt cqid).trans (if_pos rfl))]
      simp [req_slots, ← e1, ← e2]
    · rw [← e3]
      simp [pending_of, req_slots, hreq]
  · apply lists_posted_of_eq
    unfold sq_lists
    rw [hsqAt i, if_neg hi]
    cases hk : n.sqAt i with
    | none => rfl
    | some si =>
      simp only
      rw [hcqAt]
      by_cases hkc : si.cqid = cqid
      · rw [if_pos hkc, hkc, hc]
        simp only [pending_of, hreq, List.filter_cons]
        rw [if_neg (by simpa using Ne.symm hi)]
      · rw [if_neg hkc]

theorem post_loop_lists (cqid : Nat) :
    ∀ (reqs : List NvmeRequest) (n : NvmeCtrl) (w : List (Nat × NvmeCqe)) (c : NvmeCQueue)
      (m : NvmeCtrl) (w1 : List (Nat × NvmeCqe)),
      queues_core n → n.cqAt cqid = some c → c.req_list = reqs →
      nvme_post_cqes_loop cqid reqs n w = some (m, w1) → ∀ i, lists_posted n m i := by
  intro reqs
  induction reqs with
  | nil =>
    intro n w c m w1 hn hc hreq h i
    simp only [nvme_post_cqes_loop, Option.some.injEq, Prod.mk.injEq] at h
    rw [← h.1]
    exact lists_posted_of_eq rfl
  | cons r rest ih =>
    intro n w c m w1 hn hc hreq h i
    by_cases hfull : nvme_cq_full c = true
    · rw [post_loop_full cqid r rest n w c hc hfull] at h
      simp only [Option.some.injEq, Prod.mk.injEq] at h
      rw [← h.1]
      exact lists_posted_of_eq rfl
    · obtain ⟨sq, hs, -⟩ := (hn.2.2.2 cqid c hc).2 r (by rw [hreq]; simp)
      rw [post_loop_cons cqid r rest n w c sq hc (by simpa using hfull) hs] at h
      obtain ⟨u1, -, -⟩ := post_one_inv hn hc hreq hs
      have hc1 := post_one_cqAt n cqid c sq r rest hc cqid
      rw [if_pos rfl] at hc1
      exact lists_posted_trans (post_one_lists hn hc hreq hs i)
        (ih _ _ _ m w1 u1 hc1 rfl h i)

/-- `nvme_post_cqes` moves slots from the pending list to the free lists of
their queues, and nothing else. -/
theorem nvme_post_cqes_lists {n m : NvmeCtrl} {cqid : Nat} {w : List (Nat × NvmeCqe)}
    (hn : queues_core n) (h : nvme_post_cqes n cqid = some (m, w)) :
    ∀ i, lists_posted n m i := by
  unfold nvme_post_cqes at h
  cases hc : n.cqAt cqid with
  | none => simp [hc] at h
  | some c =>
    simp only [hc] at h
    cases hl : nvme_post_cqes_loop cqid c.req_list n [] with
    | none => simp [hl] at h
    | some p =>
      obtain ⟨n1, w1⟩ := p
      simp only [hl] at h
      have u := post_loop_lists cqid _ _ _ _ _ _ hn hc rfl hl
      cases hc1 : n1.cqAt cqid with
      | none => simp [hc1] at h
      | some c1 =>
        simp only [hc1] at h
        split at h
        · cases ha : nvme_irq_assert n1 c1 with
          | none => simp [ha] at h
          | some n2 =>
            simp only [ha, Option.map_some', Option.some.injEq, Prod.mk.injEq] at h
            rw [← h.1]
            intro i
            exact lists_posted_trans (u i)
              (lists_posted_of_eq (sq_lists_same (nvme_irq_assert_same ha) i))
        · simp only [Option.some.injEq, Prod.mk.injEq] at h
          rw [← h.1]
          exact u

theorem nvme_del_sq_cancel_lists (env : Env) (qid : Nat) :
    ∀ (fuel : Nat) (n m : NvmeCtrl), queues_inv n → nvme_del_sq_cancel env qid fuel n = some m →
      ∀ i, i ≠ qid → sq_lists m i = sq_lists n i := by
  intro fuel
  induction fuel with
  | zero =>
    intro n m hn h
    unfold nvme_del_sq_cancel at h
    cases hs : n.sqAt qid with
    | none => simp [hs] at h
    | some s =>
      simp only [hs] at h
      split at h
      · cases h; exact fun _ _ => rfl
      · simp at h
  | succ fuel ih =>
    intro n m hn h
    unfold nvme_del_sq_cancel at h
    cases hs : n.sqAt qid with
    | none => simp [hs] at h
    | some s =>
      simp only [hs] at h
      cases ho : s.out_req_list with
      | nil => simp only [ho] at h; cases h; exact fun _ _ => rfl
      | cons r rest =>
        simp only [ho] at h
        cases hcb : nvme_rw_cb env.now n r (env.aio_ret r) with
        | none => simp [hcb] at h
        | some n1 =>
          simp only [hcb] at h
          have hr : r.sq = qid := (hn.1.2.2.1 qid s hs).2.2.1 r (by rw [ho]; simp)
          obtain ⟨u1, -⟩ := nvme_rw_cb_inv hn (by rw [hr]; exact hs) (by rw [ho]; simp) hcb
          have hcb1 := hcb
          have hs1 : n.sqAt r.sq = some s := by rw [hr]; exact hs
          unfold nvme_rw_cb at hcb1
          rw [hs1] at hcb1
          simp only at hcb1
          obtain ⟨-, -, -, -, -, u2⟩ := enqueue_lists
            (q := { r with status := if env.aio_ret r = 0 then NVME_SUCCESS
                                       else NVME_INTERNAL_DEV_ERROR })
            hn (by rw [hr]; exact hs) hcb1
          intro i hi
          rw [ih n1 m u1 h i hi]
          exact u2 i (by rw [hr]; exact hi)

theorem nvme_del_sq_reclaim_lists {n m : NvmeCtrl} {qid cqid : Nat}
    (h : nvme_del_sq_reclaim n qid cqid = some m) :
    ∀ i, i ≠ qid → sq_lists m i = sq_lists n i := by
  unfold nvme_del_sq_reclaim at h
  cases hc : n.cqAt cqid with
  | none => simp [hc] at h
  | some c =>
    cases hs : n.sqAt qid with
    | none => simp [hc, hs] at h
    | some s =>
      simp only [hc, hs, Option.some.injEq] at h
      have hsq := sqAt_set (m := m) (x := some { s with
        req_list := s.req_list ++ c.req_list.filter (fun r => decide (r.sq = qid)) })
        (sqAt_lt hs) (by rw [← h])
      have hcq := cqAt_set (m := m) (x := some { c with
        req_list := c.req_list.filter (fun r => decide (r.sq ≠ qid)) })
        (cqAt_lt hc) (by rw [← h])
      intro i hi
      unfold sq_lists
      rw [hsq i, if_neg hi]
      cases hk : n.sqAt i with
      | none => rfl
      | some si =>
        simp only
        rw [hcq]
        by_cases hkc : si.cqid = cqid
        · rw [if_pos hkc, hkc, hc]
          simp only [pending_of, List.filter_filter]
          have : List.filter (fun a => decide (a.sq = i) && decide (a.sq ≠ qid)) c.req_list =
              List.filter (fun a => decide (a.sq = i)) c.req_list := by
            apply List.filter_congr
            intro x _
            by_cases hx : x.sq = i
            · have : x.sq ≠ qid := by rw [hx]; exact hi
              simp [hx, hi]
            · simp [hx]
          rw [this]
        · rw [if_neg hkc]

/-- Delete I/O Submission Queue either rejects the command and changes nothing,
or removes the queue; for the other queues it moves slots from pending to free
only. -/
theorem nvme_del_sq_lists {env : Env} {n m : NvmeCtrl} {cmd : NvmeCmd} {st : Nat}
    {w : List (Nat × NvmeCqe)} (hn : queues_inv n)
    (h : nvme_del_sq env n cmd = some (st, m, w)) :
    m = n ∨ (m.sqAt (dw_lo cmd.cdw10) = none ∧
      ∀ i, i ≠ dw_lo cmd.cdw10 → lists_posted n m i) := by
  unfold nvme_del_sq at h
  simp only at h
  by_cases hq : dw_lo cmd.cdw10 = 0 ∨ nvme_check_sqid n (dw_lo cmd.cdw10) ≠ 0
  · rw [if_pos hq] at h
    simp only [Option.some.injEq, Prod.mk.injEq] at h
    exact Or.inl h.2.1.symm
  · rw [if_neg hq] at h
    right
    cases hs0 : n.sqAt (dw_lo cmd.cdw10) with
    | none => simp [hs0] at h
    | some sq0 =>
      simp only [hs0] at h
      cases hcan : nvme_del_sq_cancel env (dw_lo cmd.cdw10) sq0.out_req_list.length n with
      | none => simp [hcan] at h
      | some n1 =>
        simp only [hcan] at h
        obtain ⟨⟨a1, a2⟩, a3⟩ := nvme_del_sq_cancel_inv env _ _ _ _ hn hcan
        have a4 := nvme_del_sq_cancel_lists env _ _ _ _ hn hcan
        cases hs1 : n1.sqAt (dw_lo cmd.cdw10) with
        | none => simp [hs1] at h
        | some sq =>
          simp only [hs1] at h
          obtain ⟨-, -, -, cq, hcq, -⟩ := a1.2.2.1 _ sq hs1
          rw [if_pos (check_cqid_of_some a1.2.1 hcq)] at h
          simp only [hcq] at h
          have hsq2 : ∀ i, NvmeCtrl.sqAt { n1 with cq := n1.cq.set sq.cqid (some { cq with
              sq_list := cq.sq_list.filter (fun i => decide (i ≠ dw_lo cmd.cdw10)) }) } i =
              if i = dw_lo cmd.cdw10 then some sq else n1.sqAt i := by
            intro i
            split
            · rename_i hi; rw [hi, ← hs1]; rfl
            · rfl
          have hcq2 := cqAt_set (m := { n1 with cq := n1.cq.set sq.cqid (some { cq with
              sq_list := cq.sq_list.filter (fun i => decide (i ≠ dw_lo cmd.cdw10)) }) })
            (cqAt_lt hcq) rfl
          obtain ⟨b1, -⟩ := queues_core_update a1 hs1 hcq rfl (by rfl) (by rfl) (by simp)
            hsq2 hcq2 rfl rfl rfl rfl (a1.2.2.1 _ sq hs1).2.1 (a1.2.2.1 _ sq hs1).2.2.1
            (List.Perm.refl _) (fun _ _ => rfl) (fun _ hx => Or.inl hx)
          have b3 : ∀ i, sq_lists { n1 with cq := n1.cq.set sq.cqid (some { cq with
              sq_list := cq.sq_list.filter (fun i => decide (i ≠ dw_lo cmd.cdw10)) }) } i =
              sq_lists n1 i := by
            intro i
            unfold sq_lists
            have : NvmeCtrl.sqAt { n1 with cq := n1.cq.set sq.cqid (some { cq with
              sq_list := cq.sq_list.filter (fun i => decide (i ≠ dw_lo cmd.cdw10)) }) } i =
              n1.sqAt i := rfl
            rw [this]
            cases hk : n1.sqAt i with
            | none => rfl
            | some si =>
              simp only
              rw [hcq2]
              by_cases hkc : si.cqid = sq.cqid
              · rw [if_pos hkc, hkc, hcq]
                rfl
              · rw [if_neg hkc]
          cases hp : nvme_post_cqes { n1 with cq := n1.cq.set sq.cqid (some { cq with
              sq_list := cq.sq_list.filter (fun i => decide (i ≠ dw_lo cmd.cdw10)) }) } sq.cqid with
          | none => rw [hp] at h; simp at h
          | some p =>
            obtain ⟨n3, w3⟩ := p
            simp only [hp] at h
            obtain ⟨c1, c2, c3⟩ := nvme_post_cqes_inv b1 hp
            have c4 := nvme_post_cqes_lists b1 hp
            obtain ⟨s3, hs3, -, hs3c⟩ := c3 (dw_lo cmd.cdw10) sq hs1
            cases hr : nvme_del_sq_reclaim n3 (dw_lo cmd.cdw10) sq.cqid with
            | none => simp [hr] at h
            | some n4 =>
              simp only [hr] at h
              obtain ⟨d1, d2, d3, s4, c4', hs4, hs4c, hc4, hnone⟩ :=
                nvme_del_sq_reclaim_inv c1 hs3 hs3c hr
              have d4 := nvme_del_sq_reclaim_lists hr
              simp only [hs4, Option.some.injEq, Prod.mk.injEq] at h
              obtain ⟨-, -, e3⟩ := nvme_free_sq_inv d1 hs4 (by rw [hs4c]; exact hc4) hnone
              obtain ⟨-, hm, -⟩ := h
              subst hm
              refine ⟨(e3 _).trans (if_pos rfl), ?_⟩
              intro i hi
              have e4 : sq_lists (nvme_free_sq s4 n4) i = sq_lists n4 i := by
                unfold sq_lists
                rw [e3 i, if_neg hi]
                rfl
              have k1 : lists_posted n n1 i := lists_posted_of_eq (a4 i hi)
              have k2 : lists_posted n1 n3 i :=
                lists_posted_trans (lists_posted_of_eq (b3 i)) (c4 i)
              have k3 : lists_posted n3 (nvme_free_sq s4 n4) i :=
                lists_posted_of_eq (e4.trans (d4 i hi))
              exact lists_posted_trans k1 (lists_posted_trans k2 k3)

theorem nvme_init_cq_lists {n m : NvmeCtrl} {dma cqid vector size irq : Nat}
    (hn : queues_inv n) (hnone : n.cqAt cqid = none)
    (h : nvme_init_cq n dma cqid vector size irq = some m) : lists_kept n m := by
  obtain ⟨-, u2, u3⟩ := nvme_init_cq_inv hn hnone h
  intro i
  left
  unfold sq_lists
  rw [u2 i]
  cases hk : n.sqAt i with
  | none => rfl
  | some si =>
    simp only
    obtain ⟨-, -, -, c, hc, -⟩ := hn.1.2.2.1 i si hk
    have hne : si.cqid ≠ cqid := by
      intro he
      rw [he, hnone] at hc
      simp at hc
    rw [u3 _ hne]

theorem nvme_init_sq_lists_kept {n m : NvmeCtrl} {dma sqid cqid size : Nat}
    (hn : queues_inv n) (hnone : n.sqAt sqid = none)
    (h : nvme_init_sq n dma sqid cqid size = some m) : lists_kept n m := by
  have hfresh := nvme_init_sq_lists hn hnone h
  obtain ⟨-, v2, -⟩ := nvme_init_sq_inv hn hnone h
  have v3 := nvme_init_sq_cqAt h
  unfold nvme_init_sq at h
  simp only at h
  cases hc : n.cqAt cqid with
  | none => simp [hc] at h
  | some c =>
    simp only [hc] at h
    split at h
    · simp only [Option.some.injEq] at h
      have hcq := cqAt_set (m := m) (x := some { c with sq_list := c.sq_list ++ [sqid] })
        (cqAt_lt hc) (by rw [← h])
      intro i
      by_cases hi : i = sqid
      · rw [hi]
        exact Or.inr (Or.inr ⟨hnone, size, hfresh⟩)
      · left
        unfold sq_lists
        rw [v2 i hi]
        cases hk : n.sqAt i with
        | none => rfl
        | some si =>
          simp only
          rw [hcq]
          by_cases hkc : si.cqid = cqid
          · rw [if_pos hkc, hkc, hc]
            rfl
          · rw [if_neg hkc]
    · simp at h

theorem nvme_free_cq_lists {n : NvmeCtrl} {qid : Nat} {c : NvmeCQueue} (hn : queues_inv n)
    (hc : n.cqAt qid = some c) (hempty : c.sq_list = []) :
    lists_kept n (nvme_free_cq c n) := by
  have hid : c.cqid = qid := (hn.1.2.2.2 qid c hc).1
  have hcq : ∀ j, (nvme_free_cq c n).cqAt j = if j = qid then none else n.cqAt j :=
    cqAt_set (m := nvme_free_cq c n) (cqAt_lt hc) (by unfold nvme_free_cq; rw [hid])
  intro i
  left
  unfold sq_lists
  have : (nvme_free_cq c n).sqAt i = n.sqAt i := rfl
  rw [this]
  cases hk : n.sqAt i with
  | none => rfl
  | some si =>
    simp only
    have hne : si.cqid ≠ qid := by
      intro hsc
      have := hn.2 i si c hk (by rw [hsc]; exact hc)
      rw [hempty] at this
      simp at this
    rw [hcq, if_neg hne]

theorem nvme_create_sq_lists {n m : NvmeCtrl} {cmd : NvmeCmd} {st : Nat} (hn : queues_inv n)
    (h : nvme_create_sq n cmd = some (st, m)) : lists_kept n m := by
  have hrefl : lists_kept n n := lists_kept_same (same_queues_refl n)
  unfold nvme_create_sq at h
  simp only at h
  split at h
  · cases h; exact hrefl
  · split at h
    · cases h; exact hrefl
    · rename_i hq
      split at h
      · cases h; exact hrefl
      · split at h
        · cases h; exact hrefl
        · split at h
          · cases h; exact hrefl
          · cases hi : nvme_init_sq n cmd.prp1 (dw_lo cmd.cdw10) (dw_hi cmd.cdw11)
                ((dw_hi cmd.cdw10 + 1) % 2 ^ 16) with
            | none => rw [hi] at h; simp at h
            | some m1 =>
              rw [hi] at h
              simp only [Option.map_some', Option.some.injEq, Prod.mk.injEq] at h
              rw [← h.2]
              exact nvme_init_sq_lists_kept hn
                (sqAt_none_of_check hn.1.1 (fun h0 => hq (Or.inr h0))) hi

theorem nvme_create_cq_lists {n m : NvmeCtrl} {cmd : NvmeCmd} {st : Nat} (hn : queues_inv n)
    (h : nvme_create_cq n cmd = some (st, m)) : lists_kept n m := by
  have hrefl : lists_kept n n := lists_kept_same (same_queues_refl n)
  unfold nvme_create_cq at h
  simp only at h
  split at h
  · cases h; exact hrefl
  · rename_i hq
    split at h
    · cases h; exact hrefl
    · split at h
      · cases h; exact hrefl
      · split at h
        · cases h; exact hrefl
        · split at h
          · cases h; exact hrefl
          · cases hi : nvme_init_cq n cmd.prp1 (dw_lo cmd.cdw10) (dw_hi cmd.cdw11)
                ((dw_hi cmd.cdw10 + 1) % 2 ^ 16) (NVME_CQ_FLAGS_IEN (dw_lo cmd.cdw11)) with
            | none => rw [hi] at h; simp at h
            | some m1 =>
              rw [hi] at h
              simp only [Option.map_some', Option.some.injEq, Prod.mk.injEq] at h
              rw [← h.2]
              exact nvme_init_cq_lists hn
                (cqAt_none_of_check hn.1.2.1 (fun h0 => hq (Or.inr h0))) hi

theorem nvme_del_cq_lists {n m : NvmeCtrl} {cmd : NvmeCmd} {st : Nat} (hn : queues_inv n)
    (h : nvme_del_cq n cmd = some (st, m)) : lists_kept n m := by
  have hrefl : lists_kept n n := lists_kept_same (same_queues_refl n)
  unfold nvme_del_cq at h
  simp only at h
  split at h
  · cases h; exact hrefl
  · cases hc : n.cqAt (dw_lo cmd.cdw10) with
    | none => rw [hc] at h; simp at h
    | some c =>
      rw [hc] at h
      simp only at h
      split at h
      · cases h; exact hrefl
      · rename_i hempty
        cases hd : nvme_irq_deassert n c with
        | none => rw [hd] at h; simp at h
        | some m1 =>
          rw [hd] at h
          simp only [Option.map_some', Option.some.injEq, Prod.mk.injEq] at h
          rw [← h.2]
          have hsame := nvme_irq_deassert_same hd
          obtain ⟨c1, hc1, hv⟩ := same_queues_cq (same_queues_symm hsame) hc
          simp only [cq_view, Prod.mk.injEq] at hv
          have hcc : nvme_free_cq c m1 = nvme_free_cq c1 m1 := by
            unfold nvme_free_cq
            rw [hv.1]
          rw [hcc]
          exact lists_kept_congr_left hsame
            (nvme_free_cq_lists (queues_inv_congr hsame hn) hc1
              (by rw [← hv.2.1]; exact not_not.mp hempty))

/-- Every admin command other than Delete I/O Submission Queue moves no slot. -/
theorem nvme_admin_cmd_lists {env : Env} {n : NvmeCtrl} {cmd : NvmeCmd} {req : NvmeRequest}
    {o : AdminOut} (hn : queues_inv n) (hop : cmd.opcode ≠ 0x00)
    (h : nvme_admin_cmd env n cmd req = some o) : lists_kept n o.n := by
  have hrefl : lists_kept n n := lists_kept_same (same_queues_refl n)
  unfold nvme_admin_cmd at h
  rw [if_neg hop] at h
  split at h
  · cases hd : nvme_create_sq n cmd with
    | none => rw [hd] at h; simp at h
    | some r =>
      obtain ⟨st, m⟩ := r
      rw [hd] at h
      simp only [Option.map_some', Option.some.injEq] at h
      rw [← h]
      exact nvme_create_sq_lists hn hd
  · split at h
    · cases h; exact hrefl
    · split at h
      · cases hd : nvme_del_cq n cmd with
        | none => rw [hd] at h; simp at h
        | some r =>
          obtain ⟨st, m⟩ := r
          rw [hd] at h
          simp only [Option.map_some', Option.some.injEq] at h
          rw [← h]
          exact nvme_del_cq_lists hn hd
      · split at h
        · cases hd : nvme_create_cq n cmd with
          | none => rw [hd] at h; simp at h
          | some r =>
            obtain ⟨st, m⟩ := r
            rw [hd] at h
            simp only [Option.map_some', Option.some.injEq] at h
            rw [← h]
            exact nvme_create_cq_lists hn hd
        · split at h
          · cases h; exact hrefl
          · split at h
            · simp only [Option.some.injEq] at h
              rw [← h]
              simp only
              split
              · exact lists_kept_same (same_queues_of_eq rfl rfl rfl)
              · exact hrefl
            · split at h
              · cases h; exact hrefl
              · cases h; exact hrefl

/-- C7: in every state reachable from `nvme_realize` the queues are well
formed (`queues_inv`); in a well-formed state every request on the free or
in-flight list of a submission queue is its own and its `size` slots are
spread over the free list, the in-flight list and the pending list of the
completion queue it is bound to, each slot on exactly one of them.  A queue
that `nvme_init_sq` creates has all slots free.  Slots move only from free to
in-flight (first half of an iteration of `nvme_process_sq`), from in-flight to
pending (`nvme_enqueue_req_completion`) and from pending to free
(`nvme_post_cqes`, also inside Delete I/O Submission Queue, which removes the
deleted queue): register and doorbell writes and the other admin commands move
no slot.  Every one of these operations keeps the queues well formed. -/
theorem request_slots_partition :
    (∀ n, Reachable n → queues_inv n) ∧
    (∀ n i s, queues_inv n → n.sqAt i = some s →
      (∀ r ∈ s.req_list ++ s.out_req_list, r.sq = i) ∧
      ∃ F I P, sq_lists n i = some (F, I, P) ∧
        List.Perm (F ++ I ++ P) (List.range s.size)) ∧
    (∀ n dma sqid cqid size m, queues_inv n → n.sqAt sqid = none →
      nvme_init_sq n dma sqid cqid size = some m →
      queues_inv m ∧ sq_lists m sqid = some (List.range size, [], [])) ∧
    (∀ env n i n1 cmd r, queues_inv n →
      nvme_process_sq_fetch env n i = some (n1, cmd, r) →
      queues_inv n1 ∧
      ∃ F I P, sq_lists n i = some (r.slot :: F, I, P) ∧
        sq_lists n1 i = some (F, I ++ [r.slot], P) ∧
        ∀ k, k ≠ i → sq_lists n1 k = sq_lists n k) ∧
    (∀ now n cqid req s m, queues_inv n → n.sqAt req.sq = some s →
      req.slot ∈ req_slots s.out_req_list →
      nvme_enqueue_req_completion now n cqid req = some m →
      queues_inv m ∧
      ∃ F I P, sq_lists n req.sq = some (F, I, P) ∧
        sq_lists m req.sq = some (F, I.erase req.slot, P ++ [req.slot]) ∧
        ∀ k, k ≠ req.sq → sq_lists m k = sq_lists n k) ∧
    (∀ n cqid m w, queues_inv n → nvme_post_cqes n cqid = some (m, w) →
      queues_inv m ∧ ∀ i, lists_posted n m i) ∧
    (∀ env n cmd st m w, queues_inv n → nvme_del_sq env n cmd = some (st, m, w) →
      queues_inv m ∧
      (m = n ∨ (m.sqAt (dw_lo cmd.cdw10) = none ∧
        ∀ i, i ≠ dw_lo cmd.cdw10 → lists_posted n m i))) ∧
    (∀ env n cmd req o, queues_inv n → cmd.opcode ≠ 0x00 →
      nvme_admin_cmd env n cmd req = some o → queues_inv o.n ∧ lists_kept n o.n) ∧
    (∀ now n addr data size m, queues_inv n →
      nvme_mmio_write now n addr data size = some m → queues_inv m ∧ lists_kept n m) := by
  refine ⟨fun n h => reachable_inv h, ?_, ?_, ?_, ?_, ?_, ?_, ?_, ?_⟩
  · intro n i s hn hs
    exact sq_lists_partition hn hs
  · intro n dma sqid cqid size m hn hnone h
    exact ⟨(nvme_init_sq_inv hn hnone h).1, nvme_init_sq_lists hn hnone h⟩
  · intro env n i n1 cmd r hn h
    exact ⟨(fetch_inv hn h).1, fetch_lists hn h⟩
  · intro now n cqid req s m hn hs hin h
    exact ⟨(enqueue_inv hn hs hin h).1, enqueue_lists hn hs h⟩
  · intro n cqid m w hn h
    obtain ⟨u1, u2, -⟩ := nvme_post_cqes_inv hn.1 h
    exact ⟨⟨u1, fun i => u2 i (hn.2 i)⟩, nvme_post_cqes_lists hn.1 h⟩
  · intro env n cmd st m w hn h
    exact ⟨(nvme_del_sq_inv hn h).1, nvme_del_sq_lists hn h⟩
  · intro env n cmd req o hn hop h
    exact ⟨(nvme_admin_cmd_inv hn h).1, nvme_admin_cmd_lists hn hop h⟩
  · intro now n addr data size m hn h
    exact nvme_mmio_write_inv hn h

theorem scenario_w6_reachable : Reachable scenario_w6 :=
  Reachable.step
    (Reachable.step
      (Reachable.step
        (Reachable.step
          (Reachable.step
            (Reachable.step (Reachable.realize 64 0 (0, 0))
              (Step.mmio_write 0 0x24 0x00040004 4 (m := scenario_w1) (by decide)))
            (Step.mmio_write 0 0x28 0x200000 4 (m := scenario_w2) (by decide)))
          (Step.mmio_write 0 0x30 0x200000 4 (m := scenario_w3) (by decide)))
        (Step.mmio_write 0 0x14 0x00460001 4 (m := scenario_w4) (by decide)))
      (Step.mmio_write 0 0x1000 1 4 (m := scenario_w5) (by decide)))
    (Step.sq_timer (fun _ => scenario_env) 0 (m := scenario_w6) (w := []) (by decide))

theorem request_slots_partition_witness :
    Reachable scenario_w6 ∧ queues_inv scenario_w6 ∧
    sq_lists scenario_w6 0 = some ([1, 2, 3, 4], [], [0]) ∧
    ∃ s F I P, scenario_w6.sqAt 0 = some s ∧ sq_lists scenario_w6 0 = some (F, I, P) ∧
      List.Perm (F ++ I ++ P) (List.range s.size) :=
  ⟨scenario_w6_reachable, request_slots_partition.1 scenario_w6 scenario_w6_reachable,
    by decide,
    match h : scenario_w6.sqAt 0 with
    | some s =>
      match (request_slots_partition.2.1 scenario_w6 0 s
        (request_slots_partition.1 scenario_w6 scenario_w6_reachable) h).2 with
      | ⟨F, I, P, h1, h2⟩ => ⟨s, F, I, P, rfl, h1, h2⟩
    | none => absurd h (by decide)⟩

/-! ## Controller configuration register -/

theorem start_mask (cc x : Nat) :
    x &&& ((1 <<< (NVME_CC_MPS cc + 12)) % 2 ^ 32 - 1) = x % (1 <<< (12 + NVME_CC_MPS cc)) := by
  rw [start_page_size, Nat.and_pow_two_sub_one_eq_mod, Nat.one_shiftLeft, Nat.add_comm]

/-- When an enable precondition fails, `nvme_start_ctrl` returns -1 and
changes nothing. -/
theorem nvme_start_ctrl_fail (now : Nat) (n : NvmeCtrl) (hfail : ¬ enable_preconditions n) :
    nvme_start_ctrl now n = some (-1, n) := by
  rw [nvme_start_ctrl_def]
  by_cases h1 : (n.cqAt 0).isSome = true
  · rw [if_pos h1]
  rw [if_neg h1]
  by_cases h2 : (n.sqAt 0).isSome = true
  · rw [if_pos h2]
  rw [if_neg h2]
  by_cases h3 : n.bar.asq = 0
  · rw [if_pos h3]
  rw [if_neg h3]
  by_cases h4 : n.bar.acq = 0
  · rw [if_pos h4]
  rw [if_neg h4]
  by_cases h5 : n.bar.asq &&& (((1 <<< (NVME_CC_MPS n.bar.cc + 12)) % 2 ^ 32) - 1) ≠ 0
  · rw [if_pos h5]
  rw [if_neg h5]
  by_cases h6 : n.bar.acq &&& (((1 <<< (NVME_CC_MPS n.bar.cc + 12)) % 2 ^ 32) - 1) ≠ 0
  · rw [if_pos h6]
  rw [if_neg h6]
  by_cases h7 : NVME_CC_MPS n.bar.cc < NVME_CAP_MPSMIN n.bar.cap
  · rw [if_pos h7]
  rw [if_neg h7]
  by_cases h8 : NVME_CC_MPS n.bar.cc > NVME_CAP_MPSMAX n.bar.cap
  · rw [if_pos h8]
  rw [if_neg h8]
  by_cases h9 : NVME_CC_IOCQES n.bar.cc < NVME_CTRL_CQES_MIN n.id_ctrl_cqes
  · rw [if_pos h9]
  rw [if_neg h9]
  by_cases h10 : NVME_CC_IOCQES n.bar.cc > NVME_CTRL_CQES_MAX n.id_ctrl_cqes
  · rw [if_pos h10]
  rw [if_neg h10]
  by_cases h11 : NVME_CC_IOSQES n.bar.cc < NVME_CTRL_SQES_MIN n.id_ctrl_sqes
  · rw [if_pos h11]
  rw [if_neg h11]
  by_cases h12 : NVME_CC_IOSQES n.bar.cc > NVME_CTRL_SQES_MAX n.id_ctrl_sqes
  · rw [if_pos h12]
  rw [if_neg h12]
  by_cases h13 : NVME_AQA_ASQS n.bar.aqa = 0
  · rw [if_pos h13]
  rw [if_neg h13]
  by_cases h14 : NVME_AQA_ACQS n.bar.aqa = 0
  · rw [if_pos h14]
  rw [if_neg h14]
  exfalso
  apply hfail
  rw [start_mask] at h5 h6
  refine ⟨?_, ?_, h3, h4, not_not.mp h5, not_not.mp h6, by omega, by omega, by omega, by omega,
    by omega, by omega, h13, h14⟩
  · cases hc : n.cqAt 0 with
    | none => rfl
    | some c => rw [hc] at h1; simp at h1
  · cases hs : n.sqAt 0 with
    | none => rfl
    | some s => rw [hs] at h2; simp at h2

/-- When the enable preconditions hold, `nvme_start_ctrl` runs its second
half. -/
theorem nvme_start_ctrl_ok (now : Nat) (n : NvmeCtrl) (h : enable_preconditions n) :
    nvme_start_ctrl now n =
      nvme_start_ctrl_init now n (NVME_CC_MPS n.bar.cc + 12)
        ((1 <<< (NVME_CC_MPS n.bar.cc + 12)) % 2 ^ 32) := by
  obtain ⟨g1, g2, g3, g4, g5, g6, g7, g8, g9, g10, g11, g12, g13, g14⟩ := h
  rw [nvme_start_ctrl_def]
  rw [if_neg (by rw [g1]; simp), if_neg (by rw [g2]; simp), if_neg g3, if_neg g4,
    if_neg (by rw [start_mask]; exact not_not.mpr g5),
    if_neg (by rw [start_mask]; exact not_not.mpr g6),
    if_neg (by omega), if_neg (by omega), if_neg (by omega), if_neg (by omega),
    if_neg (by omega), if_neg (by omega), if_neg g13, if_neg g14]

theorem NVME_CC_EN_mod (data : Nat) : NVME_CC_EN (data % 2 ^ 32) = NVME_CC_EN data := by
  unfold NVME_CC_EN
  simp only [Nat.shiftRight_zero]
  rw [Nat.and_one_is_mod, Nat.and_one_is_mod]
  omega

theorem NVME_CC_SHN_mod (data : Nat) : NVME_CC_SHN (data % 2 ^ 32) = NVME_CC_SHN data := by
  unfold NVME_CC_SHN
  have h3 : ∀ x : Nat, x &&& 0x3 = x % 4 := fun x => Nat.and_pow_two_sub_one_eq_mod x 2
  rw [h3, h3, Nat.shiftRight_eq_div_pow, Nat.shiftRight_eq_div_pow]
  omega

theorem nvme_mmio_write_cc (now : Nat) (n : NvmeCtrl) (data size : Nat) :
    nvme_mmio_write now n 0x14 data size = nvme_write_cc now n data := by
  unfold nvme_mmio_write nvme_write_bar
  rw [if_pos (by decide), if_neg (by decide), if_neg (by decide), if_pos rfl]

theorem nvme_write_cc_data_of_en (n : NvmeCtrl) (data : Nat) (hen : NVME_CC_EN data ≠ 0) :
    nvme_write_cc_data n data = n := by
  unfold nvme_write_cc_data
  rw [if_neg (fun h => hen h.1)]

theorem nvme_write_cc_shn_same (n2 : NvmeCtrl) (data : Nat)
    (h : NVME_CC_SHN n2.bar.cc = NVME_CC_SHN data) : nvme_write_cc_shn n2 data = n2 := by
  unfold nvme_write_cc_shn
  rw [if_neg (fun hc => hc.1 (h ▸ hc.2)), if_neg (fun hc => hc.2 (h ▸ hc.1))]

/-- C11: a CC write that takes EN from 0 to 1 while an enable precondition
fails (judged on the controller with the written value in CC) returns and
leaves the controller as it was except for two registers: CC holds the written
value and CSTS equals FAILED.  No queue is created or modified, and
`page_bits`, `page_size`, `max_prp_ents`, `cqe_size`, `sqe_size` and the
host-timestamp anchor are unchanged. -/
theorem nvme_cc_enable_failure (now : Nat) (n : NvmeCtrl) (data size : Nat)
    (hen : NVME_CC_EN data ≠ 0) (hold : NVME_CC_EN n.bar.cc = 0)
    (hfail : ¬ enable_preconditions (with_cc n data)) :
    ∃ m, nvme_mmio_write now n 0x14 data size = some m ∧
      m = { n with bar := { n.bar with cc := data % 2 ^ 32, csts := NVME_CSTS_FAILED } } ∧
      m.bar.csts = NVME_CSTS_FAILED ∧ m.sq = n.sq ∧ m.cq = n.cq ∧
      m.page_bits = n.page_bits ∧ m.page_size = n.page_size ∧
      m.max_prp_ents = n.max_prp_ents ∧ m.cqe_size = n.cqe_size ∧
      m.sqe_size = n.sqe_size ∧ m.host_timestamp = n.host_timestamp ∧
      m.timestamp_set_qemu_clock_ms = n.timestamp_set_qemu_clock_ms := by
  refine ⟨_, ?_, rfl, rfl, rfl, rfl, rfl, rfl, rfl, rfl, rfl, rfl, rfl⟩
  rw [nvme_mmio_write_cc]
  unfold nvme_write_cc
  rw [nvme_write_cc_data_of_en n data hen]
  unfold nvme_write_cc_en
  rw [if_pos ⟨hen, hold⟩]
  have hst := nvme_start_ctrl_fail now (with_cc n data) hfail
  unfold with_cc at hst
  rw [hst]
  simp only [Option.map_some']
  rw [if_pos (by decide)]
  exact congrArg some (nvme_write_cc_shn_same
    { n with bar := { n.bar with cc := data % 2 ^ 32, csts := NVME_CSTS_FAILED } } data
    (NVME_CC_SHN_mod data))

theorem nvme_cc_enable_failure_witness :
    (NVME_CC_EN 0x00460001 ≠ 0 ∧ NVME_CC_EN scenario_cold.bar.cc = 0 ∧
      ¬ enable_preconditions (with_cc scenario_cold 0x00460001)) ∧
    ∃ m, nvme_mmio_write 0 scenario_cold 0x14 0x00460001 4 = some m ∧
      m = { scenario_cold with
            bar := { scenario_cold.bar with cc := 0x00460001 % 2 ^ 32,
                                            csts := NVME_CSTS_FAILED } } ∧
      m.bar.csts = NVME_CSTS_FAILED ∧ m.sq = scenario_cold.sq ∧ m.cq = scenario_cold.cq ∧
      m.page_bits = scenario_cold.page_bits ∧ m.page_size = scenario_cold.page_size ∧
      m.max_prp_ents = scenario_cold.max_prp_ents ∧ m.cqe_size = scenario_cold.cqe_size ∧
      m.sqe_size = scenario_cold.sqe_size ∧
      m.host_timestamp = scenario_cold.host_timestamp ∧
      m.timestamp_set_qemu_clock_ms = scenario_cold.timestamp_set_qemu_clock_ms :=
  ⟨⟨by decide, by decide, by decide⟩,
    nvme_cc_enable_failure 0 scenario_cold 0x00460001 4 (by decide) (by decide) (by decide)⟩

theorem nvme_mmio_write_regs (now : Nat) (n : NvmeCtrl) (addr data size : Nat)
    (h : addr < 0x40) :
    nvme_mmio_write now n addr data size = nvme_write_bar now n addr data size := by
  unfold nvme_mmio_write sizeof_NvmeBar
  rw [if_pos h]

/-- C18 (the code departs from it): the access size plays no role in
`nvme_mmio_write`, so a write of fewer than 4 bytes is carried out like a
32-bit write; a 2-byte write of `0x00040004` to AQA (0x24) on the cold device
changes AQA from 0 to `0x00040004`.  (Lines 1368-1374 log the access with the
remark "should be ignored, fall through for now".) -/
theorem nvme_write_bar_subword_not_ignored :
    (∀ now n addr data size,
      nvme_mmio_write now n addr data size = nvme_mmio_write now n addr data 4) ∧
    nvme_mmio_write 0 scenario_cold 0x24 0x00040004 2 = some scenario_w1 ∧
    scenario_cold.bar.aqa = 0 ∧ scenario_w1.bar.aqa = 0x00040004 :=
  ⟨fun _ _ _ _ _ => rfl, by decide, by decide, by decide⟩

/-- C19: these guest programming errors leave the whole controller state as it
was: a doorbell write to an address that is not a multiple of 4; a doorbell
write to the submission (completion) queue doorbell of a queue id below `2^16`
that is not below `num_queues` or whose queue pointer is `NULL`; a register
write to CSTS (0x1C), NSSR (0x20), CMBLOC (0x38) or CMBSZ (0x3C); a register
write inside the register window to an offset that is misaligned or is none of
the recognised offsets. -/
theorem nvme_guest_errors_ignored (now : Nat) (n : NvmeCtrl) (data size : Nat) :
    (∀ addr, 0x1000 ≤ addr → addr % 4 ≠ 0 → nvme_mmio_write now n addr data size = some n) ∧
    (∀ qid, qid < 2 ^ 16 → (n.num_queues ≤ qid ∨ n.sqAt qid = none) →
      nvme_mmio_write now n (0x1000 + 8 * qid) data size = some n) ∧
    (∀ qid, qid < 2 ^ 16 → (n.num_queues ≤ qid ∨ n.cqAt qid = none) →
      nvme_mmio_write now n (0x1000 + 8 * qid + 4) data size = some n) ∧
    (∀ offset, offset = 0x1C ∨ offset = 0x20 ∨ offset = 0x38 ∨ offset = 0x3C →
      nvme_mmio_write now n offset data size = some n) ∧
    (∀ offset, offset < 0x40 →
      (offset % 4 ≠ 0 ∨
        offset ∉ [0xc, 0x10, 0x14, 0x1C, 0x20, 0x24, 0x28, 0x2c, 0x30, 0x34, 0x38, 0x3C]) →
      nvme_mmio_write now n offset data size = some n) := by
  refine ⟨?_, ?_, ?_, ?_, ?_⟩
  · intro addr h1 h2
    rw [nvme_mmio_write_db now n addr data size h1]
    unfold nvme_process_db
    rw [if_pos ((db_aligned addr).2 h2)]
  · intro qid hq hno
    rw [nvme_mmio_write_db now n _ data size (by omega)]
    obtain ⟨d1, d2⟩ := db_sq_decode qid hq
    unfold nvme_process_db
    have ha : ¬ ((0x1000 + 8 * qid) &&& ((1 <<< 2) - 1) ≠ 0) := by
      rw [db_aligned]; omega
    rw [if_neg ha]
    simp only [d1, d2, ne_eq, not_true_eq_false, if_false]
    have hc : nvme_check_sqid n (qid % 2 ^ 16) ≠ 0 := by
      rw [Nat.mod_eq_of_lt hq]
      unfold nvme_check_sqid
      rcases hno with h | h
      · rw [if_neg (fun hc => by omega)]; decide
      · rw [if_neg (fun hc => by rw [h] at hc; simp at hc)]; decide
    rw [if_pos hc]
  · intro qid hq hno
    rw [nvme_mmio_write_db now n _ data size (by omega)]
    obtain ⟨d1, d2⟩ := db_cq_decode qid hq
    unfold nvme_process_db
    have ha : ¬ ((0x1000 + 8 * qid + 4) &&& ((1 <<< 2) - 1) ≠ 0) := by
      rw [db_aligned]; omega
    rw [if_neg ha]
    simp only [d1, d2, ne_eq, one_ne_zero, not_false_eq_true, if_true]
    have hc : nvme_check_cqid n (qid % 2 ^ 16) ≠ 0 := by
      rw [Nat.mod_eq_of_lt hq]
      unfold nvme_check_cqid
      rcases hno with h | h
      · rw [if_neg (fun hc => by omega)]; decide
      · rw [if_neg (fun hc => by rw [h] at hc; simp at hc)]; decide
    rw [if_pos hc]
  · intro offset ho
    rw [nvme_mmio_write_regs now n offset data size (by omega)]
    rcases ho with h | h | h | h
    · subst h
      unfold nvme_write_bar
      rw [if_neg (by decide), if_neg (by decide), if_neg (by decide), if_pos rfl]
    · subst h
      unfold nvme_write_bar
      rw [if_neg (by decide), if_neg (by decide), if_neg (by decide), if_neg (by decide), if_pos rfl]
    · subst h
      unfold nvme_write_bar
      rw [if_neg (by decide), if_neg (by decide), if_neg (by decide), if_neg (by decide), if_neg (by decide), if_neg (by decide), if_neg (by decide), if_neg (by decide), if_neg (by decide), if_neg (by decide), if_pos rfl]
    · subst h
      unfold nvme_write_bar
      rw [if_neg (by decide), if_neg (by decide), if_neg (by decide), if_neg (by decide), if_neg (by decide), if_neg (by decide), if_neg (by decide), if_neg (by decide), if_neg (by decide), if_neg (by decide), if_neg (by decide), if_pos rfl]
  · intro offset hlt hbad
    rw [nvme_mmio_write_regs now n offset data size hlt]
    have hne : ∀ k ∈ [0xc, 0x10, 0x14, 0x1C, 0x20, 0x24, 0x28, 0x2c, 0x30, 0x34, 0x38, 0x3C],
        offset ≠ k := by
      intro k hk he
      rcases hbad with hb | hb
      · subst he
        simp only [List.mem_cons, List.mem_singleton, List.not_mem_nil, or_false] at hk
        omega
      · exact hb (he ▸ hk)
    unfold nvme_write_bar
    rw [if_neg (hne _ (by simp)), if_neg (hne _ (by simp)), if_neg (hne _ (by simp)),
      if_neg (hne _ (by simp)), if_neg (hne _ (by simp)), if_neg (hne _ (by simp)),
      if_neg (hne _ (by simp)), if_neg (hne _ (by simp)), if_neg (hne _ (by simp)),
      if_neg (hne _ (by simp)), if_neg (hne _ (by simp)), if_neg (hne _ (by simp))]

theorem nvme_guest_errors_ignored_witness :
    nvme_mmio_write 0 scenario_w4 0x1002 7 4 = some scenario_w4 ∧
    nvme_mmio_write 0 scenario_w4 (0x1000 + 8 * 3) 7 4 = some scenario_w4 ∧
    nvme_mmio_write 0 scenario_w4 (0x1000 + 8 * 3 + 4) 7 4 = some scenario_w4 ∧
    nvme_mmio_write 0 scenario_w4 0x1C 7 4 = some scenario_w4 ∧
    nvme_mmio_write 0 scenario_w4 0x18 7 4 = some scenario_w4 :=
  ⟨(nvme_guest_errors_ignored 0 scenario_w4 7 4).1 0x1002 (by decide) (by decide),
    (nvme_guest_errors_ignored 0 scenario_w4 7 4).2.1 3 (by decide) (Or.inr (by decide)),
    (nvme_guest_errors_ignored 0 scenario_w4 7 4).2.2.1 3 (by decide) (Or.inr (by decide)),
    (nvme_guest_errors_ignored 0 scenario_w4 7 4).2.2.2.1 0x1C (Or.inl rfl),
    (nvme_guest_errors_ignored 0 scenario_w4 7 4).2.2.2.2 0x18 (by decide)
      (Or.inr (by decide))⟩

theorem check_cqid_ne_iff (n : NvmeCtrl) (j : Nat) :
    nvme_check_cqid n j ≠ 0 ↔ ¬ (j < n.num_queues ∧ (n.cqAt j).isSome) := by
  unfold nvme_check_cqid
  by_cases h : j < n.num_queues ∧ (n.cqAt j).isSome = true
  · rw [if_pos h]; simp [h]
  · rw [if_neg h]; simp only [h, not_false_eq_true, iff_true]; decide

theorem check_sqid_eq_iff (n : NvmeCtrl) (i : Nat) :
    nvme_check_sqid n i = 0 ↔ (i < n.num_queues ∧ (n.sqAt i).isSome) := by
  unfold nvme_check_sqid
  by_cases h : i < n.num_queues ∧ (n.sqAt i).isSome = true
  · rw [if_pos h]; simp [h]
  · rw [if_neg h]; simp only [h, iff_false]; decide

/-- C20: `nvme_create_sq` answers with the error that the spec's order of
precedence gives (`create_sq_error`) and leaves the controller as it was; when
no check fails it goes on to `nvme_init_sq`.  (The page size is a power of
two, as `nvme_start_ctrl` sets it.) -/
theorem nvme_create_sq_errors (n : NvmeCtrl) (cmd : NvmeCmd)
    (hps : n.page_size = 2 ^ n.page_bits) :
    (∀ st, create_sq_error n (dw_hi cmd.cdw11) (dw_lo cmd.cdw10) (dw_hi cmd.cdw10)
        (dw_lo cmd.cdw11) cmd.prp1 = some st → nvme_create_sq n cmd = some (st, n)) ∧
    (create_sq_error n (dw_hi cmd.cdw11) (dw_lo cmd.cdw10) (dw_hi cmd.cdw10)
        (dw_lo cmd.cdw11) cmd.prp1 = none →
      nvme_create_sq n cmd =
        (nvme_init_sq n cmd.prp1 (dw_lo cmd.cdw10) (dw_hi cmd.cdw11)
          ((dw_hi cmd.cdw10 + 1) % 2 ^ 16)).map fun m => (NVME_SUCCESS, m)) := by
  have hal : cmd.prp1 &&& (n.page_size - 1) = cmd.prp1 % n.page_size := by
    rw [hps, Nat.and_pow_two_sub_one_eq_mod]
  have hpc : NVME_SQ_FLAGS_PC (dw_lo cmd.cdw11) = dw_lo cmd.cdw11 % 2 := by
    unfold NVME_SQ_FLAGS_PC
    exact Nat.and_one_is_mod _
  have c1 : (dw_hi cmd.cdw11 = 0 ∨ nvme_check_cqid n (dw_hi cmd.cdw11) ≠ 0) ↔
      (dw_hi cmd.cdw11 = 0 ∨
        ¬ (dw_hi cmd.cdw11 < n.num_queues ∧ (n.cqAt (dw_hi cmd.cdw11)).isSome = true)) := by
    rw [check_cqid_ne_iff]
  have c2 : (dw_lo cmd.cdw10 = 0 ∨ nvme_check_sqid n (dw_lo cmd.cdw10) = 0) ↔
      (dw_lo cmd.cdw10 = 0 ∨
        (dw_lo cmd.cdw10 < n.num_queues ∧ (n.sqAt (dw_lo cmd.cdw10)).isSome = true)) := by
    rw [check_sqid_eq_iff]
  have c4 : (cmd.prp1 = 0 ∨ cmd.prp1 &&& (n.page_size - 1) ≠ 0) ↔
      (cmd.prp1 = 0 ∨ cmd.prp1 % n.page_size ≠ 0) := by
    rw [hal]
  have c5 : NVME_SQ_FLAGS_PC (dw_lo cmd.cdw11) = 0 ↔ dw_lo cmd.cdw11 % 2 = 0 := by
    rw [hpc]
  unfold create_sq_error nvme_create_sq
  simp only
  by_cases h1 : dw_hi cmd.cdw11 = 0 ∨
      ¬ (dw_hi cmd.cdw11 < n.num_queues ∧ (n.cqAt (dw_hi cmd.cdw11)).isSome = true)
  · rw [if_pos h1, if_pos (c1.2 h1)]
    exact ⟨fun st h => (by cases h; rfl), fun h => (by cases h)⟩
  rw [if_neg h1, if_neg (fun h => h1 (c1.1 h))]
  by_cases h2 : dw_lo cmd.cdw10 = 0 ∨
      (dw_lo cmd.cdw10 < n.num_queues ∧ (n.sqAt (dw_lo cmd.cdw10)).isSome = true)
  · rw [if_pos h2, if_pos (c2.2 h2)]
    exact ⟨fun st h => (by cases h; rfl), fun h => (by cases h)⟩
  rw [if_neg h2, if_neg (fun h => h2 (c2.1 h))]
  by_cases h3 : dw_hi cmd.cdw10 = 0 ∨ NVME_CAP_MQES n.bar.cap < dw_hi cmd.cdw10
  · rw [if_pos h3, if_pos h3]
    exact ⟨fun st h => (by cases h; rfl), fun h => (by cases h)⟩
  rw [if_neg h3, if_neg h3]
  by_cases h4 : cmd.prp1 = 0 ∨ cmd.prp1 % n.page_size ≠ 0
  · rw [if_pos h4, if_pos (c4.2 h4)]
    exact ⟨fun st h => (by cases h; rfl), fun h => (by cases h)⟩
  rw [if_neg h4, if_neg (fun h => h4 (c4.1 h))]
  by_cases h5 : dw_lo cmd.cdw11 % 2 = 0
  · rw [if_pos h5, if_pos (c5.2 h5)]
    exact ⟨fun st h => (by cases h; rfl), fun h => (by cases h)⟩
  rw [if_neg h5, if_neg (fun h => h5 (c5.1 h))]
  exact ⟨fun st h => (by cases h), fun _ => rfl⟩

/-- A Create I/O Submission Queue command for the examples: `sqid = 1`,
`qsize = 3`, `cqid = 1`, physically contiguous, `prp1 = 0x300000`. -/
theorem nvme_create_sq_errors_witness :
    scenario_w4.page_size = 2 ^ scenario_w4.page_bits ∧
    create_sq_error scenario_w4 1 1 3 1 0x300000 = some (NVME_INVALID_CQID ||| NVME_DNR) ∧
    nvme_create_sq scenario_w4 { cdw10 := 0x00030001, cdw11 := 0x00010001, prp1 := 0x300000 } =
      some (NVME_INVALID_CQID ||| NVME_DNR, scenario_w4) :=
  ⟨by decide, by decide,
    (nvme_create_sq_errors scenario_w4
      { cdw10 := 0x00030001, cdw11 := 0x00010001, prp1 := 0x300000 } (by decide)).1 _
      (by decide)⟩

theorem queue_frame_refl (n : NvmeCtrl) : queue_frame n n := rfl

theorem queue_frame_trans {a b c : NvmeCtrl} (h1 : queue_frame a b) (h2 : queue_frame b c) :
    queue_frame a c := by
  unfold queue_frame at *
  rw [h2, h1]

theorem irq_frame_queue_frame {a b : NvmeCtrl} (h : irq_frame a b) : queue_frame a b := by
  unfold irq_frame at h
  unfold queue_frame
  rw [h]

theorem admin_same_refl (n : NvmeCtrl) : admin_same n n := ⟨rfl, rfl⟩

theorem admin_same_trans {a b c : NvmeCtrl} (h1 : admin_same a b) (h2 : admin_same b c) :
    admin_same a c :=
  ⟨h2.1.trans h1.1, h2.2.trans h1.2⟩

theorem quiet_refl (n : NvmeCtrl) : quiet n n := ⟨queue_frame_refl n, admin_same_refl n⟩

theorem quiet_trans {a b c : NvmeCtrl} (h1 : quiet a b) (h2 : quiet b c) : quiet a c :=
  ⟨queue_frame_trans h1.1 h2.1, admin_same_trans h1.2 h2.2⟩

theorem same_queues_admin {n m : NvmeCtrl} (h : same_queues n m) : admin_same n m := by
  constructor
  · have := congrArg Option.isSome (h.2.2.2.1 0)
    simpa using this
  · have := congrArg Option.isSome (h.2.2.2.2 0)
    simpa using this

theorem isSome_sqAt_set {n m : NvmeCtrl} {a : Nat} {s t : NvmeSQueue}
    (hs : n.sqAt a = some s) (hm : m.sq = n.sq.set a (some t)) (i : Nat) :
    (m.sqAt i).isSome = (n.sqAt i).isSome := by
  rw [sqAt_set (sqAt_lt hs) hm]
  split
  · rename_i h; rw [h, hs]; rfl
  · rfl

theorem isSome_cqAt_set {n m : NvmeCtrl} {b : Nat} {c d : NvmeCQueue}
    (hc : n.cqAt b = some c) (hm : m.cq = n.cq.set b (some d)) (j : Nat) :
    (m.cqAt j).isSome = (n.cqAt j).isSome := by
  rw [cqAt_set (cqAt_lt hc) hm]
  split
  · rename_i h; rw [h, hc]; rfl
  · rfl

theorem enqueue_quiet {now : Nat} {n m : NvmeCtrl} {cqid : Nat} {q : NvmeRequest}
    (h : nvme_enqueue_req_completion now n cqid q = some m) : quiet n m := by
  unfold nvme_enqueue_req_completion at h
  cases hc : n.cqAt cqid with
  | none => simp [hc] at h
  | some c =>
    cases hs : n.sqAt q.sq with
    | none => simp [hc, hs] at h
    | some s =>
      simp only [hc, hs] at h
      split at h
      · simp only [Option.some.injEq] at h
        refine ⟨by rw [← h]; rfl, ?_, ?_⟩
        · exact isSome_sqAt_set hs (by rw [← h]) 0
        · exact isSome_cqAt_set hc (by rw [← h]) 0
      · simp at h

theorem nvme_rw_cb_quiet {now : Nat} {n m : NvmeCtrl} {q : NvmeRequest} {ret : Int}
    (h : nvme_rw_cb now n q ret = some m) : quiet n m := by
  unfold nvme_rw_cb at h
  split at h
  · simp at h
  · exact enqueue_quiet h

theorem fetch_quiet {env : Env} {n m : NvmeCtrl} {i : Nat} {cmd : NvmeCmd} {r : NvmeRequest}
    (h : nvme_process_sq_fetch env n i = some (m, cmd, r)) : quiet n m := by
  unfold nvme_process_sq_fetch at h
  cases hs : n.sqAt i with
  | none => simp [hs] at h
  | some s =>
    simp only [hs] at h
    split at h
    · cases hfree : s.req_list with
      | nil => simp [hfree] at h
      | cons r0 free =>
        simp only [hfree, Option.some.injEq, Prod.mk.injEq] at h
        obtain ⟨e1, -, -⟩ := h
        refine ⟨by rw [← e1]; rfl, ?_, by rw [← e1]; rfl⟩
        exact isSome_sqAt_set hs (by rw [← e1]) 0
    · simp at h

theorem post_one_quiet {n : NvmeCtrl} {cqid : Nat} {c : NvmeCQueue} {sq : NvmeSQueue}
    {r : NvmeRequest} {rest : List NvmeRequest} (hc : n.cqAt cqid = some c)
    (hs : n.sqAt r.sq = some sq) : quiet n (post_one n cqid c sq r rest) :=
  ⟨rfl, isSome_sqAt_set hs rfl 0, isSome_cqAt_set hc rfl 0⟩

theorem post_loop_quiet (cqid : Nat) :
    ∀ (reqs : List NvmeRequest) (n : NvmeCtrl) (w : List (Nat × NvmeCqe)) (m : NvmeCtrl)
      (w1 : List (Nat × NvmeCqe)),
      nvme_post_cqes_loop cqid reqs n w = some (m, w1) → quiet n m := by
  intro reqs
  induction reqs with
  | nil =>
    intro n w m w1 h
    simp only [nvme_post_cqes_loop, Option.some.injEq, Prod.mk.injEq] at h
    rw [← h.1]
    exact quiet_refl n
  | cons r rest ih =>
    intro n w m w1 h
    cases hc : n.cqAt cqid with
    | none => simp [nvme_post_cqes_loop, hc] at h
    | some c =>
      by_cases hfull : nvme_cq_full c = true
      · rw [post_loop_full cqid r rest n w c hc hfull] at h
        simp only [Option.some.injEq, Prod.mk.injEq] at h
        rw [← h.1]
        exact quiet_refl n
      · cases hs : n.sqAt r.sq with
        | none => simp [nvme_post_cqes_loop, hc, hfull, hs] at h
        | some sq =>
          rw [post_loop_cons cqid r rest n w c sq hc (by simpa using hfull) hs] at h
          exact quiet_trans (post_one_quiet hc hs) (ih _ _ _ _ h)

theorem nvme_irq_assert_quiet {n m : NvmeCtrl} {c : NvmeCQueue}
    (h : nvme_irq_assert n c = some m) : quiet n m := by
  refine ⟨?_, same_queues_admin (nvme_irq_assert_same h)⟩
  unfold nvme_irq_assert at h
  split at h
  · split at h
    · cases h; rfl
    · split at h
      · cases hm : int_one_shl c.cqid with
        | none => simp [hm] at h
        | some x =>
          simp only [hm, Option.map_some', Option.some.injEq] at h
          rw [← h]
          exact irq_frame_queue_frame
            (irq_frame_trans (b := { n with irq_status := n.irq_status ||| x })
              rfl (nvme_irq_check_frame _))
      · simp at h
  · cases h; rfl

theorem nvme_irq_deassert_quiet {n m : NvmeCtrl} {c : NvmeCQueue}
    (h : nvme_irq_deassert n c = some m) : quiet n m := by
  refine ⟨?_, same_queues_admin (nvme_irq_deassert_same h)⟩
  unfold nvme_irq_deassert at h
  split at h
  · split at h
    · cases h; rfl
    · split at h
      · cases hm : int_not_one_shl c.cqid with
        | none => simp [hm] at h
        | some x =>
          simp only [hm, Option.map_some', Option.some.injEq] at h
          rw [← h]
          exact irq_frame_queue_frame
            (irq_frame_trans (b := { n with irq_status := n.irq_status &&& x })
              rfl (nvme_irq_check_frame _))
      · simp at h
  · cases h; rfl

theorem nvme_post_cqes_quiet {n m : NvmeCtrl} {cqid : Nat} {w : List (Nat × NvmeCqe)}
    (h : nvme_post_cqes n cqid = some (m, w)) : quiet n m := by
  unfold nvme_post_cqes at h
  cases hc : n.cqAt cqid with
  | none => simp [hc] at h
  | some c =>
    simp only [hc] at h
    cases hl : nvme_post_cqes_loop cqid c.req_list n [] with
    | none => simp [hl] at h
    | some p =>
      obtain ⟨n1, w1⟩ := p
      simp only [hl] at h
      have u := post_loop_quiet cqid _ _ _ _ _ hl
      cases hc1 : n1.cqAt cqid with
      | none => simp [hc1] at h
      | some c1 =>
        simp only [hc1] at h
        split at h
        · cases ha : nvme_irq_assert n1 c1 with
          | none => simp [ha] at h
          | some n2 =>
            simp only [ha, Option.map_some', Option.some.injEq, Prod.mk.injEq] at h
            rw [← h.1]
            exact quiet_trans u (nvme_irq_assert_quiet ha)
        · simp only [Option.some.injEq, Prod.mk.injEq] at h
          rw [← h.1]
          exact u

theorem nvme_del_sq_cancel_quiet (env : Env) (qid : Nat) :
    ∀ (fuel : Nat) (n m : NvmeCtrl), nvme_del_sq_cancel env qid fuel n = some m → quiet n m := by
  intro fuel
  induction fuel with
  | zero =>
    intro n m h
    unfold nvme_del_sq_cancel at h
    split at h
    · simp at h
    · split at h
      · cases h; exact quiet_refl n
      · simp at h
  | succ fuel ih =>
    intro n m h
    unfold nvme_del_sq_cancel at h
    split at h
    · simp at h
    · split at h
      · cases h; exact quiet_refl n
      · rename_i r rest hrl
        cases hcb : nvme_rw_cb env.now n r (env.aio_ret r) with
        | none => rw [hcb] at h; simp at h
        | some n1 =>
          rw [hcb] at h
          exact quiet_trans (nvme_rw_cb_quiet hcb) (ih n1 m h)

theorem nvme_del_sq_reclaim_quiet {n m : NvmeCtrl} {qid cqid : Nat}
    (h : nvme_del_sq_reclaim n qid cqid = some m) : quiet n m := by
  unfold nvme_del_sq_reclaim at h
  cases hc : n.cqAt cqid with
  | none => simp [hc] at h
  | some c =>
    cases hs : n.sqAt qid with
    | none => simp [hc, hs] at h
    | some s =>
      simp only [hc, hs, Option.some.injEq] at h
      refine ⟨by rw [← h]; rfl, ?_, ?_⟩
      · exact isSome_sqAt_set hs (by rw [← h]) 0
      · exact isSome_cqAt_set hc (by rw [← h]) 0

theorem nvme_free_sq_quiet {n : NvmeCtrl} {s : NvmeSQueue} (h0 : s.sqid ≠ 0)
    (hlt : s.sqid < n.sq.length) : quiet n (nvme_free_sq s n) := by
  refine ⟨rfl, ?_, rfl⟩
  rw [sqAt_set (m := nvme_free_sq s n) hlt rfl, if_neg (Ne.symm h0)]

theorem nvme_free_cq_quiet {n : NvmeCtrl} {c : NvmeCQueue} (h0 : c.cqid ≠ 0)
    (hlt : c.cqid < n.cq.length) : quiet n (nvme_free_cq c n) := by
  refine ⟨rfl, rfl, ?_⟩
  rw [cqAt_set (m := nvme_free_cq c n) hlt rfl, if_neg (Ne.symm h0)]

theorem nvme_init_sq_quiet {n m : NvmeCtrl} {dma sqid cqid size : Nat} (h0 : sqid ≠ 0)
    (h : nvme_init_sq n dma sqid cqid size = some m) : quiet n m := by
  unfold nvme_init_sq at h
  simp only at h
  cases hc : n.cqAt cqid with
  | none => simp [hc] at h
  | some c =>
    simp only [hc] at h
    split at h
    · rename_i hlt
      simp only [Option.some.injEq] at h
      refine ⟨by rw [← h]; rfl, ?_, ?_⟩
      · rw [sqAt_set (m := m) hlt (by rw [← h]), if_neg (Ne.symm h0)]
      · exact isSome_cqAt_set hc (by rw [← h]) 0
    · simp at h

theorem nvme_init_cq_quiet {n m : NvmeCtrl} {dma cqid vector size irq : Nat} (h0 : cqid ≠ 0)
    (h : nvme_init_cq n dma cqid vector size irq = some m) : quiet n m := by
  unfold nvme_init_cq at h
  simp only at h
  split at h
  · rename_i hlt
    simp only [Option.some.injEq] at h
    refine ⟨by rw [← h]; rfl, by rw [← h]; rfl, ?_⟩
    rw [cqAt_set (m := m) hlt (by rw [← h]), if_neg (Ne.symm h0)]
  · simp at h

theorem nvme_create_sq_quiet {n m : NvmeCtrl} {cmd : NvmeCmd} {st : Nat}
    (h : nvme_create_sq n cmd = some (st, m)) : quiet n m := by
  unfold nvme_create_sq at h
  simp only at h
  split at h
  · cases h; exact quiet_refl n
  · split at h
    · cases h; exact quiet_refl n
    · rename_i hq
      split at h
      · cases h; exact quiet_refl n
      · split at h
        · cases h; exact quiet_refl n
        · split at h
          · cases h; exact quiet_refl n
          · cases hi : nvme_init_sq n cmd.prp1 (dw_lo cmd.cdw10) (dw_hi cmd.cdw11)
                ((dw_hi cmd.cdw10 + 1) % 2 ^ 16) with
            | none => rw [hi] at h; simp at h
            | some m1 =>
              rw [hi] at h
              simp only [Option.map_some', Option.some.injEq, Prod.mk.injEq] at h
              rw [← h.2]
              exact nvme_init_sq_quiet (fun h0 => hq (Or.inl h0)) hi

theorem nvme_create_cq_quiet {n m : NvmeCtrl} {cmd : NvmeCmd} {st : Nat}
    (h : nvme_create_cq n cmd = some (st, m)) : quiet n m := by
  unfold nvme_create_cq at h
  simp only at h
  split at h
  · cases h; exact quiet_refl n
  · rename_i hq
    split at h
    · cases h; exact quiet_refl n
    · split at h
      · cases h; exact quiet_refl n
      · split at h
        · cases h; exact quiet_refl n
        · split at h
          · cases h; exact quiet_refl n
          · cases hi : nvme_init_cq n cmd.prp1 (dw_lo cmd.cdw10) (dw_hi cmd.cdw11)
                ((dw_hi cmd.cdw10 + 1) % 2 ^ 16) (NVME_CQ_FLAGS_IEN (dw_lo cmd.cdw11)) with
            | none => rw [hi] at h; simp at h
            | some m1 =>
              rw [hi] at h
              simp only [Option.map_some', Option.some.injEq, Prod.mk.injEq] at h
              rw [← h.2]
              exact nvme_init_cq_quiet (fun h0 => hq (Or.inl h0)) hi

theorem nvme_del_cq_quiet {n m : NvmeCtrl} {cmd : NvmeCmd} {st : Nat} (hn : queues_inv n)
    (h : nvme_del_cq n cmd = some (st, m)) : quiet n m := by
  unfold nvme_del_cq at h
  simp only at h
  split at h
  · cases h; exact quiet_refl n
  · rename_i hq
    cases hc : n.cqAt (dw_lo cmd.cdw10) with
    | none => rw [hc] at h; simp at h
    | some c =>
      rw [hc] at h
      simp only at h
      split at h
      · cases h; exact quiet_refl n
      · cases hd : nvme_irq_deassert n c with
        | none => rw [hd] at h; simp at h
        | some m1 =>
          rw [hd] at h
          simp only [Option.map_some', Option.some.injEq, Prod.mk.injEq] at h
          rw [← h.2]
          have hid : c.cqid = dw_lo cmd.cdw10 := (hn.1.2.2.2 _ c hc).1
          have hq1 := nvme_irq_deassert_quiet hd
          have hlen : m1.cq.length = n.cq.length := (nvme_irq_deassert_same hd).2.2.1
          refine quiet_trans hq1 (nvme_free_cq_quiet ?_ ?_)
          · rw [hid]; exact fun h0 => hq (Or.inl h0)
          · rw [hid, hlen]; exact cqAt_lt hc

/-- Delete I/O Submission Queue touches neither the registers nor the admin
queues. -/
theorem nvme_del_sq_quiet {env : Env} {n m : NvmeCtrl} {cmd : NvmeCmd} {st : Nat}
    {w : List (Nat × NvmeCqe)} (hn : queues_inv n)
    (h : nvme_del_sq env n cmd = some (st, m, w)) : quiet n m := by
  unfold nvme_del_sq at h
  simp only at h
  by_cases hq : dw_lo cmd.cdw10 = 0 ∨ nvme_check_sqid n (dw_lo cmd.cdw10) ≠ 0
  · rw [if_pos hq] at h
    simp only [Option.some.injEq, Prod.mk.injEq] at h
    rw [← h.2.1]
    exact quiet_refl n
  · rw [if_neg hq] at h
    have hq0 : dw_lo cmd.cdw10 ≠ 0 := fun h0 => hq (Or.inl h0)
    cases hs0 : n.sqAt (dw_lo cmd.cdw10) with
    | none => simp [hs0] at h
    | some sq0 =>
      simp only [hs0] at h
      cases hcan : nvme_del_sq_cancel env (dw_lo cmd.cdw10) sq0.out_req_list.length n with
      | none => simp [hcan] at h
      | some n1 =>
        simp only [hcan] at h
        obtain ⟨⟨a1, a2⟩, a3⟩ := nvme_del_sq_cancel_inv env _ _ _ _ hn hcan
        have q1 := nvme_del_sq_cancel_quiet env _ _ _ _ hcan
        cases hs1 : n1.sqAt (dw_lo cmd.cdw10) with
        | none => simp [hs1] at h
        | some sq =>
          simp only [hs1] at h
          obtain ⟨-, -, -, cq, hcq, -⟩ := a1.2.2.1 _ sq hs1
          rw [if_pos (check_cqid_of_some a1.2.1 hcq)] at h
          simp only [hcq] at h
          have hsq2 : ∀ i, NvmeCtrl.sqAt { n1 with cq := n1.cq.set sq.cqid (some { cq with
              sq_list := cq.sq_list.filter (fun i => decide (i ≠ dw_lo cmd.cdw10)) }) } i =
              if i = dw_lo cmd.cdw10 then some sq else n1.sqAt i := by
            intro i
            split
            · rename_i hi; rw [hi, ← hs1]; rfl
            · rfl
          have hcq2 := cqAt_set (m := { n1 with cq := n1.cq.set sq.cqid (some { cq with
              sq_list := cq.sq_list.filter (fun i => decide (i ≠ dw_lo cmd.cdw10)) }) })
            (cqAt_lt hcq) rfl
          obtain ⟨b1, -⟩ := queues_core_update a1 hs1 hcq rfl (by rfl) (by rfl) (by simp)
            hsq2 hcq2 rfl rfl rfl rfl (a1.2.2.1 _ sq hs1).2.1 (a1.2.2.1 _ sq hs1).2.2.1
            (List.Perm.refl _) (fun _ _ => rfl) (fun _ hx => Or.inl hx)
          have q2 : quiet n1 { n1 with cq := n1.cq.set sq.cqid (some { cq with
              sq_list := cq.sq_list.filter (fun i => decide (i ≠ dw_lo cmd.cdw10)) }) } :=
            ⟨rfl, rfl, isSome_cqAt_set hcq rfl 0⟩
          cases hp : nvme_post_cqes { n1 with cq := n1.cq.set sq.cqid (some { cq with
              sq_list := cq.sq_list.filter (fun i => decide (i ≠ dw_lo cmd.cdw10)) }) } sq.cqid with
          | none => rw [hp] at h; simp at h
          | some p =>
            obtain ⟨n3, w3⟩ := p
            simp only [hp] at h
            obtain ⟨c1, c2, c3⟩ := nvme_post_cqes_inv b1 hp
            have q3 := nvme_post_cqes_quiet hp
            obtain ⟨s3, hs3, -, hs3c⟩ := c3 (dw_lo cmd.cdw10) sq hs1
            cases hr : nvme_del_sq_reclaim n3 (dw_lo cmd.cdw10) sq.cqid with
            | none => simp [hr] at h
            | some n4 =>
              simp only [hr] at h
              obtain ⟨d1, d2, d3, s4, c4, hs4, hs4c, hc4, hnone⟩ :=
                nvme_del_sq_reclaim_inv c1 hs3 hs3c hr
              have q4 := nvme_del_sq_reclaim_quiet hr
              simp only [hs4, Option.some.injEq, Prod.mk.injEq] at h
              obtain ⟨-, hm, -⟩ := h
              subst hm
              have hid : s4.sqid = dw_lo cmd.cdw10 := (d1.2.2.1 _ s4 hs4).1
              have q5 : quiet n4 (nvme_free_sq s4 n4) :=
                nvme_free_sq_quiet (by rw [hid]; exact hq0) (by rw [hid]; exact sqAt_lt hs4)
              exact quiet_trans q1 (quiet_trans q2 (quiet_trans q3 (quiet_trans q4 q5)))

theorem nvme_admin_cmd_quiet {env : Env} {n : NvmeCtrl} {cmd : NvmeCmd} {req : NvmeRequest}
    {o : AdminOut} (hn : queues_inv n) (h : nvme_admin_cmd env n cmd req = some o) :
    quiet n o.n := by
  unfold nvme_admin_cmd at h
  split at h
  · cases hd : nvme_del_sq env n cmd with
    | none => rw [hd] at h; simp at h
    | some r =>
      obtain ⟨st, m, w⟩ := r
      rw [hd] at h
      simp only [Option.map_some', Option.some.injEq] at h
      rw [← h]
      exact nvme_del_sq_quiet hn hd
  · split at h
    · cases hd : nvme_create_sq n cmd with
      | none => rw [hd] at h; simp at h
      | some r =>
        obtain ⟨st, m⟩ := r
        rw [hd] at h
        simp only [Option.map_some', Option.some.injEq] at h
        rw [← h]
        exact nvme_create_sq_quiet hd
    · split at h
      · cases h; exact quiet_refl n
      · split at h
        · cases hd : nvme_del_cq n cmd with
          | none => rw [hd] at h; simp at h
          | some r =>
            obtain ⟨st, m⟩ := r
            rw [hd] at h
            simp only [Option.map_some', Option.some.injEq] at h
            rw [← h]
            exact nvme_del_cq_quiet hn hd
        · split at h
          · cases hd : nvme_create_cq n cmd with
            | none => rw [hd] at h; simp at h
            | some r =>
              obtain ⟨st, m⟩ := r
              rw [hd] at h
              simp only [Option.map_some', Option.some.injEq] at h
              rw [← h]
              exact nvme_create_cq_quiet hd
          · split at h
            · cases h; exact quiet_refl n
            · split at h
              · simp only [Option.some.injEq] at h
                rw [← h]
                simp only
                split
                · exact ⟨rfl, rfl, rfl⟩
                · exact quiet_refl n
              · split at h
                · cases h; exact quiet_refl n
                · cases h; exact quiet_refl n

theorem nvme_process_sq_dispatch_quiet {env : Env} {n1 m : NvmeCtrl} {sq : NvmeSQueue}
    {cmd : NvmeCmd} {r1 : NvmeRequest} {w : List (Nat × NvmeCqe)} (hn : queues_inv n1)
    (h : nvme_process_sq_dispatch env n1 sq cmd r1 = some (m, w)) : quiet n1 m := by
  unfold nvme_process_sq_dispatch at h
  split at h
  · simp only at h
    split at h
    · cases he : nvme_enqueue_req_completion env.now n1 sq.cqid
          { r1 with status := env.nvme_io_cmd n1 cmd r1 } with
      | none => rw [he] at h; simp at h
      | some m1 =>
        rw [he] at h
        simp only [Option.map_some', Option.some.injEq, Prod.mk.injEq] at h
        rw [← h.1]
        exact enqueue_quiet he
    · simp only [Option.some.injEq, Prod.mk.injEq] at h
      rw [← h.1]
      exact quiet_refl n1
  · cases ha : nvme_admin_cmd env n1 cmd r1 with
    | none => rw [ha] at h; simp at h
    | some o =>
      rw [ha] at h
      simp only at h
      have u := nvme_admin_cmd_quiet hn ha
      split at h
      · cases he : nvme_enqueue_req_completion env.now o.n sq.cqid
            { r1 with status := o.status, cqe := { r1.cqe with result := o.result } } with
        | none => rw [he] at h; simp at h
        | some m1 =>
          rw [he] at h
          simp only [Option.map_some', Option.some.injEq, Prod.mk.injEq] at h
          rw [← h.1]
          exact quiet_trans u (enqueue_quiet he)
      · simp only [Option.some.injEq, Prod.mk.injEq] at h
        rw [← h.1]
        exact u

theorem nvme_process_sq_iter_quiet {env : Env} {n m : NvmeCtrl} {sqid : Nat}
    {w : List (Nat × NvmeCqe)} (hn : queues_inv n)
    (h : nvme_process_sq_iter env n sqid = some (m, w)) : quiet n m := by
  unfold nvme_process_sq_iter at h
  cases hs : n.sqAt sqid with
  | none => rw [hs] at h; simp at h
  | some sq =>
    cases hf : nvme_process_sq_fetch env n sqid with
    | none => rw [hs, hf] at h; simp at h
    | some p =>
      obtain ⟨n1, cmd, r1⟩ := p
      rw [hs, hf] at h
      simp only at h
      exact quiet_trans (fetch_quiet hf)
        (nvme_process_sq_dispatch_quiet (fetch_inv hn hf).1 h)

theorem nvme_process_sq_loop_quiet (envs : Nat → Env) (sqid : Nat) :
    ∀ (fuel k : Nat) (n m : NvmeCtrl) (w w1 : List (Nat × NvmeCqe)), queues_inv n →
      nvme_process_sq_loop envs sqid fuel k n w = some (m, w1) → quiet n m := by
  intro fuel
  induction fuel with
  | zero =>
    intro k n m w w1 hn h
    unfold nvme_process_sq_loop at h
    split at h
    · simp at h
    · split at h
      · simp at h
      · simp only [Option.some.injEq, Prod.mk.injEq] at h
        rw [← h.1]; exact quiet_refl n
  | succ fuel ih =>
    intro k n m w w1 hn h
    unfold nvme_process_sq_loop at h
    split at h
    · simp at h
    · split at h
      · cases hi : nvme_process_sq_iter (envs k) n sqid with
        | none => rw [hi] at h; simp at h
        | some p =>
          obtain ⟨n1, w2⟩ := p
          rw [hi] at h
          simp only at h
          exact quiet_trans (nvme_process_sq_iter_quiet hn hi)
            (ih _ _ _ _ _ (nvme_process_sq_iter_inv hn hi) h)
      · simp only [Option.some.injEq, Prod.mk.injEq] at h
        rw [← h.1]; exact quiet_refl n

/-- A run of `nvme_process_sq` touches neither the registers nor the admin
queues. -/
theorem nvme_process_sq_quiet {envs : Nat → Env} {n m : NvmeCtrl} {sqid : Nat}
    {w : List (Nat × NvmeCqe)} (hn : queues_inv n)
    (h : nvme_process_sq envs n sqid = some (m, w)) : quiet n m := by
  unfold nvme_process_sq at h
  split at h
  · simp at h
  · exact nvme_process_sq_loop_quiet envs sqid _ _ _ _ _ _ hn h

theorem arm_sq_timers_queue_frame (now : Nat) (n : NvmeCtrl) (l : List Nat) :
    queue_frame n (arm_sq_timers now n l) := by
  have h1 := (arm_sq_timers_frame now l n).1
  generalize arm_sq_timers now n l = X at h1 ⊢
  unfold queue_frame
  rw [h1]

theorem db_cq_frame {now : Nat} {n m : NvmeCtrl} {qid v : Nat} {cq : NvmeCQueue}
    (h : (let start_sqs := nvme_cq_full cq
          let cq1 := { cq with head := v }
          let n1 := { n with cq := n.cq.set qid (some cq1) }
          let n2 :=
            if start_sqs then
              let m := arm_sq_timers now n1 cq1.sq_list
              { m with cq := m.cq.set qid (some { cq1 with timer := some (now + 500) }) }
            else n1
          if cq1.tail = cq1.head then nvme_irq_deassert n2 cq1 else some n2) = some m) :
    queue_frame n m := by
  have h1 : queue_frame n { n with cq := n.cq.set qid (some { cq with head := v }) } := rfl
  have h3 : queue_frame n
      { (arm_sq_timers now { n with cq := n.cq.set qid (some { cq with head := v }) }
          cq.sq_list) with
        cq := (arm_sq_timers now
          { n with cq := n.cq.set qid (some { cq with head := v }) } cq.sq_list).cq.set qid
            (some { cq with head := v, timer := some (now + 500) }) } :=
    queue_frame_trans h1 (queue_frame_trans (arm_sq_timers_queue_frame now _ _) rfl)
  simp only at h
  by_cases hf : nvme_cq_full cq = true
  · simp only [hf, if_true] at h
    split at h
    · exact queue_frame_trans h3 (nvme_irq_deassert_quiet h).1
    · cases h; exact h3
  · simp only [hf] at h
    split at h
    · exact queue_frame_trans h1 (nvme_irq_deassert_quiet h).1
    · cases h; exact h1

/-- A doorbell write touches neither the registers nor the presence of the
admin queues. -/
theorem nvme_process_db_quiet {now : Nat} {n m : NvmeCtrl} {addr val : Nat}
    (h : nvme_process_db now n addr val = some m) : quiet n m := by
  refine ⟨?_, same_queues_admin (nvme_process_db_same h)⟩
  unfold nvme_process_db at h
  split at h
  · cases h; exact queue_frame_refl n
  · split at h
    · simp only at h
      split at h
      · cases h; exact queue_frame_refl n
      · split at h
        · simp at h
        · rename_i cq hcq
          split at h
          · cases h; exact queue_frame_refl n
          · exact db_cq_frame (v := val &&& 0xffff) h
    · simp only at h
      split at h
      · cases h; exact queue_frame_refl n
      · split at h
        · simp at h
        · rename_i sq hsq
          split at h
          · cases h; exact queue_frame_refl n
          · cases h
            rfl

theorem regs_inv_quiet {n m : NvmeCtrl} (hn : regs_inv n) (h : quiet n m) : regs_inv m := by
  obtain ⟨hf, hs, hc⟩ := h
  have hb : m.bar = n.bar := by
    unfold queue_frame at hf
    rw [hf]
  unfold regs_inv at hn ⊢
  rw [hb, hs, hc]
  exact hn

theorem free_sq_loop_frame (l : List Nat) : ∀ n : NvmeCtrl,
    free_sq_loop n l = { n with sq := (free_sq_loop n l).sq } := by
  induction l with
  | nil => intro n; rfl
  | cons a l ih =>
    intro n
    have hstep : free_sq_loop n (a :: l) = free_sq_loop (match n.sqAt a with
        | some sq => nvme_free_sq sq n
        | none => n) l := rfl
    rw [hstep]
    cases hs : n.sqAt a with
    | none => simp only; exact ih n
    | some sq =>
      simp only
      have := ih (nvme_free_sq sq n)
      generalize free_sq_loop (nvme_free_sq sq n) l = X at this ⊢
      exact this.trans rfl

theorem free_cq_loop_frame (l : List Nat) : ∀ n : NvmeCtrl,
    free_cq_loop n l = { n with cq := (free_cq_loop n l).cq } := by
  induction l with
  | nil => intro n; rfl
  | cons a l ih =>
    intro n
    have hstep : free_cq_loop n (a :: l) = free_cq_loop (match n.cqAt a with
        | some cq => nvme_free_cq cq n
        | none => n) l := rfl
    rw [hstep]
    cases hs : n.cqAt a with
    | none => simp only; exact ih n
    | some cq =>
      simp only
      have := ih (nvme_free_cq cq n)
      generalize free_cq_loop (nvme_free_cq cq n) l = X at this ⊢
      exact this.trans rfl

/-- `nvme_clear_ctrl` changes the queue arrays and the register CC only. -/
theorem nvme_clear_ctrl_frame (n : NvmeCtrl) :
    nvme_clear_ctrl n = { n with sq := (nvme_clear_ctrl n).sq, cq := (nvme_clear_ctrl n).cq,
                                 bar := { n.bar with cc := 0 } } := by
  have h1 := free_sq_loop_frame (List.range n.num_queues) n
  have h2 := free_cq_loop_frame (List.range n.num_queues)
    (free_sq_loop n (List.range n.num_queues))
  unfold nvme_clear_ctrl
  simp only
  generalize free_sq_loop n (List.range n.num_queues) = X at h1 h2 ⊢
  generalize free_cq_loop X (List.range n.num_queues) = Y at h2 ⊢
  rw [h2, h1]

theorem nvme_clear_ctrl_bar (n : NvmeCtrl) :
    (nvme_clear_ctrl n).bar = { n.bar with cc := 0 } := by
  rw [nvme_clear_ctrl_frame]

theorem nvme_clear_ctrl_power (n : NvmeCtrl) :
    (nvme_clear_ctrl n).power_cycles = n.power_cycles := by
  rw [nvme_clear_ctrl_frame]

theorem csts_cases {x : Nat} (h : x ∈ [0, 1, 2, 8, 9, 10]) :
    x = 0 ∨ x = 1 ∨ x = 2 ∨ x = 8 ∨ x = 9 ∨ x = 10 := by
  simpa using h

theorem csts_clear_rdy {x : Nat} (h : x ∈ [0, 1, 2, 8, 9, 10]) :
    (x &&& 0xFFFFFFFE) ∈ [0, 1, 2, 8, 9, 10] ∧ NVME_CSTS_RDY (x &&& 0xFFFFFFFE) = 0 ∧
    NVME_CSTS_SHST (x &&& 0xFFFFFFFE) = NVME_CSTS_SHST x := by
  rcases csts_cases h with h | h | h | h | h | h <;> subst h <;> decide

theorem csts_set_shst {x : Nat} (h : x ∈ [0, 1, 2, 8, 9, 10]) :
    (x ||| NVME_CSTS_SHST_COMPLETE) ∈ [0, 1, 2, 8, 9, 10] ∧
    NVME_CSTS_SHST (x ||| NVME_CSTS_SHST_COMPLETE) = 2 ∧
    NVME_CSTS_RDY (x ||| NVME_CSTS_SHST_COMPLETE) = NVME_CSTS_RDY x := by
  rcases csts_cases h with h | h | h | h | h | h <;> subst h <;> decide

theorem csts_clear_shst {x : Nat} (h : x ∈ [0, 1, 2, 8, 9, 10]) :
    (x &&& 0xFFFFFFF7) ∈ [0, 1, 2, 8, 9, 10] ∧ NVME_CSTS_SHST (x &&& 0xFFFFFFF7) = 0 ∧
    NVME_CSTS_RDY (x &&& 0xFFFFFFF7) = NVME_CSTS_RDY x := by
  rcases csts_cases h with h | h | h | h | h | h <;> subst h <;> decide

theorem NVME_CC_EN_le (cc : Nat) : NVME_CC_EN cc ≤ 1 := by
  unfold NVME_CC_EN
  simp only [Nat.shiftRight_zero]
  rw [Nat.and_one_is_mod]
  omega

theorem NVME_CC_EN_of_ne {cc : Nat} (h : NVME_CC_EN cc ≠ 0) : NVME_CC_EN cc = 1 := by
  have := NVME_CC_EN_le cc
  omega

/-- In a state that satisfies the register invariant with CC.EN clear there
is no admin queue. -/
theorem regs_inv_no_admin {n : NvmeCtrl} (hn : regs_inv n) (h : NVME_CC_EN n.bar.cc = 0) :
    n.sqAt 0 = none ∧ n.cqAt 0 = none := by
  obtain ⟨-, -, -, h4, h5⟩ := hn
  have hs : (n.sqAt 0).isSome = false := by
    cases hv : (n.sqAt 0).isSome with
    | false => rfl
    | true => have := (h5 hv).2; omega
  have hc : (n.cqAt 0).isSome = false := by rw [← h4]; exact hs
  constructor
  · cases hv : n.sqAt 0 with
    | none => rfl
    | some s => rw [hv] at hs; simp at hs
  · cases hv : n.cqAt 0 with
    | none => rfl
    | some s => rw [hv] at hc; simp at hc

/-- What the second half of `nvme_start_ctrl` leaves: return value 0, the
registers as they were, the derived sizes, the two admin queues, the timestamp
anchor. -/
theorem nvme_start_ctrl_init_spec {now : Nat} {n m : NvmeCtrl} {pb ps : Nat} {r : Int}
    (h : nvme_start_ctrl_init now n pb ps = some (r, m)) :
    r = 0 ∧ m.bar = n.bar ∧ m.power_cycles = n.power_cycles ∧ m.num_queues = n.num_queues ∧
    m.page_bits = pb % 2 ^ 16 ∧ m.page_size = ps ∧ m.max_prp_ents = (ps / 8) % 2 ^ 16 ∧
    m.cqe_size = (1 <<< NVME_CC_IOCQES n.bar.cc) % 2 ^ 16 ∧
    m.sqe_size = (1 <<< NVME_CC_IOSQES n.bar.cc) % 2 ^ 16 ∧
    m.host_timestamp = 0 ∧ m.timestamp_set_qemu_clock_ms = now / 1000000 ∧
    (∃ c, m.cqAt 0 = some c ∧ c.size = NVME_AQA_ACQS n.bar.aqa + 1 ∧ c.vector = 0 ∧
      c.irq_enabled = 1 ∧ c.phase = 1 ∧ c.head = 0 ∧ c.tail = 0) ∧
    (∃ s, m.sqAt 0 = some s ∧ s.size = NVME_AQA_ASQS n.bar.aqa + 1 ∧ s.cqid = 0 ∧
      s.head = 0 ∧ s.tail = 0) := by
  unfold nvme_start_ctrl_init at h
  simp only at h
  split at h
  · simp at h
  · rename_i n2 h1
    split at h
    · simp at h
    · rename_i n3 h2
      simp only [Option.some.injEq, Prod.mk.injEq] at h
      obtain ⟨hr, hm⟩ := h
      unfold nvme_init_cq at h1
      simp only at h1
      split at h1
      · rename_i hlt
        simp only [Option.some.injEq] at h1
        subst h1
        unfold nvme_init_sq at h2
        simp only at h2
        split at h2
        · simp at h2
        · rename_i cq hcq
          split at h2
          · rename_i hlt2
            simp only [Option.some.injEq] at h2
            subst h2
            subst hm
            have hcq0 := (cqAt_set hlt rfl 0).symm.trans hcq
            rw [if_pos rfl] at hcq0
            simp only [Option.some.injEq] at hcq0
            subst hcq0
            refine ⟨hr.symm, rfl, rfl, rfl, rfl, rfl, rfl, rfl, rfl, rfl, rfl, ?_, ?_⟩
            · refine ⟨_, (getD_set_none _ 0 0 _ (by simpa using hlt)).trans (if_pos rfl), ?_⟩
              exact ⟨rfl, rfl, rfl, rfl, rfl, rfl⟩
            · refine ⟨_, (getD_set_none _ 0 0 _ hlt2).trans (if_pos rfl), ?_⟩
              exact ⟨rfl, rfl, rfl, rfl⟩
          · simp at h2
      · simp at h1

theorem regs_inv_of_bar {n m : NvmeCtrl} (hn : regs_inv n) (h1 : m.bar.cc = n.bar.cc)
    (h2 : m.bar.csts = n.bar.csts) (h3 : m.bar.cap = n.bar.cap) (hs : m.sq = n.sq)
    (hc : m.cq = n.cq) : regs_inv m := by
  unfold regs_inv NvmeCtrl.sqAt NvmeCtrl.cqAt at *
  rw [h1, h2, h3, hs, hc]
  exact hn

theorem regs_inv_of_none {m : NvmeCtrl} (h1 : m.bar.cc < 2 ^ 32)
    (h2 : m.bar.csts ∈ [0, 1, 2, 8, 9, 10]) (h3 : m.bar.cap = scenario_cold.bar.cap)
    (hs : m.sqAt 0 = none) (hc : m.cqAt 0 = none) : regs_inv m := by
  refine ⟨h1, h2, h3, by rw [hs, hc]; rfl, ?_⟩
  intro h
  rw [hs] at h
  simp at h

theorem nvme_irq_check_kept (a : NvmeCtrl) :
    (nvme_irq_check a).bar = a.bar ∧ (nvme_irq_check a).sq = a.sq ∧
    (nvme_irq_check a).cq = a.cq := by
  unfold nvme_irq_check
  split
  · exact ⟨rfl, rfl, rfl⟩
  · split <;> exact ⟨rfl, rfl, rfl⟩

theorem nvme_smart_inc_kept (a : NvmeCtrl) :
    (nvme_smart_inc_num_power_cycle a).bar = a.bar ∧
    (nvme_smart_inc_num_power_cycle a).sq = a.sq ∧
    (nvme_smart_inc_num_power_cycle a).cq = a.cq ∧
    (nvme_smart_inc_num_power_cycle a).num_queues = a.num_queues := by
  unfold nvme_smart_inc_num_power_cycle
  simp only
  split <;> exact ⟨rfl, rfl, rfl, rfl⟩

theorem nvme_write_cc_data_regs {n : NvmeCtrl} (data : Nat) (hn : regs_inv n) :
    regs_inv (nvme_write_cc_data n data) := by
  unfold nvme_write_cc_data
  split
  · rename_i h
    obtain ⟨hs, hc⟩ := regs_inv_no_admin hn h.2.1
    exact regs_inv_of_none (Nat.mod_lt _ (by norm_num)) hn.2.1 hn.2.2.1 hs hc
  · exact hn

/-- The enable/reset statement of the CC case keeps the register invariant;
an admin queue is there afterwards only if the written value has EN set. -/
theorem nvme_write_cc_en_regs {now : Nat} {n1 n2 : NvmeCtrl} {data : Nat} (hn : regs_inv n1)
    (hq : queues_inv n1) (h : nvme_write_cc_en now n1 data = some n2) :
    regs_inv n2 ∧ ((n2.sqAt 0).isSome = true → NVME_CC_EN data = 1) := by
  unfold nvme_write_cc_en at h
  by_cases h1 : NVME_CC_EN data ≠ 0 ∧ NVME_CC_EN n1.bar.cc = 0
  · rw [if_pos h1] at h
    obtain ⟨hs, hc⟩ := regs_inv_no_admin hn h1.2
    refine ⟨?_, fun _ => NVME_CC_EN_of_ne h1.1⟩
    have hw : { n1 with bar := { n1.bar with cc := data % 2 ^ 32 } } = with_cc n1 data := rfl
    rw [hw] at h
    by_cases hp : enable_preconditions (with_cc n1 data)
    · rw [nvme_start_ctrl_ok now _ hp] at h
      split at h
      · simp at h
      · rename_i r m hi
        obtain ⟨hr, hbar, -, -, -, -, -, -, -, -, -, ⟨c, hc0, -⟩, ⟨s, hs0, -⟩⟩ :=
          nvme_start_ctrl_init_spec hi
        subst hr
        rw [if_neg (by simp)] at h
        simp only [Option.some.injEq] at h
        subst h
        have hcc : m.bar.cc = data % 2 ^ 32 := by rw [hbar]; rfl
        refine ⟨?_, ?_, ?_, ?_, ?_⟩
        · show m.bar.cc < 2 ^ 32
          rw [hcc]; exact Nat.mod_lt _ (by norm_num)
        · show NVME_CSTS_READY ∈ [0, 1, 2, 8, 9, 10]
          decide
        · show m.bar.cap = _
          rw [hbar]; exact hn.2.2.1
        · show (m.sqAt 0).isSome = (m.cqAt 0).isSome
          rw [hs0, hc0]; rfl
        · intro _
          refine ⟨(by decide : NVME_CSTS_RDY NVME_CSTS_READY = 1), ?_⟩
          show NVME_CC_EN m.bar.cc = 1
          rw [hcc, NVME_CC_EN_mod]
          exact NVME_CC_EN_of_ne h1.1
    · rw [nvme_start_ctrl_fail now _ hp] at h
      simp only at h
      rw [if_pos (by decide)] at h
      simp only [Option.some.injEq] at h
      subst h
      exact regs_inv_of_none (Nat.mod_lt _ (by norm_num))
        (by decide : NVME_CSTS_FAILED ∈ [0, 1, 2, 8, 9, 10]) hn.2.2.1 hs hc
  · rw [if_neg h1] at h
    by_cases h2 : NVME_CC_EN data = 0 ∧ NVME_CC_EN n1.bar.cc ≠ 0
    · rw [if_pos h2] at h
      simp only [Option.some.injEq] at h
      subst h
      obtain ⟨-, -, -, a4, a5⟩ := nvme_clear_ctrl_inv hq
      have hb := nvme_clear_ctrl_bar n1
      refine ⟨regs_inv_of_none ?_ ?_ ?_ (a4 0) (a5 0), ?_⟩
      · show (nvme_clear_ctrl n1).bar.cc < 2 ^ 32
        rw [hb]; norm_num
      · show (nvme_clear_ctrl n1).bar.csts &&& 0xFFFFFFFE ∈ [0, 1, 2, 8, 9, 10]
        rw [hb]; exact (csts_clear_rdy hn.2.1).1
      · show (nvme_clear_ctrl n1).bar.cap = _
        rw [hb]; exact hn.2.2.1
      · intro hsome
        have h0 : (nvme_clear_ctrl n1).sqAt 0 = none := a4 0
        have h00 : ((nvme_clear_ctrl n1).sqAt 0).isSome = true := hsome
        rw [h0] at h00
        simp at h00
    · rw [if_neg h2] at h
      simp only [Option.some.injEq] at h
      subst h
      refine ⟨hn, fun hsome => ?_⟩
      have e1 := (hn.2.2.2.2 hsome).2
      have e2 := NVME_CC_EN_le data
      by_contra hne
      exact h2 ⟨by omega, by omega⟩

/-- The shutdown statement of the CC case keeps the register invariant. -/
theorem nvme_write_cc_shn_regs {n2 : NvmeCtrl} {data : Nat} (hn : regs_inv n2)
    (hq : queues_inv n2) (he : (n2.sqAt 0).isSome = true → NVME_CC_EN data = 1) :
    regs_inv (nvme_write_cc_shn n2 data) := by
  unfold nvme_write_cc_shn
  by_cases h1 : NVME_CC_SHN data ≠ 0 ∧ NVME_CC_SHN n2.bar.cc = 0
  · rw [if_pos h1]
    simp only
    obtain ⟨-, -, -, a4, a5⟩ := nvme_clear_ctrl_inv hq
    have hb := nvme_clear_ctrl_bar n2
    have hx : regs_inv { nvme_clear_ctrl n2 with
        bar := { (nvme_clear_ctrl n2).bar with
                 cc := data % 2 ^ 32,
                 csts := (nvme_clear_ctrl n2).bar.csts ||| NVME_CSTS_SHST_COMPLETE } } := by
      refine regs_inv_of_none (Nat.mod_lt _ (by norm_num)) ?_ ?_ (a4 0) (a5 0)
      · show (nvme_clear_ctrl n2).bar.csts ||| NVME_CSTS_SHST_COMPLETE ∈ [0, 1, 2, 8, 9, 10]
        rw [hb]; exact (csts_set_shst hn.2.1).1
      · show (nvme_clear_ctrl n2).bar.cap = _
        rw [hb]; exact hn.2.2.1
    obtain ⟨k1, k2, k3, -⟩ := nvme_smart_inc_kept { nvme_clear_ctrl n2 with
        bar := { (nvme_clear_ctrl n2).bar with
                 cc := data % 2 ^ 32,
                 csts := (nvme_clear_ctrl n2).bar.csts ||| NVME_CSTS_SHST_COMPLETE } }
    exact regs_inv_of_bar hx (by rw [k1]) (by rw [k1]) (by rw [k1]) k2 k3
  · rw [if_neg h1]
    by_cases h2 : NVME_CC_SHN data = 0 ∧ NVME_CC_SHN n2.bar.cc ≠ 0
    · rw [if_pos h2]
      refine ⟨Nat.mod_lt _ (by norm_num), (csts_clear_shst hn.2.1).1, hn.2.2.1, hn.2.2.2.1, ?_⟩
      intro hsome
      constructor
      · show NVME_CSTS_RDY (n2.bar.csts &&& 0xFFFFFFF7) = 1
        rw [(csts_clear_shst hn.2.1).2.2]
        exact (hn.2.2.2.2 hsome).1
      · show NVME_CC_EN (data % 2 ^ 32) = 1
        rw [NVME_CC_EN_mod]
        exact he hsome
    · rw [if_neg h2]
      exact hn

theorem nvme_write_cc_regs {now : Nat} {n m : NvmeCtrl} {data : Nat} (hn : regs_inv n)
    (hq : queues_inv n) (h : nvme_write_cc now n data = some m) : regs_inv m := by
  unfold nvme_write_cc at h
  cases hen : nvme_write_cc_en now (nvme_write_cc_data n data) data with
  | none => rw [hen] at h; simp at h
  | some n2 =>
    rw [hen] at h
    simp only [Option.map_some', Option.some.injEq] at h
    rw [← h]
    have hq1 := queues_inv_congr (nvme_write_cc_data_same n data) hq
    obtain ⟨u1, u2⟩ := nvme_write_cc_en_regs (nvme_write_cc_data_regs data hn) hq1 hen
    exact nvme_write_cc_shn_regs u1 (nvme_write_cc_en_inv hq1 hen).1 u2

theorem nvme_write_bar_regs {now : Nat} {n m : NvmeCtrl} {offset data size : Nat}
    (hn : regs_inv n) (hq : queues_inv n)
    (h : nvme_write_bar now n offset data size = some m) : regs_inv m := by
  unfold nvme_write_bar at h
  by_cases h1 : offset = 0xc
  · rw [if_pos h1] at h
    simp only [Option.some.injEq] at h
    rw [← h]
    obtain ⟨k1, k2, k3⟩ := nvme_irq_check_kept
      { n with bar := { n.bar with intms := (n.bar.intms ||| (data &&& 0xffffffff)) % 2 ^ 32,
                                   intmc := (n.bar.intms ||| (data &&& 0xffffffff)) % 2 ^ 32 } }
    exact regs_inv_of_bar hn (by rw [k1]) (by rw [k1]) (by rw [k1]) (by rw [k2]) (by rw [k3])
  rw [if_neg h1] at h
  by_cases h2 : offset = 0x10
  · rw [if_pos h2] at h
    simp only [Option.some.injEq] at h
    rw [← h]
    obtain ⟨k1, k2, k3⟩ := nvme_irq_check_kept
      { n with bar := { n.bar with intms := n.bar.intms &&& (0xFFFFFFFF - (data &&& 0xffffffff)),
                                   intmc := n.bar.intms &&& (0xFFFFFFFF - (data &&& 0xffffffff)) } }
    exact regs_inv_of_bar hn (by rw [k1]) (by rw [k1]) (by rw [k1]) (by rw [k2]) (by rw [k3])
  rw [if_neg h2] at h
  by_cases h3 : offset = 0x14
  · rw [if_pos h3] at h
    exact nvme_write_cc_regs hn hq h
  rw [if_neg h3] at h
  by_cases h4 : offset = 0x1C
  · rw [if_pos h4] at h
    simp only [Option.some.injEq] at h
    rw [← h]
    exact regs_inv_of_bar hn rfl rfl rfl rfl rfl
  rw [if_neg h4] at h
  by_cases h5 : offset = 0x20
  · rw [if_pos h5] at h
    simp only [Option.some.injEq] at h
    rw [← h]
    exact regs_inv_of_bar hn rfl rfl rfl rfl rfl
  rw [if_neg h5] at h
  by_cases h6 : offset = 0x24
  · rw [if_pos h6] at h
    simp only [Option.some.injEq] at h
    rw [← h]
    exact regs_inv_of_bar hn rfl rfl rfl rfl rfl
  rw [if_neg h6] at h
  by_cases h7 : offset = 0x28
  · rw [if_pos h7] at h
    simp only [Option.some.injEq] at h
    rw [← h]
    exact regs_inv_of_bar hn rfl rfl rfl rfl rfl
  rw [if_neg h7] at h
  by_cases h8 : offset = 0x2c
  · rw [if_pos h8] at h
    simp only [Option.some.injEq] at h
    rw [← h]
    exact regs_inv_of_bar hn rfl rfl rfl rfl rfl
  rw [if_neg h8] at h
  by_cases h9 : offset = 0x30
  · rw [if_pos h9] at h
    simp only [Option.some.injEq] at h
    rw [← h]
    exact regs_inv_of_bar hn rfl rfl rfl rfl rfl
  rw [if_neg h9] at h
  by_cases h10 : offset = 0x34
  · rw [if_pos h10] at h
    simp only [Option.some.injEq] at h
    rw [← h]
    exact regs_inv_of_bar hn rfl rfl rfl rfl rfl
  rw [if_neg h10] at h
  by_cases h11 : offset = 0x38
  · rw [if_pos h11] at h
    simp only [Option.some.injEq] at h
    rw [← h]
    exact regs_inv_of_bar hn rfl rfl rfl rfl rfl
  rw [if_neg h11] at h
  by_cases h12 : offset = 0x3C
  · rw [if_pos h12] at h
    simp only [Option.some.injEq] at h
    rw [← h]
    exact regs_inv_of_bar hn rfl rfl rfl rfl rfl
  rw [if_neg h12] at h
  simp only [Option.some.injEq] at h
  rw [← h]
  exact hn

theorem nvme_mmio_write_regs_inv {now : Nat} {n m : NvmeCtrl} {addr data size : Nat}
    (hn : regs_inv n) (hq : queues_inv n)
    (h : nvme_mmio_write now n addr data size = some m) : regs_inv m := by
  unfold nvme_mmio_write at h
  split at h
  · exact nvme_write_bar_regs hn hq h
  · split at h
    · exact regs_inv_quiet hn (nvme_process_db_quiet h)
    · cases h
      exact hn

theorem nvme_realize_regs (num_queues cmb_size_mb : Nat) (power_cycles : Nat × Nat) :
    regs_inv (nvme_realize num_queues cmb_size_mb power_cycles) :=
  regs_inv_of_none (by show (0 : Nat) < 2 ^ 32; norm_num) (by show (0 : Nat) ∈ _; decide) rfl
    (getD_replicate_none _ _) (getD_replicate_none _ _)

/-- Every step keeps the register invariant. -/
theorem step_regs_inv {n m : NvmeCtrl} (hn : regs_inv n) (hq : queues_inv n) (h : Step n m) :
    regs_inv m := by
  cases h with
  | mmio_write now addr data size h => exact nvme_mmio_write_regs_inv hn hq h
  | sq_timer envs sqid h => exact regs_inv_quiet hn (nvme_process_sq_quiet hq h)
  | cq_timer cqid h => exact regs_inv_quiet hn (nvme_post_cqes_quiet h)
  | aio_complete now req ret hs hin h => exact regs_inv_quiet hn (nvme_rw_cb_quiet h)
  | pci_config b addr => exact regs_inv_of_bar hn rfl rfl rfl rfl rfl
  | exit =>
    obtain ⟨-, -, -, a4, a5⟩ := nvme_clear_ctrl_inv hq
    have hb := nvme_clear_ctrl_bar n
    refine regs_inv_of_none ?_ ?_ ?_ (a4 0) (a5 0)
    · rw [hb]; show (0 : Nat) < 2 ^ 32; norm_num
    · rw [hb]; exact hn.2.1
    · rw [hb]; exact hn.2.2.1

/-- The register invariant holds in every reachable state. -/
theorem reachable_regs_inv {n : NvmeCtrl} (h : Reachable n) : regs_inv n := by
  induction h with
  | realize nq cmb pc => exact nvme_realize_regs nq cmb pc
  | step hr hs ih => exact step_regs_inv ih (reachable_inv hr) hs

theorem scenario_w3_reachable : Reachable scenario_w3 :=
  Reachable.step
    (Reachable.step
      (Reachable.step (Reachable.realize 64 0 (0, 0))
        (Step.mmio_write 0 0x24 0x00040004 4 (m := scenario_w1) (by decide)))
      (Step.mmio_write 0 0x28 0x200000 4 (m := scenario_w2) (by decide)))
    (Step.mmio_write 0 0x30 0x200000 4 (m := scenario_w3) (by decide))

theorem scenario_w4_reachable : Reachable scenario_w4 :=
  Reachable.step scenario_w3_reachable
    (Step.mmio_write 0 0x14 0x00460001 4 (m := scenario_w4) (by decide))

set_option maxRecDepth 4096 in
theorem scenario_shutdown_reachable : Reachable scenario_shutdown :=
  Reachable.step scenario_w4_reachable
    (Step.mmio_write 0 0x14 0x00464001 4 (m := scenario_shutdown) (by decide))

theorem NVME_CC_IOCQES_le (cc : Nat) : NVME_CC_IOCQES cc ≤ 15 := by
  unfold NVME_CC_IOCQES
  exact Nat.and_le_right

theorem NVME_CC_IOSQES_le (cc : Nat) : NVME_CC_IOSQES cc ≤ 15 := by
  unfold NVME_CC_IOSQES
  exact Nat.and_le_right

theorem one_shl_mod (x : Nat) (h : x ≤ 15) : (1 <<< x) % 2 ^ 16 = 1 <<< x := by
  rw [Nat.one_shiftLeft]
  apply Nat.mod_eq_of_lt
  exact Nat.pow_lt_pow_right (by norm_num) (by omega)

theorem nvme_smart_inc_value (a : NvmeCtrl) (h1 : a.power_cycles.1 < 2 ^ 64)
    (h2 : a.power_cycles.2 < 2 ^ 64) :
    power_cycles_value (nvme_smart_inc_num_power_cycle a) =
      (power_cycles_value a + 1) % 2 ^ 128 := by
  unfold nvme_smart_inc_num_power_cycle power_cycles_value
  simp only
  split
  · rename_i h
    simp only
    omega
  · rename_i h
    simp only
    omega

/-- The shutdown branch of the CC case: every queue is freed, CC holds the
written value, "shutdown complete" is set in CSTS, and the power-cycle counter
is advanced once. -/
theorem nvme_write_cc_shn_fire {n2 : NvmeCtrl} {data : Nat} (hq : queues_inv n2)
    (h1 : NVME_CC_SHN data ≠ 0) (h2 : NVME_CC_SHN n2.bar.cc = 0) :
    (∀ i, (nvme_write_cc_shn n2 data).sqAt i = none ∧
      (nvme_write_cc_shn n2 data).cqAt i = none) ∧
    (nvme_write_cc_shn n2 data).bar.cc = data % 2 ^ 32 ∧
    (nvme_write_cc_shn n2 data).bar.csts = n2.bar.csts ||| NVME_CSTS_SHST_COMPLETE ∧
    (nvme_write_cc_shn n2 data).num_queues = n2.num_queues ∧
    ∃ y, nvme_write_cc_shn n2 data = nvme_smart_inc_num_power_cycle y ∧
      y.power_cycles = n2.power_cycles := by
  unfold nvme_write_cc_shn
  rw [if_pos ⟨h1, h2⟩]
  simp only
  obtain ⟨k1, k2, k3, k4⟩ := nvme_smart_inc_kept { nvme_clear_ctrl n2 with
      bar := { (nvme_clear_ctrl n2).bar with
               cc := data % 2 ^ 32,
               csts := (nvme_clear_ctrl n2).bar.csts ||| NVME_CSTS_SHST_COMPLETE } }
  obtain ⟨a1, -, -, a4, a5⟩ := nvme_clear_ctrl_inv hq
  have hb := nvme_clear_ctrl_bar n2
  refine ⟨fun i => ⟨?_, ?_⟩, ?_, ?_, ?_, _, rfl, nvme_clear_ctrl_power n2⟩
  · unfold NvmeCtrl.sqAt
    rw [k2]
    exact a4 i
  · unfold NvmeCtrl.cqAt
    rw [k3]
    exact a5 i
  · rw [k1]
  · rw [k1]
    show (nvme_clear_ctrl n2).bar.csts ||| NVME_CSTS_SHST_COMPLETE = _
    rw [hb]
  · rw [k4]
    exact a1

/-- The reset branch of the CC case (EN from 1 to 0): every queue is freed, CC
is 0 and RDY is cleared in CSTS. -/
theorem nvme_write_cc_en_reset (now : Nat) {n : NvmeCtrl} {data : Nat} (hr : regs_inv n)
    (hq : queues_inv n) (hen : NVME_CC_EN data = 0) (hold : NVME_CC_EN n.bar.cc ≠ 0) :
    ∃ m, nvme_write_cc_en now n data = some m ∧ queues_inv m ∧ regs_inv m ∧
      (∀ i, m.sqAt i = none ∧ m.cqAt i = none) ∧ m.bar.cc = 0 ∧
      m.bar.csts = n.bar.csts &&& 0xFFFFFFFE ∧ m.power_cycles = n.power_cycles ∧
      m.num_queues = n.num_queues := by
  have e : nvme_write_cc_en now n data = some { nvme_clear_ctrl n with
      bar := { (nvme_clear_ctrl n).bar with
               csts := (nvme_clear_ctrl n).bar.csts &&& 0xFFFFFFFE } } := by
    unfold nvme_write_cc_en
    rw [if_neg (fun h => h.1 hen), if_pos ⟨hen, hold⟩]
  obtain ⟨a1, -, -, a4, a5⟩ := nvme_clear_ctrl_inv hq
  have hb := nvme_clear_ctrl_bar n
  refine ⟨_, e, (nvme_write_cc_en_inv hq e).1, (nvme_write_cc_en_regs hr hq e).1,
    fun i => ⟨a4 i, a5 i⟩, ?_, ?_, nvme_clear_ctrl_power n, a1⟩
  · show (nvme_clear_ctrl n).bar.cc = 0
    rw [hb]
  · show (nvme_clear_ctrl n).bar.csts &&& 0xFFFFFFFE = _
    rw [hb]

/-- The enable branch of the CC case when the preconditions hold: the second
half of `nvme_start_ctrl` runs and CSTS becomes READY. -/
theorem nvme_write_cc_enable_ok (now : Nat) {n : NvmeCtrl} {data : Nat} (hq : queues_inv n)
    (hnq : 0 < n.num_queues) (hen : NVME_CC_EN data ≠ 0) (hold : NVME_CC_EN n.bar.cc = 0)
    (hpre : enable_preconditions (with_cc n data)) :
    ∃ m0, nvme_start_ctrl_init now (with_cc n data)
        (NVME_CC_MPS (with_cc n data).bar.cc + 12)
        ((1 <<< (NVME_CC_MPS (with_cc n data).bar.cc + 12)) % 2 ^ 32) = some (0, m0) ∧
      nvme_write_cc now n data =
        some { m0 with bar := { m0.bar with csts := NVME_CSTS_READY } } := by
  obtain ⟨m0, hi⟩ := nvme_start_ctrl_init_some now (with_cc n data)
    (NVME_CC_MPS (with_cc n data).bar.cc + 12)
    ((1 <<< (NVME_CC_MPS (with_cc n data).bar.cc + 12)) % 2 ^ 32)
    (by show 0 < n.cq.length; rw [hq.1.2.1]; exact hnq)
    (by show 0 < n.sq.length; rw [hq.1.1]; exact hnq)
  have hbar := (nvme_start_ctrl_init_spec hi).2.1
  refine ⟨m0, hi, ?_⟩
  unfold nvme_write_cc
  rw [nvme_write_cc_data_of_en n data hen]
  unfold nvme_write_cc_en
  rw [if_pos ⟨hen, hold⟩]
  have hw : { n with bar := { n.bar with cc := data % 2 ^ 32 } } = with_cc n data := rfl
  rw [hw, nvme_start_ctrl_ok now _ hpre, hi]
  simp only
  rw [if_neg (by simp)]
  simp only [Option.map_some']
  refine congrArg some
    (nvme_write_cc_shn_same { m0 with bar := { m0.bar with csts := NVME_CSTS_READY } } data ?_)
  show NVME_CC_SHN m0.bar.cc = NVME_CC_SHN data
  rw [hbar]
  exact NVME_CC_SHN_mod data

/-- The enable branch of the CC case when a precondition fails. -/
theorem nvme_write_cc_enable_fail (now : Nat) {n : NvmeCtrl} {data : Nat}
    (hen : NVME_CC_EN data ≠ 0) (hold : NVME_CC_EN n.bar.cc = 0)
    (hfail : ¬ enable_preconditions (with_cc n data)) :
    nvme_write_cc now n data =
      some { n with bar := { n.bar with cc := data % 2 ^ 32, csts := NVME_CSTS_FAILED } } := by
  unfold nvme_write_cc
  rw [nvme_write_cc_data_of_en n data hen]
  unfold nvme_write_cc_en
  rw [if_pos ⟨hen, hold⟩]
  have hst := nvme_start_ctrl_fail now (with_cc n data) hfail
  unfold with_cc at hst
  rw [hst]
  simp only [Option.map_some']
  rw [if_pos (by decide)]
  exact congrArg some (nvme_write_cc_shn_same
    { n with bar := { n.bar with cc := data % 2 ^ 32, csts := NVME_CSTS_FAILED } } data
    (NVME_CC_SHN_mod data))

/-- C12: in a reachable state of a device with at least one queue, a CC write
that takes EN from 0 to 1 with all enable preconditions satisfied (judged with
the written value in CC) returns, and afterwards: CC holds the written value
and CSTS = READY, the other registers are unchanged; `page_bits` = 12 + MPS;
`page_size` = 1 << `page_bits` and lies between 1 << (12 + MPSMIN) and
1 << (12 + MPSMAX); `max_prp_ents` = `page_size` / 8; `cqe_size` = 1 << IOCQES;
`sqe_size` = 1 << IOSQES; `cq[0]` exists with size ACQS + 1, vector 0,
interrupts enabled, phase 1, head = tail = 0; `sq[0]` exists with size
ASQS + 1, cqid 0, head = tail = 0; and the host timestamp is 0. -/
theorem nvme_cc_enable_success (now : Nat) (n : NvmeCtrl) (data size : Nat)
    (hr : Reachable n) (hnq : 0 < n.num_queues) (hen : NVME_CC_EN data ≠ 0)
    (hold : NVME_CC_EN n.bar.cc = 0) (hpre : enable_preconditions (with_cc n data)) :
    ∃ m, nvme_mmio_write now n 0x14 data size = some m ∧
      m.bar = { n.bar with cc := data % 2 ^ 32, csts := NVME_CSTS_READY } ∧
      m.bar.csts = NVME_CSTS_READY ∧
      m.page_bits = 12 + NVME_CC_MPS m.bar.cc ∧ m.page_size = 1 <<< m.page_bits ∧
      1 <<< (12 + NVME_CAP_MPSMIN m.bar.cap) ≤ m.page_size ∧
      m.page_size ≤ 1 <<< (12 + NVME_CAP_MPSMAX m.bar.cap) ∧
      m.max_prp_ents = m.page_size / 8 ∧
      m.cqe_size = 1 <<< NVME_CC_IOCQES m.bar.cc ∧
      m.sqe_size = 1 <<< NVME_CC_IOSQES m.bar.cc ∧
      (∃ c, m.cqAt 0 = some c ∧ c.size = NVME_AQA_ACQS m.bar.aqa + 1 ∧ c.vector = 0 ∧
        c.irq_enabled = 1 ∧ c.phase = 1 ∧ c.head = 0 ∧ c.tail = 0) ∧
      (∃ s, m.sqAt 0 = some s ∧ s.size = NVME_AQA_ASQS m.bar.aqa + 1 ∧ s.cqid = 0 ∧
        s.head = 0 ∧ s.tail = 0) ∧
      m.host_timestamp = 0 := by
  obtain ⟨m0, hi, hw⟩ := nvme_write_cc_enable_ok now (reachable_inv hr) hnq hen hold hpre
  obtain ⟨-, hbar, -, -, hpb, hps, hmp, hcqe, hsqe, hts, -, hc, hs⟩ :=
    nvme_start_ctrl_init_spec hi
  have hcap := (reachable_regs_inv hr).2.2.1
  obtain ⟨-, -, -, -, -, -, g7, g8, -⟩ := hpre
  have hwcc : (with_cc n data).bar.cc = data % 2 ^ 32 := rfl
  have hwcap : (with_cc n data).bar.cap = n.bar.cap := rfl
  have hwaqa : (with_cc n data).bar.aqa = n.bar.aqa := rfl
  rw [hwcc] at hpb hps hmp hcqe hsqe g7 g8
  rw [hwcap] at g7 g8
  rw [hwaqa] at hc hs
  have hmax : NVME_CAP_MPSMAX n.bar.cap = 4 := by rw [hcap]; decide
  have hmps : NVME_CC_MPS (data % 2 ^ 32) ≤ 4 := by omega
  have e16 : (NVME_CC_MPS (data % 2 ^ 32) + 12) % 2 ^ 16 = 12 + NVME_CC_MPS (data % 2 ^ 32) := by
    omega
  rw [start_page_size] at hps hmp
  rw [e16] at hpb
  rw [one_shl_mod _ (NVME_CC_IOCQES_le _)] at hcqe
  rw [one_shl_mod _ (NVME_CC_IOSQES_le _)] at hsqe
  have hcc : m0.bar.cc = data % 2 ^ 32 := by rw [hbar]; rfl
  have hcap0 : m0.bar.cap = n.bar.cap := by rw [hbar]; rfl
  have haqa0 : m0.bar.aqa = n.bar.aqa := by rw [hbar]; rfl
  rw [nvme_mmio_write_cc, hw]
  refine ⟨_, rfl, ?_, rfl, ?_, ?_, ?_, ?_, ?_, ?_, ?_, ?_, ?_, hts⟩
  · show { m0.bar with csts := NVME_CSTS_READY } = _
    rw [hbar]
    rfl
  · show m0.page_bits = 12 + NVME_CC_MPS m0.bar.cc
    rw [hpb, hcc]
  · show m0.page_size = 1 <<< m0.page_bits
    rw [hps, hpb, Nat.one_shiftLeft, Nat.add_comm]
  · show 1 <<< (12 + NVME_CAP_MPSMIN m0.bar.cap) ≤ m0.page_size
    rw [hps, hcap0, Nat.one_shiftLeft]
    exact Nat.pow_le_pow_right (by norm_num) (by omega)
  · show m0.page_size ≤ 1 <<< (12 + NVME_CAP_MPSMAX m0.bar.cap)
    rw [hps, hcap0, Nat.one_shiftLeft]
    exact Nat.pow_le_pow_right (by norm_num) (by omega)
  · show m0.max_prp_ents = m0.page_size / 8
    rw [hmp, hps]
    have hp : 2 ^ (NVME_CC_MPS (data % 2 ^ 32) + 12) ≤ 2 ^ 16 :=
      Nat.pow_le_pow_right (by norm_num) (by omega)
    generalize 2 ^ (NVME_CC_MPS (data % 2 ^ 32) + 12) = P at hp ⊢
    omega
  · show m0.cqe_size = 1 <<< NVME_CC_IOCQES m0.bar.cc
    rw [hcqe, hcc]
  · show m0.sqe_size = 1 <<< NVME_CC_IOSQES m0.bar.cc
    rw [hsqe, hcc]
  · obtain ⟨c, h0, h1⟩ := hc
    refine ⟨c, h0, ?_⟩
    show c.size = NVME_AQA_ACQS m0.bar.aqa + 1 ∧ _
    rw [haqa0]
    exact h1
  · obtain ⟨s, h0, h1⟩ := hs
    refine ⟨s, h0, ?_⟩
    show s.size = NVME_AQA_ASQS m0.bar.aqa + 1 ∧ _
    rw [haqa0]
    exact h1

theorem nvme_cc_enable_success_witness :
    (Reachable scenario_w3 ∧ 0 < scenario_w3.num_queues ∧ NVME_CC_EN 0x00460001 ≠ 0 ∧
      NVME_CC_EN scenario_w3.bar.cc = 0 ∧
      enable_preconditions (with_cc scenario_w3 0x00460001)) ∧
    ∃ m, nvme_mmio_write 0 scenario_w3 0x14 0x00460001 4 = some m ∧
      m.bar = { scenario_w3.bar with cc := 0x00460001 % 2 ^ 32, csts := NVME_CSTS_READY } ∧
      m.bar.csts = NVME_CSTS_READY ∧
      m.page_bits = 12 + NVME_CC_MPS m.bar.cc ∧ m.page_size = 1 <<< m.page_bits ∧
      1 <<< (12 + NVME_CAP_MPSMIN m.bar.cap) ≤ m.page_size ∧
      m.page_size ≤ 1 <<< (12 + NVME_CAP_MPSMAX m.bar.cap) ∧
      m.max_prp_ents = m.page_size / 8 ∧
      m.cqe_size = 1 <<< NVME_CC_IOCQES m.bar.cc ∧
      m.sqe_size = 1 <<< NVME_CC_IOSQES m.bar.cc ∧
      (∃ c, m.cqAt 0 = some c ∧ c.size = NVME_AQA_ACQS m.bar.aqa + 1 ∧ c.vector = 0 ∧
        c.irq_enabled = 1 ∧ c.phase = 1 ∧ c.head = 0 ∧ c.tail = 0) ∧
      (∃ s, m.sqAt 0 = some s ∧ s.size = NVME_AQA_ASQS m.bar.aqa + 1 ∧ s.cqid = 0 ∧
        s.head = 0 ∧ s.tail = 0) ∧
      m.host_timestamp = 0 :=
  ⟨⟨scenario_w3_reachable, by decide, by decide, by decide, by decide⟩,
    nvme_cc_enable_success 0 scenario_w3 0x00460001 4 scenario_w3_reachable (by decide)
      (by decide) (by decide) (by decide)⟩

/-- C13: in a reachable state, a CC write that takes EN from 1 to 0 returns,
and afterwards `sq[i]` and `cq[i]` are absent for every `i` (in particular for
every `i < num_queues`, which the write does not change), CSTS.RDY is clear,
and CC equals 0 whenever the written SHN field is 0. -/
theorem nvme_cc_disable (now : Nat) (n : NvmeCtrl) (data size : Nat) (hr : Reachable n)
    (hen : NVME_CC_EN data = 0) (hold : NVME_CC_EN n.bar.cc ≠ 0) :
    ∃ m, nvme_mmio_write now n 0x14 data size = some m ∧
      (∀ i, m.sqAt i = none ∧ m.cqAt i = none) ∧ m.num_queues = n.num_queues ∧
      NVME_CSTS_RDY m.bar.csts = 0 ∧ (NVME_CC_SHN data = 0 → m.bar.cc = 0) := by
  have hcsts := (reachable_regs_inv hr).2.1
  obtain ⟨m1, e1, q1, r1, z1, c1, s1, -, nq1⟩ :=
    nvme_write_cc_en_reset now (reachable_regs_inv hr) (reachable_inv hr) hen hold
  have hd : nvme_write_cc_data n data = n := by
    unfold nvme_write_cc_data
    rw [if_neg (fun h => hold h.2.1)]
  rw [nvme_mmio_write_cc]
  unfold nvme_write_cc
  rw [hd, e1]
  simp only [Option.map_some']
  refine ⟨_, rfl, ?_⟩
  by_cases hs : NVME_CC_SHN data = 0
  · have hsame : nvme_write_cc_shn m1 data = m1 :=
      nvme_write_cc_shn_same m1 data (by rw [c1, hs]; decide)
    rw [hsame]
    exact ⟨z1, nq1, by rw [s1]; exact (csts_clear_rdy hcsts).2.1, fun _ => c1⟩
  · obtain ⟨f1, -, f3, f4, -⟩ := nvme_write_cc_shn_fire q1 hs (by rw [c1]; decide)
    refine ⟨f1, f4.trans nq1, ?_, fun h => absurd h hs⟩
    rw [f3, (csts_set_shst r1.2.1).2.2, s1]
    exact (csts_clear_rdy hcsts).2.1

theorem nvme_cc_disable_witness :
    (Reachable scenario_w4 ∧ NVME_CC_EN 0 = 0 ∧ NVME_CC_EN scenario_w4.bar.cc ≠ 0) ∧
    ∃ m, nvme_mmio_write 0 scenario_w4 0x14 0 4 = some m ∧
      (∀ i, m.sqAt i = none ∧ m.cqAt i = none) ∧ m.num_queues = scenario_w4.num_queues ∧
      NVME_CSTS_RDY m.bar.csts = 0 ∧ (NVME_CC_SHN 0 = 0 → m.bar.cc = 0) :=
  ⟨⟨scenario_w4_reachable, by decide, by decide⟩,
    nvme_cc_disable 0 scenario_w4 0 4 scenario_w4_reachable (by decide) (by decide)⟩

/-- Where the write does not also take EN from 0 to 1 the shutdown runs as C14
says: in a reachable state whose power-cycle words are 64-bit values, a CC
write whose old CC.SHN is 0 and whose written SHN is non-zero returns, and
afterwards CSTS.SHST is 2 ("shutdown complete"), every queue is absent, and
the SMART power-cycle counter, read as the 128-bit integer
`power_cycles[1]:power_cycles[0]`, is one greater mod 2^128 than before. -/
theorem nvme_cc_shutdown (now : Nat) (n : NvmeCtrl) (data size : Nat) (hr : Reachable n)
    (hpc : n.power_cycles.1 < 2 ^ 64 ∧ n.power_cycles.2 < 2 ^ 64)
    (hold : NVME_CC_SHN n.bar.cc = 0) (hnew : NVME_CC_SHN data ≠ 0)
    (hen : ¬ (NVME_CC_EN data ≠ 0 ∧ NVME_CC_EN n.bar.cc = 0)) :
    ∃ m, nvme_mmio_write now n 0x14 data size = some m ∧
      NVME_CSTS_SHST m.bar.csts = 2 ∧ (∀ i, m.sqAt i = none ∧ m.cqAt i = none) ∧
      power_cycles_value m = (power_cycles_value n + 1) % 2 ^ 128 := by
  have hd : nvme_write_cc_data n data = n := by
    unfold nvme_write_cc_data
    rw [if_neg (fun h => hnew h.2.2.1)]
  rw [nvme_mmio_write_cc]
  unfold nvme_write_cc
  rw [hd]
  by_cases h2 : NVME_CC_EN data = 0 ∧ NVME_CC_EN n.bar.cc ≠ 0
  · obtain ⟨m1, e1, q1, r1, -, c1, -, p1, -⟩ :=
      nvme_write_cc_en_reset now (reachable_regs_inv hr) (reachable_inv hr) h2.1 h2.2
    rw [e1]
    simp only [Option.map_some']
    refine ⟨_, rfl, ?_⟩
    obtain ⟨f1, -, f3, -, y, ey, py⟩ := nvme_write_cc_shn_fire q1 hnew (by rw [c1]; decide)
    refine ⟨by rw [f3]; exact (csts_set_shst r1.2.1).2.1, f1, ?_⟩
    rw [ey, nvme_smart_inc_value y (by rw [py, p1]; exact hpc.1) (by rw [py, p1]; exact hpc.2)]
    unfold power_cycles_value
    rw [py, p1]
  · have e1 : nvme_write_cc_en now n data = some n := by
      unfold nvme_write_cc_en
      rw [if_neg hen, if_neg h2]
    rw [e1]
    simp only [Option.map_some']
    refine ⟨_, rfl, ?_⟩
    obtain ⟨f1, -, f3, -, y, ey, py⟩ := nvme_write_cc_shn_fire (reachable_inv hr) hnew hold
    refine ⟨by rw [f3]; exact (csts_set_shst (reachable_regs_inv hr).2.1).2.1, f1, ?_⟩
    rw [ey, nvme_smart_inc_value y (by rw [py]; exact hpc.1) (by rw [py]; exact hpc.2)]
    unfold power_cycles_value
    rw [py]

theorem nvme_cc_shutdown_witness :
    (Reachable scenario_w4 ∧
      (scenario_w4.power_cycles.1 < 2 ^ 64 ∧ scenario_w4.power_cycles.2 < 2 ^ 64) ∧
      NVME_CC_SHN scenario_w4.bar.cc = 0 ∧ NVME_CC_SHN 0x00464001 ≠ 0 ∧
      ¬ (NVME_CC_EN 0x00464001 ≠ 0 ∧ NVME_CC_EN scenario_w4.bar.cc = 0)) ∧
    ∃ m, nvme_mmio_write 0 scenario_w4 0x14 0x00464001 4 = some m ∧
      NVME_CSTS_SHST m.bar.csts = 2 ∧ (∀ i, m.sqAt i = none ∧ m.cqAt i = none) ∧
      power_cycles_value m = (power_cycles_value scenario_w4 + 1) % 2 ^ 128 :=
  ⟨⟨scenario_w4_reachable, by decide, by decide, by decide, by decide⟩,
    nvme_cc_shutdown 0 scenario_w4 0x00464001 4 scenario_w4_reachable (by decide) (by decide)
      (by decide) (by decide)⟩

/-- An enabling write that carries a shutdown notification: in a reachable
state of a device with at least one queue, a CC write that takes EN from 0 to 1
and whose SHN field is non-zero while the old CC.SHN is 0 runs the enable
sequence only.  CSTS becomes READY or FAILED, so SHST is 0, and the power-cycle
words are unchanged. -/
theorem nvme_write_cc_enable_shn (now : Nat) (n : NvmeCtrl) (data size : Nat)
    (hr : Reachable n) (hnq : 0 < n.num_queues)
    (hen : NVME_CC_EN data ≠ 0) (hold : NVME_CC_EN n.bar.cc = 0) :
    ∃ m, nvme_mmio_write now n 0x14 data size = some m ∧
      (m.bar.csts = NVME_CSTS_READY ∨ m.bar.csts = NVME_CSTS_FAILED) ∧
      NVME_CSTS_SHST m.bar.csts = 0 ∧ m.power_cycles = n.power_cycles := by
  rw [nvme_mmio_write_cc]
  by_cases hp : enable_preconditions (with_cc n data)
  · obtain ⟨m0, hi, hw⟩ := nvme_write_cc_enable_ok now (reachable_inv hr) hnq hen hold hp
    rw [hw]
    exact ⟨_, rfl, Or.inl rfl, (by decide : NVME_CSTS_SHST NVME_CSTS_READY = 0),
      (nvme_start_ctrl_init_spec hi).2.2.1⟩
  · rw [nvme_write_cc_enable_fail now hen hold hp]
    exact ⟨_, rfl, Or.inr rfl, (by decide : NVME_CSTS_SHST NVME_CSTS_FAILED = 0), rfl⟩

/-- C14 (refuted): the case 0x14 of `nvme_write_bar` tests the shutdown edge
with `NVME_CC_SHN(data) && !NVME_CC_SHN(n->bar.cc)` on line 1426, after the
enable branch has already stored the written value in CC (`n->bar.cc = data`,
line 1413).  A write that takes EN from 0 to 1 and carries a non-zero SHN
therefore finds the old SHN overwritten and skips the shutdown: in every
reachable state of a device with at least one queue such a write with old
CC.SHN = 0 leaves CSTS at READY or FAILED (SHST = 0) and the power-cycle
counter unchanged, where the claim requires SHST = complete, no queue and the
counter advanced.  On the configured controller of scenario 1 the write of
CC = 0x00464001 (EN = 1, SHN = 1) leaves CSTS.SHST = 0, the admin queues
present and the counter as it was.  Every other write with SHN going from 0
to non-zero behaves as the claim says. -/
theorem nvme_cc_shutdown_skipped_on_enable :
    (∀ (now : Nat) (n : NvmeCtrl) (data size : Nat), Reachable n → 0 < n.num_queues →
      NVME_CC_SHN n.bar.cc = 0 → NVME_CC_SHN data ≠ 0 →
      NVME_CC_EN data ≠ 0 → NVME_CC_EN n.bar.cc = 0 →
      ∃ m, nvme_mmio_write now n 0x14 data size = some m ∧
        NVME_CSTS_SHST m.bar.csts = 0 ∧ power_cycles_value m = power_cycles_value n) ∧
    (∀ (now : Nat) (n : NvmeCtrl) (data size : Nat), Reachable n →
      n.power_cycles.1 < 2 ^ 64 ∧ n.power_cycles.2 < 2 ^ 64 →
      NVME_CC_SHN n.bar.cc = 0 → NVME_CC_SHN data ≠ 0 →
      ¬ (NVME_CC_EN data ≠ 0 ∧ NVME_CC_EN n.bar.cc = 0) →
      ∃ m, nvme_mmio_write now n 0x14 data size = some m ∧
        NVME_CSTS_SHST m.bar.csts = 2 ∧ (∀ i, m.sqAt i = none ∧ m.cqAt i = none) ∧
        power_cycles_value m = (power_cycles_value n + 1) % 2 ^ 128) ∧
    Reachable scenario_w3 ∧ NVME_CC_SHN scenario_w3.bar.cc = 0 ∧ NVME_CC_SHN 0x00464001 ≠ 0 ∧
    nvme_mmio_write 0 scenario_w3 0x14 0x00464001 4 = some scenario_enable_shn ∧
    NVME_CSTS_SHST scenario_enable_shn.bar.csts = 0 ∧
    (scenario_enable_shn.sqAt 0).isSome = true ∧ (scenario_enable_shn.cqAt 0).isSome = true ∧
    power_cycles_value scenario_enable_shn = power_cycles_value scenario_w3 := by
  refine ⟨?_, nvme_cc_shutdown, scenario_w3_reachable, by decide, by decide, by decide,
    by decide, by decide, by decide, by decide⟩
  intro now n data size hr hnq _ _ hen hold
  obtain ⟨m, h1, -, h3, h4⟩ := nvme_write_cc_enable_shn now n data size hr hnq hen hold
  exact ⟨m, h1, h3, by unfold power_cycles_value; rw [h4]⟩

/-- Where the write does not also take EN from 1 to 0 the notification is
withdrawn as C15 says: in a reachable state of a device with at least one
queue, a CC write whose old CC.SHN is non-zero and whose written SHN is 0
returns, and afterwards the CSTS.SHST field is 0. -/
theorem nvme_cc_shutdown_cleared (now : Nat) (n : NvmeCtrl) (data size : Nat)
    (hr : Reachable n) (hnq : 0 < n.num_queues)
    (hold : NVME_CC_SHN n.bar.cc ≠ 0) (hnew : NVME_CC_SHN data = 0)
    (hen : ¬ (NVME_CC_EN data = 0 ∧ NVME_CC_EN n.bar.cc ≠ 0)) :
    ∃ m, nvme_mmio_write now n 0x14 data size = some m ∧ NVME_CSTS_SHST m.bar.csts = 0 := by
  rw [nvme_mmio_write_cc]
  by_cases h1 : NVME_CC_EN data ≠ 0 ∧ NVME_CC_EN n.bar.cc = 0
  · by_cases hp : enable_preconditions (with_cc n data)
    · obtain ⟨m0, -, hw⟩ := nvme_write_cc_enable_ok now (reachable_inv hr) hnq h1.1 h1.2 hp
      rw [hw]
      exact ⟨_, rfl, (by decide : NVME_CSTS_SHST NVME_CSTS_READY = 0)⟩
    · rw [nvme_write_cc_enable_fail now h1.1 h1.2 hp]
      exact ⟨_, rfl, (by decide : NVME_CSTS_SHST NVME_CSTS_FAILED = 0)⟩
  · have hd : nvme_write_cc_data n data = n := by
      unfold nvme_write_cc_data
      rw [if_neg (fun h => hold h.2.2.2)]
    have e1 : nvme_write_cc_en now n data = some n := by
      unfold nvme_write_cc_en
      rw [if_neg h1, if_neg hen]
    unfold nvme_write_cc
    rw [hd, e1]
    simp only [Option.map_some']
    refine ⟨_, rfl, ?_⟩
    unfold nvme_write_cc_shn
    rw [if_neg (fun h => hold h.2), if_pos ⟨hnew, hold⟩]
    exact (csts_clear_shst (reachable_regs_inv hr).2.1).2.1

set_option maxRecDepth 4096 in
theorem nvme_cc_shutdown_cleared_witness :
    (Reachable scenario_shutdown ∧ 0 < scenario_shutdown.num_queues ∧
      NVME_CC_SHN scenario_shutdown.bar.cc ≠ 0 ∧ NVME_CC_SHN 0x00460001 = 0 ∧
      ¬ (NVME_CC_EN 0x00460001 = 0 ∧ NVME_CC_EN scenario_shutdown.bar.cc ≠ 0)) ∧
    NVME_CSTS_SHST scenario_shutdown.bar.csts = 2 ∧
    ∃ m, nvme_mmio_write 0 scenario_shutdown 0x14 0x00460001 4 = some m ∧
      NVME_CSTS_SHST m.bar.csts = 0 :=
  ⟨⟨scenario_shutdown_reachable, by decide, by decide, by decide, by decide⟩, by decide,
    nvme_cc_shutdown_cleared 0 scenario_shutdown 0x00460001 4 scenario_shutdown_reachable
      (by decide) (by decide) (by decide) (by decide)⟩

/-- A disabling write after a shutdown: in a reachable state, a CC write that
takes EN from 1 to 0 and whose SHN field is 0 runs the clear sequence only;
CSTS.SHST is what it was. -/
theorem nvme_write_cc_reset_shst (now : Nat) (n : NvmeCtrl) (data size : Nat)
    (hr : Reachable n) (hnew : NVME_CC_SHN data = 0)
    (hen : NVME_CC_EN data = 0) (hold : NVME_CC_EN n.bar.cc ≠ 0) :
    ∃ m, nvme_mmio_write now n 0x14 data size = some m ∧
      NVME_CSTS_SHST m.bar.csts = NVME_CSTS_SHST n.bar.csts := by
  have hcsts := (reachable_regs_inv hr).2.1
  obtain ⟨m1, e1, -, -, -, c1, s1, -, -⟩ :=
    nvme_write_cc_en_reset now (reachable_regs_inv hr) (reachable_inv hr) hen hold
  have hd : nvme_write_cc_data n data = n := by
    unfold nvme_write_cc_data
    rw [if_neg (fun h => hold h.2.1)]
  rw [nvme_mmio_write_cc]
  unfold nvme_write_cc
  rw [hd, e1]
  simp only [Option.map_some']
  rw [nvme_write_cc_shn_same m1 data (by rw [c1, hnew]; decide)]
  exact ⟨_, rfl, by rw [s1]; exact (csts_clear_rdy hcsts).2.2⟩

set_option maxRecDepth 4096 in
/-- C15 (refuted): the case 0x14 of `nvme_write_bar` tests the falling edge of
SHN with `!NVME_CC_SHN(data) && NVME_CC_SHN(n->bar.cc)` on line 1434, after the
reset branch has called `nvme_clear_ctrl`, which sets `n->bar.cc = 0` (line
1260).  A write that takes EN from 1 to 0 with SHN = 0 therefore finds the old
SHN gone and skips the branch that clears SHST: in every reachable state such
a write leaves CSTS.SHST as it was, where the claim requires 0.  After the
shutdown of scenario 1 (CC.SHN = 1, CC.EN = 1, CSTS.SHST = 2) the write of
CC = 0 leaves CSTS.SHST = 2.  Every other write with SHN going from non-zero
to 0 clears SHST as the claim says. -/
theorem nvme_cc_shst_kept_on_reset :
    (∀ (now : Nat) (n : NvmeCtrl) (data size : Nat), Reachable n →
      NVME_CC_SHN n.bar.cc ≠ 0 → NVME_CC_SHN data = 0 →
      NVME_CC_EN data = 0 → NVME_CC_EN n.bar.cc ≠ 0 →
      ∃ m, nvme_mmio_write now n 0x14 data size = some m ∧
        NVME_CSTS_SHST m.bar.csts = NVME_CSTS_SHST n.bar.csts) ∧
    (∀ (now : Nat) (n : NvmeCtrl) (data size : Nat), Reachable n → 0 < n.num_queues →
      NVME_CC_SHN n.bar.cc ≠ 0 → NVME_CC_SHN data = 0 →
      ¬ (NVME_CC_EN data = 0 ∧ NVME_CC_EN n.bar.cc ≠ 0) →
      ∃ m, nvme_mmio_write now n 0x14 data size = some m ∧ NVME_CSTS_SHST m.bar.csts = 0) ∧
    Reachable scenario_shutdown ∧ NVME_CC_SHN scenario_shutdown.bar.cc ≠ 0 ∧
    NVME_CC_SHN 0 = 0 ∧
    nvme_mmio_write 0 scenario_shutdown 0x14 0 4 = some scenario_reset ∧
    NVME_CSTS_SHST scenario_shutdown.bar.csts = 2 ∧
    NVME_CSTS_SHST scenario_reset.bar.csts = 2 :=
  ⟨fun now n data size hr _ hnew hen hold =>
      nvme_write_cc_reset_shst now n data size hr hnew hen hold,
    nvme_cc_shutdown_cleared, scenario_shutdown_reachable, by decide, by decide, by decide,
    by decide, by decide⟩

/-- C16: in every reachable state, a write to CC of the value CC holds returns
and leaves the whole controller state (registers, queues, derived sizes, SMART
counters) as it was. -/
theorem nvme_cc_rewrite_noop (now : Nat) (n : NvmeCtrl) (size : Nat) (hr : Reachable n) :
    nvme_mmio_write now n 0x14 n.bar.cc size = some n := by
  have hcc := (reachable_regs_inv hr).1
  have hd : nvme_write_cc_data n n.bar.cc = n := by
    unfold nvme_write_cc_data
    split
    · rw [Nat.mod_eq_of_lt hcc]
    · rfl
  have e1 : nvme_write_cc_en now n n.bar.cc = some n := by
    unfold nvme_write_cc_en
    rw [if_neg (fun h => h.1 h.2), if_neg (fun h => h.2 h.1)]
  rw [nvme_mmio_write_cc]
  unfold nvme_write_cc
  rw [hd, e1]
  simp only [Option.map_some']
  exact congrArg some (nvme_write_cc_shn_same n n.bar.cc rfl)

theorem nvme_cc_rewrite_noop_witness :
    Reachable scenario_w4 ∧ scenario_w4.bar.cc = 0x00460001 ∧
    nvme_mmio_write 0 scenario_w4 0x14 scenario_w4.bar.cc 4 = some scenario_w4 :=
  ⟨scenario_w4_reachable, by decide, nvme_cc_rewrite_noop 0 scenario_w4 4 scenario_w4_reachable⟩

set_option maxRecDepth 4096 in
/-- C17, counterexample: the enabled controller of scenario 1 after the
shutdown notification, a state reached from `nvme_realize` by five register
writes.  CSTS.RDY is set, yet `sq[0]` and `cq[0]` are absent: the shutdown
frees the queues and leaves RDY as it was. -/
theorem admin_queues_absent_while_ready :
    Reachable scenario_shutdown ∧ NVME_CSTS_RDY scenario_shutdown.bar.csts = 1 ∧
    scenario_shutdown.sqAt 0 = none ∧ scenario_shutdown.cqAt 0 = none :=
  ⟨scenario_shutdown_reachable, by decide, by decide, by decide⟩

/-- C17, amended: in every reachable state `sq[0]` exists if and only if
`cq[0]` exists, and when they exist the controller is enabled: CSTS.RDY and
CC.EN are set.  (The converse fails after a shutdown.) -/
theorem admin_queues_imply_ready (n : NvmeCtrl) (hr : Reachable n) :
    ((n.sqAt 0).isSome = true ↔ (n.cqAt 0).isSome = true) ∧
    ((n.sqAt 0).isSome = true → NVME_CSTS_RDY n.bar.csts = 1 ∧ NVME_CC_EN n.bar.cc = 1) := by
  obtain ⟨-, -, -, h4, h5⟩ := reachable_regs_inv hr
  exact ⟨by rw [h4], h5⟩

theorem admin_queues_imply_ready_witness :
    Reachable scenario_w4 ∧ (scenario_w4.sqAt 0).isSome = true ∧
    (((scenario_w4.sqAt 0).isSome = true ↔ (scenario_w4.cqAt 0).isSome = true) ∧
      ((scenario_w4.sqAt 0).isSome = true →
        NVME_CSTS_RDY scenario_w4.bar.csts = 1 ∧ NVME_CC_EN scenario_w4.bar.cc = 1)) :=
  ⟨scenario_w4_reachable, by decide, admin_queues_imply_ready scenario_w4 scenario_w4_reachable⟩

/-! ## Queue commands -/

theorem mqes_reachable {n : NvmeCtrl} (hr : Reachable n) : NVME_CAP_MQES n.bar.cap = 0x7ff := by
  rw [(reachable_regs_inv hr).2.2.1]
  decide

/-- C21: in a reachable state, a Create I/O Completion Queue command with
`0 < cqid < num_queues`, `cq[cqid]` absent, `0 < qsize ≤ CAP.MQES`, `prp1`
non-zero, `irq_vector ≤ num_queues` and the physically-contiguous flag set
returns success; the controller afterwards is the old one with `cq[cqid]`
set to a queue of size `qsize + 1` with head = tail = 0, phase 1, the requested
vector, `irq_enabled` equal to the IEN flag, empty pending and bound-SQ lists,
its own id and the ring address `prp1`. -/
theorem nvme_create_cq_success (n : NvmeCtrl) (cmd : NvmeCmd) (hr : Reachable n)
    (h0 : 0 < dw_lo cmd.cdw10) (hlt : dw_lo cmd.cdw10 < n.num_queues)
    (habs : n.cqAt (dw_lo cmd.cdw10) = none)
    (hq0 : 0 < dw_hi cmd.cdw10) (hq : dw_hi cmd.cdw10 ≤ NVME_CAP_MQES n.bar.cap)
    (hprp : cmd.prp1 ≠ 0) (hv : dw_hi cmd.cdw11 ≤ n.num_queues)
    (hpc : NVME_CQ_FLAGS_PC (dw_lo cmd.cdw11) ≠ 0) :
    ∃ m c, nvme_create_cq n cmd = some (NVME_SUCCESS, m) ∧
      m = { n with cq := n.cq.set (dw_lo cmd.cdw10) (some c) } ∧
      m.cqAt (dw_lo cmd.cdw10) = some c ∧
      c.size = dw_hi cmd.cdw10 + 1 ∧ c.head = 0 ∧ c.tail = 0 ∧ c.phase = 1 ∧
      c.vector = dw_hi cmd.cdw11 ∧ c.irq_enabled = NVME_CQ_FLAGS_IEN (dw_lo cmd.cdw11) ∧
      c.req_list = [] ∧ c.sq_list = [] ∧ c.cqid = dw_lo cmd.cdw10 ∧
      c.dma_addr = cmd.prp1 := by
  have hm := mqes_reachable hr
  have hlen : dw_lo cmd.cdw10 < n.cq.length := by
    rw [(reachable_inv hr).1.2.1]; exact hlt
  have hsz : (dw_hi cmd.cdw10 + 1) % 2 ^ 16 = dw_hi cmd.cdw10 + 1 := by
    rw [hm] at hq
    omega
  obtain ⟨m, c, e1, e2, e3, e4⟩ := nvme_init_cq_some n cmd.prp1 (dw_lo cmd.cdw10)
    (dw_hi cmd.cdw11) ((dw_hi cmd.cdw10 + 1) % 2 ^ 16) (NVME_CQ_FLAGS_IEN (dw_lo cmd.cdw11)) hlen
  have hchk : nvme_check_cqid n (dw_lo cmd.cdw10) ≠ 0 := by
    unfold nvme_check_cqid
    rw [if_neg (fun h => by rw [habs] at h; simp at h)]
    decide
  refine ⟨m, c, ?_, e2, e3, ?_⟩
  · unfold nvme_create_cq
    simp only
    rw [if_neg (fun h => h.elim (fun h => by omega) (fun h => hchk h)),
      if_neg (fun h => h.elim (fun h => by omega) (fun h => by omega)),
      if_neg hprp, if_neg (by omega), if_neg hpc, e1]
    rfl
  · rw [e4, hsz]
    exact ⟨rfl, rfl, rfl, rfl, rfl, rfl, rfl, rfl, rfl, rfl⟩

theorem nvme_create_cq_success_witness :
    (Reachable scenario_w4 ∧ 0 < dw_lo cmd_create_cq1.cdw10 ∧
      dw_lo cmd_create_cq1.cdw10 < scenario_w4.num_queues ∧
      scenario_w4.cqAt (dw_lo cmd_create_cq1.cdw10) = none ∧
      0 < dw_hi cmd_create_cq1.cdw10 ∧
      dw_hi cmd_create_cq1.cdw10 ≤ NVME_CAP_MQES scenario_w4.bar.cap ∧
      cmd_create_cq1.prp1 ≠ 0 ∧ dw_hi cmd_create_cq1.cdw11 ≤ scenario_w4.num_queues ∧
      NVME_CQ_FLAGS_PC (dw_lo cmd_create_cq1.cdw11) ≠ 0) ∧
    ∃ m c, nvme_create_cq scenario_w4 cmd_create_cq1 = some (NVME_SUCCESS, m) ∧
      m = { scenario_w4 with
            cq := scenario_w4.cq.set (dw_lo cmd_create_cq1.cdw10) (some c) } ∧
      m.cqAt (dw_lo cmd_create_cq1.cdw10) = some c ∧
      c.size = dw_hi cmd_create_cq1.cdw10 + 1 ∧ c.head = 0 ∧ c.tail = 0 ∧ c.phase = 1 ∧
      c.vector = dw_hi cmd_create_cq1.cdw11 ∧
      c.irq_enabled = NVME_CQ_FLAGS_IEN (dw_lo cmd_create_cq1.cdw11) ∧
      c.req_list = [] ∧ c.sq_list = [] ∧ c.cqid = dw_lo cmd_create_cq1.cdw10 ∧
      c.dma_addr = cmd_create_cq1.prp1 :=
  ⟨⟨scenario_w4_reachable, by decide, by decide, by decide, by decide, by decide, by decide,
      by decide, by decide⟩,
    nvme_create_cq_success scenario_w4 cmd_create_cq1 scenario_w4_reachable (by decide)
      (by decide) (by decide) (by decide) (by decide) (by decide) (by decide) (by decide)⟩

/-- C22, counterexample: on the enabled controller of scenario 1 a Delete I/O
Completion Queue command with `qid = 0` names the admin completion queue,
which exists and has the admin submission queue bound to it; `nvme_del_cq`
answers INVALID_CQID|DNR, not INVALID_QUEUE_DEL (the state is unchanged). -/
theorem nvme_del_cq_admin_invalid_cqid :
    (∃ c, scenario_w4.cqAt (dw_lo 0) = some c ∧ c.sq_list = [0]) ∧
    nvme_del_cq scenario_w4 { opcode := 0x04, cdw10 := 0 } =
      some (NVME_INVALID_CQID ||| NVME_DNR, scenario_w4) ∧
    NVME_INVALID_CQID ||| NVME_DNR ≠ NVME_INVALID_QUEUE_DEL := by
  refine ⟨?_, by decide, by decide⟩
  cases h : scenario_w4.cqAt (dw_lo 0) with
  | none => exact absurd h (by decide)
  | some c => exact ⟨c, rfl, by
      have : (scenario_w4.cqAt (dw_lo 0)).map (fun c => c.sq_list) = some [0] := by decide
      rw [h] at this
      simpa using this⟩

/-- C22 (amended): a Delete I/O Completion Queue command that names an existing
completion queue (`qid < num_queues`, `cq[qid]` present) with at least one
submission queue bound to it fails and leaves the whole controller state, the
queue included, as it was.  The status code is INVALID_QUEUE_DEL when `qid` is
not 0; when `qid` is 0, the admin completion queue, the command is refused with
INVALID_CQID before the queue is looked at. -/
theorem nvme_del_cq_bound (n : NvmeCtrl) (cmd : NvmeCmd) (c : NvmeCQueue)
    (hlt : dw_lo cmd.cdw10 < n.num_queues)
    (hc : n.cqAt (dw_lo cmd.cdw10) = some c) (hb : c.sq_list ≠ []) :
    nvme_del_cq n cmd =
      some (if dw_lo cmd.cdw10 = 0 then NVME_INVALID_CQID ||| NVME_DNR
            else NVME_INVALID_QUEUE_DEL, n) := by
  have hchk : nvme_check_cqid n (dw_lo cmd.cdw10) = 0 := by
    unfold nvme_check_cqid
    rw [if_pos ⟨hlt, by rw [hc]; rfl⟩]
  unfold nvme_del_cq
  simp only
  by_cases h0 : dw_lo cmd.cdw10 = 0
  · rw [if_pos (Or.inl h0), if_pos h0]
  · rw [if_neg (fun h => h.elim h0 (fun h => h hchk)), hc, if_neg h0]
    simp only
    rw [if_pos hb]

theorem nvme_del_cq_bound_witness :
    (dw_lo 1 < scenario_sq1.num_queues ∧
      (scenario_sq1.cqAt (dw_lo 1)).map (fun c => c.sq_list) = some [1]) ∧
    dw_lo 1 ≠ 0 ∧
    nvme_del_cq scenario_sq1 { opcode := 0x04, cdw10 := 1 } =
      some (if dw_lo 1 = 0 then NVME_INVALID_CQID ||| NVME_DNR
            else NVME_INVALID_QUEUE_DEL, scenario_sq1) :=
  ⟨⟨by decide, by decide⟩, by decide,
    match h : scenario_sq1.cqAt (dw_lo 1) with
    | some c =>
      nvme_del_cq_bound scenario_sq1 { opcode := 0x04, cdw10 := 1 } c (by decide) h
        (fun he => by
          have h1 : (scenario_sq1.cqAt (dw_lo 1)).map (fun c => c.sq_list) = some [1] := by
            decide
          rw [h] at h1
          simp [he] at h1)
    | none => absurd h (by decide)⟩

/-- Under the queue invariant the completion of a request of an existing
submission queue finds its completion queue and passes the assertion
`cq->cqid == req->sq->cqid`. -/
theorem enqueue_some (now : Nat) {n : NvmeCtrl} (hq : queues_inv n) {q : NvmeRequest}
    {s : NvmeSQueue} (hs : n.sqAt q.sq = some s) :
    ∃ c m, n.cqAt s.cqid = some c ∧ c.cqid = s.cqid ∧
      nvme_enqueue_req_completion now n s.cqid q = some m := by
  obtain ⟨-, -, -, c, hc, -⟩ := hq.1.2.2.1 _ s hs
  have hid : c.cqid = s.cqid := (hq.1.2.2.2 _ c hc).1
  have e : (nvme_enqueue_req_completion now n s.cqid q).isSome = true := by
    unfold nvme_enqueue_req_completion
    rw [hc, hs]
    simp only
    rw [if_pos hid]
    rfl
  obtain ⟨m, hm⟩ := Option.isSome_iff_exists.1 e
  exact ⟨c, m, hc, hid, hm⟩

/-- C23: in every reachable state each existing submission queue `s` has a
`cqid` that names an existing completion queue `c` with `c.cqid = s.cqid`
whose bound-SQ list contains the id of `s`; for every in-flight request `r`
of `s` the owning queue `r.sq` is `s`, the completion callback `nvme_rw_cb`
and `nvme_enqueue_req_completion` on `cq[s.cqid]` return (no `NULL` pointer, the
assertion holds); and the same is true for the request that an iteration of
`nvme_process_sq` has just fetched. -/
theorem sq_bound_cq_exists (n : NvmeCtrl) (hr : Reachable n) :
    (∀ i s, n.sqAt i = some s →
      ∃ c, n.cqAt s.cqid = some c ∧ c.cqid = s.cqid ∧ s.sqid = i ∧ i ∈ c.sq_list) ∧
    (∀ i s r, n.sqAt i = some s → r ∈ s.out_req_list →
      n.sqAt r.sq = some s ∧
      ∀ now ret, (∃ m, nvme_rw_cb now n r ret = some m) ∧
        ∃ m, nvme_enqueue_req_completion now n s.cqid r = some m) ∧
    (∀ env i n1 cmd r1, nvme_process_sq_fetch env n i = some (n1, cmd, r1) →
      ∃ s c, n.sqAt i = some s ∧ n1.cqAt s.cqid = some c ∧ c.cqid = s.cqid ∧
        ∀ status, ∃ m, nvme_enqueue_req_completion env.now n1 s.cqid
          { r1 with status := status } = some m) := by
  have hq := reachable_inv hr
  refine ⟨?_, ?_, ?_⟩
  · intro i s hs
    obtain ⟨e1, -, -, c, hc, -⟩ := hq.1.2.2.1 i s hs
    exact ⟨c, hc, (hq.1.2.2.2 _ c hc).1, e1, hq.2 i s c hs hc⟩
  · intro i s r hs hin
    have hrs : r.sq = i := (hq.1.2.2.1 i s hs).2.2.1 r hin
    have hs1 : n.sqAt r.sq = some s := by rw [hrs]; exact hs
    refine ⟨hs1, fun now ret => ⟨?_, ?_⟩⟩
    · unfold nvme_rw_cb
      rw [hs1]
      simp only
      obtain ⟨c, m, -, -, e⟩ := enqueue_some now hq
        (q := { r with status := if ret = 0 then NVME_SUCCESS else NVME_INTERNAL_DEV_ERROR }) hs1
      exact ⟨m, e⟩
    · obtain ⟨c, m, -, -, e⟩ := enqueue_some now hq hs1
      exact ⟨m, e⟩
  · intro env i n1 cmd r1 hf
    obtain ⟨hq1, hr1, s, s1, hs, hs1, hcq, -⟩ := fetch_inv hq hf
    have hs1q : n1.sqAt r1.sq = some s1 := by rw [hr1]; exact hs1
    obtain ⟨c, -, hc, hid, -⟩ := enqueue_some env.now hq1 hs1q
    rw [hcq] at hc hid
    refine ⟨s, c, hs, hc, hid, fun status => ?_⟩
    obtain ⟨c2, m, -, -, e⟩ := enqueue_some env.now hq1 (q := { r1 with status := status }) hs1q
    rw [hcq] at e
    exact ⟨m, e⟩

theorem sq_bound_cq_exists_witness :
    Reachable scenario_w6 ∧
    ∃ s c, scenario_w6.sqAt 0 = some s ∧ scenario_w6.cqAt s.cqid = some c ∧
      c.cqid = s.cqid ∧ 0 ∈ c.sq_list :=
  ⟨scenario_w6_reachable,
    match h : scenario_w6.sqAt 0 with
    | some s =>
      match (sq_bound_cq_exists scenario_w6 scenario_w6_reachable).1 0 s h with
      | ⟨c, h1, h2, _, h4⟩ => ⟨s, c, rfl, h1, h2, h4⟩
    | none => absurd h (by decide)⟩

/-! ## I/O handlers -/

theorem rw_nlb_le (cmd : NvmeCmd) : rw_nlb cmd ≤ 0xffff := by
  unfold rw_nlb dw_lo
  exact Nat.and_le_right

theorem rw_nlb_succ (cmd : NvmeCmd) : (rw_nlb cmd + 1) % 2 ^ 32 = rw_nlb cmd + 1 := by
  have := rw_nlb_le cmd
  omega

/-- The range check of `nvme_rw` fires exactly when the 64-bit sum exceeds
`nsze`. -/
theorem nvme_rw_range (be : Backend) (n : NvmeCtrl) (ns : NvmeNamespace) (cmd : NvmeCmd)
    (h : (rw_slba cmd + rw_nlb cmd + 1) % 2 ^ 64 > ns.nsze) :
    nvme_rw be n ns cmd = some { status := NVME_LBA_RANGE ||| NVME_DNR, ops := [] } := by
  unfold nvme_rw
  simp only
  rw [rw_nlb_succ, if_pos (by rw [← Nat.add_assoc]; exact h)]

/-- C25, counterexample: an I/O command with the unassigned opcode 7Fh and
namespace id 0 is answered with INVALID_NSID|DNR, not INVALID_OPCODE|DNR: the
namespace id is checked before the opcode. -/
theorem nvme_io_cmd_nsid_checked_first :
    (0x7f : Nat) ∉ [0x00, 0x01, 0x02, 0x08, 0x09] ∧
    nvme_io_cmd be_ok scenario_w4 { opcode := 0x7f, nsid := 0 } =
      some { status := NVME_INVALID_NSID ||| NVME_DNR, ops := [] } ∧
    NVME_INVALID_NSID ||| NVME_DNR ≠ NVME_INVALID_OPCODE ||| NVME_DNR := by
  decide

/-- C25, amended: for every I/O command whose opcode is none of 00h (Flush),
01h (Write), 02h (Read), 08h (Write Zeroes) and 09h (Dataset Management):
if its namespace id is in `1 .. num_namespaces`, `nvme_io_cmd` returns
INVALID_OPCODE|DNR, whatever its other fields, and issues no back-end request;
if its namespace id is 0 or exceeds `num_namespaces`, it returns
INVALID_NSID|DNR. -/
theorem nvme_io_cmd_invalid_opcode (be : Backend) (n : NvmeCtrl) (cmd : NvmeCmd)
    (hop : cmd.opcode ∉ [0x00, 0x01, 0x02, 0x08, 0x09]) :
    ((1 ≤ cmd.nsid % 2 ^ 32 ∧ cmd.nsid % 2 ^ 32 ≤ n.num_namespaces) →
      nvme_io_cmd be n cmd = some { status := NVME_INVALID_OPCODE ||| NVME_DNR, ops := [] }) ∧
    (¬ (1 ≤ cmd.nsid % 2 ^ 32 ∧ cmd.nsid % 2 ^ 32 ≤ n.num_namespaces) →
      nvme_io_cmd be n cmd = some { status := NVME_INVALID_NSID ||| NVME_DNR, ops := [] }) := by
  simp only [List.mem_cons, List.mem_singleton, List.not_mem_nil, or_false, not_or] at hop
  obtain ⟨o0, o1, o2, o8, o9⟩ := hop
  constructor
  · intro hns
    unfold nvme_io_cmd
    simp only
    rw [if_neg (by omega), if_neg (show ¬ cmd.opcode = NVME_CMD_FLUSH from o0),
      if_neg (show ¬ cmd.opcode = NVME_CMD_WRITE_ZEROS from o8),
      if_neg (show ¬ (cmd.opcode = NVME_CMD_WRITE ∨ cmd.opcode = NVME_CMD_READ) from
        fun h => h.elim o1 o2),
      if_neg (show ¬ cmd.opcode = NVME_CMD_DSM from o9)]
  · intro hns
    unfold nvme_io_cmd
    simp only
    rw [if_pos (by omega)]

theorem nvme_io_cmd_invalid_opcode_witness :
    (0x7f : Nat) ∉ [0x00, 0x01, 0x02, 0x08, 0x09] ∧
    nvme_io_cmd be_ok scenario_w4 { opcode := 0x7f, nsid := 1, cdw10 := 5 } =
      some { status := NVME_INVALID_OPCODE ||| NVME_DNR, ops := [] } :=
  ⟨by decide,
    (nvme_io_cmd_invalid_opcode be_ok scenario_w4 { opcode := 0x7f, nsid := 1, cdw10 := 5 }
      (by decide)).1 (by decide)⟩

/-- C26 (the code departs from it): `nvme_rw` compares the 64-bit sum
`slba + nlb + 1` with `nsze`.  Where the sum does not wrap, a command with
`slba + nlb + 1 > nsze` is refused with LBA_RANGE|DNR and no back-end request,
as for Read with `slba = nsze`, `nlb = 0`.  A Read with `slba = 2^64 - 1` and
`nlb = 0` on the 2048-block namespace has `slba + nlb + 1 = 2^64 > nsze`, but
the sum wraps to 0: the command is accepted and a read of 512 bytes is handed
to the back-end at offset `2^64 - 512`. -/
theorem nvme_rw_lba_sum_wraps :
    (∀ be n ns cmd, rw_slba cmd + rw_nlb cmd + 1 > ns.nsze →
      rw_slba cmd + rw_nlb cmd + 1 < 2 ^ 64 →
      nvme_rw be n ns cmd = some { status := NVME_LBA_RANGE ||| NVME_DNR, ops := [] }) ∧
    nvme_rw be_ok scenario_w4 ns_1mib { opcode := 0x02, nsid := 1, prp1 := 0x1000, cdw10 := 2048 } =
      some { status := NVME_LBA_RANGE ||| NVME_DNR, ops := [] } ∧
    rw_slba { opcode := 0x02, nsid := 1, prp1 := 0x1000, cdw10 := 0xFFFFFFFF,
              cdw11 := 0xFFFFFFFF } +
      rw_nlb { opcode := 0x02, nsid := 1, prp1 := 0x1000, cdw10 := 0xFFFFFFFF,
               cdw11 := 0xFFFFFFFF } + 1 > ns_1mib.nsze ∧
    nvme_rw be_ok scenario_w4 ns_1mib
        { opcode := 0x02, nsid := 1, prp1 := 0x1000, cdw10 := 0xFFFFFFFF, cdw11 := 0xFFFFFFFF } =
      some { status := NVME_NO_COMPLETE,
             ops := [BlkOp.dma_blk_read [(0x1000, 512)] (2 ^ 64 - 512)] } := by
  refine ⟨?_, by decide, by decide, by decide⟩
  intro be n ns cmd h1 h2
  exact nvme_rw_range be n ns cmd (by rw [Nat.mod_eq_of_lt h2]; exact h1)

theorem dsm_loop_range (be : Backend) (ns : NvmeNamespace) (attr : Nat)
    (had : attr &&& NVME_DSMGMT_AD ≠ 0) :
    ∀ (len s ret : Nat) (ops : List BlkOp), ret ≠ NVME_LBA_RANGE ||| NVME_DNR →
      (nvme_dsm_loop be ns attr (List.range' s len) ret ops).status =
        NVME_LBA_RANGE ||| NVME_DNR →
      ∃ k, s ≤ k ∧ k < s + len ∧ dsm_out_of_range be ns k ∧
        (∀ i, s ≤ i → i < k →
          ¬ dsm_out_of_range be ns i ∧
          be.pwrite_zeroes i ((((be.ranges i).slba % 2 ^ 64) <<< ns.ds) % 2 ^ 64)
            ((((be.ranges i).nlb % 2 ^ 32) <<< ns.ds) % 2 ^ 32) % 65536 = 0) ∧
        (nvme_dsm_loop be ns attr (List.range' s len) ret ops).ops =
          ops ++ (List.range' s (k - s)).map (dsm_zero_op be ns) := by
  intro len
  induction len with
  | zero =>
    intro s ret ops hret h
    exact absurd h hret
  | succ len ih =>
    intro s ret ops hret h
    rw [List.range'_succ] at h ⊢
    unfold nvme_dsm_loop at h ⊢
    simp only at h ⊢
    by_cases hv : ((be.ranges s).slba % 2 ^ 64 + (be.ranges s).nlb % 2 ^ 32) % 2 ^ 64 > ns.nsze
    · rw [if_pos hv]
      refine ⟨s, Nat.le_refl _, by omega, hv, fun i h1 h2 => by omega, ?_⟩
      simp
    · rw [if_neg hv] at h ⊢
      rw [if_pos had] at h ⊢
      by_cases hw : be.pwrite_zeroes s ((((be.ranges s).slba % 2 ^ 64) <<< ns.ds) % 2 ^ 64)
          ((((be.ranges s).nlb % 2 ^ 32) <<< ns.ds) % 2 ^ 32) % 65536 = 0
      · rw [if_pos hw] at h ⊢
        obtain ⟨k, k1, k2, k3, k4, k5⟩ := ih (s + 1) 0 _ (by decide) h
        refine ⟨k, by omega, by omega, k3, ?_, ?_⟩
        · intro i h1 h2
          by_cases hi : i = s
          · subst hi; exact ⟨hv, hw⟩
          · exact k4 i (by omega) h2
        · rw [k5]
          have hk : k - s = (k - (s + 1)) + 1 := by omega
          rw [hk, List.range'_succ, List.map_cons, List.append_assoc]
          rfl
      · rw [if_neg hw] at h
        exact absurd h (by decide : NVME_INTERNAL_DEV_ERROR ≠ NVME_LBA_RANGE ||| NVME_DNR)

theorem nvme_dma_write_prp_status {be : Backend} {n : NvmeCtrl} {len prp1 prp2 ret : Nat}
    (h : nvme_dma_write_prp be n len prp1 prp2 = some ret) :
    ret = NVME_SUCCESS ∨ ret = NVME_INVALID_FIELD ||| NVME_DNR := by
  unfold nvme_dma_write_prp at h
  split at h
  · simp at h
  · split at h
    · right; cases h; rfl
    · split at h
      · split at h
        · right; cases h; rfl
        · left; cases h; rfl
      · split at h
        · right; cases h; rfl
        · left; cases h; rfl

/-- C27, counterexample: a Dataset Management command with the deallocate
attribute and two ranges on the 2048-block namespace, range 0 = (slba 0,
8 blocks) in range and range 1 = (slba 2048, 1 block) out of range, fails with
LBA_RANGE|DNR after the zeroing write for range 0 (offset 0, 4096 bytes) has
been issued to the back-end. -/
theorem nvme_dsm_zeroes_before_range_error :
    ¬ dsm_out_of_range be_ok ns_1mib 0 ∧ dsm_out_of_range be_ok ns_1mib 1 ∧
    (((4 : Nat) % 2 ^ 32) &&& 0x7) &&& NVME_DSMGMT_AD ≠ 0 ∧
    nvme_dsm be_ok scenario_w4 ns_1mib { opcode := 0x09, nsid := 1, prp1 := 0x1000, cdw10 := 1,
                                         cdw11 := 4 } =
      some { status := NVME_LBA_RANGE ||| NVME_DNR, ops := [BlkOp.pwrite_zeroes 0 4096] } := by
  decide

/-- C27, amended: for every Dataset Management command with the deallocate
attribute set that fails with LBA_RANGE|DNR, there is a first range `k` that
violates `slba + nlb ≤ nsze` (the sum taken in 64 bits); the zeroing writes
for the ranges `0 .. k - 1`, each successful, have been issued to the back-end
in this order, and no write has been issued for range `k` or any later
range. -/
theorem nvme_dsm_lba_range_partial (be : Backend) (n : NvmeCtrl) (ns : NvmeNamespace)
    (cmd : NvmeCmd) (out : IoOut)
    (had : ((cmd.cdw11 % 2 ^ 32) &&& 0x7) &&& NVME_DSMGMT_AD ≠ 0)
    (h : nvme_dsm be n ns cmd = some out) (hst : out.status = NVME_LBA_RANGE ||| NVME_DNR) :
    ∃ k, k ≤ (cmd.cdw10 % 2 ^ 32) &&& 0xFF ∧ dsm_out_of_range be ns k ∧
      (∀ i, i < k → ¬ dsm_out_of_range be ns i ∧
        be.pwrite_zeroes i ((((be.ranges i).slba % 2 ^ 64) <<< ns.ds) % 2 ^ 64)
          ((((be.ranges i).nlb % 2 ^ 32) <<< ns.ds) % 2 ^ 32) % 65536 = 0) ∧
      out.ops = (List.range k).map (dsm_zero_op be ns) := by
  unfold nvme_dsm at h
  simp only at h
  cases hd : nvme_dma_write_prp be n (sizeof_NvmeDsmRange * ((cmd.cdw10 % 2 ^ 32 &&& 0xFF) + 1))
      cmd.prp1 cmd.prp2 with
  | none => rw [hd] at h; simp at h
  | some ret =>
    rw [hd] at h
    simp only at h
    rcases nvme_dma_write_prp_status hd with hr | hr
    · subst hr
      rw [if_neg (by simp)] at h
      simp only [Option.some.injEq] at h
      subst h
      rw [List.range_eq_range'] at hst ⊢
      obtain ⟨k, -, k2, k3, k4, k5⟩ := dsm_loop_range be ns _ had _ 0 NVME_SUCCESS []
        (by decide) hst
      refine ⟨k, by omega, k3, fun i hi => k4 i (Nat.zero_le _) hi, ?_⟩
      rw [k5, List.range_eq_range']
      simp
    · subst hr
      rw [if_pos (by decide)] at h
      simp only [Option.some.injEq] at h
      subst h
      exact absurd hst (by decide)

theorem nvme_dsm_lba_range_partial_witness :
    ((((4 : Nat) % 2 ^ 32) &&& 0x7) &&& NVME_DSMGMT_AD ≠ 0 ∧
      nvme_dsm be_ok scenario_w4 ns_1mib
          { opcode := 0x09, nsid := 1, prp1 := 0x1000, cdw10 := 1, cdw11 := 4 } =
        some { status := NVME_LBA_RANGE ||| NVME_DNR, ops := [BlkOp.pwrite_zeroes 0 4096] }) ∧
    ∃ k, k ≤ ((1 : Nat) % 2 ^ 32) &&& 0xFF ∧ dsm_out_of_range be_ok ns_1mib k ∧
      (∀ i, i < k → ¬ dsm_out_of_range be_ok ns_1mib i ∧
        be_ok.pwrite_zeroes i ((((be_ok.ranges i).slba % 2 ^ 64) <<< ns_1mib.ds) % 2 ^ 64)
          ((((be_ok.ranges i).nlb % 2 ^ 32) <<< ns_1mib.ds) % 2 ^ 32) % 65536 = 0) ∧
      [BlkOp.pwrite_zeroes 0 4096] = (List.range k).map (dsm_zero_op be_ok ns_1mib) :=
  ⟨⟨by decide, by decide⟩,
    nvme_dsm_lba_range_partial be_ok scenario_w4 ns_1mib
      { opcode := 0x09, nsid := 1, prp1 := 0x1000, cdw10 := 1, cdw11 := 4 }
      { status := NVME_LBA_RANGE ||| NVME_DNR, ops := [BlkOp.pwrite_zeroes 0 4096] }
      (by decide) (by decide) rfl⟩

/-- Delete I/O Completion Queue on a queue with a bound submission queue, as
`nvme_admin_cmd` answers it. -/
theorem nvme_admin_cmd_del_cq_bound (env : Env) (n : NvmeCtrl) (cmd : NvmeCmd)
    (req : NvmeRequest) (c : NvmeCQueue) (hop : cmd.opcode = 0x04)
    (h0 : dw_lo cmd.cdw10 ≠ 0) (hlt : dw_lo cmd.cdw10 < n.num_queues)
    (hc : n.cqAt (dw_lo cmd.cdw10) = some c) (hb : c.sq_list ≠ []) :
    (nvme_admin_cmd env n cmd req).map (fun o => (o.status, o.n)) =
      some (NVME_INVALID_QUEUE_DEL, n) := by
  have hchk : ¬ (dw_lo cmd.cdw10 = 0 ∨ nvme_check_cqid n (dw_lo cmd.cdw10) ≠ 0) := by
    intro h
    rcases h with h | h
    · exact h0 h
    · apply h
      unfold nvme_check_cqid
      rw [if_pos ⟨hlt, by rw [hc]; rfl⟩]
  have hd : nvme_del_cq n cmd = some (NVME_INVALID_QUEUE_DEL, n) := by
    unfold nvme_del_cq
    simp only
    rw [if_neg hchk, hc]
    simp only
    rw [if_pos hb]
  unfold nvme_admin_cmd
  rw [if_neg (by rw [hop]; decide), if_neg (by rw [hop]; decide), if_neg (by rw [hop]; decide),
    if_pos hop, hd]
  rfl

/-! ## Features and namespace list -/

theorem or_shl_eq_add (d s k : Nat) (h : s < 2 ^ k) : s ||| (d <<< k) = d * 2 ^ k + s := by
  rw [Nat.lor_comm, Nat.shiftLeft_eq, Nat.mul_comm, ← Nat.mul_add_lt_is_or h]

/-- The halves of the Number of Queues result when `num_queues - 2` is a
16-bit value. -/
theorem num_queues_result_halves (n : NvmeCtrl) (h2 : 2 ≤ n.num_queues)
    (h16 : n.num_queues - 2 < 2 ^ 16) :
    num_queues_result n &&& 0xffff = n.num_queues - 2 ∧
    num_queues_result n >>> 16 = n.num_queues - 2 := by
  have hd : (n.num_queues % 2 ^ 32 + 2 ^ 32 - 2) % 2 ^ 32 = n.num_queues - 2 := by omega
  unfold num_queues_result
  simp only
  rw [hd]
  have hs : ((n.num_queues - 2) <<< 16) % 2 ^ 32 = (n.num_queues - 2) <<< 16 := by
    rw [Nat.shiftLeft_eq]
    omega
  rw [hs, or_shl_eq_add _ _ 16 h16]
  constructor
  · rw [show (0xffff : Nat) = 2 ^ 16 - 1 from rfl, Nat.and_pow_two_sub_one_eq_mod]
    omega
  · rw [Nat.shiftRight_eq_div_pow]
    omega

/-- C28, amended: for every controller state and every Set Features command
with feature Number of Queues, whatever its dword 11, the command returns
success with the controller state unchanged and no back-end effect, and its
result is the result of a following Get Features (Number of Queues): the value
`(num_queues - 2) | (num_queues - 2) << 16` computed in 32 bits.  When
`num_queues - 2` is a 16-bit value (`2 ≤ num_queues ≤ 65537`) the low and the
high half of the result both equal `num_queues - 2`. -/
theorem nvme_set_feature_num_queues (be : Backend) (t0 t1 : Nat) (n : NvmeCtrl)
    (cmd_set cmd_get : NvmeCmd) (req_set req_get : NvmeRequest)
    (hs : cmd_set.cdw10 % 2 ^ 32 = NVME_NUMBER_OF_QUEUES)
    (hg : cmd_get.cdw10 % 2 ^ 32 = NVME_NUMBER_OF_QUEUES) :
    nvme_set_feature be t0 n cmd_set req_set =
      some { status := NVME_SUCCESS, n := n, result := num_queues_result n } ∧
    nvme_get_feature be t1 n cmd_get req_get =
      some { status := NVME_SUCCESS, n := n, result := num_queues_result n } ∧
    (2 ≤ n.num_queues → n.num_queues - 2 < 2 ^ 16 →
      num_queues_result n &&& 0xffff = n.num_queues - 2 ∧
      num_queues_result n >>> 16 = n.num_queues - 2) := by
  refine ⟨?_, ?_, num_queues_result_halves n⟩
  · unfold nvme_set_feature
    simp only
    rw [hs, if_neg (by decide), if_pos rfl]
  · unfold nvme_get_feature
    simp only
    rw [hg, if_neg (by decide), if_pos rfl]

theorem nvme_set_feature_num_queues_witness :
    (((0x7 : Nat) % 2 ^ 32 = NVME_NUMBER_OF_QUEUES) ∧ 2 ≤ scenario_w4.num_queues ∧
      scenario_w4.num_queues - 2 < 2 ^ 16 ∧ scenario_w4.num_queues - 2 = 62) ∧
    (nvme_set_feature be_ok 0 scenario_w4 { opcode := 0x09, cdw10 := 0x7, cdw11 := 0x00030003 }
        { sq := 0, slot := 0 } =
      some { status := NVME_SUCCESS, n := scenario_w4, result := num_queues_result scenario_w4 } ∧
    nvme_get_feature be_ok 7 scenario_w4 { opcode := 0x0a, cdw10 := 0x7 } { sq := 0, slot := 1 } =
      some { status := NVME_SUCCESS, n := scenario_w4, result := num_queues_result scenario_w4 } ∧
    (2 ≤ scenario_w4.num_queues → scenario_w4.num_queues - 2 < 2 ^ 16 →
      num_queues_result scenario_w4 &&& 0xffff = scenario_w4.num_queues - 2 ∧
      num_queues_result scenario_w4 >>> 16 = scenario_w4.num_queues - 2)) :=
  ⟨⟨by decide, by decide, by decide, by decide⟩,
    nvme_set_feature_num_queues be_ok 0 7 scenario_w4
      { opcode := 0x09, cdw10 := 0x7, cdw11 := 0x00030003 } { opcode := 0x0a, cdw10 := 0x7 }
      { sq := 0, slot := 0 } { sq := 0, slot := 1 } (by decide) (by decide)⟩

/-- The value of `nvme_get_timestamp` after `nvme_set_timestamp`: the low 48
bits, the sync bit and the origin field. -/
theorem nvme_get_timestamp_set (now0 now1 : Nat) (n : NvmeCtrl) (ts : Nat)
    (hle : now0 / 1000000 ≤ now1 / 1000000) :
    nvme_get_timestamp now1 (nvme_set_timestamp now0 n ts) % 2 ^ 48 =
      (ts + (now1 / 1000000 - now0 / 1000000)) % 2 ^ 48 ∧
    (nvme_get_timestamp now1 (nvme_set_timestamp now0 n ts) >>> 48) &&& 0x1 = 0 ∧
    (nvme_get_timestamp now1 (nvme_set_timestamp now0 n ts) >>> 49) &&& 0x7 =
      (if ts % 2 ^ 64 = 0 then 0 else 1) ∧
    nvme_get_timestamp now1 (nvme_set_timestamp now0 n ts) >>> 52 = 0 := by
  unfold nvme_get_timestamp nvme_set_timestamp le64_to_cpu
  simp only
  rw [show (0xffffffffffff : Nat) = 2 ^ 48 - 1 from rfl, Nat.and_pow_two_sub_one_eq_mod]
  generalize now0 / 1000000 = a at hle ⊢
  generalize now1 / 1000000 = b at hle ⊢
  have hlt : (ts % 2 ^ 64 + (b % 2 ^ 64 + 2 ^ 64 - a % 2 ^ 64) % 2 ^ 64) % 2 ^ 64 % 2 ^ 48 <
      2 ^ 49 := by omega
  have hval : (ts % 2 ^ 64 + (b % 2 ^ 64 + 2 ^ 64 - a % 2 ^ 64) % 2 ^ 64) % 2 ^ 64 % 2 ^ 48 =
      (ts + (b - a)) % 2 ^ 48 := by omega
  rw [or_shl_eq_add _ _ 49 hlt, hval]
  have h7 : ∀ x : Nat, x &&& 0x7 = x % 8 := fun x => Nat.and_pow_two_sub_one_eq_mod x 3
  have h1 : ∀ x : Nat, x &&& 0x1 = x % 2 := fun x => Nat.and_pow_two_sub_one_eq_mod x 1
  rw [h7, h1, Nat.shiftRight_eq_div_pow, Nat.shiftRight_eq_div_pow, Nat.shiftRight_eq_div_pow]
  by_cases hz : ts % 2 ^ 64 = 0
  · rw [if_neg (not_not.mpr hz), if_pos hz]
    omega
  · rw [if_pos hz, if_neg hz]
    omega

/-- C29, counterexample: Set Features Timestamp installs `T = 0` at 5 ms and
Get Features Timestamp reads at 8 ms.  The value returned is 3: bits 47:0 hold
the elapsed time, but the origin field (bits 51:49) is 0, not 1, because
`nvme_get_timestamp` sets it only for a non-zero host timestamp. -/
theorem nvme_timestamp_origin_zero :
    be_ok.timestamp = 0 ∧
    nvme_set_feature be_ok 5000000 scenario_w4 { opcode := 0x09, cdw10 := 0xe, prp1 := 0x1000 }
        { sq := 0, slot := 0 } =
      some { status := NVME_SUCCESS, n := nvme_set_timestamp 5000000 scenario_w4 0,
             result := 0 } ∧
    nvme_get_feature be_ok 8000000 (nvme_set_timestamp 5000000 scenario_w4 0)
        { opcode := 0x0a, cdw10 := 0xe, prp1 := 0x2000 } { sq := 0, slot := 1 } =
      some { status := NVME_SUCCESS, n := nvme_set_timestamp 5000000 scenario_w4 0,
             result := 0, dma := some 3 } ∧
    ((3 : Nat) >>> 49) &&& 0x7 = 0 := by
  decide

/-- C29, amended: Set Features Timestamp whose DMA succeeds installs the
64-bit value `T` of its buffer at virtual time `t0` (ms); a Get Features
Timestamp at time `t1 ≥ t0` hands to the DMA a 64-bit value whose bits 47:0
equal `(T + (t1 - t0)) mod 2^48`, whose sync bit and reserved bits are 0, and
whose origin field (bits 51:49) is 1 when `T` is non-zero and 0 when `T` is
0. -/
theorem nvme_timestamp_round_trip (be : Backend) (now0 now1 : Nat) (n : NvmeCtrl)
    (cmd_set cmd_get : NvmeCmd) (req_set req_get : NvmeRequest) (st : Nat)
    (hs : cmd_set.cdw10 % 2 ^ 32 = NVME_TIMESTAMP)
    (hg : cmd_get.cdw10 % 2 ^ 32 = NVME_TIMESTAMP)
    (hdma : nvme_dma_write_prp be n 8 cmd_set.prp1 cmd_set.prp2 = some NVME_SUCCESS)
    (hrd : nvme_dma_read_prp be (nvme_set_timestamp now0 n be.timestamp) 8 cmd_get.prp1
      cmd_get.prp2 = some st)
    (hle : now0 / 1000000 ≤ now1 / 1000000) :
    ∃ v, nvme_set_feature be now0 n cmd_set req_set =
        some { status := NVME_SUCCESS, n := nvme_set_timestamp now0 n be.timestamp,
               result := req_set.cqe.result } ∧
      nvme_get_feature be now1 (nvme_set_timestamp now0 n be.timestamp) cmd_get req_get =
        some { status := st, n := nvme_set_timestamp now0 n be.timestamp,
               result := req_get.cqe.result, dma := some v } ∧
      v % 2 ^ 48 = (be.timestamp + (now1 / 1000000 - now0 / 1000000)) % 2 ^ 48 ∧
      (v >>> 48) &&& 0x1 = 0 ∧
      (v >>> 49) &&& 0x7 = (if be.timestamp % 2 ^ 64 = 0 then 0 else 1) ∧
      v >>> 52 = 0 := by
  refine ⟨nvme_get_timestamp now1 (nvme_set_timestamp now0 n be.timestamp), ?_, ?_,
    nvme_get_timestamp_set now0 now1 n be.timestamp hle⟩
  · unfold nvme_set_feature
    simp only
    rw [hs, if_neg (by decide), if_neg (by decide), if_pos rfl, hdma]
    simp
  · unfold nvme_get_feature
    simp only
    rw [hg, if_neg (by decide), if_neg (by decide), if_pos rfl, hrd]
    rfl

theorem nvme_timestamp_round_trip_witness :
    (((0xe : Nat) % 2 ^ 32 = NVME_TIMESTAMP) ∧ be_ts.timestamp = 1000 ∧
      nvme_dma_write_prp be_ts scenario_w4 8 0x1000 0 = some NVME_SUCCESS ∧
      nvme_dma_read_prp be_ts (nvme_set_timestamp 5000000 scenario_w4 be_ts.timestamp) 8
        0x2000 0 = some NVME_SUCCESS ∧
      5000000 / 1000000 ≤ 8000000 / 1000000) ∧
    ∃ v, nvme_set_feature be_ts 5000000 scenario_w4
          { opcode := 0x09, cdw10 := 0xe, prp1 := 0x1000 } { sq := 0, slot := 0 } =
        some { status := NVME_SUCCESS,
               n := nvme_set_timestamp 5000000 scenario_w4 be_ts.timestamp,
               result := 0 } ∧
      nvme_get_feature be_ts 8000000 (nvme_set_timestamp 5000000 scenario_w4 be_ts.timestamp)
          { opcode := 0x0a, cdw10 := 0xe, prp1 := 0x2000 } { sq := 0, slot := 1 } =
        some { status := NVME_SUCCESS,
               n := nvme_set_timestamp 5000000 scenario_w4 be_ts.timestamp,
               result := 0, dma := some v } ∧
      v % 2 ^ 48 = (be_ts.timestamp + (8000000 / 1000000 - 5000000 / 1000000)) % 2 ^ 48 ∧
      (v >>> 48) &&& 0x1 = 0 ∧
      (v >>> 49) &&& 0x7 = (if be_ts.timestamp % 2 ^ 64 = 0 then 0 else 1) ∧
      v >>> 52 = 0 :=
  ⟨⟨by decide, by decide, by decide, by decide, by decide⟩,
    nvme_timestamp_round_trip be_ts 5000000 8000000 scenario_w4
      { opcode := 0x09, cdw10 := 0xe, prp1 := 0x1000 }
      { opcode := 0x0a, cdw10 := 0xe, prp1 := 0x2000 } { sq := 0, slot := 0 }
      { sq := 0, slot := 1 } NVME_SUCCESS (by decide) (by decide) (by decide) (by decide)
      (by decide)⟩

theorem set_append_replicate (E : List Nat) (j k x : Nat) (hE : E.length = j) :
    (E ++ List.replicate (k + 1) 0).set j x = (E ++ [x]) ++ List.replicate k 0 := by
  subst hE
  rw [List.set_append_right _ _ (Nat.le_refl _), Nat.sub_self, List.replicate_succ,
    List.set_cons_zero, List.append_assoc]
  rfl

theorem nslist_loop_collect (N m : Nat) (hN : N < 2 ^ 31) :
    ∀ (fuel i j : Nat) (E : List Nat), m ≤ i → N - i ≤ fuel → E.length = j → j < 1024 →
      nslist_loop N m fuel i j (E ++ List.replicate (1024 - j) 0) =
        some ((E ++ List.range' (i + 1) (N - i)).take 1024 ++
          List.replicate (1024 - ((E ++ List.range' (i + 1) (N - i)).take 1024).length) 0) := by
  have hdone : ∀ (i j : Nat) (E : List Nat), ¬ i < N → E.length = j → j < 1024 →
      E ++ List.replicate (1024 - j) 0 =
        (E ++ List.range' (i + 1) (N - i)).take 1024 ++
          List.replicate (1024 - ((E ++ List.range' (i + 1) (N - i)).take 1024).length) 0 := by
    intro i j E hi hE hj
    have h0 : N - i = 0 := by omega
    rw [h0, List.range'_zero, List.append_nil, List.take_of_length_le (by omega), hE]
  intro fuel
  induction fuel with
  | zero =>
    intro i j E hm hf hE hj
    unfold nslist_loop
    rw [if_neg (by omega)]
    exact congrArg some (hdone i j E (by omega) hE hj)
  | succ fuel ih =>
    intro i j E hm hf hE hj
    unfold nslist_loop
    by_cases hi : i < N
    · rw [if_pos hi, if_pos (by omega), if_neg (by omega)]
      simp only
      have hcons : List.range' (i + 1) (N - i) = (i + 1) :: List.range' (i + 1 + 1) (N - (i + 1)) := by
        have : N - i = (N - (i + 1)) + 1 := by omega
        rw [this, List.range'_succ]
      have hk : 1024 - j = (1024 - (j + 1)) + 1 := by omega
      rw [hk, set_append_replicate E j _ _ hE]
      have happ : E ++ List.range' (i + 1) (N - i) =
          (E ++ [i + 1]) ++ List.range' (i + 1 + 1) (N - (i + 1)) := by
        rw [hcons, List.append_assoc]
        rfl
      rw [happ]
      by_cases hj1 : j + 1 = 1024
      · rw [if_pos hj1]
        have hl : (E ++ [i + 1]).length = 1024 := by
          rw [List.length_append, hE]; simpa using hj1
        have h0 : 1024 - (j + 1) = 0 := by omega
        rw [h0, List.replicate_zero, List.take_append_of_le_length (by omega),
          List.take_of_length_le (by omega), hl]
        rfl
      · rw [if_neg hj1]
        exact ih (i + 1) (j + 1) (E ++ [i + 1]) (by omega) (by omega)
          (by rw [List.length_append, hE]; rfl) (by omega)
    · rw [if_neg hi]
      exact congrArg some (hdone i j E hi hE hj)

theorem nslist_loop_skip (N m : Nat) (hN : N < 2 ^ 31) :
    ∀ (fuel i : Nat), i ≤ m → N - i ≤ fuel →
      nslist_loop N m fuel i 0 (List.replicate 1024 0) = some (nslist_expected N m) := by
  have hnone : N ≤ m → List.replicate 1024 0 = nslist_expected N m := by
    intro h
    unfold nslist_expected
    have h0 : N - m = 0 := by omega
    rw [h0, List.range'_zero]
    rfl
  intro fuel
  induction fuel with
  | zero =>
    intro i hm hf
    unfold nslist_loop
    rw [if_neg (by omega)]
    exact congrArg some (hnone (by omega))
  | succ fuel ih =>
    intro i hm hf
    by_cases hi : i < N
    · by_cases him : i < m
      · unfold nslist_loop
        rw [if_pos hi, if_pos (by omega), if_pos him]
        exact ih (i + 1) (by omega) (by omega)
      · have hie : i = m := by omega
        subst hie
        have := nslist_loop_collect N i hN (fuel + 1) i 0 [] (Nat.le_refl _) hf rfl (by decide)
        rw [List.nil_append, List.nil_append] at this
        exact this
    · unfold nslist_loop
      rw [if_neg hi]
      exact congrArg some (hnone (by omega))

theorem nslist_expected_length (N m : Nat) : (nslist_expected N m).length = 1024 := by
  unfold nslist_expected
  rw [List.length_append, List.length_replicate, List.length_take, List.length_range']
  omega

theorem nslist_expected_entry (N m idx : Nat) (h : idx < 1024) :
    (nslist_expected N m).getD idx 0 = if m + idx + 1 ≤ N then m + idx + 1 else 0 := by
  unfold nslist_expected
  rw [List.getD_eq_getElem?_getD, List.getElem?_append]
  rw [List.length_take, List.length_range']
  by_cases hk : m + idx + 1 ≤ N
  · rw [if_pos hk, if_pos (by omega), List.getElem?_take_of_lt h,
      List.getElem?_range' _ _ (by omega)]
    simp
    omega
  · rw [if_neg hk, if_neg (by omega), List.getElem?_replicate]
    split <;> rfl

/-- C30: for every `num_namespaces` in the range of the `int` loop counter and
every input nsid `m`, the buffer that `nvme_identify_nslist` builds is the list
of 1024 32-bit entries of the spec: the namespace ids `k` with
`m < k ≤ num_namespaces` in ascending order (the first 1024 of them), followed
by zeros.  Entry `idx` is `m + idx + 1` if that is at most `num_namespaces`,
and 0 otherwise; the buffer is handed to `nvme_dma_read_prp`, whose status the
function returns. -/
theorem nvme_identify_nslist_entries (n : NvmeCtrl) (cmd : NvmeCmd)
    (hN : n.num_namespaces < 2 ^ 31) :
    nvme_identify_nslist_buf n cmd =
      some (nslist_expected n.num_namespaces (cmd.nsid % 2 ^ 32)) ∧
    (nslist_expected n.num_namespaces (cmd.nsid % 2 ^ 32)).length = 1024 ∧
    (∀ idx, idx < 1024 →
      (nslist_expected n.num_namespaces (cmd.nsid % 2 ^ 32)).getD idx 0 =
        if cmd.nsid % 2 ^ 32 + idx + 1 ≤ n.num_namespaces then cmd.nsid % 2 ^ 32 + idx + 1
        else 0) ∧
    (∀ be st, nvme_dma_read_prp be n 4096 cmd.prp1 cmd.prp2 = some st →
      nvme_identify_nslist be n cmd =
        some (st, nslist_expected n.num_namespaces (cmd.nsid % 2 ^ 32))) := by
  have hb : nvme_identify_nslist_buf n cmd =
      some (nslist_expected n.num_namespaces (cmd.nsid % 2 ^ 32)) := by
    unfold nvme_identify_nslist_buf
    exact nslist_loop_skip _ _ hN _ 0 (Nat.zero_le _) (by omega)
  refine ⟨hb, nslist_expected_length _ _, fun idx h => nslist_expected_entry _ _ idx h, ?_⟩
  intro be st hst
  unfold nvme_identify_nslist
  rw [hb]
  simp only
  rw [hst]
  rfl

theorem nvme_identify_nslist_entries_witness :
    (scenario_w4.num_namespaces < 2 ^ 31 ∧ scenario_w4.num_namespaces = 1) ∧
    (nvme_identify_nslist_buf scenario_w4 { opcode := 0x06, cdw10 := 2, prp1 := 0x1000 } =
      some (nslist_expected scenario_w4.num_namespaces ((0 : Nat) % 2 ^ 32)) ∧
    (nslist_expected scenario_w4.num_namespaces ((0 : Nat) % 2 ^ 32)).length = 1024 ∧
    (∀ idx, idx < 1024 →
      (nslist_expected scenario_w4.num_namespaces ((0 : Nat) % 2 ^ 32)).getD idx 0 =
        if (0 : Nat) % 2 ^ 32 + idx + 1 ≤ scenario_w4.num_namespaces then
          (0 : Nat) % 2 ^ 32 + idx + 1
        else 0) ∧
    (∀ be st, nvme_dma_read_prp be scenario_w4 4096 0x1000 0 = some st →
      nvme_identify_nslist be scenario_w4 { opcode := 0x06, cdw10 := 2, prp1 := 0x1000 } =
        some (st, nslist_expected scenario_w4.num_namespaces ((0 : Nat) % 2 ^ 32)))) :=
  ⟨⟨by decide, by decide⟩,
    nvme_identify_nslist_entries scenario_w4 { opcode := 0x06, cdw10 := 2, prp1 := 0x1000 }
      (by decide)⟩

theorem nvme_dsm_loop_status (be : Backend) (ns : NvmeNamespace) (attr : Nat) :
    ∀ (l : List Nat) (ret : Nat) (ops : List BlkOp),
      (nvme_dsm_loop be ns attr l ret ops).status = ret ∨
      (nvme_dsm_loop be ns attr l ret ops).status = NVME_SUCCESS ∨
      (nvme_dsm_loop be ns attr l ret ops).status = NVME_LBA_RANGE ||| NVME_DNR ∨
      (nvme_dsm_loop be ns attr l ret ops).status = NVME_INTERNAL_DEV_ERROR := by
  intro l
  induction l with
  | nil => intro ret ops; left; rfl
  | cons i rest ih =>
    intro ret ops
    unfold nvme_dsm_loop
    simp only
    split
    · right; right; left; rfl
    · split
      · split
        · rcases ih 0 (ops ++ [BlkOp.pwrite_zeroes
              ((((be.ranges i).slba % 2 ^ 64) <<< ns.ds) % 2 ^ 64)
              ((((be.ranges i).nlb % 2 ^ 32) <<< ns.ds) % 2 ^ 32)]) with h | h | h | h
          · right; left; exact h
          · right; left; exact h
          · right; right; left; exact h
          · right; right; right; exact h
        · right; right; right; rfl
      · exact ih ret ops

theorem nvme_map_prp_status_dnr {rd : Nat → Nat → Nat} {stack : Nat → Nat}
    {qsg : QEMUSGList} {iov : QEMUIOVector} {prp1 prp2 len : Nat} {n : PrpCtrl} {r : PrpResult}
    (h : nvme_map_prp rd stack qsg iov prp1 prp2 len n = some r) :
    r.status = NVME_SUCCESS ∨ r.status = NVME_INVALID_FIELD ||| NVME_DNR := by
  unfold nvme_map_prp at h
  simp only at h
  split at h
  · cases h; right; rfl
  · split at h
    · split at h
      · cases h; right; rfl
      · split at h
        · split at h
          · cases h; left; rfl
          · cases h; right; rfl
          · simp at h
        · split at h
          · cases h; right; rfl
          · split at h
            · cases h; left; rfl
            · cases h; left; rfl
    · cases h; left; rfl

/-- The statuses of `nvme_io_cmd`: success, no completion, a status with DNR,
or the INTERNAL_DEV_ERROR of Dataset Management. -/
theorem nvme_io_cmd_status (be : Backend) (n : NvmeCtrl) (cmd : NvmeCmd) (out : IoOut)
    (h : nvme_io_cmd be n cmd = some out) :
    out.status = NVME_SUCCESS ∨ out.status = NVME_NO_COMPLETE ∨
    out.status &&& NVME_DNR ≠ 0 ∨
    (cmd.opcode = NVME_CMD_DSM ∧ out.status = NVME_INTERNAL_DEV_ERROR) := by
  have dnr1 : (NVME_INVALID_NSID ||| NVME_DNR) &&& NVME_DNR ≠ 0 := by decide
  have dnr2 : (NVME_LBA_RANGE ||| NVME_DNR) &&& NVME_DNR ≠ 0 := by decide
  have dnr3 : (NVME_INVALID_FIELD ||| NVME_DNR) &&& NVME_DNR ≠ 0 := by decide
  have dnr4 : (NVME_INVALID_OPCODE ||| NVME_DNR) &&& NVME_DNR ≠ 0 := by decide
  unfold nvme_io_cmd at h
  simp only at h
  split at h
  · cases h; right; right; left; exact dnr1
  · split at h
    · cases h; right; left; rfl
    · split at h
      · simp only [Option.some.injEq] at h
        subst h
        unfold nvme_write_zeros
        simp only
        split
        · right; right; left; exact dnr2
        · right; left; rfl
      · split at h
        · unfold nvme_rw at h
          simp only at h
          split at h
          · cases h; right; right; left; exact dnr2
          · split at h
            · simp at h
            · split at h
              · cases h; right; right; left; exact dnr3
              · split at h
                · cases h; right; left; rfl
                · cases h; right; left; rfl
        · split at h
          · rename_i hop
            unfold nvme_dsm at h
            simp only at h
            split at h
            · simp at h
            · rename_i ret hd
              rcases nvme_dma_write_prp_status hd with hr | hr
              · subst hr
                rw [if_neg (by simp)] at h
                simp only [Option.some.injEq] at h
                subst h
                rcases nvme_dsm_loop_status be _ _ (List.range ((cmd.cdw10 % 2 ^ 32 &&& 0xFF) + 1))
                    NVME_SUCCESS [] with e | e | e | e
                · left; exact e
                · left; exact e
                · right; right; left; rw [e]; exact dnr2
                · right; right; right; exact ⟨hop, e⟩
              · subst hr
                rw [if_pos (by decide)] at h
                cases h
                right; right; left; exact dnr3
          · cases h; right; right; left; exact dnr4

/-- C28, counterexample: a device configured with 65538 queues.  Set Features
(Number of Queues) completes with the result `0x00010000`: the low half is 0
and the high half is 1, neither is `num_queues - 2 = 65536`, which does not
fit 16 bits. -/
theorem num_queues_result_halves_truncated :
    (nvme_realize 65538 0 (0, 0)).num_queues - 2 = 65536 ∧
    (nvme_set_feature be_ok 0 (nvme_realize 65538 0 (0, 0))
        { opcode := 0x09, cdw10 := 0x7, cdw11 := 0x00030003 } { sq := 0, slot := 0 }).map
      (fun o => (o.status, o.result)) = some (NVME_SUCCESS, 0x00010000) ∧
    (0x00010000 : Nat) &&& 0xffff = 0 ∧ (0x00010000 : Nat) >>> 16 = 1 := by
  decide

/-- C24 (the code departs from it): two command-level errors are returned
without the do-not-retry bit.  `nvme_admin_cmd` answers a Delete I/O Completion
Queue command that names a completion queue with a bound submission queue with
INVALID_QUEUE_DEL (010Ch), and `nvme_io_cmd` answers a Dataset Management
command whose zeroing write fails in the back-end with INTERNAL_DEV_ERROR
(0006h); neither status is SUCCESS or NO_COMPLETE and neither has DNR
(4000h).  Every other status that `nvme_io_cmd` returns is SUCCESS,
NO_COMPLETE or has DNR. -/
theorem command_errors_without_dnr :
    (NVME_INVALID_QUEUE_DEL ≠ NVME_SUCCESS ∧ NVME_INVALID_QUEUE_DEL ≠ NVME_NO_COMPLETE ∧
      NVME_INVALID_QUEUE_DEL &&& NVME_DNR = 0) ∧
    (∀ env n cmd req c, cmd.opcode = 0x04 → dw_lo cmd.cdw10 ≠ 0 →
      dw_lo cmd.cdw10 < n.num_queues → n.cqAt (dw_lo cmd.cdw10) = some c → c.sq_list ≠ [] →
      (nvme_admin_cmd env n cmd req).map (fun o => (o.status, o.n)) =
        some (NVME_INVALID_QUEUE_DEL, n)) ∧
    (nvme_admin_cmd {} scenario_sq1 { opcode := 0x04, cdw10 := 1 } { sq := 0, slot := 0 }).map
        (fun o => o.status) = some NVME_INVALID_QUEUE_DEL ∧
    (NVME_INTERNAL_DEV_ERROR ≠ NVME_SUCCESS ∧ NVME_INTERNAL_DEV_ERROR ≠ NVME_NO_COMPLETE ∧
      NVME_INTERNAL_DEV_ERROR &&& NVME_DNR = 0) ∧
    nvme_io_cmd be_fail scenario_w4
        { opcode := 0x09, nsid := 1, prp1 := 0x1000, cdw10 := 0, cdw11 := 4 } =
      some { status := NVME_INTERNAL_DEV_ERROR, ops := [BlkOp.pwrite_zeroes 0 4096] } ∧
    (∀ be n cmd out, nvme_io_cmd be n cmd = some out →
      out.status = NVME_SUCCESS ∨ out.status = NVME_NO_COMPLETE ∨
      out.status &&& NVME_DNR ≠ 0 ∨
      (cmd.opcode = NVME_CMD_DSM ∧ out.status = NVME_INTERNAL_DEV_ERROR)) :=
  ⟨by decide, fun env n cmd req c => nvme_admin_cmd_del_cq_bound env n cmd req c, by decide,
    by decide, by decide, nvme_io_cmd_status⟩

/-! ## Command effects tables -/

set_option maxRecDepth 100000 in
theorem nvme_ced_admin_length : nvme_ced_admin.length = 256 := by decide

set_option maxRecDepth 100000 in
theorem nvme_ced_io_length : nvme_ced_io.length = 256 := by decide

set_option maxRecDepth 100000 in
theorem nvme_ced_admin_entry : ∀ op, op < 256 →
    nvme_ced_admin.getD op 0 =
      if op ∈ [0x00, 0x01, 0x02, 0x04, 0x05, 0x06, 0x09, 0x0A] then NVME_CED_SET_CSUPP
      else 0 := by
  decide

set_option maxRecDepth 100000 in
theorem nvme_ced_io_entry : ∀ op, op < 256 →
    nvme_ced_io.getD op 0 =
      if op ∈ [0x00, 0x02] then NVME_CED_SET_CSUPP
      else if op ∈ [0x01, 0x08, 0x09] then NVME_CED_SET_CSUPP ||| NVME_CED_SET_LBCC
      else 0 := by
  decide

theorem memcpy_tables (A B : List Nat) (hA : A.length = 256) (hB : B.length = 256)
    (sz : Nat) (hsz : 2048 ≤ sz) :
    (match memcpy_dwords (List.replicate (sz / 4) 0) 0 A 1024 with
      | none => none
      | some tmp => memcpy_dwords tmp 1024 B 1024) =
      some (A ++ B ++ List.replicate (sz / 4 - 512) 0) := by
  unfold memcpy_dwords
  rw [if_pos (by rw [List.length_replicate, hA]; omega)]
  simp only
  rw [if_pos (by
    simp only [List.length_append, List.length_take, List.length_drop, List.length_replicate,
      hA, hB]
    omega)]
  have t1 : List.take (1024 / 4) A = A := List.take_of_length_le (by rw [hA])
  have t2 : List.take (1024 / 4) B = B := List.take_of_length_le (by rw [hB])
  rw [t1, t2]
  simp only [Nat.zero_div, List.take_zero, List.nil_append, Nat.zero_add, List.drop_replicate]
  rw [List.take_append_of_le_length (by rw [hA]), List.take_of_length_le (by rw [hA])]
  rw [List.drop_append_eq_append_drop]
  have d : List.drop (1024 / 4 + 1024 / 4) A = [] := List.drop_of_length_le (by rw [hA]; omega)
  rw [d, List.nil_append, List.drop_replicate]
  have e : sz / 4 - 1024 / 4 - (1024 / 4 + 1024 / 4 - A.length) = sz / 4 - 512 := by
    rw [hA]; omega
  rw [e]

theorem nvme_get_cse_info_buf_eq (sz : Nat) (hsz : 2048 ≤ sz) :
    nvme_get_cse_info_buf sz =
      some (nvme_ced_admin ++ nvme_ced_io ++ List.replicate (sz / 4 - 512) 0) :=
  memcpy_tables _ _ nvme_ced_admin_length nvme_ced_io_length sz hsz

theorem nvme_io_cmd_default (be : Backend) (n : NvmeCtrl) (cmd : NvmeCmd)
    (hns : ¬ (cmd.nsid % 2 ^ 32 = 0 ∨ cmd.nsid % 2 ^ 32 > n.num_namespaces))
    (hop : cmd.opcode ∉ [0x00, 0x01, 0x02, 0x08, 0x09]) :
    nvme_io_cmd be n cmd = some { status := NVME_INVALID_OPCODE ||| NVME_DNR } := by
  simp only [List.mem_cons, List.mem_singleton, List.not_mem_nil, or_false, not_or] at hop
  unfold nvme_io_cmd
  simp only
  rw [if_neg hns, if_neg (show ¬ cmd.opcode = NVME_CMD_FLUSH from hop.1),
    if_neg (show ¬ cmd.opcode = NVME_CMD_WRITE_ZEROS from hop.2.2.2.1),
    if_neg (show ¬ (cmd.opcode = NVME_CMD_WRITE ∨ cmd.opcode = NVME_CMD_READ) from
      fun h => h.elim hop.2.1 hop.2.2.1),
    if_neg (show ¬ cmd.opcode = NVME_CMD_DSM from hop.2.2.2.2)]

theorem nvme_admin_cmd_default (env : Env) (n : NvmeCtrl) (cmd : NvmeCmd) (req : NvmeRequest)
    (hop : cmd.opcode ∉ [0x00, 0x01, 0x02, 0x04, 0x05, 0x06, 0x09, 0x0A]) :
    nvme_admin_cmd env n cmd req =
      some { status := NVME_INVALID_OPCODE ||| NVME_DNR, n := n, result := req.cqe.result } := by
  simp only [List.mem_cons, List.mem_singleton, List.not_mem_nil, or_false, not_or] at hop
  unfold nvme_admin_cmd
  rw [if_neg hop.1, if_neg hop.2.1, if_neg hop.2.2.1, if_neg hop.2.2.2.1, if_neg hop.2.2.2.2.1,
    if_neg hop.2.2.2.2.2.1, if_neg hop.2.2.2.2.2.2.1, if_neg hop.2.2.2.2.2.2.2]

/-- A command that the handler of admin opcode `op` does not answer with
"invalid opcode". -/
theorem nvme_admin_cmd_handled (op : Nat)
    (hop : op ∈ [0x00, 0x01, 0x02, 0x04, 0x05, 0x06, 0x09, 0x0A]) :
    (nvme_admin_cmd {} scenario_cold { opcode := op } { sq := 0, slot := 0 }).map
        (fun o => o.status) ≠ some (NVME_INVALID_OPCODE ||| NVME_DNR) := by
  simp only [List.mem_cons, List.mem_singleton, List.not_mem_nil, or_false] at hop
  rcases hop with h | h | h | h | h | h | h | h <;> subst h <;> decide

/-- A command that the handler of I/O opcode `op` does not answer with
"invalid opcode". -/
theorem nvme_io_cmd_handled (op : Nat) (hop : op ∈ [0x00, 0x01, 0x02, 0x08, 0x09]) :
    (nvme_io_cmd be_ok scenario_w4 { opcode := op, nsid := 1 }).map (fun o => o.status) ≠
      some (NVME_INVALID_OPCODE ||| NVME_DNR) := by
  simp only [List.mem_cons, List.mem_singleton, List.not_mem_nil, or_false] at hop
  rcases hop with h | h | h | h | h <;> subst h <;> decide
/-- C31: the tables `nvme_ced_admin` and `nvme_ced_io` have 256 entries each;
the admin entry is CSUPP for the opcodes 00h, 01h, 02h, 04h, 05h, 06h, 09h and
0Ah and 0 for every other opcode, the I/O entry is CSUPP for 00h and 02h,
CSUPP|LBCC for 01h, 08h and 09h and 0 for every other opcode.  The buffer that
`nvme_get_cse_info` builds is the 256 admin dwords followed by the 256 I/O
dwords (and zeros up to the size `sz` of the buffer, at least 2048 bytes), and
a command whose dword count fits the buffer is answered with the first
`numd + 1` dwords of it: with the 256 admin dwords followed by the 256 I/O
dwords when 512 dwords are asked for. -/
theorem nvme_ced_log (sz : Nat) (be : Backend) (n : NvmeCtrl) (cmd : NvmeCmd) (st : Nat)
    (hsz : 2048 ≤ sz) (hfit : ((log_page_numd cmd &&& 0x0FFF) + 1) <<< 2 ≤ sz)
    (hdma : nvme_dma_read_prp be n (((log_page_numd cmd &&& 0x0FFF) + 1) <<< 2)
      cmd.prp1 cmd.prp2 = some st) :
    nvme_ced_admin.length = 256 ∧ nvme_ced_io.length = 256 ∧
    (∀ op, op < 256 → nvme_ced_admin.getD op 0 =
      if op ∈ [0x00, 0x01, 0x02, 0x04, 0x05, 0x06, 0x09, 0x0A] then NVME_CED_SET_CSUPP
      else 0) ∧
    (∀ op, op < 256 → nvme_ced_io.getD op 0 =
      if op ∈ [0x00, 0x02] then NVME_CED_SET_CSUPP
      else if op ∈ [0x01, 0x08, 0x09] then NVME_CED_SET_CSUPP ||| NVME_CED_SET_LBCC
      else 0) ∧
    nvme_get_cse_info_buf sz =
      some (nvme_ced_admin ++ nvme_ced_io ++ List.replicate (sz / 4 - 512) 0) ∧
    nvme_get_cse_info sz be n cmd =
      some (st, (nvme_ced_admin ++ nvme_ced_io ++ List.replicate (sz / 4 - 512) 0).take
        ((log_page_numd cmd &&& 0x0FFF) + 1)) ∧
    (log_page_numd cmd &&& 0x0FFF = 511 →
      nvme_get_cse_info sz be n cmd = some (st, nvme_ced_admin ++ nvme_ced_io)) := by
  have hb := nvme_get_cse_info_buf_eq sz hsz
  have hg : nvme_get_cse_info sz be n cmd =
      some (st, (nvme_ced_admin ++ nvme_ced_io ++ List.replicate (sz / 4 - 512) 0).take
        ((log_page_numd cmd &&& 0x0FFF) + 1)) := by
    unfold nvme_get_cse_info
    simp only
    rw [if_neg (by omega), hb]
    simp only
    rw [hdma]
    rfl
  refine ⟨nvme_ced_admin_length, nvme_ced_io_length, nvme_ced_admin_entry, nvme_ced_io_entry,
    hb, hg, ?_⟩
  intro h
  rw [hg, h]
  have hl : (nvme_ced_admin ++ nvme_ced_io).length = 511 + 1 := by
    rw [List.length_append, nvme_ced_admin_length, nvme_ced_io_length]
  rw [List.take_append_of_le_length (by rw [hl]), List.take_of_length_le (by rw [hl])]

theorem nvme_ced_log_witness :
    ((2048 : Nat) ≤ 4096 ∧
      ((log_page_numd { opcode := 0x02, cdw10 := 0x01FF0005, prp1 := 0x10000 } &&& 0x0FFF) + 1)
        <<< 2 ≤ 4096 ∧
      nvme_dma_read_prp be_ok scenario_w4
        (((log_page_numd { opcode := 0x02, cdw10 := 0x01FF0005, prp1 := 0x10000 } &&& 0x0FFF)
          + 1) <<< 2) 0x10000 0 = some 0) ∧
    nvme_get_cse_info 4096 be_ok scenario_w4
        { opcode := 0x02, cdw10 := 0x01FF0005, prp1 := 0x10000 } =
      some (0, nvme_ced_admin ++ nvme_ced_io) :=
  ⟨⟨by decide, by decide, by decide⟩,
    (nvme_ced_log 4096 be_ok scenario_w4
      { opcode := 0x02, cdw10 := 0x01FF0005, prp1 := 0x10000 } 0
      (by decide) (by decide) (by decide)).2.2.2.2.2.2 (by decide)⟩

/-- C39: for every opcode 0..255 the command-effects tables agree with the
dispatchers.  `nvme_ced_admin[op]` has CSUPP set exactly when `nvme_admin_cmd`
has a handler for `op`, that is, when not every command with that opcode is
answered by the default branch (status "invalid opcode" with DNR, controller
unchanged); `nvme_ced_io[op]` has CSUPP set exactly when `nvme_io_cmd` has a
handler for `op`, that is, when not every command with that opcode and a valid
nsid is answered by the default branch. -/
theorem nvme_ced_matches_dispatch (op : Nat) (hop : op < 256) :
    ((nvme_ced_admin.getD op 0 &&& NVME_CED_SET_CSUPP ≠ 0) ↔
      ¬ ∀ (env : Env) (n : NvmeCtrl) (cmd : NvmeCmd) (req : NvmeRequest), cmd.opcode = op →
        nvme_admin_cmd env n cmd req =
          some { status := NVME_INVALID_OPCODE ||| NVME_DNR, n := n,
                 result := req.cqe.result }) ∧
    ((nvme_ced_io.getD op 0 &&& NVME_CED_SET_CSUPP ≠ 0) ↔
      ¬ ∀ (be : Backend) (n : NvmeCtrl) (cmd : NvmeCmd), cmd.opcode = op →
        ¬ (cmd.nsid % 2 ^ 32 = 0 ∨ cmd.nsid % 2 ^ 32 > n.num_namespaces) →
        nvme_io_cmd be n cmd = some { status := NVME_INVALID_OPCODE ||| NVME_DNR }) := by
  constructor
  · rw [nvme_ced_admin_entry op hop]
    by_cases hm : op ∈ [0x00, 0x01, 0x02, 0x04, 0x05, 0x06, 0x09, 0x0A]
    · rw [if_pos hm]
      refine ⟨fun _ h => ?_, fun _ => by decide⟩
      apply nvme_admin_cmd_handled op hm
      rw [h {} scenario_cold { opcode := op } { sq := 0, slot := 0 } rfl]
      rfl
    · rw [if_neg hm]
      refine ⟨fun h => absurd rfl h, fun h => absurd ?_ h⟩
      intro env n cmd req hc
      exact nvme_admin_cmd_default env n cmd req (by rw [hc]; exact hm)
  · rw [nvme_ced_io_entry op hop]
    by_cases hm : op ∈ [0x00, 0x01, 0x02, 0x08, 0x09]
    · have hv : (if op ∈ [0x00, 0x02] then NVME_CED_SET_CSUPP
          else if op ∈ [0x01, 0x08, 0x09] then NVME_CED_SET_CSUPP ||| NVME_CED_SET_LBCC
          else 0) &&& NVME_CED_SET_CSUPP ≠ 0 := by
        simp only [List.mem_cons, List.mem_singleton, List.not_mem_nil, or_false] at hm
        rcases hm with h | h | h | h | h <;> subst h <;> decide
      refine ⟨fun _ h => ?_, fun _ => hv⟩
      apply nvme_io_cmd_handled op hm
      rw [h be_ok scenario_w4 { opcode := op, nsid := 1 } rfl
        (show ¬ ((1 : Nat) % 2 ^ 32 = 0 ∨ (1 : Nat) % 2 ^ 32 > scenario_w4.num_namespaces) from
          by decide)]
      rfl
    · have hv : (if op ∈ [0x00, 0x02] then NVME_CED_SET_CSUPP
          else if op ∈ [0x01, 0x08, 0x09] then NVME_CED_SET_CSUPP ||| NVME_CED_SET_LBCC
          else 0) = 0 := by
        simp only [List.mem_cons, List.mem_singleton, List.not_mem_nil, or_false, not_or] at hm
        rw [if_neg (by simp [hm]), if_neg (by simp [hm])]
      rw [hv]
      refine ⟨fun h => absurd rfl h, fun h => absurd ?_ h⟩
      intro be n cmd hc hns
      exact nvme_io_cmd_default be n cmd hns (by rw [hc]; exact hm)

theorem nvme_ced_matches_dispatch_witness :
    (8 : Nat) < 256 ∧
    ¬ (nvme_ced_admin.getD 8 0 &&& NVME_CED_SET_CSUPP ≠ 0) ∧
    (nvme_ced_io.getD 8 0 &&& NVME_CED_SET_CSUPP ≠ 0) :=
  have h := nvme_ced_matches_dispatch 8 (by decide)
  ⟨by decide,
    fun c => h.1.1 c fun env n cmd req hc =>
      nvme_admin_cmd_default env n cmd req (by rw [hc]; decide),
    h.2.2 fun a => nvme_io_cmd_handled 8 (by decide)
      (by rw [a be_ok scenario_w4 { opcode := 8, nsid := 1 } rfl (by decide)]; rfl)⟩

/-! ## Queue identifiers beyond the arrays -/

/-- A Create I/O Submission Queue command whose `sqid` is not below
`num_queues` passes `!nvme_check_sqid(n, sqid)`; when the other checks pass as
well, `nvme_init_sq` is called and its store `n->sq[sqid] = sq` is out of
bounds. -/
theorem nvme_create_sq_unbounded (n : NvmeCtrl) (cmd : NvmeCmd)
    (hl : n.sq.length = n.num_queues)
    (hc : ¬ (dw_hi cmd.cdw11 = 0 ∨ nvme_check_cqid n (dw_hi cmd.cdw11) ≠ 0))
    (h0 : dw_lo cmd.cdw10 ≠ 0) (hs : n.num_queues ≤ dw_lo cmd.cdw10)
    (hz : ¬ (dw_hi cmd.cdw10 = 0 ∨ dw_hi cmd.cdw10 > NVME_CAP_MQES n.bar.cap))
    (hp : ¬ (cmd.prp1 = 0 ∨ cmd.prp1 &&& (n.page_size - 1) ≠ 0))
    (hf : NVME_SQ_FLAGS_PC (dw_lo cmd.cdw11) ≠ 0) :
    nvme_check_sqid n (dw_lo cmd.cdw10) = -1 ∧
    nvme_create_sq n cmd =
      (nvme_init_sq n cmd.prp1 (dw_lo cmd.cdw10) (dw_hi cmd.cdw11)
        ((dw_hi cmd.cdw10 + 1) % 2 ^ 16)).map (fun m => (NVME_SUCCESS, m)) ∧
    ¬ dw_lo cmd.cdw10 < n.sq.length ∧
    nvme_create_sq n cmd = none := by
  have hk : nvme_check_sqid n (dw_lo cmd.cdw10) = -1 := by
    unfold nvme_check_sqid
    rw [if_neg (fun h => absurd h.1 (by omega))]
  have he : nvme_create_sq n cmd =
      (nvme_init_sq n cmd.prp1 (dw_lo cmd.cdw10) (dw_hi cmd.cdw11)
        ((dw_hi cmd.cdw10 + 1) % 2 ^ 16)).map (fun m => (NVME_SUCCESS, m)) := by
    unfold nvme_create_sq
    simp only
    rw [if_neg hc, if_neg (by rw [hk]; simp [h0]), if_neg hz, if_neg hp, if_neg (by simpa using hf)]
  refine ⟨hk, he, by omega, ?_⟩
  rw [he]
  unfold nvme_init_sq
  simp only
  cases n.cqAt (dw_hi cmd.cdw11) with
  | none => rfl
  | some c => simp only; rw [if_neg (by omega)]; rfl

/-- The same for Create I/O Completion Queue and `!nvme_check_cqid(n, cqid)`. -/
theorem nvme_create_cq_unbounded (n : NvmeCtrl) (cmd : NvmeCmd)
    (hl : n.cq.length = n.num_queues)
    (h0 : dw_lo cmd.cdw10 ≠ 0) (hs : n.num_queues ≤ dw_lo cmd.cdw10)
    (hz : ¬ (dw_hi cmd.cdw10 = 0 ∨ dw_hi cmd.cdw10 > NVME_CAP_MQES n.bar.cap))
    (hp : cmd.prp1 ≠ 0) (hv : ¬ dw_hi cmd.cdw11 > n.num_queues)
    (hf : NVME_CQ_FLAGS_PC (dw_lo cmd.cdw11) ≠ 0) :
    nvme_check_cqid n (dw_lo cmd.cdw10) = -1 ∧
    nvme_create_cq n cmd =
      (nvme_init_cq n cmd.prp1 (dw_lo cmd.cdw10) (dw_hi cmd.cdw11)
        ((dw_hi cmd.cdw10 + 1) % 2 ^ 16) (NVME_CQ_FLAGS_IEN (dw_lo cmd.cdw11))).map
        (fun m => (NVME_SUCCESS, m)) ∧
    ¬ dw_lo cmd.cdw10 < n.cq.length ∧
    nvme_create_cq n cmd = none := by
  have hk : nvme_check_cqid n (dw_lo cmd.cdw10) = -1 := by
    unfold nvme_check_cqid
    rw [if_neg (fun h => absurd h.1 (by omega))]
  have he : nvme_create_cq n cmd =
      (nvme_init_cq n cmd.prp1 (dw_lo cmd.cdw10) (dw_hi cmd.cdw11)
        ((dw_hi cmd.cdw10 + 1) % 2 ^ 16) (NVME_CQ_FLAGS_IEN (dw_lo cmd.cdw11))).map
        (fun m => (NVME_SUCCESS, m)) := by
    unfold nvme_create_cq
    simp only
    rw [if_neg (by rw [hk]; simp [h0]), if_neg hz, if_neg hp, if_neg hv,
      if_neg (by simpa using hf)]
  refine ⟨hk, he, by omega, ?_⟩
  rw [he]
  unfold nvme_init_cq
  simp only
  rw [if_neg (by omega)]
  rfl

set_option maxRecDepth 4096 in
/-- C36 (refuted): `nvme_create_sq` and `nvme_create_cq` do not bound the queue
id by `num_queues`.  The tests `!nvme_check_sqid(n, sqid)` and
`!nvme_check_cqid(n, cqid)` reject an id that is in use; for an id that is not
below `num_queues` the check function returns -1, the test is false, and when
the other fields are valid the command reaches `nvme_init_sq` or
`nvme_init_cq`, whose store into `n->sq[]` or `n->cq[]` is past the end of the
array (`none`).  So it is on the reachable enabled controller of scenario 1
(64 queues) for Create I/O CQ with `cqid = 64`, and after CQ 1 has been
created for Create I/O SQ with `sqid = 64`. -/
theorem nvme_create_queue_id_unchecked :
    (∀ (n : NvmeCtrl) (cmd : NvmeCmd), n.sq.length = n.num_queues →
      ¬ (dw_hi cmd.cdw11 = 0 ∨ nvme_check_cqid n (dw_hi cmd.cdw11) ≠ 0) →
      dw_lo cmd.cdw10 ≠ 0 → n.num_queues ≤ dw_lo cmd.cdw10 →
      ¬ (dw_hi cmd.cdw10 = 0 ∨ dw_hi cmd.cdw10 > NVME_CAP_MQES n.bar.cap) →
      ¬ (cmd.prp1 = 0 ∨ cmd.prp1 &&& (n.page_size - 1) ≠ 0) →
      NVME_SQ_FLAGS_PC (dw_lo cmd.cdw11) ≠ 0 →
      nvme_create_sq n cmd =
        (nvme_init_sq n cmd.prp1 (dw_lo cmd.cdw10) (dw_hi cmd.cdw11)
          ((dw_hi cmd.cdw10 + 1) % 2 ^ 16)).map (fun m => (NVME_SUCCESS, m)) ∧
      ¬ dw_lo cmd.cdw10 < n.sq.length ∧ nvme_create_sq n cmd = none) ∧
    (∀ (n : NvmeCtrl) (cmd : NvmeCmd), n.cq.length = n.num_queues →
      dw_lo cmd.cdw10 ≠ 0 → n.num_queues ≤ dw_lo cmd.cdw10 →
      ¬ (dw_hi cmd.cdw10 = 0 ∨ dw_hi cmd.cdw10 > NVME_CAP_MQES n.bar.cap) →
      cmd.prp1 ≠ 0 → ¬ dw_hi cmd.cdw11 > n.num_queues →
      NVME_CQ_FLAGS_PC (dw_lo cmd.cdw11) ≠ 0 →
      nvme_create_cq n cmd =
        (nvme_init_cq n cmd.prp1 (dw_lo cmd.cdw10) (dw_hi cmd.cdw11)
          ((dw_hi cmd.cdw10 + 1) % 2 ^ 16) (NVME_CQ_FLAGS_IEN (dw_lo cmd.cdw11))).map
          (fun m => (NVME_SUCCESS, m)) ∧
      ¬ dw_lo cmd.cdw10 < n.cq.length ∧ nvme_create_cq n cmd = none) ∧
    Reachable scenario_w4 ∧ scenario_w4.num_queues = 64 ∧ scenario_w4.cq.length = 64 ∧
    dw_lo (0x00030040 : Nat) = 64 ∧
    nvme_create_cq scenario_w4
      { opcode := 0x05, prp1 := 0x300000, cdw10 := 0x00030040, cdw11 := 0x00010003 } = none ∧
    scenario_cq1.num_queues = 64 ∧ scenario_cq1.sq.length = 64 ∧
    (scenario_cq1.cqAt 1).isSome = true ∧
    nvme_create_sq scenario_cq1
      { opcode := 0x01, prp1 := 0x400000, cdw10 := 0x00030040, cdw11 := 0x00010001 } = none :=
  ⟨fun n cmd hl hc h0 hs hz hp hf =>
      (nvme_create_sq_unbounded n cmd hl hc h0 hs hz hp hf).2,
    fun n cmd hl h0 hs hz hp hv hf => (nvme_create_cq_unbounded n cmd hl h0 hs hz hp hv hf).2,
    scenario_w4_reachable, by decide, by decide, by decide, by decide, by decide, by decide,
    by decide, by decide⟩

/-! ## Pin interrupt status -/

theorem nvme_irq_check_pin (n : NvmeCtrl) (h : n.msix_enabled = false) :
    (nvme_irq_check n).irq_status = n.irq_status ∧
    ((nvme_irq_check n).irq_pin = true ↔
      ∃ j, j < 32 ∧ n.irq_status.testBit j = true ∧ n.bar.intms.testBit j = false) := by
  have hx : 0xFFFFFFFF - n.bar.intms % 2 ^ 32 = 2 ^ 32 - (n.bar.intms % 2 ^ 32 + 1) := by omega
  have hb : ∀ j, ((0xFFFFFFFF - n.bar.intms % 2 ^ 32) &&& n.irq_status).testBit j =
      (decide (j < 32) && !n.bar.intms.testBit j && n.irq_status.testBit j) := by
    intro j
    rw [Nat.testBit_and, hx, Nat.testBit_two_pow_sub_succ (Nat.mod_lt _ (by norm_num)),
      Nat.testBit_mod_two_pow]
    by_cases hj : j < 32 <;> simp [hj]
  have hiff : (0xFFFFFFFF - n.bar.intms % 2 ^ 32) &&& n.irq_status ≠ 0 ↔
      ∃ j, j < 32 ∧ n.irq_status.testBit j = true ∧ n.bar.intms.testBit j = false := by
    constructor
    · intro hne
      obtain ⟨j, hj⟩ := Nat.ne_zero_implies_bit_true hne
      rw [hb j] at hj
      simp only [Bool.and_eq_true, decide_eq_true_eq, Bool.not_eq_true'] at hj
      exact ⟨j, hj.1.1, hj.2, hj.1.2⟩
    · rintro ⟨j, h1, h2, h3⟩ h0
      have := hb j
      rw [h0, Nat.zero_testBit, h2, h3] at this
      simp [h1] at this
  unfold nvme_irq_check
  rw [h]
  simp only [Bool.false_eq_true, if_false]
  split
  · rename_i hc
    exact ⟨rfl, ⟨fun _ => hiff.1 hc, fun _ => rfl⟩⟩
  · rename_i hc
    refine ⟨rfl, ⟨fun hp => ?_, fun he => absurd (hiff.2 he) hc⟩⟩
    simp at hp

theorem nvme_irq_assert_low (n : NvmeCtrl) (cq : NvmeCQueue) (hm : n.msix_enabled = false)
    (he : cq.irq_enabled ≠ 0) (hc : cq.cqid < 31) :
    ∃ m, nvme_irq_assert n cq = some m ∧
      (∀ j, m.irq_status.testBit j = (n.irq_status.testBit j || decide (j = cq.cqid))) ∧
      (m.irq_pin = true ↔
        ∃ j, j < 32 ∧ m.irq_status.testBit j = true ∧ m.bar.intms.testBit j = false) := by
  have hmx : ¬ n.msix_enabled = true := by rw [hm]; decide
  unfold nvme_irq_assert int_one_shl
  rw [if_pos he, if_neg hmx, if_pos (by omega), if_pos hc]
  simp only [Option.map_some']
  obtain ⟨h1, h2⟩ := nvme_irq_check_pin { n with irq_status := n.irq_status ||| 2 ^ cq.cqid } hm
  have hbar : (nvme_irq_check { n with irq_status := n.irq_status ||| 2 ^ cq.cqid }).bar =
      n.bar := by
    unfold nvme_irq_check
    split
    · rfl
    · split <;> rfl
  refine ⟨_, rfl, ?_, ?_⟩
  · intro j
    rw [h1]
    show (n.irq_status ||| 2 ^ cq.cqid).testBit j = _
    rw [Nat.testBit_or, Nat.testBit_two_pow]
    by_cases hj : j = cq.cqid
    · subst hj; simp
    · have : ¬ cq.cqid = j := fun h => hj h.symm
      simp [hj, this]
  · rw [h2, h1, hbar]

theorem nvme_irq_assert_31 (n : NvmeCtrl) (cq : NvmeCQueue) (hm : n.msix_enabled = false)
    (he : cq.irq_enabled ≠ 0) (hc : cq.cqid = 31) :
    (nvme_irq_assert n cq).map (fun m => m.irq_status) =
      some (n.irq_status ||| 0xFFFFFFFF80000000) := by
  have hmx : ¬ n.msix_enabled = true := by rw [hm]; decide
  unfold nvme_irq_assert int_one_shl
  rw [if_pos he, if_neg hmx, if_pos (by omega), if_neg (by omega), if_pos hc]
  simp only [Option.map_some']
  rw [(nvme_irq_check_pin { n with irq_status := n.irq_status ||| 0xFFFFFFFF80000000 } hm).1]

theorem nvme_irq_assert_high (n : NvmeCtrl) (cq : NvmeCQueue) (hm : n.msix_enabled = false)
    (he : cq.irq_enabled ≠ 0) (hc : 32 ≤ cq.cqid) :
    nvme_irq_assert n cq = none := by
  have hmx : ¬ n.msix_enabled = true := by rw [hm]; decide
  unfold nvme_irq_assert int_one_shl
  rw [if_pos he, if_neg hmx]
  split
  · rw [if_neg (by omega), if_neg (by omega)]; rfl
  · rfl

set_option maxRecDepth 4096 in
/-- C32 (refuted for `cqid` 31 to 63): with MSI-X disabled and interrupts
enabled for the queue, `nvme_irq_assert` executes
`n->irq_status |= 1 << cq->cqid` with the `int` constant 1.  For
`cqid < 31` the claim holds: exactly bit `cqid` of the status mask is set, the
other bits are unchanged, and afterwards the pin is asserted if and only if a
status bit is set whose INTMS bit is clear.  For `cqid = 31` the shifted value
is negative and is sign-extended to 64 bits, so bits 31 to 63 are all set; on
the enabled controller of scenario 1 with INTMS = 0x80000000 the status
becomes 0xFFFFFFFF80000000 and the pin stays deasserted although bit 32 is set
and INTMS has no bit 32.  For `cqid` from 32 to 63, which
`assert(cq->cqid < 64)` admits, the shift is undefined. -/
theorem nvme_irq_assert_int_shift :
    (∀ (n : NvmeCtrl) (cq : NvmeCQueue), n.msix_enabled = false → cq.irq_enabled ≠ 0 →
      cq.cqid < 31 →
      ∃ m, nvme_irq_assert n cq = some m ∧
        (∀ j, m.irq_status.testBit j = (n.irq_status.testBit j || decide (j = cq.cqid))) ∧
        (m.irq_pin = true ↔
          ∃ j, j < 32 ∧ m.irq_status.testBit j = true ∧ m.bar.intms.testBit j = false)) ∧
    (∀ (n : NvmeCtrl) (cq : NvmeCQueue), n.msix_enabled = false → cq.irq_enabled ≠ 0 →
      cq.cqid = 31 →
      (nvme_irq_assert n cq).map (fun m => m.irq_status) =
        some (n.irq_status ||| 0xFFFFFFFF80000000)) ∧
    (∀ (n : NvmeCtrl) (cq : NvmeCQueue), n.msix_enabled = false → cq.irq_enabled ≠ 0 →
      32 ≤ cq.cqid → nvme_irq_assert n cq = none) ∧
    scenario_w4.msix_enabled = false ∧ scenario_w4.irq_status = 0 ∧
    (nvme_irq_assert { scenario_w4 with bar := { scenario_w4.bar with intms := 0x80000000 } }
        { cqid := 31, irq_enabled := 1, vector := 31, size := 4, dma_addr := 0x300000 }).map
        (fun m => (m.irq_status, m.irq_status.testBit 32, m.bar.intms.testBit 32, m.irq_pin)) =
      some (0xFFFFFFFF80000000, true, false, false) ∧
    nvme_irq_assert scenario_w4
      { cqid := 32, irq_enabled := 1, vector := 32, size := 4, dma_addr := 0x300000 } = none :=
  ⟨nvme_irq_assert_low, nvme_irq_assert_31, nvme_irq_assert_high, by decide, by decide,
    by decide, by decide⟩

/-! ## Completion queue head doorbell -/

theorem arm_sq_timers_spec (now : Nat) :
    ∀ (l : List Nat) (n : NvmeCtrl),
      (arm_sq_timers now n l).cq = n.cq ∧
      ∀ i, (arm_sq_timers now n l).sqAt i =
        if i ∈ l then (n.sqAt i).map (fun s => { s with timer := some (now + 500) })
        else n.sqAt i := by
  intro l
  induction l with
  | nil => intro n; exact ⟨rfl, fun i => by simp [arm_sq_timers]⟩
  | cons a l ih =>
    intro n
    have hstep : ∃ n1 : NvmeCtrl, arm_sq_timers now n (a :: l) = arm_sq_timers now n1 l ∧
        n1.cq = n.cq ∧
        ∀ i, n1.sqAt i =
          if i = a then (n.sqAt a).map (fun s => { s with timer := some (now + 500) })
          else n.sqAt i := by
      unfold arm_sq_timers
      rw [List.foldl_cons]
      cases hsq : n.sqAt a with
      | none =>
        refine ⟨n, rfl, rfl, fun i => ?_⟩
        split
        · rename_i h; subst h; rw [hsq]; rfl
        · rfl
      | some sq =>
        refine ⟨_, rfl, rfl, fun i => ?_⟩
        unfold NvmeCtrl.sqAt
        simp only
        rw [getD_set_none _ _ _ _ (sqAt_lt hsq)]
        split
        · rfl
        · rfl
    obtain ⟨n1, e1, e2, e3⟩ := hstep
    obtain ⟨h1, h2⟩ := ih n1
    rw [e1]
    refine ⟨h1.trans e2, fun i => ?_⟩
    rw [h2 i, e3 i]
    by_cases hia : i = a
    · subst hia
      simp only [if_true, List.mem_cons, true_or]
      split
      · cases n.sqAt i <;> rfl
      · rfl
    · simp only [hia, if_false, List.mem_cons, false_or]

theorem prp_iter_data_fields {n : PrpCtrl} {s s1 : PrpLoop} {e : Nat}
    (h : prp_iter_data n s e = some s1) :
    prp_ent_invalid n e = false ∧ s1.len = s.len - min s.len n.page_size ∧
    s1.i = s.i + 1 ∧ s1.prp_trans = s.prp_trans ∧ s1.prp_list = s.prp_list ∧
    (s.qsg ≠ [] → s1.qsg = s.qsg ++ [(e, min s.len n.page_size)] ∧ s1.iov = s.iov) := by
  unfold prp_iter_data at h
  split at h
  · cases h
  · rename_i hinv
    simp only at h
    split at h
    · have := Option.some.inj h
      subst this
      exact ⟨by simpa using hinv, rfl, rfl, rfl, rfl, fun _ => ⟨rfl, rfl⟩⟩
    · rename_i hq
      have := Option.some.inj h
      subst this
      have h0 : s.qsg = [] := by simpa using hq
      exact ⟨by simpa using hinv, rfl, rfl, rfl, rfl, fun hne => absurd h0 hne⟩

/-- The two ways through one iteration of the PRP-list loop. -/
theorem prp_iter_cases {n : PrpCtrl} {rd : Nat → Nat → Nat} {s s1 : PrpLoop}
    (h : prp_iter n rd s = some s1) :
    ((s.i + 1 = n.max_prp_ents ∧ s.len > n.page_size) ∧
      prp_ent_invalid n (le64_to_cpu (s.prp_list s.i)) = false ∧
      prp_iter_data n
        { s with i := 0, nents := prp_nents n s.len,
                 prp_trans := prp_trans_of n (prp_nents n s.len),
                 prp_list := nvme_addr_read_list rd (le64_to_cpu (s.prp_list s.i))
                   (prp_trans_of n (prp_nents n s.len)) s.prp_list }
        (le64_to_cpu (nvme_addr_read_list rd (le64_to_cpu (s.prp_list s.i))
          (prp_trans_of n (prp_nents n s.len)) s.prp_list 0)) = some s1) ∨
    (¬ (s.i + 1 = n.max_prp_ents ∧ s.len > n.page_size) ∧
      prp_iter_data n s (le64_to_cpu (s.prp_list s.i)) = some s1) := by
  unfold prp_iter at h
  simp only at h
  split at h
  · rename_i hc
    split at h
    · cases h
    · rename_i hv
      exact Or.inl ⟨hc, by simpa using hv, h⟩
  · rename_i hc
    exact Or.inr ⟨hc, h⟩

/-- A property that every iteration keeps holds at the start of every
iteration. -/
theorem prp_iters_induct {n : PrpCtrl} {rd : Nat → Nat → Nat} (P : PrpLoop → Prop)
    (hstep : ∀ s s1, s.len ≠ 0 → P s → prp_iter n rd s = some s1 → P s1) :
    ∀ (fuel : Nat) (s : PrpLoop), P s → ∀ t ∈ prp_iters n rd fuel s, P t ∧ t.len ≠ 0 := by
  intro fuel
  induction fuel with
  | zero => intro s _ t ht; simp [prp_iters] at ht
  | succ k ih =>
    intro s hP t ht
    unfold prp_iters at ht
    split at ht
    · simp at ht
    · rename_i hlen
      cases hit : prp_iter n rd s with
      | none =>
        simp only [hit, List.mem_singleton] at ht
        subst ht
        exact ⟨hP, hlen⟩
      | some s1 =>
        simp only [hit, List.mem_cons] at ht
        rcases ht with ht | ht
        · subst ht; exact ⟨hP, hlen⟩
        · exact ih s1 (hstep s s1 hlen hP hit) t ht

theorem prp_nents_eq (n : PrpCtrl) (hps : n.page_size = 2 ^ n.page_bits) (r : Nat)
    (hr : r + n.page_size ≤ 2 ^ 32) :
    prp_nents n r = (r + n.page_size - 1) / n.page_size := by
  unfold prp_nents
  rw [Nat.mod_eq_of_lt (by have : 0 < n.page_size := by rw [hps]; positivity
                           omega), Nat.shiftRight_eq_div_pow, hps]

theorem prp_trans_of_div (n : PrpCtrl) (k : Nat) :
    prp_trans_of n k / 8 = min n.max_prp_ents k := by
  unfold prp_trans_of
  omega

theorem prp_index_inv_step (n : PrpCtrl) (rd : Nat → Nat → Nat)
    (hmax : 2 ≤ n.max_prp_ents)
    (s s1 : PrpLoop) (hlen : s.len ≠ 0) (hP : prp_index_inv n s)
    (h : prp_iter n rd s = some s1) : prp_index_inv n s1 := by
  obtain ⟨ha, hb, hc⟩ := hP hlen
  intro hl1
  rcases prp_iter_cases h with ⟨⟨c1, c2⟩, -, hd⟩ | ⟨hnc, hd⟩
  · obtain ⟨-, d1, d2, d3, -, -⟩ := prp_iter_data_fields hd
    simp only at d1 d2 d3
    rw [Nat.min_eq_right (Nat.le_of_lt c2)] at d1
    have e : s1.len + s1.i * n.page_size = s.len := by
      rw [d1, d2]; omega
    rw [e, d3]
    refine ⟨rfl, ?_, by rw [d2]; omega⟩
    have : 0 ≤ s.i * n.page_size := Nat.zero_le _
    omega
  · obtain ⟨-, d1, d2, d3, -, -⟩ := prp_iter_data_fields hd
    have hgt : s.len > n.page_size := by
      by_contra hle
      rw [Nat.min_eq_left (by omega)] at d1
      omega
    rw [Nat.min_eq_right (Nat.le_of_lt hgt)] at d1
    have e : s1.len + s1.i * n.page_size = s.len + s.i * n.page_size := by
      rw [d1, d2, Nat.add_mul]; omega
    rw [e, d3]
    refine ⟨ha, hb, ?_⟩
    rw [d2]
    have : ¬ s.i + 1 = n.max_prp_ents := fun hh => hnc ⟨hh, hgt⟩
    omega

theorem prp_index_inv_init (n : PrpCtrl) (rd : Nat → Nat → Nat) (stack : Nat → Nat)
    (prp2 len : Nat) (qsg : QEMUSGList) (iov : QEMUIOVector)
    (hmax : 2 ≤ n.max_prp_ents) (hlen : len + n.page_size ≤ 2 ^ 32) :
    prp_index_inv n (prp_loop_init n rd stack prp2 len qsg iov) := by
  intro _
  refine ⟨?_, ?_, ?_⟩
  · show prp_trans_of n (prp_nents n len) =
      prp_trans_of n (prp_nents n (len + 0 * n.page_size))
    rw [Nat.zero_mul, Nat.add_zero]
  · show len + 0 * n.page_size + n.page_size ≤ 2 ^ 32
    omega
  · show 0 < n.max_prp_ents
    omega

/-- What the index invariant says about an iteration that starts with bytes
remaining. -/
theorem prp_index_inv_bound (n : PrpCtrl) (hps : n.page_size = 2 ^ n.page_bits)
    (s : PrpLoop) (hlen : s.len ≠ 0) (hP : prp_index_inv n s) :
    s.prp_trans / 8 =
      min n.max_prp_ents ((s.len + s.i * n.page_size + n.page_size - 1) / n.page_size) ∧
    s.i < s.prp_trans / 8 := by
  obtain ⟨ha, hb, hc⟩ := hP hlen
  have hpos : 0 < n.page_size := by rw [hps]; positivity
  have e : s.prp_trans / 8 =
      min n.max_prp_ents ((s.len + s.i * n.page_size + n.page_size - 1) / n.page_size) := by
    rw [ha, prp_trans_of_div, prp_nents_eq n hps _ hb]
  refine ⟨e, ?_⟩
  rw [e]
  have h2 : s.i + 1 ≤ (s.len + s.i * n.page_size + n.page_size - 1) / n.page_size := by
    rw [Nat.le_div_iff_mul_le hpos, Nat.add_mul]
    omega
  simp only [lt_min_iff]
  omega

theorem max_prp_ents_ge (n : PrpCtrl) (hps : n.page_size = 2 ^ n.page_bits)
    (hpb : 12 ≤ n.page_bits) (hmax : n.max_prp_ents = n.page_size / 8) :
    512 ≤ n.max_prp_ents ∧ 4096 ≤ n.page_size := by
  have h1 : 2 ^ 12 ≤ n.page_size := by
    rw [hps]; exact Nat.pow_le_pow_right (by norm_num) hpb
  rw [hmax]
  omega

/-- Without the wrap the index stays among the fetched entries: for
`page_size = 2 ^ page_bits ≥ 4096`, `max_prp_ents = page_size / 8` and a
transfer whose remainder after the first segment satisfies
`rem + page_size ≤ 2 ^ 32` (so that the 32-bit sum `len + page_size - 1` of the
list reads does not wrap), at the start of every iteration of the PRP-list loop
the number of entries fetched by the most recent list read is
`min(max_prp_ents, ceil(remaining / page_size))` for the bytes
`len + i * page_size` that remained at that read, the index `i` is smaller than
that number and at most `max_prp_ents - 1`; and when the iteration follows the
chain pointer, the list read it performs fetches
`min(max_prp_ents, ceil(len / page_size)) > 0` entries, so the entry at index
0 that it reads next has been fetched. -/
theorem prp_list_index_fetched (rd : Nat → Nat → Nat) (stack : Nat → Nat) (iov : QEMUIOVector)
    (prp1 prp2 len : Nat) (n : PrpCtrl)
    (hps : n.page_size = 2 ^ n.page_bits) (hpb : 12 ≤ n.page_bits)
    (hmax : n.max_prp_ents = n.page_size / 8)
    (hlen : prp_rem n prp1 len + n.page_size ≤ 2 ^ 32) :
    ∀ s ∈ prp_list_iters rd stack iov prp1 prp2 len n,
      s.prp_trans / 8 =
        min n.max_prp_ents ((s.len + s.i * n.page_size + n.page_size - 1) / n.page_size) ∧
      s.i < s.prp_trans / 8 ∧ s.i ≤ n.max_prp_ents - 1 ∧
      (s.i + 1 = n.max_prp_ents ∧ s.len > n.page_size →
        prp_trans_of n (prp_nents n s.len) / 8 =
          min n.max_prp_ents ((s.len + n.page_size - 1) / n.page_size) ∧
        0 < prp_trans_of n (prp_nents n s.len) / 8) := by
  obtain ⟨hm, hp⟩ := max_prp_ents_ge n hps hpb hmax
  intro s hs
  unfold prp_list_iters at hs
  obtain ⟨hP, hl⟩ := prp_iters_induct (prp_index_inv n)
    (fun a b h1 h2 h3 => prp_index_inv_step n rd (by omega) a b h1 h2 h3) _ _
    (prp_index_inv_init n rd stack prp2 _ _ _ (by omega) hlen) s hs
  obtain ⟨b1, b2⟩ := prp_index_inv_bound n hps s hl hP
  obtain ⟨-, hb, hc⟩ := hP hl
  refine ⟨b1, b2, by omega, ?_⟩
  rintro ⟨-, c2⟩
  have hr : s.len + n.page_size ≤ 2 ^ 32 := by
    have : 0 ≤ s.i * n.page_size := Nat.zero_le _
    omega
  rw [prp_trans_of_div, prp_nents_eq n hps _ hr]
  refine ⟨rfl, ?_⟩
  have h2 : 1 ≤ (s.len + n.page_size - 1) / n.page_size := by
    rw [Nat.le_div_iff_mul_le (by omega)]
    omega
  simp only [lt_min_iff]
  omega

theorem prp_list_index_fetched_witness :
    (ctrl_4k.page_size = 2 ^ ctrl_4k.page_bits ∧ 12 ≤ ctrl_4k.page_bits ∧
      ctrl_4k.max_prp_ents = ctrl_4k.page_size / 8 ∧
      prp_rem ctrl_4k 0x1000 12288 + ctrl_4k.page_size ≤ 2 ^ 32) ∧
    (prp_list_iters rd_example (fun _ => 0) [] 0x1000 0x5000 12288 ctrl_4k).length = 2 ∧
    ∀ s ∈ prp_list_iters rd_example (fun _ => 0) [] 0x1000 0x5000 12288 ctrl_4k,
      s.i < s.prp_trans / 8 ∧ s.i ≤ ctrl_4k.max_prp_ents - 1 :=
  ⟨⟨by decide, by decide, by decide, by decide⟩, by decide,
    fun s hs =>
      have h := prp_list_index_fetched rd_example (fun _ => 0) [] 0x1000 0x5000 12288 ctrl_4k
        (by decide) (by decide) (by decide) (by decide) s hs
      ⟨h.2.1, h.2.2.1⟩⟩

theorem prp_list_segments_zero (n : PrpCtrl) (rd : Nat → Nat → Nat) (f list i : Nat) :
    prp_list_segments n rd f list i 0 = [] := by
  cases f with
  | zero => rfl
  | succ k => unfold prp_list_segments; rw [if_pos rfl]

/-- The PRP-list loop against the walk of the spec: from a state whose fetched
entries are the words of the list page at `list`, a loop that runs to its end
appends the segments of the walk from index `i` of that page. -/
theorem prp_while_segments (n : PrpCtrl) (rd : Nat → Nat → Nat)
    (hps : n.page_size = 2 ^ n.page_bits) (hmax : 2 ≤ n.max_prp_ents) :
    ∀ (fuel : Nat) (s t : PrpLoop) (list : Nat), prp_index_inv n s →
      prp_fetched_inv rd list s → s.qsg ≠ [] → prp_while n rd fuel s = .done t →
      ∀ f2, 2 * s.len ≤ f2 →
        t.qsg = s.qsg ++ prp_list_segments n rd f2 list s.i s.len ∧ t.iov = s.iov := by
  have hpos : 0 < n.page_size := by rw [hps]; positivity
  intro fuel
  induction fuel with
  | zero =>
    intro s t list _ _ _ h f2 _
    unfold prp_while at h
    split at h
    · rename_i h0
      cases h
      rw [h0, prp_list_segments_zero, List.append_nil]
      exact ⟨rfl, rfl⟩
    · cases h
  | succ k ih =>
    intro s t list hI hF hq h f2 hf
    unfold prp_while at h
    split at h
    · rename_i h0
      cases h
      rw [h0, prp_list_segments_zero, List.append_nil]
      exact ⟨rfl, rfl⟩
    · rename_i hlen
      cases hit : prp_iter n rd s with
      | none => simp [hit] at h
      | some s1 =>
        simp only [hit] at h
        have hI1 := prp_index_inv_step n rd hmax s s1 hlen hI hit
        obtain ⟨b1, b2⟩ := prp_index_inv_bound n hps s hlen hI
        have hent : s.prp_list s.i = rd list s.i := hF _ b2
        have hmin : 1 ≤ min s.len n.page_size := by
          simp only [le_min_iff]; omega
        rcases prp_iter_cases hit with ⟨hc, -, hd⟩ | ⟨hnc, hd⟩
        · obtain ⟨-, d1, d2, d3, d4, d5⟩ := prp_iter_data_fields hd
          simp only at d1 d2 d3 d4 d5
          obtain ⟨q1, q2⟩ := d5 hq
          have hr : s.len + n.page_size ≤ 2 ^ 32 := by
            obtain ⟨-, hb, -⟩ := hI hlen
            have : 0 ≤ s.i * n.page_size := Nat.zero_le _
            omega
          have hfetch : 0 < prp_trans_of n (prp_nents n s.len) / 8 := by
            rw [prp_trans_of_div, prp_nents_eq n hps _ hr]
            have h2 : 1 ≤ (s.len + n.page_size - 1) / n.page_size := by
              rw [Nat.le_div_iff_mul_le hpos]
              omega
            simp only [lt_min_iff]
            omega
          have hF1 : prp_fetched_inv rd (le64_to_cpu (s.prp_list s.i)) s1 := by
            intro j hj
            rw [d3] at hj
            rw [d4]
            unfold nvme_addr_read_list
            rw [if_pos hj]
          have hq1 : s1.qsg ≠ [] := by rw [q1]; simp
          obtain ⟨g, rfl⟩ : ∃ g, f2 = g + 2 := ⟨f2 - 2, by omega⟩
          obtain ⟨r1, r2⟩ := ih s1 t _ hI1 hF1 hq1 h g (by rw [d1]; omega)
          refine ⟨?_, r2.trans q2⟩
          rw [r1, q1, d1, d2]
          have e0 : nvme_addr_read_list rd (le64_to_cpu (s.prp_list s.i))
              (prp_trans_of n (prp_nents n s.len)) s.prp_list 0 =
              rd (le64_to_cpu (s.prp_list s.i)) 0 := by
            unfold nvme_addr_read_list
            rw [if_pos hfetch]
          rw [e0]
          conv_rhs => unfold prp_list_segments
          rw [if_neg hlen, if_pos hc]
          conv_rhs => unfold prp_list_segments
          rw [if_neg hlen, if_neg (by omega), hent, List.append_assoc]
          rfl
        · obtain ⟨-, d1, d2, d3, d4, d5⟩ := prp_iter_data_fields hd
          obtain ⟨q1, q2⟩ := d5 hq
          have hF1 : prp_fetched_inv rd list s1 := by
            intro j hj
            rw [d3] at hj
            rw [d4]
            exact hF j hj
          have hq1 : s1.qsg ≠ [] := by rw [q1]; simp
          obtain ⟨g, rfl⟩ : ∃ g, f2 = g + 1 := ⟨f2 - 1, by omega⟩
          obtain ⟨r1, r2⟩ := ih s1 t _ hI1 hF1 hq1 h g (by rw [d1]; omega)
          refine ⟨?_, r2.trans q2⟩
          rw [r1, q1, d1, d2]
          conv_rhs => unfold prp_list_segments
          rw [if_neg hlen, if_neg hnc, hent, List.append_assoc]
          rfl

/-- Without the wrap the segments are those of the spec: for
`page_size = 2 ^ page_bits ≥ 4096`, `max_prp_ents = page_size / 8` and a
transfer whose remainder `rem` after the first segment satisfies
`rem + page_size ≤ 2 ^ 32`, `nvme_map_prp` in scatter-gather mode (`prp1`
outside the CMB) returns, and when it returns success its scatter-gather list
is exactly the list of the spec: with
`first = min(len, page_size - prp1 mod page_size)`, the segment
`(prp1, first)` alone when `rem = 0`; `(prp1, first), (prp2, rem)` when
`0 < rem ≤ page_size`; otherwise `(prp1, first)` followed by one segment of
length `min(remaining, page_size)` per data entry of the PRP list at `prp2`,
the entry at index `max_prp_ents - 1` of a list page being the pointer to the
next page whenever more than `page_size` bytes remain.  The iovec is left as
it was. -/
theorem nvme_map_prp_segments (rd : Nat → Nat → Nat) (stack : Nat → Nat)
    (qsg : QEMUSGList) (iov : QEMUIOVector) (prp1 prp2 len : Nat) (n : PrpCtrl)
    (hps : n.page_size = 2 ^ n.page_bits) (hpb : 12 ≤ n.page_bits)
    (hmax : n.max_prp_ents = n.page_size / 8)
    (hlen : prp_rem n prp1 len + n.page_size ≤ 2 ^ 32)
    (hsg : in_cmb n prp1 = false) :
    ∃ r, nvme_map_prp rd stack qsg iov prp1 prp2 len n = some r ∧
      (r.status = NVME_SUCCESS →
        r.qsg = prp_segments_expected rd prp1 prp2 len n ∧ r.iov = iov) := by
  obtain ⟨hm, hp⟩ := max_prp_ents_ge n hps hpb hmax
  unfold prp_rem at hlen
  unfold nvme_map_prp prp_segments_expected
  simp only [hsg, Bool.false_eq_true, if_false]
  by_cases h1 : prp1 = 0
  · rw [if_pos h1]
    exact ⟨_, rfl, fun h => absurd h status_ne⟩
  rw [if_neg h1]
  by_cases h2 : len - min len (n.page_size - prp1 % n.page_size) = 0
  · rw [if_neg (by simpa using h2), if_pos h2]
    exact ⟨_, rfl, fun _ => ⟨rfl, rfl⟩⟩
  rw [if_pos h2, if_neg h2]
  by_cases h3 : prp2 = 0
  · rw [if_pos h3]
    exact ⟨_, rfl, fun h => absurd h status_ne⟩
  rw [if_neg h3]
  by_cases h4 : len - min len (n.page_size - prp1 % n.page_size) > n.page_size
  · rw [if_pos h4, if_neg (show ¬ len - min len (n.page_size - prp1 % n.page_size) ≤
      n.page_size by omega)]
    cases hw : prp_while n rd (len - min len (n.page_size - prp1 % n.page_size))
        (prp_loop_init n rd stack prp2 (len - min len (n.page_size - prp1 % n.page_size))
          [(prp1, min len (n.page_size - prp1 % n.page_size))] iov) with
    | done t =>
      refine ⟨_, rfl, fun _ => ?_⟩
      obtain ⟨r1, r2⟩ := prp_while_segments n rd hps (by omega) _ _ t prp2
        (prp_index_inv_init n rd stack prp2 _ _ _ (by omega) hlen)
        (fun j hj => by
          show nvme_addr_read_list rd prp2 _ stack j = rd prp2 j
          unfold nvme_addr_read_list
          exact if_pos hj)
        (by simp [prp_loop_init]) hw
        (2 * (len - min len (n.page_size - prp1 % n.page_size))) (Nat.le_refl _)
      exact ⟨r1, r2⟩
    | unmap => exact ⟨_, rfl, fun h => absurd h status_ne⟩
    | timeout =>
      exact absurd hw (prp_while_ne_timeout (by omega) _ _ (Nat.le_refl _))
  · rw [if_neg h4, if_pos (show len - min len (n.page_size - prp1 % n.page_size) ≤
      n.page_size by omega)]
    by_cases h5 : prp2 &&& (n.page_size - 1) ≠ 0
    · rw [if_pos h5]
      exact ⟨_, rfl, fun h => absurd h status_ne⟩
    · rw [if_neg h5, if_pos (by simp)]
      exact ⟨_, rfl, fun _ => ⟨rfl, rfl⟩⟩

theorem nvme_map_prp_segments_witness :
    (ctrl_4k.page_size = 2 ^ ctrl_4k.page_bits ∧ 12 ≤ ctrl_4k.page_bits ∧
      ctrl_4k.max_prp_ents = ctrl_4k.page_size / 8 ∧
      prp_rem ctrl_4k 0x1000 12288 + ctrl_4k.page_size ≤ 2 ^ 32 ∧
      in_cmb ctrl_4k 0x1000 = false) ∧
    prp_segments_expected rd_example 0x1000 0x5000 12288 ctrl_4k =
      [(0x1000, 4096), (0x2000, 4096), (0x3000, 4096)] ∧
    ∃ r, nvme_map_prp rd_example (fun _ => 0) [] [] 0x1000 0x5000 12288 ctrl_4k = some r ∧
      (r.status = NVME_SUCCESS →
        r.qsg = prp_segments_expected rd_example 0x1000 0x5000 12288 ctrl_4k ∧ r.iov = []) :=
  ⟨⟨by decide, by decide, by decide, by decide, by decide⟩, by decide,
    nvme_map_prp_segments rd_example (fun _ => 0) [] [] 0x1000 0x5000 12288 ctrl_4k
      (by decide) (by decide) (by decide) (by decide) (by decide)⟩

theorem prp_list_consumed_zero (n : PrpCtrl) (rd : Nat → Nat → Nat) (f list i : Nat) :
    prp_list_consumed n rd f list i 0 = [] := by
  cases f with
  | zero => rfl
  | succ k => unfold prp_list_consumed; rw [if_pos rfl]

theorem prp_iter_entries_head (n : PrpCtrl) (rd : Nat → Nat → Nat) (s : PrpLoop) :
    le64_to_cpu (s.prp_list s.i) ∈ prp_iter_entries n rd s := by
  unfold prp_iter_entries
  simp only
  split
  · split <;> simp
  · simp

/-- The PRP-list loop against the walk of the spec: from a state whose fetched
entries are the words of the list page at `list`, the loop leaves through
`unmap` exactly when the walk from index `i` of that page consumes an entry
that is zero or not page-aligned. -/
theorem prp_while_consumed (n : PrpCtrl) (rd : Nat → Nat → Nat)
    (hps : n.page_size = 2 ^ n.page_bits) (hmax : 2 ≤ n.max_prp_ents) :
    ∀ (fuel : Nat) (s : PrpLoop) (list : Nat), prp_index_inv n s →
      prp_fetched_inv rd list s → s.len ≤ fuel →
      ∀ f2, 2 * s.len ≤ f2 →
        (prp_while n rd fuel s = .unmap ↔
          ∃ e ∈ prp_list_consumed n rd f2 list s.i s.len, e = 0 ∨ e % n.page_size ≠ 0) := by
  have hpos : 0 < n.page_size := by rw [hps]; positivity
  have hinv : ∀ e, prp_ent_invalid n e = true ↔ (e = 0 ∨ e % n.page_size ≠ 0) :=
    prp_ent_invalid_iff n hps
  have hval : ∀ e, prp_ent_invalid n e = false → ¬ (e = 0 ∨ e % n.page_size ≠ 0) := by
    intro e h hc
    rw [(hinv e).2 hc] at h
    cases h
  intro fuel
  induction fuel with
  | zero =>
    intro s list _ _ hl f2 _
    have h0 : s.len = 0 := by omega
    unfold prp_while
    rw [if_pos h0, h0, prp_list_consumed_zero]
    simp
  | succ k ih =>
    intro s list hI hF hl f2 hf
    by_cases hlen : s.len = 0
    · unfold prp_while
      rw [if_pos hlen, hlen, prp_list_consumed_zero]
      simp
    · obtain ⟨b1, b2⟩ := prp_index_inv_bound n hps s hlen hI
      have hent : s.prp_list s.i = rd list s.i := hF _ b2
      have hmin : 1 ≤ min s.len n.page_size := by
        simp only [le_min_iff]; omega
      unfold prp_while
      rw [if_neg hlen]
      cases hit : prp_iter n rd s with
      | none =>
        simp only [true_iff]
        obtain ⟨x, hx, hxi⟩ := (prp_iter_eq_none_iff n rd s).1 hit
        obtain ⟨g, rfl⟩ : ∃ g, f2 = g + 2 := ⟨f2 - 2, by omega⟩
        unfold prp_list_consumed
        rw [if_neg hlen, ← hent]
        by_cases he : le64_to_cpu (s.prp_list s.i) = 0 ∨
            le64_to_cpu (s.prp_list s.i) % n.page_size ≠ 0
        · rw [if_pos he]
          exact ⟨_, List.mem_singleton_self _, he⟩
        · rw [if_neg he]
          have hev : prp_ent_invalid n (le64_to_cpu (s.prp_list s.i)) = false := by
            cases hb : prp_ent_invalid n (le64_to_cpu (s.prp_list s.i)) with
            | false => rfl
            | true => exact absurd ((hinv _).1 hb) he
          unfold prp_iter_entries at hx
          simp only at hx
          by_cases hc : s.i + 1 = n.max_prp_ents ∧ s.len > n.page_size
          · rw [if_pos hc, if_neg (by rw [hev]; decide)] at hx
            rw [if_pos hc]
            simp only [List.mem_cons, List.mem_singleton, List.not_mem_nil, or_false] at hx
            rcases hx with hx | hx
            · rw [hx, hev] at hxi; cases hxi
            · have hr : s.len + n.page_size ≤ 2 ^ 32 := by
                obtain ⟨-, hb, -⟩ := hI hlen
                have : 0 ≤ s.i * n.page_size := Nat.zero_le _
                omega
              have hfetch : 0 < prp_trans_of n (prp_nents n s.len) / 8 := by
                rw [prp_trans_of_div, prp_nents_eq n hps _ hr]
                have h2 : 1 ≤ (s.len + n.page_size - 1) / n.page_size := by
                  rw [Nat.le_div_iff_mul_le hpos]
                  omega
                simp only [lt_min_iff]
                omega
              have e0 : nvme_addr_read_list rd (le64_to_cpu (s.prp_list s.i))
                  (prp_trans_of n (prp_nents n s.len)) s.prp_list 0 =
                  rd (le64_to_cpu (s.prp_list s.i)) 0 := by
                unfold nvme_addr_read_list
                rw [if_pos hfetch]
              rw [e0] at hx
              have hx0 := (hinv _).1 hxi
              rw [hx] at hx0
              unfold prp_list_consumed
              rw [if_neg hlen, if_pos hx0]
              exact ⟨_, List.mem_cons_of_mem _ (List.mem_singleton_self _), hx0⟩
          · rw [if_neg hc] at hx
            simp only [List.mem_singleton] at hx
            rw [hx, hev] at hxi; cases hxi
      | some s1 =>
        simp only
        have hI1 := prp_index_inv_step n rd hmax s s1 hlen hI hit
        rcases prp_iter_cases hit with ⟨hc, hv, hd⟩ | ⟨hnc, hd⟩
        · obtain ⟨hv0, d1, d2, d3, d4, -⟩ := prp_iter_data_fields hd
          simp only at d1 d2 d3 d4
          have hr : s.len + n.page_size ≤ 2 ^ 32 := by
            obtain ⟨-, hb, -⟩ := hI hlen
            have : 0 ≤ s.i * n.page_size := Nat.zero_le _
            omega
          have hfetch : 0 < prp_trans_of n (prp_nents n s.len) / 8 := by
            rw [prp_trans_of_div, prp_nents_eq n hps _ hr]
            have h2 : 1 ≤ (s.len + n.page_size - 1) / n.page_size := by
              rw [Nat.le_div_iff_mul_le hpos]
              omega
            simp only [lt_min_iff]
            omega
          have e0 : nvme_addr_read_list rd (le64_to_cpu (s.prp_list s.i))
              (prp_trans_of n (prp_nents n s.len)) s.prp_list 0 =
              rd (le64_to_cpu (s.prp_list s.i)) 0 := by
            unfold nvme_addr_read_list
            rw [if_pos hfetch]
          rw [e0] at hv0
          have hF1 : prp_fetched_inv rd (le64_to_cpu (s.prp_list s.i)) s1 := by
            intro j hj
            rw [d3] at hj
            rw [d4]
            unfold nvme_addr_read_list
            rw [if_pos hj]
          obtain ⟨g, rfl⟩ : ∃ g, f2 = g + 2 := ⟨f2 - 2, by omega⟩
          have hrec := ih s1 _ hI1 hF1 (by rw [d1]; omega) g (by rw [d1]; omega)
          rw [hrec, d1, d2]
          conv_rhs => unfold prp_list_consumed
          rw [if_neg hlen, ← hent, if_neg (hval _ hv), if_pos hc]
          conv_rhs => unfold prp_list_consumed
          rw [if_neg hlen, if_neg (hval _ hv0), if_neg (by omega)]
          simp only [List.mem_cons, exists_eq_or_imp]
          constructor
          · intro h; exact Or.inr (Or.inr h)
          · intro h
            rcases h with h | h | h
            · exact absurd h (hval _ hv)
            · exact absurd h (hval _ hv0)
            · exact h
        · obtain ⟨hv0, d1, d2, d3, d4, -⟩ := prp_iter_data_fields hd
          have hF1 : prp_fetched_inv rd list s1 := by
            intro j hj
            rw [d3] at hj
            rw [d4]
            exact hF j hj
          obtain ⟨g, rfl⟩ : ∃ g, f2 = g + 1 := ⟨f2 - 1, by omega⟩
          have hrec := ih s1 _ hI1 hF1 (by rw [d1]; omega) g (by rw [d1]; omega)
          rw [hrec, d1, d2]
          conv_rhs => unfold prp_list_consumed
          rw [if_neg hlen, ← hent, if_neg (hval _ hv0), if_neg hnc]
          simp only [List.mem_cons, exists_eq_or_imp]
          constructor
          · intro h; exact Or.inr h
          · intro h
            rcases h with h | h
            · exact absurd h (hval _ hv0)
            · exact h

/-- C3 (amended): on a controller with `page_size = 2 ^ page_bits ≥ 4096` and
`max_prp_ents = page_size / 8`, and for a transfer whose remainder `rem` after
the first segment satisfies `rem + page_size ≤ 2 ^ 32` (the 32-bit entry count
of the list reads does not wrap), `nvme_map_prp` returns, with status success
or INVALID_FIELD|DNR, and the status is INVALID_FIELD|DNR exactly when
`prp1 = 0`, or data remains after the first segment and `prp2 = 0`, or the
remainder is non-zero, at most `page_size`, and `prp2` is not page-aligned, or
the remainder exceeds `page_size`, `prp2` is non-zero, and some entry that the
walk of the PRP list at `prp2` consumes (a data entry or a chained list-page
pointer, read from guest memory) is zero or not page-aligned. -/
theorem nvme_map_prp_invalid_field_iff (rd : Nat → Nat → Nat) (stack : Nat → Nat)
    (qsg : QEMUSGList) (iov : QEMUIOVector) (prp1 prp2 len : Nat) (n : PrpCtrl)
    (hps : n.page_size = 2 ^ n.page_bits) (hpb : 12 ≤ n.page_bits)
    (hmax : n.max_prp_ents = n.page_size / 8)
    (hlen : prp_rem n prp1 len + n.page_size ≤ 2 ^ 32) :
    ∃ r, nvme_map_prp rd stack qsg iov prp1 prp2 len n = some r ∧
      (r.status = NVME_SUCCESS ∨ r.status = NVME_INVALID_FIELD ||| NVME_DNR) ∧
      (r.status = NVME_INVALID_FIELD ||| NVME_DNR ↔
        (prp1 = 0 ∨
         (prp_rem n prp1 len ≠ 0 ∧ prp2 = 0) ∨
         (0 < prp_rem n prp1 len ∧ prp_rem n prp1 len ≤ n.page_size ∧
            prp2 % n.page_size ≠ 0) ∨
         (n.page_size < prp_rem n prp1 len ∧ prp2 ≠ 0 ∧
            ∃ e ∈ prp_list_consumed n rd (2 * prp_rem n prp1 len) prp2 0 (prp_rem n prp1 len),
              e = 0 ∨ e % n.page_size ≠ 0))) := by
  obtain ⟨hm, hp⟩ := max_prp_ents_ge n hps hpb hmax
  have hpos : 0 < n.page_size := by rw [hps]; positivity
  unfold prp_rem at hlen
  unfold nvme_map_prp prp_rem
  simp only
  split
  · rename_i h1
    exact ⟨_, rfl, Or.inr rfl, by simp [h1]⟩
  · rename_i h1
    split
    · rename_i hrem
      split
      · rename_i h2
        exact ⟨_, rfl, Or.inr rfl, by simp [prp_unmap, h2, hrem]⟩
      · rename_i h2
        split
        · rename_i hbig
          have hnb : ¬ (len - min len (n.page_size - prp1 % n.page_size) ≤ n.page_size) := by
            omega
          have hcons := prp_while_consumed n rd hps (by omega)
            (len - min len (n.page_size - prp1 % n.page_size))
            (prp_loop_init n rd stack prp2 (len - min len (n.page_size - prp1 % n.page_size))
              (if in_cmb n prp1 then [] else [(prp1, min len (n.page_size - prp1 % n.page_size))])
              (if in_cmb n prp1 then
                [(cmb_index n prp1, min len (n.page_size - prp1 % n.page_size))] else iov))
            prp2 (prp_index_inv_init n rd stack prp2 _ _ _ (by omega) hlen)
            (fun j hj => by
              show nvme_addr_read_list rd prp2 _ stack j = rd prp2 j
              unfold nvme_addr_read_list
              exact if_pos hj)
            (Nat.le_refl _)
            (2 * (len - min len (n.page_size - prp1 % n.page_size))) (Nat.le_refl _)
          split
          · rename_i hw
            refine ⟨_, rfl, Or.inl rfl, ?_⟩
            have := hcons.not.mp (by rw [hw]; simp)
            simp only [h1, h2, hrem, hnb, false_or, false_and, and_false, hbig, true_and,
              ne_eq, not_false_eq_true]
            constructor
            · intro h; exact absurd h.symm status_ne
            · intro h; exact absurd h this
          · rename_i hw
            refine ⟨_, rfl, Or.inr rfl, ?_⟩
            have := hcons.mp hw
            simp only [h1, h2, hrem, hnb, false_or, false_and, and_false, hbig, true_and,
              ne_eq, not_false_eq_true]
            simp only [prp_unmap, true_iff]
            exact this
          · rename_i hw
            exact absurd hw (prp_while_ne_timeout hpos _ _ (Nat.le_refl _))
        · rename_i hbig
          have hle : len - min len (n.page_size - prp1 % n.page_size) ≤ n.page_size := by
            omega
          have hlt : ¬ n.page_size < len - min len (n.page_size - prp1 % n.page_size) := by
            omega
          have hmod : prp2 &&& (n.page_size - 1) = prp2 % n.page_size := by
            rw [hps, Nat.and_pow_two_sub_one_eq_mod]
          split
          · rename_i hal
            refine ⟨_, rfl, Or.inr rfl, ?_⟩
            rw [hmod] at hal
            simp only [prp_unmap, true_iff]
            exact Or.inr (Or.inr (Or.inl ⟨by omega, hle, hal⟩))
          · rename_i hal
            rw [hmod] at hal
            split
            all_goals
              refine ⟨_, rfl, Or.inl rfl, ?_⟩
              simp only [h1, h2, hlt, false_or, false_and, and_false, or_false]
              constructor
              · intro h; exact absurd h.symm status_ne
              · intro h; exact absurd h.2.2 hal
    · rename_i hrem
      have h0 : len - min len (n.page_size - prp1 % n.page_size) = 0 := by
        simpa using hrem
      refine ⟨_, rfl, Or.inl rfl, ?_⟩
      simp only [h1, h0, false_or, ne_eq, not_true_eq_false, false_and, lt_self_iff_false,
        Nat.not_lt_zero, or_false]
      constructor
      · intro h; exact absurd h.symm status_ne
      · intro h; exact absurd h (by simp)

theorem nvme_map_prp_invalid_field_iff_witness :
    (ctrl_4k.page_size = 2 ^ ctrl_4k.page_bits ∧ 12 ≤ ctrl_4k.page_bits ∧
      ctrl_4k.max_prp_ents = ctrl_4k.page_size / 8 ∧
      prp_rem ctrl_4k 0x1000 12288 + ctrl_4k.page_size ≤ 2 ^ 32) ∧
    (prp_rem ctrl_4k 0x1000 12288 = 8192 ∧
      prp_list_consumed ctrl_4k rd_example (2 * 8192) 0x5000 0 8192 = [0x2000, 0x3000] ∧
      prp_list_consumed ctrl_4k rd_example (2 * 8192) 0x6000 0 8192 = [0] ∧
      (nvme_map_prp rd_example (fun _ => 0) [] [] 0x1000 0x5000 12288 ctrl_4k).map
        (fun r => r.status) = some NVME_SUCCESS ∧
      (nvme_map_prp rd_example (fun _ => 0) [] [] 0x1000 0x6000 12288 ctrl_4k).map
        (fun r => r.status) = some (NVME_INVALID_FIELD ||| NVME_DNR)) ∧
    ∃ r, nvme_map_prp rd_example (fun _ => 0) [] [] 0x1000 0x6000 12288 ctrl_4k = some r ∧
      (r.status = NVME_SUCCESS ∨ r.status = NVME_INVALID_FIELD ||| NVME_DNR) ∧
      (r.status = NVME_INVALID_FIELD ||| NVME_DNR ↔
        (0x1000 = 0 ∨
         (prp_rem ctrl_4k 0x1000 12288 ≠ 0 ∧ 0x6000 = 0) ∨
         (0 < prp_rem ctrl_4k 0x1000 12288 ∧ prp_rem ctrl_4k 0x1000 12288 ≤ ctrl_4k.page_size ∧
            0x6000 % ctrl_4k.page_size ≠ 0) ∨
         (ctrl_4k.page_size < prp_rem ctrl_4k 0x1000 12288 ∧ 0x6000 ≠ 0 ∧
            ∃ e ∈ prp_list_consumed ctrl_4k rd_example (2 * prp_rem ctrl_4k 0x1000 12288) 0x6000
                0 (prp_rem ctrl_4k 0x1000 12288),
              e = 0 ∨ e % ctrl_4k.page_size ≠ 0))) :=
  ⟨⟨by decide, by decide, by decide, by decide⟩,
    ⟨by decide, by decide, by decide, by decide, by decide⟩,
    nvme_map_prp_invalid_field_iff rd_example (fun _ => 0) [] [] 0x1000 0x6000 12288 ctrl_4k
      (by decide) (by decide) (by decide) (by decide)⟩

/-! ## Queue rings -/

theorem core_same_refl (n : NvmeCtrl) : core_same n n := ⟨fun _ => rfl, fun _ => rfl⟩

theorem core_same_trans {a b c : NvmeCtrl} (h1 : core_same a b) (h2 : core_same b c) :
    core_same a c :=
  ⟨fun i => (h2.1 i).trans (h1.1 i), fun j => (h2.2 j).trans (h1.2 j)⟩

theorem core_same_of_eq {n m : NvmeCtrl} (h1 : m.sq = n.sq) (h2 : m.cq = n.cq) :
    core_same n m := by
  unfold core_same NvmeCtrl.sqAt NvmeCtrl.cqAt
  rw [h1, h2]
  exact ⟨fun _ => rfl, fun _ => rfl⟩

theorem core_same_set_sq {n : NvmeCtrl} {a : Nat} {s t : NvmeSQueue} (h : n.sqAt a = some s)
    (hc : sq_core t = sq_core s) : core_same n { n with sq := n.sq.set a (some t) } := by
  refine ⟨fun i => ?_, fun _ => rfl⟩
  unfold NvmeCtrl.sqAt
  simp only
  rw [getD_set_none _ _ _ _ (sqAt_lt h)]
  split
  · rename_i hi
    subst hi
    unfold NvmeCtrl.sqAt at h
    rw [h, Option.map_some', Option.map_some', hc]
  · rfl

theorem core_same_set_cq {n : NvmeCtrl} {b : Nat} {c d : NvmeCQueue} (h : n.cqAt b = some c)
    (hc : cq_core d = cq_core c) : core_same n { n with cq := n.cq.set b (some d) } := by
  refine ⟨fun _ => rfl, fun j => ?_⟩
  unfold NvmeCtrl.cqAt
  simp only
  rw [getD_set_none _ _ _ _ (cqAt_lt h)]
  split
  · rename_i hj
    subst hj
    unfold NvmeCtrl.cqAt at h
    rw [h, Option.map_some', Option.map_some', hc]
  · rfl

theorem ring_inv_core {n m : NvmeCtrl} (hn : ring_inv n) (h : core_same n m) : ring_inv m := by
  refine ⟨fun i t ht => ?_, fun j d hd => ?_⟩
  · have e := h.1 i
    rw [ht, Option.map_some'] at e
    cases hs : n.sqAt i with
    | none => rw [hs] at e; simp at e
    | some s =>
      rw [hs, Option.map_some', Option.some.injEq] at e
      unfold sq_core at e
      simp only [Prod.mk.injEq] at e
      obtain ⟨-, e2, e3, e4, e5, -⟩ := e
      have := hn.1 i s hs
      unfold sq_ring at this ⊢
      rw [e2, e3, e4, e5]
      exact this
  · have e := h.2 j
    rw [hd, Option.map_some'] at e
    cases hc : n.cqAt j with
    | none => rw [hc] at e; simp at e
    | some c =>
      rw [hc, Option.map_some', Option.some.injEq] at e
      unfold cq_core at e
      simp only [Prod.mk.injEq] at e
      obtain ⟨e1, e2, e3⟩ := e
      have := hn.2 j c hc
      unfold cq_ring at this ⊢
      rw [e1, e2, e3]
      exact this

theorem ring_inv_set_sq {n : NvmeCtrl} {a : Nat} {t : NvmeSQueue} (hn : ring_inv n)
    (hlt : a < n.sq.length) (ht : sq_ring a t) :
    ring_inv { n with sq := n.sq.set a (some t) } := by
  refine ⟨fun i s hs => ?_, hn.2⟩
  unfold NvmeCtrl.sqAt at hs
  simp only at hs
  rw [getD_set_none _ _ _ _ hlt] at hs
  split at hs
  · rename_i hi
    subst hi
    cases hs
    exact ht
  · exact hn.1 i s hs

theorem ring_inv_set_cq {n : NvmeCtrl} {b : Nat} {d : NvmeCQueue} (hn : ring_inv n)
    (hlt : b < n.cq.length) (hd : cq_ring d) :
    ring_inv { n with cq := n.cq.set b (some d) } := by
  refine ⟨hn.1, fun j c hc => ?_⟩
  unfold NvmeCtrl.cqAt at hc
  simp only at hc
  rw [getD_set_none _ _ _ _ hlt] at hc
  split at hc
  · cases hc
    exact hd
  · exact hn.2 j c hc

theorem ring_inv_sq_none {n : NvmeCtrl} (a : Nat) (hn : ring_inv n) :
    ring_inv { n with sq := n.sq.set a none } := by
  refine ⟨fun i s hs => ?_, hn.2⟩
  unfold NvmeCtrl.sqAt at hs
  simp only at hs
  by_cases hlt : a < n.sq.length
  · rw [getD_set_none _ _ _ _ hlt] at hs
    split at hs
    · cases hs
    · exact hn.1 i s hs
  · rw [List.set_eq_of_length_le (by omega)] at hs
    exact hn.1 i s hs

theorem ring_inv_cq_none {n : NvmeCtrl} (b : Nat) (hn : ring_inv n) :
    ring_inv { n with cq := n.cq.set b none } := by
  refine ⟨hn.1, fun j c hc => ?_⟩
  unfold NvmeCtrl.cqAt at hc
  simp only at hc
  by_cases hlt : b < n.cq.length
  · rw [getD_set_none _ _ _ _ hlt] at hc
    split at hc
    · cases hc
    · exact hn.2 j c hc
  · rw [List.set_eq_of_length_le (by omega)] at hc
    exact hn.2 j c hc

theorem enqueue_core {now : Nat} {n m : NvmeCtrl} {cqid : Nat} {q : NvmeRequest}
    (h : nvme_enqueue_req_completion now n cqid q = some m) : core_same n m := by
  unfold nvme_enqueue_req_completion at h
  split at h
  · rename_i cq sq hcq hsq
    split at h
    · cases h
      exact core_same_trans (core_same_set_sq (t := { sq with
            out_req_list := sq.out_req_list.filter (fun r => decide (r.slot ≠ q.slot)) }) hsq rfl)
        (core_same_set_cq (n := { n with sq := n.sq.set q.sq (some { sq with
            out_req_list := sq.out_req_list.filter (fun r => decide (r.slot ≠ q.slot)) }) })
          (d := { cq with req_list := cq.req_list ++ [q], timer := some (now + 500) }) hcq rfl)
    · cases h
  · cases h

theorem nvme_rw_cb_core {now : Nat} {n m : NvmeCtrl} {q : NvmeRequest} {ret : Int}
    (h : nvme_rw_cb now n q ret = some m) : core_same n m := by
  unfold nvme_rw_cb at h
  split at h
  · cases h
  · exact enqueue_core h

theorem nvme_irq_assert_core {n m : NvmeCtrl} {c : NvmeCQueue}
    (h : nvme_irq_assert n c = some m) : core_same n m := by
  unfold nvme_irq_assert at h
  split at h
  · split at h
    · cases h; exact core_same_of_eq rfl rfl
    · split at h
      · cases hm : int_one_shl c.cqid with
        | none => simp [hm] at h
        | some x =>
          simp only [hm, Option.map_some', Option.some.injEq] at h
          rw [← h]
          exact core_same_of_eq (nvme_irq_check_kept _).2.1 (nvme_irq_check_kept _).2.2
      · simp at h
  · cases h; exact core_same_refl n

theorem nvme_irq_deassert_core {n m : NvmeCtrl} {c : NvmeCQueue}
    (h : nvme_irq_deassert n c = some m) : core_same n m := by
  unfold nvme_irq_deassert at h
  split at h
  · split at h
    · cases h; exact core_same_refl n
    · split at h
      · cases hm : int_not_one_shl c.cqid with
        | none => simp [hm] at h
        | some x =>
          simp only [hm, Option.map_some', Option.some.injEq] at h
          rw [← h]
          exact core_same_of_eq (nvme_irq_check_kept _).2.1 (nvme_irq_check_kept _).2.2
      · simp at h
  · cases h; exact core_same_refl n

theorem nvme_del_sq_cancel_core (env : Env) (qid : Nat) :
    ∀ (fuel : Nat) (n m : NvmeCtrl), nvme_del_sq_cancel env qid fuel n = some m →
      core_same n m := by
  intro fuel
  induction fuel with
  | zero =>
    intro n m h
    unfold nvme_del_sq_cancel at h
    split at h
    · cases h
    · split at h
      · cases h; exact core_same_refl n
      · cases h
  | succ k ih =>
    intro n m h
    unfold nvme_del_sq_cancel at h
    split at h
    · cases h
    · split at h
      · cases h; exact core_same_refl n
      · rename_i req rest hout
        cases hcb : nvme_rw_cb env.now n req (env.aio_ret req) with
        | none => rw [hcb] at h; cases h
        | some n1 =>
          rw [hcb] at h
          exact core_same_trans (nvme_rw_cb_core hcb) (ih n1 m h)

theorem arm_sq_timers_core (now : Nat) (n : NvmeCtrl) (l : List Nat) :
    core_same n (arm_sq_timers now n l) := by
  obtain ⟨h1, h2⟩ := arm_sq_timers_spec now l n
  refine ⟨fun i => ?_, fun j => ?_⟩
  · rw [h2 i]
    split
    · cases n.sqAt i <;> rfl
    · rfl
  · unfold NvmeCtrl.cqAt
    rw [h1]

theorem nvme_inc_sq_head_ring {i : Nat} {s : NvmeSQueue} (free out : List NvmeRequest)
    (h : sq_ring i s) :
    sq_ring i { (nvme_inc_sq_head s) with req_list := free, out_req_list := out } := by
  obtain ⟨h1, h0, h2, h3, h4⟩ := h
  refine ⟨h1, h0, ?_, h3, h4⟩
  show (s.head + 1) % 2 ^ 32 % s.size < s.size
  exact Nat.mod_lt _ (by omega)

theorem fetch_ring {env : Env} {n n1 : NvmeCtrl} {i : Nat} {cmd : NvmeCmd} {r1 : NvmeRequest}
    (hn : ring_inv n) (h : nvme_process_sq_fetch env n i = some (n1, cmd, r1)) :
    ring_inv n1 := by
  unfold nvme_process_sq_fetch at h
  split at h
  · cases h
  · rename_i sq hsq
    split at h
    · split at h
      · cases h
      · rename_i req free hfree
        simp only [Option.some.injEq, Prod.mk.injEq] at h
        rw [← h.1]
        exact ring_inv_set_sq hn (sqAt_lt hsq) (nvme_inc_sq_head_ring _ _ (hn.1 i sq hsq))
    · cases h

theorem nvme_inc_cq_tail_ring {c : NvmeCQueue} (l : List NvmeRequest) (h : cq_ring c) :
    cq_ring { (nvme_inc_cq_tail c) with req_list := l } := by
  obtain ⟨h1, h0, h2, h3⟩ := h
  unfold nvme_inc_cq_tail
  simp only
  split
  · exact ⟨h1, h0, h2, by show 0 < c.size; omega⟩
  · rename_i hlt
    exact ⟨h1, h0, h2, by show (c.tail + 1) % 2 ^ 32 < c.size; omega⟩

theorem post_loop_ring (cqid : Nat) :
    ∀ (reqs : List NvmeRequest) (n m : NvmeCtrl) (w w1 : List (Nat × NvmeCqe)),
      ring_inv n → nvme_post_cqes_loop cqid reqs n w = some (m, w1) → ring_inv m := by
  intro reqs
  induction reqs with
  | nil =>
    intro n m w w1 hn h
    unfold nvme_post_cqes_loop at h
    simp only [Option.some.injEq, Prod.mk.injEq] at h
    rw [← h.1]; exact hn
  | cons req rest ih =>
    intro n m w w1 hn h
    unfold nvme_post_cqes_loop at h
    split at h
    · cases h
    · rename_i cq hcq
      split at h
      · simp only [Option.some.injEq, Prod.mk.injEq] at h
        rw [← h.1]; exact hn
      · split at h
        · cases h
        · rename_i sq hsq
          simp only at h
          refine ih _ m _ w1 ?_ h
          have h1 := ring_inv_set_cq (b := cqid)
            (d := { (nvme_inc_cq_tail cq) with req_list := rest }) hn (cqAt_lt hcq)
            (nvme_inc_cq_tail_ring _ (hn.2 cqid cq hcq))
          have hsr : sq_ring req.sq { sq with
              req_list := sq.req_list ++
                [{ req with cqe := nvme_format_cqe cq sq req }] } := hn.1 req.sq sq hsq
          exact ring_inv_set_sq (a := req.sq) h1 (sqAt_lt hsq) hsr

theorem nvme_post_cqes_ring {n m : NvmeCtrl} {cqid : Nat} {w : List (Nat × NvmeCqe)}
    (hn : ring_inv n) (h : nvme_post_cqes n cqid = some (m, w)) : ring_inv m := by
  unfold nvme_post_cqes at h
  split at h
  · cases h
  · rename_i cq0 hcq0
    cases hl : nvme_post_cqes_loop cqid cq0.req_list n [] with
    | none => rw [hl] at h; cases h
    | some p =>
      obtain ⟨n1, w1⟩ := p
      rw [hl] at h
      simp only at h
      have h1 := post_loop_ring cqid _ _ _ _ _ hn hl
      split at h
      · cases h
      · rename_i cq hcq
        split at h
        · cases ha : nvme_irq_assert n1 cq with
          | none => rw [ha] at h; simp at h
          | some n2 =>
            rw [ha] at h
            simp only [Option.map_some', Option.some.injEq, Prod.mk.injEq] at h
            rw [← h.1]
            exact ring_inv_core h1 (nvme_irq_assert_core ha)
        · simp only [Option.some.injEq, Prod.mk.injEq] at h
          rw [← h.1]; exact h1

theorem nvme_del_sq_reclaim_ring {n m : NvmeCtrl} {qid cqid : Nat} (hn : ring_inv n)
    (h : nvme_del_sq_reclaim n qid cqid = some m) : ring_inv m := by
  unfold nvme_del_sq_reclaim at h
  split at h
  · rename_i cq sq hcq hsq
    cases h
    have h1 := ring_inv_set_cq (b := cqid)
      (d := { cq with req_list := cq.req_list.filter (fun r => decide (r.sq ≠ qid)) }) hn
      (cqAt_lt hcq) (hn.2 cqid cq hcq)
    have hsr : sq_ring qid { sq with
        req_list := sq.req_list ++ cq.req_list.filter (fun r => decide (r.sq = qid)) } :=
      hn.1 qid sq hsq
    exact ring_inv_set_sq (a := qid) h1 (sqAt_lt hsq) hsr
  · cases h

theorem nvme_del_sq_ring {env : Env} {n m : NvmeCtrl} {cmd : NvmeCmd} {st : Nat}
    {w : List (Nat × NvmeCqe)} (hn : ring_inv n)
    (h : nvme_del_sq env n cmd = some (st, m, w)) : ring_inv m := by
  unfold nvme_del_sq at h
  simp only at h
  split at h
  · simp only [Option.some.injEq, Prod.mk.injEq] at h
    rw [← h.2.1]; exact hn
  · split at h
    · cases h
    · rename_i sq0 hsq0
      cases hc : nvme_del_sq_cancel env (dw_lo cmd.cdw10) sq0.out_req_list.length n with
      | none => rw [hc] at h; cases h
      | some n1 =>
        rw [hc] at h
        simp only at h
        have r1 := ring_inv_core hn (nvme_del_sq_cancel_core env _ _ _ _ hc)
        split at h
        · cases h
        · rename_i sq hsq
          split at h
          · split at h
            · cases h
            · rename_i cq hcq
              have r2 : ring_inv { n1 with cq := n1.cq.set sq.cqid (some { cq with
                  sq_list := cq.sq_list.filter (fun i => decide (i ≠ dw_lo cmd.cdw10)) }) } :=
                ring_inv_set_cq r1 (cqAt_lt hcq) (r1.2 _ cq hcq)
              cases hp : nvme_post_cqes { n1 with cq := n1.cq.set sq.cqid (some { cq with
                  sq_list := cq.sq_list.filter (fun i => decide (i ≠ dw_lo cmd.cdw10)) }) }
                  sq.cqid with
              | none => rw [hp] at h; cases h
              | some p =>
                obtain ⟨n3, w3⟩ := p
                rw [hp] at h
                simp only at h
                have r3 := nvme_post_cqes_ring r2 hp
                cases hr : nvme_del_sq_reclaim n3 (dw_lo cmd.cdw10) sq.cqid with
                | none => rw [hr] at h; cases h
                | some n4 =>
                  rw [hr] at h
                  simp only at h
                  have r4 := nvme_del_sq_reclaim_ring r3 hr
                  split at h
                  · cases h
                  · rename_i sq4 hsq4
                    simp only [Option.some.injEq, Prod.mk.injEq] at h
                    rw [← h.2.1]
                    exact ring_inv_sq_none _ r4
          · simp only [Option.some.injEq, Prod.mk.injEq] at h
            rw [← h.2.1]
            exact ring_inv_sq_none _ r1

theorem nvme_init_cq_ring {n m : NvmeCtrl} {dma cqid vector size irq : Nat} (hn : ring_inv n)
    (hs : 2 ≤ size) (hs2 : size ≤ 2 ^ 16)
    (h : nvme_init_cq n dma cqid vector size irq = some m) : ring_inv m := by
  unfold nvme_init_cq at h
  simp only at h
  split at h
  · rename_i hlt
    cases h
    exact ring_inv_set_cq hn hlt ⟨hs, hs2, by show 0 < size; omega, by show 0 < size; omega⟩
  · cases h

theorem nvme_init_sq_ring {n m : NvmeCtrl} {dma sqid cqid size : Nat} (hn : ring_inv n)
    (hs : 2 ≤ size) (hs2 : size ≤ 2 ^ 16) (hb : cqid = 0 ↔ sqid = 0)
    (h : nvme_init_sq n dma sqid cqid size = some m) : ring_inv m := by
  unfold nvme_init_sq at h
  simp only at h
  split at h
  · cases h
  · rename_i cq hcq
    split at h
    · rename_i hlt
      cases h
      have h1 := ring_inv_set_cq (b := cqid)
        (d := { cq with sq_list := cq.sq_list ++ [sqid] }) hn (cqAt_lt hcq) (hn.2 cqid cq hcq)
      exact ring_inv_set_sq (a := sqid) h1 hlt
        ⟨hs, hs2, by show 0 < size; omega, by show 0 < size; omega, hb⟩
    · cases h

theorem NVME_CAP_MQES_le (cap : Nat) : NVME_CAP_MQES cap ≤ 0xffff := by
  unfold NVME_CAP_MQES
  exact Nat.and_le_right

theorem nvme_create_sq_ring {n m : NvmeCtrl} {cmd : NvmeCmd} {st : Nat} (hn : ring_inv n)
    (hcap : NVME_CAP_MQES n.bar.cap < 0xffff)
    (h : nvme_create_sq n cmd = some (st, m)) : ring_inv m := by
  unfold nvme_create_sq at h
  simp only at h
  split at h
  · cases h; exact hn
  · rename_i h1
    split at h
    · cases h; exact hn
    · rename_i h2
      split at h
      · cases h; exact hn
      · rename_i h3
        split at h
        · cases h; exact hn
        · split at h
          · cases h; exact hn
          · cases hi : nvme_init_sq n cmd.prp1 (dw_lo cmd.cdw10) (dw_hi cmd.cdw11)
                ((dw_hi cmd.cdw10 + 1) % 2 ^ 16) with
            | none => rw [hi] at h; simp at h
            | some m1 =>
              rw [hi] at h
              simp only [Option.map_some', Option.some.injEq, Prod.mk.injEq] at h
              rw [← h.2]
              refine nvme_init_sq_ring hn ?_ ?_ ?_ hi
              · omega
              · omega
              · constructor
                · intro hc; exact absurd (Or.inl hc) h1
                · intro hc; exact absurd (Or.inl hc) h2

theorem nvme_create_cq_ring {n m : NvmeCtrl} {cmd : NvmeCmd} {st : Nat} (hn : ring_inv n)
    (hcap : NVME_CAP_MQES n.bar.cap < 0xffff)
    (h : nvme_create_cq n cmd = some (st, m)) : ring_inv m := by
  unfold nvme_create_cq at h
  simp only at h
  split at h
  · cases h; exact hn
  · split at h
    · cases h; exact hn
    · rename_i h3
      split at h
      · cases h; exact hn
      · split at h
        · cases h; exact hn
        · split at h
          · cases h; exact hn
          · cases hi : nvme_init_cq n cmd.prp1 (dw_lo cmd.cdw10) (dw_hi cmd.cdw11)
                ((dw_hi cmd.cdw10 + 1) % 2 ^ 16) (NVME_CQ_FLAGS_IEN (dw_lo cmd.cdw11)) with
            | none => rw [hi] at h; simp at h
            | some m1 =>
              rw [hi] at h
              simp only [Option.map_some', Option.some.injEq, Prod.mk.injEq] at h
              rw [← h.2]
              exact nvme_init_cq_ring hn (by omega) (by omega) hi

theorem nvme_del_cq_ring {n m : NvmeCtrl} {cmd : NvmeCmd} {st : Nat} (hn : ring_inv n)
    (h : nvme_del_cq n cmd = some (st, m)) : ring_inv m := by
  unfold nvme_del_cq at h
  simp only at h
  split at h
  · cases h; exact hn
  · split at h
    · cases h
    · rename_i cq hcq
      split at h
      · cases h; exact hn
      · cases hd : nvme_irq_deassert n cq with
        | none => rw [hd] at h; simp at h
        | some m1 =>
          rw [hd] at h
          simp only [Option.map_some', Option.some.injEq, Prod.mk.injEq] at h
          rw [← h.2]
          exact ring_inv_cq_none _ (ring_inv_core hn (nvme_irq_deassert_core hd))

theorem nvme_admin_cmd_ring {env : Env} {n : NvmeCtrl} {cmd : NvmeCmd} {req : NvmeRequest}
    {o : AdminOut} (hn : ring_inv n) (hcap : NVME_CAP_MQES n.bar.cap < 0xffff)
    (h : nvme_admin_cmd env n cmd req = some o) : ring_inv o.n := by
  unfold nvme_admin_cmd at h
  split at h
  · cases hd : nvme_del_sq env n cmd with
    | none => rw [hd] at h; simp at h
    | some r =>
      obtain ⟨st, m, w⟩ := r
      rw [hd] at h
      simp only [Option.map_some', Option.some.injEq] at h
      rw [← h]
      exact nvme_del_sq_ring hn hd
  · split at h
    · cases hd : nvme_create_sq n cmd with
      | none => rw [hd] at h; simp at h
      | some r =>
        obtain ⟨st, m⟩ := r
        rw [hd] at h
        simp only [Option.map_some', Option.some.injEq] at h
        rw [← h]
        exact nvme_create_sq_ring hn hcap hd
    · split at h
      · cases h; exact hn
      · split at h
        · cases hd : nvme_del_cq n cmd with
          | none => rw [hd] at h; simp at h
          | some r =>
            obtain ⟨st, m⟩ := r
            rw [hd] at h
            simp only [Option.map_some', Option.some.injEq] at h
            rw [← h]
            exact nvme_del_cq_ring hn hd
        · split at h
          · cases hd : nvme_create_cq n cmd with
            | none => rw [hd] at h; simp at h
            | some r =>
              obtain ⟨st, m⟩ := r
              rw [hd] at h
              simp only [Option.map_some', Option.some.injEq] at h
              rw [← h]
              exact nvme_create_cq_ring hn hcap hd
          · split at h
            · cases h; exact hn
            · split at h
              · simp only [Option.some.injEq] at h
                rw [← h]
                simp only
                split
                · exact ring_inv_core hn (core_same_of_eq rfl rfl)
                · exact hn
              · split at h
                · cases h; exact hn
                · cases h; exact hn

theorem nvme_process_sq_dispatch_ring {env : Env} {n1 m : NvmeCtrl} {sq : NvmeSQueue}
    {cmd : NvmeCmd} {r1 : NvmeRequest} {w : List (Nat × NvmeCqe)} (hn : ring_inv n1)
    (hcap : NVME_CAP_MQES n1.bar.cap < 0xffff)
    (h : nvme_process_sq_dispatch env n1 sq cmd r1 = some (m, w)) : ring_inv m := by
  unfold nvme_process_sq_dispatch at h
  split at h
  · simp only at h
    split at h
    · cases he : nvme_enqueue_req_completion env.now n1 sq.cqid
          { r1 with status := env.nvme_io_cmd n1 cmd r1 } with
      | none => rw [he] at h; simp at h
      | some m1 =>
        rw [he] at h
        simp only [Option.map_some', Option.some.injEq, Prod.mk.injEq] at h
        rw [← h.1]
        exact ring_inv_core hn (enqueue_core he)
    · simp only [Option.some.injEq, Prod.mk.injEq] at h
      rw [← h.1]
      exact hn
  · cases ha : nvme_admin_cmd env n1 cmd r1 with
    | none => rw [ha] at h; simp at h
    | some o =>
      rw [ha] at h
      simp only at h
      have u := nvme_admin_cmd_ring hn hcap ha
      split at h
      · cases he : nvme_enqueue_req_completion env.now o.n sq.cqid
            { r1 with status := o.status, cqe := { r1.cqe with result := o.result } } with
        | none => rw [he] at h; simp at h
        | some m1 =>
          rw [he] at h
          simp only [Option.map_some', Option.some.injEq, Prod.mk.injEq] at h
          rw [← h.1]
          exact ring_inv_core u (enqueue_core he)
      · simp only [Option.some.injEq, Prod.mk.injEq] at h
        rw [← h.1]
        exact u

theorem quiet_bar {n m : NvmeCtrl} (h : quiet n m) : m.bar = n.bar := by
  have := h.1
  unfold queue_frame at this
  rw [this]

theorem nvme_process_sq_iter_ring {env : Env} {n m : NvmeCtrl} {sqid : Nat}
    {w : List (Nat × NvmeCqe)} (hn : ring_inv n) (hcap : NVME_CAP_MQES n.bar.cap < 0xffff)
    (h : nvme_process_sq_iter env n sqid = some (m, w)) : ring_inv m := by
  unfold nvme_process_sq_iter at h
  cases hs : n.sqAt sqid with
  | none => rw [hs] at h; simp at h
  | some sq =>
    cases hf : nvme_process_sq_fetch env n sqid with
    | none => rw [hs, hf] at h; simp at h
    | some p =>
      obtain ⟨n1, cmd, r1⟩ := p
      rw [hs, hf] at h
      simp only at h
      have hb : n1.bar = n.bar := quiet_bar (fetch_quiet hf)
      exact nvme_process_sq_dispatch_ring (fetch_ring hn hf) (by rw [hb]; exact hcap) h

theorem nvme_process_sq_loop_ring (envs : Nat → Env) (sqid : Nat) :
    ∀ (fuel k : Nat) (n m : NvmeCtrl) (w w1 : List (Nat × NvmeCqe)), queues_inv n →
      NVME_CAP_MQES n.bar.cap < 0xffff → ring_inv n →
      nvme_process_sq_loop envs sqid fuel k n w = some (m, w1) → ring_inv m := by
  intro fuel
  induction fuel with
  | zero =>
    intro k n m w w1 hq hcap hn h
    unfold nvme_process_sq_loop at h
    split at h
    · simp at h
    · split at h
      · simp at h
      · simp only [Option.some.injEq, Prod.mk.injEq] at h
        rw [← h.1]; exact hn
  | succ fuel ih =>
    intro k n m w w1 hq hcap hn h
    unfold nvme_process_sq_loop at h
    split at h
    · simp at h
    · split at h
      · cases hi : nvme_process_sq_iter (envs k) n sqid with
        | none => rw [hi] at h; simp at h
        | some p =>
          obtain ⟨n1, w2⟩ := p
          rw [hi] at h
          simp only at h
          have hb : n1.bar = n.bar := quiet_bar (nvme_process_sq_iter_quiet hq hi)
          exact ih _ _ _ _ _ (nvme_process_sq_iter_inv hq hi) (by rw [hb]; exact hcap)
            (nvme_process_sq_iter_ring hn hcap hi) h
      · simp only [Option.some.injEq, Prod.mk.injEq] at h
        rw [← h.1]; exact hn

theorem nvme_process_sq_ring {envs : Nat → Env} {n m : NvmeCtrl} {sqid : Nat}
    {w : List (Nat × NvmeCqe)} (hq : queues_inv n) (hcap : NVME_CAP_MQES n.bar.cap < 0xffff)
    (hn : ring_inv n) (h : nvme_process_sq envs n sqid = some (m, w)) : ring_inv m := by
  unfold nvme_process_sq at h
  split at h
  · simp at h
  · exact nvme_process_sq_loop_ring envs sqid _ _ _ _ _ _ hq hcap hn h

theorem ring_inv_of_none {m : NvmeCtrl} (h1 : ∀ i, m.sqAt i = none)
    (h2 : ∀ j, m.cqAt j = none) : ring_inv m :=
  ⟨fun i s hs => absurd hs (by rw [h1 i]; simp), fun j c hc => absurd hc (by rw [h2 j]; simp)⟩

theorem nvme_clear_ctrl_ring {n : NvmeCtrl} (hq : queues_inv n) :
    ring_inv (nvme_clear_ctrl n) := by
  obtain ⟨-, -, -, a4, a5⟩ := nvme_clear_ctrl_inv hq
  exact ring_inv_of_none a4 a5

theorem NVME_AQA_le (aqa : Nat) : NVME_AQA_ASQS aqa ≤ 0xfff ∧ NVME_AQA_ACQS aqa ≤ 0xfff := by
  unfold NVME_AQA_ASQS NVME_AQA_ACQS
  exact ⟨Nat.and_le_right, Nat.and_le_right⟩

theorem nvme_start_ctrl_init_ring {now : Nat} {n m : NvmeCtrl} {pb ps : Nat} {r : Int}
    (hn : ring_inv n) (ha : NVME_AQA_ASQS n.bar.aqa ≠ 0) (hc : NVME_AQA_ACQS n.bar.aqa ≠ 0)
    (h : nvme_start_ctrl_init now n pb ps = some (r, m)) : ring_inv m := by
  unfold nvme_start_ctrl_init at h
  simp only at h
  split at h
  · cases h
  · rename_i n2 hi
    have r1 : ring_inv
        { n with page_bits := pb % 2 ^ 16, page_size := ps,
                 max_prp_ents := (ps / 8) % 2 ^ 16,
                 cqe_size := (1 <<< NVME_CC_IOCQES n.bar.cc) % 2 ^ 16,
                 sqe_size := (1 <<< NVME_CC_IOSQES n.bar.cc) % 2 ^ 16 } :=
      ring_inv_core hn (core_same_of_eq rfl rfl)
    have hle := NVME_AQA_le n.bar.aqa
    have r2 := nvme_init_cq_ring r1 (by omega) (by omega) hi
    have hb : n2.bar = n.bar := by
      unfold nvme_init_cq at hi
      simp only at hi
      split at hi
      · cases hi; rfl
      · cases hi
    split at h
    · cases h
    · rename_i n3 hj
      rw [hb] at hj
      have r3 := nvme_init_sq_ring r2 (by omega) (by omega) Iff.rfl hj
      simp only [Option.some.injEq, Prod.mk.injEq] at h
      rw [← h.2]
      exact ring_inv_core r3 (core_same_of_eq rfl rfl)

theorem nvme_start_ctrl_ring {now : Nat} {n m : NvmeCtrl} {r : Int} (hn : ring_inv n)
    (h : nvme_start_ctrl now n = some (r, m)) : ring_inv m := by
  by_cases hp : enable_preconditions n
  · rw [nvme_start_ctrl_ok now n hp] at h
    exact nvme_start_ctrl_init_ring hn hp.2.2.2.2.2.2.2.2.2.2.2.2.1
      hp.2.2.2.2.2.2.2.2.2.2.2.2.2 h
  · rw [nvme_start_ctrl_fail now n hp] at h
    simp only [Option.some.injEq, Prod.mk.injEq] at h
    rw [← h.2]
    exact hn

theorem nvme_write_cc_data_core (n : NvmeCtrl) (data : Nat) :
    core_same n (nvme_write_cc_data n data) := by
  unfold nvme_write_cc_data
  split
  · exact core_same_of_eq rfl rfl
  · exact core_same_refl n

theorem nvme_write_cc_en_ring {now : Nat} {n m : NvmeCtrl} {data : Nat} (hq : queues_inv n)
    (hn : ring_inv n) (h : nvme_write_cc_en now n data = some m) : ring_inv m := by
  unfold nvme_write_cc_en at h
  split at h
  · split at h
    · cases h
    · rename_i r m1 hst
      have r1 := nvme_start_ctrl_ring
        (ring_inv_core hn (core_same_of_eq
          (m := { n with bar := { n.bar with cc := data % 2 ^ 32 } }) rfl rfl)) hst
      split at h
      · cases h
        exact ring_inv_core r1 (core_same_of_eq rfl rfl)
      · cases h
        exact ring_inv_core r1 (core_same_of_eq rfl rfl)
  · split at h
    · cases h
      exact ring_inv_core (nvme_clear_ctrl_ring hq) (core_same_of_eq rfl rfl)
    · cases h
      exact hn

theorem nvme_write_cc_shn_ring {n : NvmeCtrl} {d : Nat} (hq : queues_inv n)
    (hn : ring_inv n) : ring_inv (nvme_write_cc_shn n d) := by
  unfold nvme_write_cc_shn
  split
  · simp only
    exact ring_inv_core (nvme_clear_ctrl_ring hq)
      (core_same_of_eq (nvme_smart_inc_kept _).2.1 (nvme_smart_inc_kept _).2.2.1)
  · split
    · exact ring_inv_core hn (core_same_of_eq rfl rfl)
    · exact hn

theorem nvme_write_cc_ring {now : Nat} {n m : NvmeCtrl} {data : Nat} (hq : queues_inv n)
    (hn : ring_inv n) (h : nvme_write_cc now n data = some m) : ring_inv m := by
  unfold nvme_write_cc at h
  cases hen : nvme_write_cc_en now (nvme_write_cc_data n data) data with
  | none => rw [hen] at h; simp at h
  | some n2 =>
    rw [hen] at h
    simp only [Option.map_some', Option.some.injEq] at h
    rw [← h]
    have hd := nvme_write_cc_data_same n data
    have q1 := queues_inv_congr hd hq
    exact nvme_write_cc_shn_ring (nvme_write_cc_en_inv q1 hen).1
      (nvme_write_cc_en_ring q1 (ring_inv_core hn (nvme_write_cc_data_core n data)) hen)

theorem nvme_write_bar_core {now : Nat} {n m : NvmeCtrl} {offset data size : Nat}
    (h14 : offset ≠ 0x14) (h : nvme_write_bar now n offset data size = some m) :
    core_same n m := by
  unfold nvme_write_bar at h
  by_cases h1 : offset = 0xc
  · rw [if_pos h1] at h
    simp only [Option.some.injEq] at h
    rw [← h]
    exact core_same_of_eq (nvme_irq_check_kept _).2.1 (nvme_irq_check_kept _).2.2
  rw [if_neg h1] at h
  by_cases h2 : offset = 0x10
  · rw [if_pos h2] at h
    simp only [Option.some.injEq] at h
    rw [← h]
    exact core_same_of_eq (nvme_irq_check_kept _).2.1 (nvme_irq_check_kept _).2.2
  rw [if_neg h2, if_neg h14] at h
  by_cases h4 : offset = 0x1C
  · rw [if_pos h4] at h
    cases h; exact core_same_refl n
  rw [if_neg h4] at h
  by_cases h5 : offset = 0x20
  · rw [if_pos h5] at h
    cases h; exact core_same_refl n
  rw [if_neg h5] at h
  by_cases h6 : offset = 0x24
  · rw [if_pos h6] at h
    cases h; exact core_same_of_eq rfl rfl
  rw [if_neg h6] at h
  by_cases h7 : offset = 0x28
  · rw [if_pos h7] at h
    cases h; exact core_same_of_eq rfl rfl
  rw [if_neg h7] at h
  by_cases h8 : offset = 0x2c
  · rw [if_pos h8] at h
    cases h; exact core_same_of_eq rfl rfl
  rw [if_neg h8] at h
  by_cases h9 : offset = 0x30
  · rw [if_pos h9] at h
    cases h; exact core_same_of_eq rfl rfl
  rw [if_neg h9] at h
  by_cases h10 : offset = 0x34
  · rw [if_pos h10] at h
    cases h; exact core_same_of_eq rfl rfl
  rw [if_neg h10] at h
  by_cases h11 : offset = 0x38
  · rw [if_pos h11] at h
    cases h; exact core_same_refl n
  rw [if_neg h11] at h
  by_cases h12 : offset = 0x3C
  · rw [if_pos h12] at h
    cases h; exact core_same_refl n
  rw [if_neg h12] at h
  cases h; exact core_same_refl n

theorem nvme_write_bar_ring {now : Nat} {n m : NvmeCtrl} {offset data size : Nat}
    (hq : queues_inv n) (hn : ring_inv n)
    (h : nvme_write_bar now n offset data size = some m) : ring_inv m := by
  by_cases h14 : offset = 0x14
  · unfold nvme_write_bar at h
    rw [if_neg (by omega), if_neg (by omega), if_pos h14] at h
    exact nvme_write_cc_ring hq hn h
  · exact ring_inv_core hn (nvme_write_bar_core h14 h)

theorem db_cq_ring {now : Nat} {n m : NvmeCtrl} {qid v : Nat} {cq : NvmeCQueue}
    (hn : ring_inv n) (hcq : n.cqAt qid = some cq) (hv : v < cq.size)
    (h : (let start_sqs := nvme_cq_full cq
          let cq1 := { cq with head := v }
          let n1 := { n with cq := n.cq.set qid (some cq1) }
          let n2 :=
            if start_sqs then
              let m := arm_sq_timers now n1 cq1.sq_list
              { m with cq := m.cq.set qid (some { cq1 with timer := some (now + 500) }) }
            else n1
          if cq1.tail = cq1.head then nvme_irq_deassert n2 cq1 else some n2) = some m) :
    ring_inv m := by
  obtain ⟨c1, c0, c2, c3⟩ := hn.2 qid cq hcq
  have h1 : ring_inv { n with cq := n.cq.set qid (some { cq with head := v }) } :=
    ring_inv_set_cq hn (cqAt_lt hcq) ⟨c1, c0, hv, c3⟩
  have ha := ring_inv_core h1 (arm_sq_timers_core now
    { n with cq := n.cq.set qid (some { cq with head := v }) } cq.sq_list)
  have hlen : (arm_sq_timers now { n with cq := n.cq.set qid (some { cq with head := v }) }
      cq.sq_list).cq.length = n.cq.length := by
    rw [(arm_sq_timers_spec now cq.sq_list _).1]
    simp
  have h3 : ring_inv
      { (arm_sq_timers now { n with cq := n.cq.set qid (some { cq with head := v }) }
          cq.sq_list) with
        cq := (arm_sq_timers now
          { n with cq := n.cq.set qid (some { cq with head := v }) } cq.sq_list).cq.set qid
            (some { cq with head := v, timer := some (now + 500) }) } :=
    ring_inv_set_cq ha (by rw [hlen]; exact cqAt_lt hcq) ⟨c1, c0, hv, c3⟩
  simp only at h
  by_cases hf : nvme_cq_full cq = true
  · simp only [hf, if_true] at h
    split at h
    · exact ring_inv_core h3 (nvme_irq_deassert_core h)
    · cases h; exact h3
  · simp only [hf] at h
    split at h
    · exact ring_inv_core h1 (nvme_irq_deassert_core h)
    · cases h; exact h1

theorem nvme_process_db_ring {now : Nat} {n m : NvmeCtrl} {addr val : Nat}
    (hn : ring_inv n) (h : nvme_process_db now n addr val = some m) : ring_inv m := by
  unfold nvme_process_db at h
  split at h
  · cases h; exact hn
  · split at h
    · simp only at h
      split at h
      · cases h; exact hn
      · split at h
        · simp at h
        · rename_i cq hcq
          split at h
          · cases h; exact hn
          · rename_i hv
            exact db_cq_ring (v := val &&& 0xffff) hn hcq (by omega) h
    · simp only at h
      split at h
      · cases h; exact hn
      · split at h
        · simp at h
        · rename_i sq hsq
          split at h
          · cases h; exact hn
          · rename_i hv
            cases h
            obtain ⟨s1, s0, s2, s3, s4⟩ := hn.1 _ sq hsq
            exact ring_inv_set_sq hn (sqAt_lt hsq)
              ⟨s1, s0, s2, by show val &&& 0xffff < sq.size; omega, s4⟩

theorem nvme_mmio_write_ring {now : Nat} {n m : NvmeCtrl} {addr data size : Nat}
    (hq : queues_inv n) (hn : ring_inv n)
    (h : nvme_mmio_write now n addr data size = some m) : ring_inv m := by
  unfold nvme_mmio_write at h
  split at h
  · exact nvme_write_bar_ring hq hn h
  · split at h
    · exact nvme_process_db_ring hn h
    · cases h; exact hn

theorem nvme_realize_ring (num_queues cmb_size_mb : Nat) (power_cycles : Nat × Nat) :
    ring_inv (nvme_realize num_queues cmb_size_mb power_cycles) := by
  refine ring_inv_of_none (fun i => ?_) (fun j => ?_)
  · exact getD_replicate_none _ _
  · exact getD_replicate_none _ _

theorem regs_inv_mqes {n : NvmeCtrl} (h : regs_inv n) : NVME_CAP_MQES n.bar.cap < 0xffff := by
  rw [h.2.2.1]
  decide

theorem step_ring {n m : NvmeCtrl} (hq : queues_inv n) (hr : regs_inv n) (hn : ring_inv n)
    (h : Step n m) : ring_inv m := by
  cases h with
  | mmio_write now addr data size h => exact nvme_mmio_write_ring hq hn h
  | sq_timer envs sqid h => exact nvme_process_sq_ring hq (regs_inv_mqes hr) hn h
  | cq_timer cqid h => exact nvme_post_cqes_ring hn h
  | aio_complete now req ret hs hin h => exact ring_inv_core hn (nvme_rw_cb_core h)
  | pci_config b addr => exact ring_inv_core hn (core_same_of_eq rfl rfl)
  | exit => exact nvme_clear_ctrl_ring hq

/-- The ring invariant holds in every reachable state. -/
theorem reachable_ring {n : NvmeCtrl} (h : Reachable n) : ring_inv n := by
  induction h with
  | realize nq cmb pc => exact nvme_realize_ring nq cmb pc
  | step hr hs ih => exact step_ring (reachable_inv hr) (reachable_regs_inv hr) ih hs

/-- C37: in every reachable state every existing submission queue and every
existing completion queue has `size ≥ 2`, `head < size` and `tail < size`. -/
theorem queue_rings_well_formed (n : NvmeCtrl) (hr : Reachable n) :
    (∀ i s, n.sqAt i = some s → 2 ≤ s.size ∧ s.head < s.size ∧ s.tail < s.size) ∧
    (∀ j c, n.cqAt j = some c → 2 ≤ c.size ∧ c.head < c.size ∧ c.tail < c.size) := by
  obtain ⟨h1, h2⟩ := reachable_ring hr
  exact ⟨fun i s hs => ⟨(h1 i s hs).1, (h1 i s hs).2.2.1, (h1 i s hs).2.2.2.1⟩,
    fun j c hc => ⟨(h2 j c hc).1, (h2 j c hc).2.2⟩⟩

theorem queue_rings_well_formed_witness :
    Reachable scenario_w6 ∧
    (scenario_w6.sqAt 0).map (fun s => (s.size, s.head, s.tail)) = some (5, 1, 1) ∧
    (∀ i s, scenario_w6.sqAt i = some s → 2 ≤ s.size ∧ s.head < s.size ∧ s.tail < s.size) ∧
    (∀ j c, scenario_w6.cqAt j = some c → 2 ≤ c.size ∧ c.head < c.size ∧ c.tail < c.size) :=
  ⟨scenario_w6_reachable, by decide, queue_rings_well_formed scenario_w6 scenario_w6_reachable⟩

/-! ## Run of a submission queue -/

theorem sq_stay_refl (n : NvmeCtrl) (i : Nat) : sq_stay n n i := fun s hs => ⟨s, hs, rfl⟩

theorem sq_stay_trans {a b c : NvmeCtrl} {i : Nat} (h1 : sq_stay a b i) (h2 : sq_stay b c i) :
    sq_stay a c i := by
  intro s hs
  obtain ⟨t, ht, e1⟩ := h1 s hs
  obtain ⟨u, hu, e2⟩ := h2 t ht
  exact ⟨u, hu, e2.trans e1⟩

theorem sq_stay_of_eq {n m : NvmeCtrl} {i : Nat} (h : m.sqAt i = n.sqAt i) : sq_stay n m i :=
  fun s hs => ⟨s, by rw [h, hs], rfl⟩

theorem sq_stay_of_core {n m : NvmeCtrl} (h : core_same n m) (i : Nat) : sq_stay n m i := by
  intro s hs
  have e := h.1 i
  rw [hs, Option.map_some'] at e
  cases ht : m.sqAt i with
  | none => rw [ht] at e; simp at e
  | some t =>
    rw [ht, Option.map_some', Option.some.injEq] at e
    exact ⟨t, rfl, e⟩

theorem post_loop_sqAt (cqid i : Nat) :
    ∀ (reqs : List NvmeRequest) (n m : NvmeCtrl) (w w1 : List (Nat × NvmeCqe)),
      (∀ r ∈ reqs, r.sq ≠ i) → nvme_post_cqes_loop cqid reqs n w = some (m, w1) →
      m.sqAt i = n.sqAt i := by
  intro reqs
  induction reqs with
  | nil =>
    intro n m w w1 _ h
    unfold nvme_post_cqes_loop at h
    simp only [Option.some.injEq, Prod.mk.injEq] at h
    rw [← h.1]
  | cons req rest ih =>
    intro n m w w1 hr h
    unfold nvme_post_cqes_loop at h
    split at h
    · cases h
    · rename_i cq hcq
      split at h
      · simp only [Option.some.injEq, Prod.mk.injEq] at h
        rw [← h.1]
      · split at h
        · cases h
        · rename_i sq hsq
          simp only at h
          rw [ih _ m _ w1 (fun r hr1 => hr r (List.mem_cons_of_mem _ hr1)) h]
          have hne : i ≠ req.sq := fun e => hr req (List.mem_cons_self _ _) e.symm
          exact (getD_set_none _ _ _ _ (sqAt_lt hsq)).trans (if_neg hne)

theorem nvme_post_cqes_stay {n m : NvmeCtrl} {cqid i : Nat} {w : List (Nat × NvmeCqe)}
    {c : NvmeCQueue} (hc : n.cqAt cqid = some c) (hr : ∀ r ∈ c.req_list, r.sq ≠ i)
    (h : nvme_post_cqes n cqid = some (m, w)) : sq_stay n m i := by
  unfold nvme_post_cqes at h
  rw [hc] at h
  simp only at h
  cases hl : nvme_post_cqes_loop cqid c.req_list n [] with
  | none => rw [hl] at h; cases h
  | some p =>
    obtain ⟨n1, w1⟩ := p
    rw [hl] at h
    simp only at h
    have h1 : sq_stay n n1 i := sq_stay_of_eq (post_loop_sqAt cqid i _ _ _ _ _ hr hl)
    split at h
    · cases h
    · rename_i cq hcq
      split at h
      · cases ha : nvme_irq_assert n1 cq with
        | none => rw [ha] at h; simp at h
        | some n2 =>
          rw [ha] at h
          simp only [Option.map_some', Option.some.injEq, Prod.mk.injEq] at h
          rw [← h.1]
          exact sq_stay_trans h1 (sq_stay_of_core (nvme_irq_assert_core ha) i)
      · simp only [Option.some.injEq, Prod.mk.injEq] at h
        rw [← h.1]; exact h1

theorem nvme_del_sq_stay {env : Env} {n m : NvmeCtrl} {cmd : NvmeCmd} {st : Nat}
    {w : List (Nat × NvmeCqe)} (hn : queues_inv n) (hr : ring_inv n)
    (h : nvme_del_sq env n cmd = some (st, m, w)) : sq_stay n m 0 := by
  unfold nvme_del_sq at h
  simp only at h
  by_cases hq : dw_lo cmd.cdw10 = 0 ∨ nvme_check_sqid n (dw_lo cmd.cdw10) ≠ 0
  · rw [if_pos hq] at h
    simp only [Option.some.injEq, Prod.mk.injEq] at h
    rw [← h.2.1]
    exact sq_stay_refl n 0
  · rw [if_neg hq] at h
    have hq0 : dw_lo cmd.cdw10 ≠ 0 := fun h0 => hq (Or.inl h0)
    cases hs0 : n.sqAt (dw_lo cmd.cdw10) with
    | none => simp [hs0] at h
    | some sq0 =>
      simp only [hs0] at h
      cases hcan : nvme_del_sq_cancel env (dw_lo cmd.cdw10) sq0.out_req_list.length n with
      | none => simp [hcan] at h
      | some n1 =>
        simp only [hcan] at h
        obtain ⟨⟨a1, a2⟩, a3⟩ := nvme_del_sq_cancel_inv env _ _ _ _ hn hcan
        have k1 := nvme_del_sq_cancel_core env _ _ _ _ hcan
        have r1 := ring_inv_core hr k1
        cases hs1 : n1.sqAt (dw_lo cmd.cdw10) with
        | none => simp [hs1] at h
        | some sq =>
          simp only [hs1] at h
          obtain ⟨-, -, -, cq, hcq, -⟩ := a1.2.2.1 _ sq hs1
          rw [if_pos (check_cqid_of_some a1.2.1 hcq)] at h
          simp only [hcq] at h
          have hsq2 : ∀ i, NvmeCtrl.sqAt { n1 with cq := n1.cq.set sq.cqid (some { cq with
              sq_list := cq.sq_list.filter (fun i => decide (i ≠ dw_lo cmd.cdw10)) }) } i =
              if i = dw_lo cmd.cdw10 then some sq else n1.sqAt i := by
            intro i
            split
            · rename_i hi; rw [hi, ← hs1]; rfl
            · rfl
          have hcq2 := cqAt_set (m := { n1 with cq := n1.cq.set sq.cqid (some { cq with
              sq_list := cq.sq_list.filter (fun i => decide (i ≠ dw_lo cmd.cdw10)) }) })
            (cqAt_lt hcq) rfl
          obtain ⟨b1, -⟩ := queues_core_update a1 hs1 hcq rfl (by rfl) (by rfl) (by simp)
            hsq2 hcq2 rfl rfl rfl rfl (a1.2.2.1 _ sq hs1).2.1 (a1.2.2.1 _ sq hs1).2.2.1
            (List.Perm.refl _) (fun _ _ => rfl) (fun _ hx => Or.inl hx)
          have k2 : core_same n1 { n1 with cq := n1.cq.set sq.cqid (some { cq with
              sq_list := cq.sq_list.filter (fun i => decide (i ≠ dw_lo cmd.cdw10)) }) } :=
            core_same_set_cq hcq rfl
          have r2 := ring_inv_core r1 k2
          have hcq2' := (hcq2 sq.cqid).trans (if_pos rfl)
          have hcid : sq.cqid ≠ 0 := fun e =>
            hq0 ((r1.1 _ sq hs1).2.2.2.2.1 e)
          have hpend : ∀ r ∈ ({ cq with
              sq_list := cq.sq_list.filter (fun i => decide (i ≠ dw_lo cmd.cdw10)) } :
                NvmeCQueue).req_list, r.sq ≠ 0 := by
            intro r hr0 e
            obtain ⟨s, hs, hb⟩ := (b1.2.2.2 _ _ hcq2').2 r hr0
            rw [e] at hs
            exact hcid (hb.symm.trans ((r2.1 0 s hs).2.2.2.2.2 rfl))
          cases hp : nvme_post_cqes { n1 with cq := n1.cq.set sq.cqid (some { cq with
              sq_list := cq.sq_list.filter (fun i => decide (i ≠ dw_lo cmd.cdw10)) }) } sq.cqid with
          | none => rw [hp] at h; simp at h
          | some p =>
            obtain ⟨n3, w3⟩ := p
            simp only [hp] at h
            obtain ⟨c1, c2, c3⟩ := nvme_post_cqes_inv b1 hp
            have k3 := nvme_post_cqes_stay (i := 0) hcq2' hpend hp
            obtain ⟨s3, hs3, -, hs3c⟩ := c3 (dw_lo cmd.cdw10) sq hs1
            cases hrc : nvme_del_sq_reclaim n3 (dw_lo cmd.cdw10) sq.cqid with
            | none => simp [hrc] at h
            | some n4 =>
              simp only [hrc] at h
              obtain ⟨d1, d2, d3, s4, c4, hs4, hs4c, hc4, hnone⟩ :=
                nvme_del_sq_reclaim_inv c1 hs3 hs3c hrc
              have k4 : sq_stay n3 n4 0 := fun s hs =>
                ⟨s, d3 0 s (fun e => hq0 e.symm) hs, rfl⟩
              simp only [hs4, Option.some.injEq, Prod.mk.injEq] at h
              obtain ⟨-, hm, -⟩ := h
              subst hm
              have hid : s4.sqid = dw_lo cmd.cdw10 := (d1.2.2.1 _ s4 hs4).1
              have k5 : sq_stay n4 (nvme_free_sq s4 n4) 0 := by
                apply sq_stay_of_eq
                rw [sqAt_set (m := nvme_free_sq s4 n4) (by rw [hid]; exact sqAt_lt hs4) rfl,
                  if_neg (by rw [hid]; exact Ne.symm hq0)]
              exact sq_stay_trans (sq_stay_of_core k1 0) (sq_stay_trans (sq_stay_of_core k2 0)
                (sq_stay_trans k3 (sq_stay_trans k4 k5)))

theorem nvme_create_sq_stay {n m : NvmeCtrl} {cmd : NvmeCmd} {st : Nat}
    (h : nvme_create_sq n cmd = some (st, m)) : sq_stay n m 0 := by
  unfold nvme_create_sq at h
  simp only at h
  split at h
  · cases h; exact sq_stay_refl n 0
  · split at h
    · cases h; exact sq_stay_refl n 0
    · rename_i hq
      split at h
      · cases h; exact sq_stay_refl n 0
      · split at h
        · cases h; exact sq_stay_refl n 0
        · split at h
          · cases h; exact sq_stay_refl n 0
          · cases hi : nvme_init_sq n cmd.prp1 (dw_lo cmd.cdw10) (dw_hi cmd.cdw11)
                ((dw_hi cmd.cdw10 + 1) % 2 ^ 16) with
            | none => rw [hi] at h; simp at h
            | some m1 =>
              rw [hi] at h
              simp only [Option.map_some', Option.some.injEq, Prod.mk.injEq] at h
              rw [← h.2]
              have h0 : dw_lo cmd.cdw10 ≠ 0 := fun h0 => hq (Or.inl h0)
              unfold nvme_init_sq at hi
              simp only at hi
              split at hi
              · cases hi
              · split at hi
                · rename_i hlt
                  simp only [Option.some.injEq] at hi
                  apply sq_stay_of_eq
                  rw [sqAt_set (m := m1) hlt (by rw [← hi]), if_neg (Ne.symm h0)]
                · cases hi

theorem nvme_create_cq_stay {n m : NvmeCtrl} {cmd : NvmeCmd} {st : Nat} (i : Nat)
    (h : nvme_create_cq n cmd = some (st, m)) : sq_stay n m i := by
  unfold nvme_create_cq at h
  simp only at h
  split at h
  · cases h; exact sq_stay_refl n i
  · split at h
    · cases h; exact sq_stay_refl n i
    · split at h
      · cases h; exact sq_stay_refl n i
      · split at h
        · cases h; exact sq_stay_refl n i
        · split at h
          · cases h; exact sq_stay_refl n i
          · cases hi : nvme_init_cq n cmd.prp1 (dw_lo cmd.cdw10) (dw_hi cmd.cdw11)
                ((dw_hi cmd.cdw10 + 1) % 2 ^ 16) (NVME_CQ_FLAGS_IEN (dw_lo cmd.cdw11)) with
            | none => rw [hi] at h; simp at h
            | some m1 =>
              rw [hi] at h
              simp only [Option.map_some', Option.some.injEq, Prod.mk.injEq] at h
              rw [← h.2]
              unfold nvme_init_cq at hi
              simp only at hi
              split at hi
              · cases hi
                exact sq_stay_of_eq rfl
              · cases hi

theorem nvme_del_cq_stay {n m : NvmeCtrl} {cmd : NvmeCmd} {st : Nat} (i : Nat)
    (h : nvme_del_cq n cmd = some (st, m)) : sq_stay n m i := by
  unfold nvme_del_cq at h
  simp only at h
  split at h
  · cases h; exact sq_stay_refl n i
  · split at h
    · cases h
    · rename_i cq hcq
      split at h
      · cases h; exact sq_stay_refl n i
      · cases hd : nvme_irq_deassert n cq with
        | none => rw [hd] at h; simp at h
        | some m1 =>
          rw [hd] at h
          simp only [Option.map_some', Option.some.injEq, Prod.mk.injEq] at h
          rw [← h.2]
          exact sq_stay_trans (sq_stay_of_core (nvme_irq_deassert_core hd) i)
            (sq_stay_of_eq rfl)

theorem nvme_admin_cmd_stay {env : Env} {n : NvmeCtrl} {cmd : NvmeCmd} {req : NvmeRequest}
    {o : AdminOut} (hq : queues_inv n) (hr : ring_inv n)
    (h : nvme_admin_cmd env n cmd req = some o) : sq_stay n o.n 0 := by
  unfold nvme_admin_cmd at h
  split at h
  · cases hd : nvme_del_sq env n cmd with
    | none => rw [hd] at h; simp at h
    | some r =>
      obtain ⟨st, m, w⟩ := r
      rw [hd] at h
      simp only [Option.map_some', Option.some.injEq] at h
      rw [← h]
      exact nvme_del_sq_stay hq hr hd
  · split at h
    · cases hd : nvme_create_sq n cmd with
      | none => rw [hd] at h; simp at h
      | some r =>
        obtain ⟨st, m⟩ := r
        rw [hd] at h
        simp only [Option.map_some', Option.some.injEq] at h
        rw [← h]
        exact nvme_create_sq_stay hd
    · split at h
      · cases h; exact sq_stay_refl n 0
      · split at h
        · cases hd : nvme_del_cq n cmd with
          | none => rw [hd] at h; simp at h
          | some r =>
            obtain ⟨st, m⟩ := r
            rw [hd] at h
            simp only [Option.map_some', Option.some.injEq] at h
            rw [← h]
            exact nvme_del_cq_stay 0 hd
        · split at h
          · cases hd : nvme_create_cq n cmd with
            | none => rw [hd] at h; simp at h
            | some r =>
              obtain ⟨st, m⟩ := r
              rw [hd] at h
              simp only [Option.map_some', Option.some.injEq] at h
              rw [← h]
              exact nvme_create_cq_stay 0 hd
          · split at h
            · cases h; exact sq_stay_refl n 0
            · split at h
              · simp only [Option.some.injEq] at h
                rw [← h]
                simp only
                split
                · exact sq_stay_of_eq rfl
                · exact sq_stay_refl n 0
              · split at h
                · cases h; exact sq_stay_refl n 0
                · cases h; exact sq_stay_refl n 0

/-- The second half of an iteration leaves the running queue as the first half
left it, up to the in-flight list and the timer. -/
theorem nvme_process_sq_dispatch_stay {env : Env} {n1 m : NvmeCtrl} {sq : NvmeSQueue}
    {cmd : NvmeCmd} {r1 : NvmeRequest} {w : List (Nat × NvmeCqe)} {i : Nat}
    (hq : queues_inv n1) (hr : ring_inv n1) (hi : sq.sqid = i)
    (h : nvme_process_sq_dispatch env n1 sq cmd r1 = some (m, w)) : sq_stay n1 m i := by
  unfold nvme_process_sq_dispatch at h
  split at h
  · simp only at h
    split at h
    · cases he : nvme_enqueue_req_completion env.now n1 sq.cqid
          { r1 with status := env.nvme_io_cmd n1 cmd r1 } with
      | none => rw [he] at h; simp at h
      | some m1 =>
        rw [he] at h
        simp only [Option.map_some', Option.some.injEq, Prod.mk.injEq] at h
        rw [← h.1]
        exact sq_stay_of_core (enqueue_core he) i
    · simp only [Option.some.injEq, Prod.mk.injEq] at h
      rw [← h.1]
      exact sq_stay_refl n1 i
  · rename_i h0
    have hi0 : i = 0 := by
      rw [← hi]
      by_contra hne
      exact h0 hne
    subst hi0
    cases ha : nvme_admin_cmd env n1 cmd r1 with
    | none => rw [ha] at h; simp at h
    | some o =>
      rw [ha] at h
      simp only at h
      have u := nvme_admin_cmd_stay hq hr ha
      split at h
      · cases he : nvme_enqueue_req_completion env.now o.n sq.cqid
            { r1 with status := o.status, cqe := { r1.cqe with result := o.result } } with
        | none => rw [he] at h; simp at h
        | some m1 =>
          rw [he] at h
          simp only [Option.map_some', Option.some.injEq, Prod.mk.injEq] at h
          rw [← h.1]
          exact sq_stay_trans u (sq_stay_of_core (enqueue_core he) 0)
      · simp only [Option.some.injEq, Prod.mk.injEq] at h
        rw [← h.1]
        exact u

/-- What the first half of an iteration does: the command is read at
`sq->dma_addr + sq->head * n->sqe_size` (the product in 32 bits, the sum in 64
bits), the head advances by one modulo the size, the first free request leaves
the free list and, with a completion entry that is zero but for the command
id, joins the in-flight list. -/
theorem nvme_process_sq_fetch_spec {env : Env} {n n1 : NvmeCtrl} {i : Nat} {cmd : NvmeCmd}
    {r1 : NvmeRequest} {s : NvmeSQueue} (hs : n.sqAt i = some s)
    (h : nvme_process_sq_fetch env n i = some (n1, cmd, r1)) :
    ∃ req free, s.req_list = req :: free ∧ s.head ≠ s.tail ∧
      cmd = env.fetch ((s.dma_addr + (s.head * n.sqe_size) % 2 ^ 32) % 2 ^ 64) ∧
      r1 = { req with cqe := { cid := cmd.cid } } ∧
      n1.sqAt i = some { s with head := ((s.head + 1) % 2 ^ 32) % s.size, req_list := free,
                                out_req_list := s.out_req_list ++ [r1] } := by
  unfold nvme_process_sq_fetch at h
  rw [hs] at h
  simp only at h
  split at h
  · rename_i hc
    have hne : s.head ≠ s.tail := by
      unfold nvme_process_sq_cond nvme_sq_empty at hc
      intro e
      simp [e] at hc
    split at h
    · cases h
    · rename_i req free hfree
      simp only [Option.some.injEq, Prod.mk.injEq] at h
      obtain ⟨e1, e2, e3⟩ := h
      refine ⟨req, free, hfree, hne, e2.symm, ?_, ?_⟩
      · rw [← e3, ← e2]
      · rw [← e1, ← e3]
        exact (getD_set_none _ _ _ _ (sqAt_lt hs)).trans (if_pos rfl)
  · cases h

/-- One iteration of the loop of `nvme_process_sq`, seen from the running
queue. -/
theorem nvme_process_sq_iter_sq {env : Env} {n m : NvmeCtrl} {i : Nat}
    {w : List (Nat × NvmeCqe)} {s : NvmeSQueue} (hq : queues_inv n) (hr : ring_inv n)
    (hs : n.sqAt i = some s) (h : nvme_process_sq_iter env n i = some (m, w)) :
    ∃ req free t, s.req_list = req :: free ∧ s.head ≠ s.tail ∧ m.sqAt i = some t ∧
      t.head = (s.head + 1) % s.size ∧ t.tail = s.tail ∧ t.size = s.size ∧
      t.dma_addr = s.dma_addr ∧ t.req_list = free := by
  unfold nvme_process_sq_iter at h
  rw [hs] at h
  cases hf : nvme_process_sq_fetch env n i with
  | none => rw [hf] at h; simp at h
  | some p =>
    obtain ⟨n1, cmd, r1⟩ := p
    rw [hf] at h
    simp only at h
    obtain ⟨req, free, e1, e2, -, -, e5⟩ := nvme_process_sq_fetch_spec hs hf
    have hid : s.sqid = i := (hq.1.2.2.1 i s hs).1
    obtain ⟨t, ht, hc⟩ := nvme_process_sq_dispatch_stay (fetch_inv hq hf).1 (fetch_ring hr hf)
      hid h _ e5
    unfold sq_core at hc
    simp only [Prod.mk.injEq] at hc
    obtain ⟨-, -, c3, c4, c5, c6, c7⟩ := hc
    obtain ⟨-, hsz, hh, -, -⟩ := hr.1 i s hs
    refine ⟨req, free, t, e1, e2, ht, ?_, c5, c3, c6, c7⟩
    rw [c4, Nat.mod_eq_of_lt (show s.head + 1 < 2 ^ 32 by
      have : (2 : Nat) ^ 16 < 2 ^ 32 := by norm_num
      omega)]

theorem ring_dist_succ (h t S : Nat) (hh : h < S) (ht : t < S) (hne : h ≠ t) :
    (t + S - (h + 1) % S) % S + 1 = (t + S - h) % S := by
  by_cases h1 : h + 1 < S
  · rw [Nat.mod_eq_of_lt h1]
    by_cases h2 : h < t
    · have e1 : t + S - (h + 1) = (t - h - 1) + S := by omega
      have e2 : t + S - h = (t - h) + S := by omega
      rw [e1, e2, Nat.add_mod_right, Nat.add_mod_right, Nat.mod_eq_of_lt (by omega),
        Nat.mod_eq_of_lt (by omega)]
      omega
    · rw [Nat.mod_eq_of_lt (by omega), Nat.mod_eq_of_lt (by omega)]
      omega
  · have e : h + 1 = S := by omega
    rw [e, Nat.mod_self, Nat.sub_zero, Nat.add_mod_right, Nat.mod_eq_of_lt ht]
    have e2 : t + S - h = t + 1 := by omega
    rw [e2, Nat.mod_eq_of_lt (by omega)]

theorem sq_run_count_zero {s : NvmeSQueue} (hh : s.head < s.size)
    (h : nvme_process_sq_cond s = false) :
    sq_run_count s = 0 ∧ (s.head = s.tail ∨ s.req_list = []) := by
  unfold nvme_process_sq_cond nvme_sq_empty at h
  simp only [Bool.not_eq_false', Bool.or_eq_true, decide_eq_true_eq,
    List.isEmpty_iff] at h
  unfold sq_run_count sq_pending_cmds
  rcases h with h | h
  · refine ⟨?_, Or.inl h⟩
    rw [← h]
    have e : s.head + s.size - s.head = s.size := by omega
    rw [e, Nat.mod_self]
    exact Nat.zero_min _
  · refine ⟨?_, Or.inr h⟩
    rw [h]
    exact Nat.min_zero _

theorem sq_run_count_succ {s t : NvmeSQueue} {req : NvmeRequest} {free : List NvmeRequest}
    (hh : s.head < s.size) (ht : s.tail < s.size) (hne : s.head ≠ s.tail)
    (e1 : s.req_list = req :: free) (e2 : t.head = (s.head + 1) % s.size)
    (e3 : t.tail = s.tail) (e4 : t.size = s.size) (e5 : t.req_list = free) :
    sq_run_count s = sq_run_count t + 1 := by
  unfold sq_run_count sq_pending_cmds
  rw [e2, e3, e4, e5, e1, List.length_cons, ← ring_dist_succ s.head s.tail s.size hh ht hne]
  omega

/-- The loop of `nvme_process_sq`, seen from the running queue: it consumes
`sq_run_count` commands. -/
theorem nvme_process_sq_loop_count (envs : Nat → Env) (i : Nat) :
    ∀ (fuel k : Nat) (n m : NvmeCtrl) (w w1 : List (Nat × NvmeCqe)) (s : NvmeSQueue),
      queues_inv n → NVME_CAP_MQES n.bar.cap < 0xffff → ring_inv n → n.sqAt i = some s →
      nvme_process_sq_loop envs i fuel k n w = some (m, w1) →
      ∃ t, m.sqAt i = some t ∧ t.head = (s.head + sq_run_count s) % s.size ∧
        t.tail = s.tail ∧ t.size = s.size ∧ t.dma_addr = s.dma_addr ∧
        t.req_list = s.req_list.drop (sq_run_count s) ∧
        (t.head = t.tail ∨ t.req_list = []) := by
  intro fuel
  induction fuel with
  | zero =>
    intro k n m w w1 s hq hcap hr hs h
    obtain ⟨-, -, hh, -, -⟩ := hr.1 i s hs
    unfold nvme_process_sq_loop at h
    rw [hs] at h
    simp only at h
    split at h
    · cases h
    · rename_i hc
      simp only [Option.some.injEq, Prod.mk.injEq] at h
      obtain ⟨z1, z2⟩ := sq_run_count_zero hh (by simpa using hc)
      rw [← h.1, z1]
      exact ⟨s, hs, by rw [Nat.add_zero, Nat.mod_eq_of_lt hh], rfl, rfl, rfl, rfl, z2⟩
  | succ fuel ih =>
    intro k n m w w1 s hq hcap hr hs h
    obtain ⟨-, -, hh, ht, -⟩ := hr.1 i s hs
    unfold nvme_process_sq_loop at h
    rw [hs] at h
    simp only at h
    split at h
    · cases hi : nvme_process_sq_iter (envs k) n i with
      | none => rw [hi] at h; simp at h
      | some p =>
        obtain ⟨n1, w2⟩ := p
        rw [hi] at h
        simp only at h
        obtain ⟨req, free, t1, e1, e2, ht1, f1, f2, f3, f4, f5⟩ :=
          nvme_process_sq_iter_sq hq hr hs hi
        have hb : n1.bar = n.bar := quiet_bar (nvme_process_sq_iter_quiet hq hi)
        obtain ⟨t, g1, g2, g3, g4, g5, g6, g7⟩ := ih _ _ _ _ _ t1
          (nvme_process_sq_iter_inv hq hi) (by rw [hb]; exact hcap)
          (nvme_process_sq_iter_ring hr hcap hi) ht1 h
        have hk := sq_run_count_succ hh ht e2 e1 f1 f2 f3 f5
        refine ⟨t, g1, ?_, g3.trans f2, g4.trans f3, g5.trans f4, ?_, g7⟩
        · rw [g2, f1, f3, hk, Nat.mod_add_mod]
          congr 1
          omega
        · rw [g6, f5, hk, e1, List.drop_succ_cons]
    · rename_i hc
      simp only [Option.some.injEq, Prod.mk.injEq] at h
      obtain ⟨z1, z2⟩ := sq_run_count_zero hh (by simpa using hc)
      rw [← h.1, z1]
      exact ⟨s, hs, by rw [Nat.add_zero, Nat.mod_eq_of_lt hh], rfl, rfl, rfl, rfl, z2⟩

theorem sq_run_count_pos {s : NvmeSQueue} (hh : s.head < s.size) (ht : s.tail < s.size)
    (h : nvme_process_sq_cond s = true) : 0 < sq_run_count s := by
  unfold nvme_process_sq_cond nvme_sq_empty at h
  simp only [Bool.not_eq_true', Bool.or_eq_false_iff, decide_eq_false_iff_not,
    List.isEmpty_eq_false_iff_exists_mem] at h
  obtain ⟨hne, r, hr⟩ := h
  have hl : 0 < s.req_list.length := List.length_pos_of_mem hr
  have hp : 0 < sq_pending_cmds s := by
    unfold sq_pending_cmds
    have := ring_dist_succ s.head s.tail s.size hh ht hne
    omega
  unfold sq_run_count
  exact lt_min hp hl

/-- An admin command that is not one of the four queue commands is defined; it
leaves the queues as they are. -/
theorem nvme_admin_cmd_some_of_opcode (env : Env) (n : NvmeCtrl) (cmd : NvmeCmd)
    (req : NvmeRequest) (hq : queues_inv n)
    (hop : cmd.opcode ≠ 0x00 ∧ cmd.opcode ≠ 0x01 ∧ cmd.opcode ≠ 0x04 ∧ cmd.opcode ≠ 0x05) :
    ∃ o, nvme_admin_cmd env n cmd req = some o ∧ queues_inv o.n ∧
      ∀ i, o.n.sqAt i = n.sqAt i := by
  obtain ⟨h0, h1, h4, h5⟩ := hop
  unfold nvme_admin_cmd
  rw [if_neg h0, if_neg h1]
  split
  · exact ⟨_, rfl, hq, fun _ => rfl⟩
  · try rw [if_neg h4, if_neg h5]
    split
    · exact ⟨_, rfl, hq, fun _ => rfl⟩
    · split
      · refine ⟨_, rfl, ?_, ?_⟩
        · simp only
          split
          · exact queues_inv_congr (same_queues_of_eq rfl rfl rfl) hq
          · exact hq
        · intro i
          simp only
          split
          · rfl
          · rfl
      · split
        · exact ⟨_, rfl, hq, fun _ => rfl⟩
        · exact ⟨_, rfl, hq, fun _ => rfl⟩

/-- An iteration of the loop of `nvme_process_sq` is defined on an I/O queue,
and on the admin queue when the command fetched is not a queue command. -/
theorem nvme_process_sq_iter_some {env : Env} {n : NvmeCtrl} {i : Nat} {s : NvmeSQueue}
    (hq : queues_inv n) (hs : n.sqAt i = some s) (hc : nvme_process_sq_cond s = true)
    (hop : i ≠ 0 ∨ ∀ addr, (env.fetch addr).opcode ≠ 0x00 ∧ (env.fetch addr).opcode ≠ 0x01 ∧
      (env.fetch addr).opcode ≠ 0x04 ∧ (env.fetch addr).opcode ≠ 0x05) :
    ∃ m w, nvme_process_sq_iter env n i = some (m, w) := by
  have hid : s.sqid = i := (hq.1.2.2.1 i s hs).1
  unfold nvme_process_sq_iter
  rw [hs]
  cases hf : nvme_process_sq_fetch env n i with
  | none =>
    unfold nvme_process_sq_fetch at hf
    rw [hs] at hf
    simp only [hc, if_true] at hf
    split at hf
    · rename_i hnil
      unfold nvme_process_sq_cond at hc
      rw [hnil] at hc
      simp at hc
    · cases hf
  | some p =>
    obtain ⟨n1, cmd, r1⟩ := p
    simp only
    obtain ⟨req, free, e1, e2, e3, e4, e5⟩ := nvme_process_sq_fetch_spec hs hf
    obtain ⟨q1, q2, -⟩ := fetch_inv hq hf
    have hs1 : n1.sqAt r1.sq = some { s with
        head := ((s.head + 1) % 2 ^ 32) % s.size, req_list := free,
        out_req_list := s.out_req_list ++ [r1] } := by rw [q2]; exact e5
    unfold nvme_process_sq_dispatch
    by_cases hi0 : s.sqid ≠ 0
    · rw [if_pos hi0]
      simp only
      split
      · obtain ⟨c, m1, -, -, he⟩ := enqueue_some env.now q1
          (q := { r1 with status := env.nvme_io_cmd n1 cmd r1 }) hs1
        have he' : nvme_enqueue_req_completion env.now n1 s.cqid
            { r1 with status := env.nvme_io_cmd n1 cmd r1 } = some m1 := he
        rw [he']
        exact ⟨_, _, rfl⟩
      · exact ⟨_, _, rfl⟩
    · rw [if_neg hi0]
      have hi : i = 0 := by
        rw [← hid]
        by_contra hne
        exact hi0 hne
      have hopc : cmd.opcode ≠ 0x00 ∧ cmd.opcode ≠ 0x01 ∧ cmd.opcode ≠ 0x04 ∧
          cmd.opcode ≠ 0x05 := by
        rcases hop with h | h
        · exact absurd hi h
        · rw [e3]; exact h _
      obtain ⟨o, ho, hqo, hso⟩ := nvme_admin_cmd_some_of_opcode env n1 cmd r1 q1 hopc
      rw [ho]
      simp only
      split
      · obtain ⟨c, m1, -, -, he⟩ := enqueue_some env.now hqo
          (q := { r1 with status := o.status, cqe := { r1.cqe with result := o.result } })
          (s := { s with head := ((s.head + 1) % 2 ^ 32) % s.size, req_list := free,
                         out_req_list := s.out_req_list ++ [r1] })
          (by rw [hso]; exact hs1)
        have he' : nvme_enqueue_req_completion env.now o.n s.cqid
            { r1 with status := o.status, cqe := { r1.cqe with result := o.result } } =
            some m1 := he
        rw [he']
        exact ⟨_, _, rfl⟩
      · exact ⟨_, _, rfl⟩

/-- The loop of `nvme_process_sq` is `sq_run_count` iterations of its body: the
iterations it is given suffice. -/
theorem nvme_process_sq_loop_iters (envs : Nat → Env) (i : Nat) :
    ∀ (fuel k : Nat) (n : NvmeCtrl) (w : List (Nat × NvmeCqe)) (s : NvmeSQueue),
      queues_inv n → NVME_CAP_MQES n.bar.cap < 0xffff → ring_inv n → n.sqAt i = some s →
      s.req_list.length ≤ fuel →
      (nvme_process_sq_loop envs i fuel k n w).map (fun r => r.1) =
        nvme_process_sq_iters envs i (sq_run_count s) k n := by
  intro fuel
  induction fuel with
  | zero =>
    intro k n w s hq hcap hr hs hl
    obtain ⟨-, -, hh, -, -⟩ := hr.1 i s hs
    have hnil : s.req_list = [] := List.length_eq_zero.1 (by omega)
    have hc : nvme_process_sq_cond s = false := by
      unfold nvme_process_sq_cond
      rw [hnil]
      simp
    unfold nvme_process_sq_loop
    rw [hs]
    simp only
    rw [hc, (sq_run_count_zero hh hc).1]
    rfl
  | succ fuel ih =>
    intro k n w s hq hcap hr hs hl
    obtain ⟨-, -, hh, ht, -⟩ := hr.1 i s hs
    unfold nvme_process_sq_loop
    rw [hs]
    simp only
    cases hc : nvme_process_sq_cond s with
    | false =>
      rw [(sq_run_count_zero hh hc).1]
      rfl
    | true =>
      simp only [if_true]
      obtain ⟨c, hcnt⟩ : ∃ c, sq_run_count s = c + 1 :=
        ⟨sq_run_count s - 1, by have := sq_run_count_pos hh ht hc; omega⟩
      cases hi : nvme_process_sq_iter (envs k) n i with
      | none =>
        rw [hcnt]
        unfold nvme_process_sq_iters
        rw [hi]
        rfl
      | some p =>
        obtain ⟨n1, w2⟩ := p
        simp only
        obtain ⟨req, free, t1, e1, e2, ht1, f1, f2, f3, f4, f5⟩ :=
          nvme_process_sq_iter_sq hq hr hs hi
        have hb : n1.bar = n.bar := quiet_bar (nvme_process_sq_iter_quiet hq hi)
        have hk := sq_run_count_succ hh ht e2 e1 f1 f2 f3 f5
        rw [ih (k + 1) n1 (w ++ w2) t1 (nvme_process_sq_iter_inv hq hi) (by rw [hb]; exact hcap)
          (nvme_process_sq_iter_ring hr hcap hi) ht1
          (by rw [f5]; rw [e1] at hl; simp only [List.length_cons] at hl; omega), hk]
        conv_rhs => unfold nvme_process_sq_iters
        rw [hi]

/-- A run of `nvme_process_sq` returns when every iteration is defined: always
on an I/O queue, and on the admin queue when no queue command is fetched. -/
theorem nvme_process_sq_iters_some (envs : Nat → Env) (i : Nat)
    (hop : i ≠ 0 ∨ ∀ k addr, ((envs k).fetch addr).opcode ≠ 0x00 ∧
      ((envs k).fetch addr).opcode ≠ 0x01 ∧ ((envs k).fetch addr).opcode ≠ 0x04 ∧
      ((envs k).fetch addr).opcode ≠ 0x05) :
    ∀ (fuel k : Nat) (n : NvmeCtrl) (w : List (Nat × NvmeCqe)) (s : NvmeSQueue),
      queues_inv n → NVME_CAP_MQES n.bar.cap < 0xffff → ring_inv n → n.sqAt i = some s →
      s.req_list.length ≤ fuel →
      ∃ m w1, nvme_process_sq_loop envs i fuel k n w = some (m, w1) := by
  intro fuel
  induction fuel with
  | zero =>
    intro k n w s hq hcap hr hs hl
    unfold nvme_process_sq_loop
    rw [hs]
    simp only
    have hnil : s.req_list = [] := List.length_eq_zero.1 (by omega)
    have hc : nvme_process_sq_cond s = false := by
      unfold nvme_process_sq_cond
      rw [hnil]
      simp
    rw [hc]
    exact ⟨_, _, rfl⟩
  | succ fuel ih =>
    intro k n w s hq hcap hr hs hl
    unfold nvme_process_sq_loop
    rw [hs]
    simp only
    cases hc : nvme_process_sq_cond s with
    | false => exact ⟨_, _, rfl⟩
    | true =>
      simp only [if_true]
      obtain ⟨n1, w2, hi⟩ := @nvme_process_sq_iter_some (envs k) n i s hq hs hc
        (hop.elim Or.inl (fun h => Or.inr (h k)))
      rw [hi]
      simp only
      obtain ⟨req, free, t1, e1, e2, ht1, f1, f2, f3, f4, f5⟩ :=
        nvme_process_sq_iter_sq hq hr hs hi
      have hb : n1.bar = n.bar := quiet_bar (nvme_process_sq_iter_quiet hq hi)
      exact ih (k + 1) n1 (w ++ w2) t1 (nvme_process_sq_iter_inv hq hi)
        (by rw [hb]; exact hcap) (nvme_process_sq_iter_ring hr hcap hi) ht1
        (by rw [f5]; rw [e1] at hl; simp only [List.length_cons] at hl; omega)

theorem scenario_w5_reachable : Reachable scenario_w5 :=
  Reachable.step scenario_w4_reachable
    (Step.mmio_write 0 0x1000 1 4 (m := scenario_w5) (by decide))

/-- C34: in every reachable state, for every submission queue `s = n->sq[sqid]`
(its head and tail are below its size), one run of `nvme_process_sq` consists
of exactly `min((tail - head) mod size, f)` iterations of its loop body, `f`
being the number of free request slots at entry: the iterations the loop is
given always suffice, and the run returns unless one of these iterations
leaves defined behaviour.  It returns for every I/O queue, and for the admin
queue when none of the commands fetched is a queue command (opcodes 00h, 01h,
04h, 05h).  When the run returns the head has advanced by that many modulo
the size, the tail, the size and the ring address are as before, the free list
has lost its first `min(..)` requests, and the head equals the tail or the
free list is empty.  Every iteration reads its command at
`sq->dma_addr + sq->head * n->sqe_size` (the product in 32 bits, the sum in 64
bits), advances the head by one modulo the size and moves the first free
request to the in-flight list with a completion entry that is zero but for
the command id of the command read. -/
theorem nvme_process_sq_run (envs : Nat → Env) (n : NvmeCtrl) (sqid : Nat) (s : NvmeSQueue)
    (hr : Reachable n) (hs : n.sqAt sqid = some s) :
    (s.head < s.size ∧ s.tail < s.size) ∧
    (nvme_process_sq envs n sqid).map (fun r => r.1) =
      nvme_process_sq_iters envs sqid
        (min ((s.tail + s.size - s.head) % s.size) s.req_list.length) 0 n ∧
    ((sqid ≠ 0 ∨ ∀ k addr, ((envs k).fetch addr).opcode ≠ 0x00 ∧
        ((envs k).fetch addr).opcode ≠ 0x01 ∧ ((envs k).fetch addr).opcode ≠ 0x04 ∧
        ((envs k).fetch addr).opcode ≠ 0x05) →
      ∃ m w, nvme_process_sq envs n sqid = some (m, w)) ∧
    (∀ m w, nvme_process_sq envs n sqid = some (m, w) →
      ∃ t, m.sqAt sqid = some t ∧
        t.head =
          (s.head + min ((s.tail + s.size - s.head) % s.size) s.req_list.length) % s.size ∧
        t.tail = s.tail ∧ t.size = s.size ∧ t.dma_addr = s.dma_addr ∧
        t.req_list =
          s.req_list.drop (min ((s.tail + s.size - s.head) % s.size) s.req_list.length) ∧
        (t.head = t.tail ∨ t.req_list = [])) ∧
    (∀ (env : Env) (a a1 : NvmeCtrl) (q : NvmeSQueue) (cmd : NvmeCmd) (r1 : NvmeRequest),
      a.sqAt sqid = some q → nvme_process_sq_fetch env a sqid = some (a1, cmd, r1) →
      ∃ req free, q.req_list = req :: free ∧ q.head ≠ q.tail ∧
        cmd = env.fetch ((q.dma_addr + (q.head * a.sqe_size) % 2 ^ 32) % 2 ^ 64) ∧
        r1 = { req with cqe := { cid := cmd.cid } } ∧
        a1.sqAt sqid = some { q with head := ((q.head + 1) % 2 ^ 32) % q.size,
                                     req_list := free,
                                     out_req_list := q.out_req_list ++ [r1] }) := by
  have hq := reachable_inv hr
  have hg := reachable_ring hr
  have hcap := regs_inv_mqes (reachable_regs_inv hr)
  obtain ⟨-, -, hh, ht, -⟩ := hg.1 sqid s hs
  refine ⟨⟨hh, ht⟩, ?_, ?_, ?_, ?_⟩
  · unfold nvme_process_sq
    rw [hs]
    exact nvme_process_sq_loop_iters envs sqid _ _ _ _ s hq hcap hg hs (Nat.le_refl _)
  · intro hop
    unfold nvme_process_sq
    rw [hs]
    exact nvme_process_sq_iters_some envs sqid hop _ _ _ _ s hq hcap hg hs (Nat.le_refl _)
  · intro m w h
    unfold nvme_process_sq at h
    rw [hs] at h
    exact nvme_process_sq_loop_count envs sqid _ _ _ _ _ _ s hq hcap hg hs h
  · intro env a a1 q cmd r1 hq1 hf
    exact nvme_process_sq_fetch_spec hq1 hf

set_option maxRecDepth 4096 in
theorem nvme_process_sq_run_witness :
    Reachable scenario_w5 ∧
    (∀ (addr : Nat), (scenario_env.fetch addr).opcode ≠ 0x00 ∧
      (scenario_env.fetch addr).opcode ≠ 0x01 ∧
      (scenario_env.fetch addr).opcode ≠ 0x04 ∧
      (scenario_env.fetch addr).opcode ≠ 0x05) ∧
    (nvme_process_sq (fun _ => scenario_env) scenario_w5 0).map (fun r => r.1) =
      some scenario_w6 ∧
    (scenario_w6.sqAt 0).map (fun t => (t.head, t.tail, t.size, t.req_list.length)) =
      some (1, 1, 5, 4) ∧
    ∃ s, scenario_w5.sqAt 0 = some s ∧
      (s.head, s.tail, s.size, s.req_list.length) = (0, 1, 5, 5) ∧
      min ((s.tail + s.size - s.head) % s.size) s.req_list.length = 1 ∧
      (∃ m w, nvme_process_sq (fun _ => scenario_env) scenario_w5 0 = some (m, w)) ∧
      ∀ m w, nvme_process_sq (fun _ => scenario_env) scenario_w5 0 = some (m, w) →
        ∃ t, m.sqAt 0 = some t ∧
          t.head =
            (s.head + min ((s.tail + s.size - s.head) % s.size) s.req_list.length) % s.size ∧
          t.tail = s.tail ∧ t.size = s.size ∧ t.dma_addr = s.dma_addr ∧
          t.req_list =
            s.req_list.drop (min ((s.tail + s.size - s.head) % s.size) s.req_list.length) ∧
          (t.head = t.tail ∨ t.req_list = []) :=
  have hop : ∀ (addr : Nat), (scenario_env.fetch addr).opcode ≠ 0x00 ∧
      (scenario_env.fetch addr).opcode ≠ 0x01 ∧
      (scenario_env.fetch addr).opcode ≠ 0x04 ∧
      (scenario_env.fetch addr).opcode ≠ 0x05 :=
    fun _ => (show (0x06 : Nat) ≠ 0x00 ∧ (0x06 : Nat) ≠ 0x01 ∧ (0x06 : Nat) ≠ 0x04 ∧
      (0x06 : Nat) ≠ 0x05 from by decide)
  ⟨scenario_w5_reachable, hop, by decide, by decide,
    match h : scenario_w5.sqAt 0 with
    | some s =>
      have h1 : (scenario_w5.sqAt 0).map
          (fun s => ((s.head, s.tail, s.size, s.req_list.length),
            min ((s.tail + s.size - s.head) % s.size) s.req_list.length)) =
          some ((0, 1, 5, 5), 1) := by decide
      have h2 : ((s.head, s.tail, s.size, s.req_list.length),
          min ((s.tail + s.size - s.head) % s.size) s.req_list.length) =
          ((0, 1, 5, 5), 1) := by rw [h] at h1; exact Option.some.inj h1
      have ht := nvme_process_sq_run (fun _ => scenario_env) scenario_w5 0 s
        scenario_w5_reachable h
      ⟨s, rfl, (Prod.mk.inj h2).1, (Prod.mk.inj h2).2, ht.2.2.1 (Or.inr (fun _ => hop)), ht.2.2.2.1⟩
    | none => absurd h (by decide)⟩

end Nvme
